import Mathlib

/-!
# Dr.Jit core: kernel cache and symbolic loop recorder

A shallow embedding of `src/src/llvm_api.cpp` (on-disk kernel cache, bump
allocator used as the MCJIT memory manager, `jit_llvm_compile`) and of
`src/src/loop.cpp` (symbolic loop recorder), together with theorems about them.

Conventions of the embedding.

* A byte is a natural number; a byte string (IR text, file contents, memory)
  is a `List Nat`.  `uint32_t` / `size_t` values are natural numbers and every
  place where the C code truncates or can wrap is written with an explicit
  `% 2 ^ 32` / `% 2 ^ 64`.
* The cache directory `$HOME/.enoki` is a map from the 32-bit hash (which names
  the file `%08x.bin`) to the contents of that file, if it exists.
* Calls that leave the program are outcomes: `jit_raise` is `Outcome.raise`,
  `jit_fail` (which terminates the process) is `Outcome.fail`, behaviour that C
  leaves undefined (a `memcpy` from `NULL`, an access past the end of a buffer)
  is `Outcome.undefined`, and a loop that exhausts the fuel of its model is
  `Outcome.diverge`.
* System calls act on regular files: `read` returns as many bytes as were
  asked for or as are left, `write` stores everything it is given or fails, and
  no call is interrupted by a signal (`errno` is never `EINTR`).
-/

namespace DrJit

/-! ## Outcomes and the operating-system / LLVM environment -/

/-- How a routine can end. -/
inductive Outcome (α : Type) where
  /-- Normal return. -/
  | ok (a : α)
  /-- An exception was thrown by `jit_raise` / `jitc_raise`. -/
  | raise
  /-- The process was terminated by `jit_fail`. -/
  | fail
  /-- The C code has no defined behaviour on this path. -/
  | undefined
  /-- A loop of the model ran out of fuel. -/
  | diverge
  deriving DecidableEq, Repr

/-- Version number for cache files (`ENOKI_LLVM_CACHE_VERSION`). -/
def ENOKI_LLVM_CACHE_VERSION : Nat := 1

/-- The value of `errno` after `open(O_CREAT | O_EXCL)` found the file. -/
def EEXIST : Nat := 17

/-- Size of the `scratch` array in `jit_llvm_load`. -/
def SCRATCH_SIZE : Nat := 1024

/-- The cache directory: the contents of `%08x.bin` for each hash. -/
abbrev CacheDir := Nat → Option (List Nat)

/-- Results of the system calls whose outcome the code inspects. -/
structure Sys where
  /-- Opening an existing file read-only succeeds. -/
  open_ok : Bool
  /-- The `errno` with which creating a file that does not exist yet fails, if it fails. -/
  create_errno : Option Nat
  /-- Writing to the freshly created file succeeds. -/
  write_ok : Bool
  /-- The anonymous `mmap` succeeds. -/
  mmap_ok : Bool
  /-- The `mprotect` to read+execute succeeds. -/
  mprotect_ok : Bool
  /-- The call to `posix_memalign` succeeds. -/
  memalign_ok : Bool
  deriving DecidableEq, Repr

/-- The kernel record filled in by the LLVM backend (`kernel.llvm.*`). -/
structure Kernel where
  /-- Contents of the executable mapping `kernel.llvm.buffer`. -/
  buffer : List Nat
  /-- Entry point `kernel.llvm.func`, as an offset from the start of `buffer`. -/
  func : Nat
  /-- The field `kernel.llvm.size`. -/
  size : Nat
  deriving DecidableEq, Repr

/-- Globals of `llvm_api.cpp` that the cache and the memory manager use. -/
structure LlvmState where
  /-- Contents of the bump buffer `jit_llvm_mem`. -/
  jit_llvm_mem : List Nat
  /-- Capacity `jit_llvm_mem_size` of the bump buffer. -/
  jit_llvm_mem_size : Nat
  /-- Bump pointer `jit_llvm_mem_offset`. -/
  jit_llvm_mem_offset : Nat
  /-- Counter `jit_llvm_kernel_id` used to name kernels. -/
  jit_llvm_kernel_id : Nat
  deriving DecidableEq, Repr

/-! ## Byte-level helpers -/

/-- The system call `read(fd, _, count)` on a regular file whose unread part is `fd`:
the bytes returned and the unread part afterwards. -/
def sys_read (fd : List Nat) (count : Nat) : List Nat × List Nat :=
  (fd.take count, fd.drop count)

/-- The value of an unsigned integer stored in little-endian byte order. -/
def le_decode : List Nat → Nat
  | [] => 0
  | b :: bs => b + 256 * le_decode bs

/-- The four bytes of the `uint32_t` obtained from `x`, in little-endian order. -/
def u32_bytes (x : Nat) : List Nat :=
  [x % 256, x / 256 % 256, x / 65536 % 256, x / 16777216 % 256]

/-! ## `jit_llvm_load` -/

/-- Result of one of the two read loops of `jit_llvm_load`. -/
inductive ReadLoop where
  /-- The loop ran to completion; carries the unread part of the file and the bytes read. -/
  | done (fd : List Nat) (data : List Nat)
  /-- The loop executed `return false`. -/
  | reject
  /-- The model ran out of fuel. -/
  | timeout
  deriving DecidableEq, Repr

/-- The loop of `jit_llvm_load` that compares the stored IR with `buffer`
(`ptr` is the part of `buffer` not compared yet, `remain` its length). -/
def jit_llvm_load_ir : Nat → List Nat → List Nat → ReadLoop
  | 0, fd, ptr => if ptr.length > 0 then .timeout else .done fd []
  | fuel + 1, fd, ptr =>
    if ptr.length > 0 then
      let r := sys_read fd (min ptr.length SCRATCH_SIZE)
      let n_read := r.1.length
      if n_read ≤ 0 then .reject
      else if ptr.take n_read ≠ r.1 then .reject
      else jit_llvm_load_ir fuel r.2 (ptr.drop n_read)
    else .done fd []

/-- The loop of `jit_llvm_load` that reads the payload into the fresh mapping
(`acc` is what has been read so far). -/
def jit_llvm_load_payload : Nat → List Nat → Nat → List Nat → ReadLoop
  | 0, fd, remain, acc => if remain > 0 then .timeout else .done fd acc
  | fuel + 1, fd, remain, acc =>
    if remain > 0 then
      let r := sys_read fd remain
      let n_read := r.1.length
      if n_read ≤ 0 then .reject
      else jit_llvm_load_payload fuel r.2 (remain - n_read) (acc ++ r.1)
    else .done fd acc

/-- Embedding of `jit_llvm_load`: `some kernel` stands for `true` with `kernel` filled in,
`none` for `false`. -/
def jit_llvm_load (sys : Sys) (fs : CacheDir) (buffer : List Nat) (hash : Nat) :
    Outcome (Option Kernel) :=
  match fs hash with
  | none => .ok none
  | some file =>
    if !sys.open_ok then .ok none
    else
      let rv_1 := sys_read file 1
      let rv_2 := sys_read rv_1.2 4
      let rv_3 := sys_read rv_2.2 4
      let rv_4 := sys_read rv_3.2 4
      let version_number := le_decode rv_1.1
      let ir_size := le_decode rv_2.1
      let payload_size := le_decode rv_3.1
      let func_offset := le_decode rv_4.1
      if rv_1.1.length ≠ 1 ∨ rv_2.1.length ≠ 4 ∨ rv_3.1.length ≠ 4 ∨ rv_4.1.length ≠ 4 ∨
          ir_size ≠ buffer.length ∨ func_offset ≥ payload_size ∨
          version_number ≠ ENOKI_LLVM_CACHE_VERSION then
        .ok none
      else
        match jit_llvm_load_ir buffer.length rv_4.2 buffer with
        | .timeout => .diverge
        | .reject => .ok none
        | .done fd _ =>
          if !sys.mmap_ok then .fail
          else
            match jit_llvm_load_payload payload_size fd payload_size [] with
            | .timeout => .diverge
            | .reject => .ok none
            | .done _ payload =>
              if !sys.mprotect_ok then .fail
              else .ok (some { buffer := payload, func := func_offset, size := payload_size })

/-! ## `jit_llvm_write` -/

/-- Result of `open(path, O_CREAT | O_WRONLY | O_EXCL, mode)`. -/
inductive OpenResult where
  /-- A descriptor for the new, empty file. -/
  | fd
  /-- The call returned `-1` with the given `errno`. -/
  | failed (errno : Nat)
  deriving DecidableEq, Repr

/-- Exclusive creation of the cache file for `hash`. -/
def sys_open_excl (sys : Sys) (fs : CacheDir) (hash : Nat) : OpenResult :=
  match fs hash with
  | some _ => .failed EEXIST
  | none =>
    match sys.create_errno with
    | some e => .failed e
    | none => .fd

/-- The lambda `write_retry` of `jit_llvm_write`: appends `data` to the file written so
far; `none` when `write` fails, which ends in `jit_fail`. -/
def write_retry (sys : Sys) (file : List Nat) (data : List Nat) : Option (List Nat) :=
  if data.length > 0 then
    if sys.write_ok then some (file ++ data) else none
  else some file

/-- Embedding of `jit_llvm_write`: the cache directory afterwards. -/
def jit_llvm_write (sys : Sys) (st : LlvmState) (fs : CacheDir) (buffer : List Nat)
    (hash : Nat) (func_offset : Nat) : Outcome CacheDir :=
  match sys_open_excl sys fs hash with
  | .failed errno => if errno ≠ EEXIST then .fail else .ok fs
  | .fd =>
    let version := ENOKI_LLVM_CACHE_VERSION
    let data_size := st.jit_llvm_mem_offset % 2 ^ 32
    let written :=
      (((((write_retry sys [] [version]).bind
        fun f => write_retry sys f (u32_bytes buffer.length)).bind
        fun f => write_retry sys f (u32_bytes data_size)).bind
        fun f => write_retry sys f (u32_bytes func_offset)).bind
        fun f => write_retry sys f buffer).bind
        fun f => write_retry sys f (st.jit_llvm_mem.take st.jit_llvm_mem_offset)
    match written with
    | none => .fail
    | some file => .ok (fun h => if h = hash then some file else fs h)

/-- The header test of `jit_llvm_load`, on the whole file: thirteen header bytes are
present, the stored IR length is the length of the current IR, the function offset is
below the payload size and the version is the current one. -/
def header_ok (file buffer : List Nat) : Prop :=
  (file.take 1).length = 1 ∧ ((file.drop 1).take 4).length = 4 ∧
  ((file.drop 5).take 4).length = 4 ∧ ((file.drop 9).take 4).length = 4 ∧
  le_decode ((file.drop 1).take 4) = buffer.length ∧
  le_decode ((file.drop 9).take 4) < le_decode ((file.drop 5).take 4) ∧
  le_decode (file.take 1) = ENOKI_LLVM_CACHE_VERSION

instance (file buffer : List Nat) : Decidable (header_ok file buffer) := by
  unfold header_ok; infer_instance

/-! ## The bump allocator handed to MCJIT -/

/-- The C function `memset(mem + start, 0, len)`, restricted to the bytes that exist. -/
def memset_zero (mem : List Nat) (start len : Nat) : List Nat :=
  mem.take start ++ List.replicate (min len (mem.length - start)) 0 ++ mem.drop (start + len)

/-- The C function `memcpy(buf + off, data, data.length)`. -/
def memcpy_at (buf : List Nat) (off : Nat) (data : List Nat) : List Nat :=
  buf.take off ++ data ++ buf.drop (off + data.length)

/-- The alignment `jit_llvm_mem_allocate` works with: 16 when the request says 0. -/
def effective_align (align : Nat) : Nat :=
  if align = 0 then 16 else align

/-- The local `offset_align` of `jit_llvm_mem_allocate` (`size_t` arithmetic). -/
def offset_align (offset align : Nat) : Nat :=
  (offset + (effective_align align - 1)) % 2 ^ 64 / effective_align align * effective_align align

/-- Embedding of `jit_llvm_mem_allocate`: the pointer returned, as an offset from
`jit_llvm_mem` (`none` is `nullptr`), and the globals afterwards. -/
def jit_llvm_mem_allocate (st : LlvmState) (size align : Nat) : Option Nat × LlvmState :=
  let offset_align := offset_align st.jit_llvm_mem_offset align
  let padding := (offset_align + 2 ^ 64 - st.jit_llvm_mem_offset) % 2 ^ 64
  let mem := memset_zero st.jit_llvm_mem st.jit_llvm_mem_offset padding
  let offset := (offset_align + size) % 2 ^ 64
  let st1 := { st with jit_llvm_mem := mem, jit_llvm_mem_offset := offset }
  if offset > st.jit_llvm_mem_size then (none, st1)
  else (some offset_align, st1)

/-- One call of `jit_llvm_mem_allocate` as seen from outside. -/
structure Allocation where
  /-- Value of `jit_llvm_mem_offset` when the call was made. -/
  offset_before : Nat
  /-- Requested size. -/
  size : Nat
  /-- Requested alignment. -/
  align : Nat
  /-- Pointer returned, as an offset into the buffer; `none` is `nullptr`. -/
  result : Option Nat
  deriving DecidableEq, Repr

/-- A sequence of section allocations `(size, align)` made one after the other. -/
def allocate_all (st : LlvmState) : List (Nat × Nat) → List Allocation
  | [] => []
  | (size, align) :: rest =>
    let r := jit_llvm_mem_allocate st size align
    { offset_before := st.jit_llvm_mem_offset, size := size, align := align, result := r.1 }
      :: allocate_all r.2 rest

/-! ## The LLVM library -/

/-- A section that MCJIT emits for a module. -/
structure Section where
  /-- Size passed to the memory manager. -/
  size : Nat
  /-- Alignment passed to the memory manager. -/
  align : Nat
  /-- Bytes that LLVM stores in the section. -/
  data : List Nat
  deriving DecidableEq, Repr

/-- Behaviour of the LLVM library, which is outside the repository, as far as
`jit_llvm_compile` observes it. -/
structure Llvm where
  /-- The call to `LLVMCreateMemoryBufferWithMemoryRange` returns a buffer. -/
  create_buffer_ok : Bool
  /-- The call to `LLVMParseIRInContext` reports an error for this IR text. -/
  parse_error : List Nat → Bool
  /-- Sections emitted when code is generated for this IR text. -/
  sections : List Nat → List Section
  /-- Result of `LLVMGetFunctionAddress`, relative to `jit_llvm_mem`; `none` is 0. -/
  func : List Nat → Option Int
  /-- The call to `LLVMRemoveModule` reports an error. -/
  remove_error : Bool

/-- Code generation inside `LLVMGetFunctionAddress`: every section is requested from
`jit_llvm_mem_allocate` and filled; a `nullptr` from the memory manager is a fatal error
of LLVM (`none`). -/
def llvm_emit (st : LlvmState) : List Section → Option LlvmState
  | [] => some st
  | s :: rest =>
    match jit_llvm_mem_allocate st s.size s.align with
    | (none, _) => none
    | (some p, st1) =>
      llvm_emit { st1 with jit_llvm_mem := memcpy_at st1.jit_llvm_mem p (s.data.take s.size) } rest

/-! ## `jit_llvm_compile` -/

/-- The ASCII code of the lower-case hexadecimal digit `d`. -/
def hex_digit (d : Nat) : Nat :=
  if d < 10 then 48 + d else 87 + d

/-- The output of `%08x` for a `uint32_t`. -/
def hex8 (x : Nat) : List Nat :=
  [hex_digit (x / 268435456 % 16), hex_digit (x / 16777216 % 16), hex_digit (x / 1048576 % 16),
   hex_digit (x / 65536 % 16), hex_digit (x / 4096 % 16), hex_digit (x / 256 % 16),
   hex_digit (x / 16 % 16), hex_digit (x % 16)]

/-- The string literal `"enoki_"`. -/
def enoki_ : List Nat := [101, 110, 111, 107, 105, 95]

/-- The 14 characters that `snprintf(kernel_name_new, 15, "enoki_%08x", id)` produces. -/
def kernel_name (id : Nat) : List Nat :=
  enoki_ ++ hex8 id

/-- The C string stored in a buffer: the bytes before the first NUL. -/
def c_str (buf : List Nat) : List Nat :=
  buf.takeWhile (fun b => b ≠ 0)

/-- Position of the first occurrence of `needle` in `hay`. -/
def find_sub (needle : List Nat) : List Nat → Option Nat
  | [] => if needle = [] then some 0 else none
  | h :: t =>
    if (h :: t).take needle.length = needle then some 0
    else (find_sub needle t).map (fun k => k + 1)

/-- The C function `strstr(buf, needle)`, as an offset into `buf`; `none` is `NULL`. -/
def strstr (buf needle : List Nat) : Option Nat :=
  find_sub needle (c_str buf)

/-- What `jit_llvm_compile` returns and leaves behind. -/
structure CompileResult where
  /-- The kernel returned. -/
  kernel : Kernel
  /-- The output parameter `cache_hit`. -/
  cache_hit : Bool
  /-- Contents of the caller's IR buffer at return. -/
  buffer : List Nat
  /-- Globals at return. -/
  st : LlvmState
  /-- Cache directory at return. -/
  fs : CacheDir
  /-- The IR texts handed to `LLVMParseIRInContext` during the call, in order. -/
  parsed : List (List Nat)

/-- The globals after the buffer sizing, the reset of the offset and the increment of
the kernel counter with which the miss path of `jit_llvm_compile` starts. -/
def jit_llvm_compile_reset (st : LlvmState) (buffer_size : Nat) : LlvmState :=
  let st1 : LlvmState :=
    if st.jit_llvm_mem_size ≤ buffer_size then
      { st with jit_llvm_mem := List.replicate buffer_size 0, jit_llvm_mem_size := buffer_size }
    else st
  let st2 := { st1 with jit_llvm_mem_offset := 0 }
  { st2 with jit_llvm_kernel_id := (st2.jit_llvm_kernel_id + 1) % 2 ^ 32 }

/-- Embedding of the part of `jit_llvm_compile` that follows a failed `jit_llvm_load`. -/
def jit_llvm_compile_miss (sys : Sys) (llvm : Llvm) (st : LlvmState) (fs : CacheDir)
    (buffer : List Nat) (hash : Nat) : Outcome CompileResult :=
  if st.jit_llvm_mem_size ≤ buffer.length ∧ !sys.memalign_ok then .raise
  else
    let st3 := jit_llvm_compile_reset st buffer.length
    let kernel_name_new := kernel_name (st.jit_llvm_kernel_id % 2 ^ 32)
    match strstr buffer enoki_ with
    | none => .undefined
    | some kernel_name_offset =>
      if kernel_name_offset + 14 > buffer.length then .undefined
      else
        let kernel_name_old := (buffer.drop kernel_name_offset).take 14
        let buffer1 := memcpy_at buffer kernel_name_offset kernel_name_new
        if !llvm.create_buffer_ok then .fail
        else if llvm.parse_error buffer1 then .fail
        else
          match llvm_emit st3 (llvm.sections buffer1) with
          | none => .fail
          | some st4 =>
            match llvm.func buffer1 with
            | none => .fail
            | some func =>
              if func < 0 then .fail
              else
                let func_offset := func.toNat % 2 ^ 32
                if !sys.mmap_ok ∨ st4.jit_llvm_mem_offset = 0 then .fail
                else if st4.jit_llvm_mem_offset > st4.jit_llvm_mem.length then .undefined
                else
                  let ptr_result := st4.jit_llvm_mem.take st4.jit_llvm_mem_offset
                  if !sys.mprotect_ok then .fail
                  else if llvm.remove_error then .fail
                  else
                    let buffer2 := memcpy_at buffer1 kernel_name_offset kernel_name_old
                    match jit_llvm_write sys st4 fs buffer2 hash func_offset with
                    | .ok fs1 =>
                      .ok { kernel := { buffer := ptr_result, func := func_offset,
                                        size := st4.jit_llvm_mem_offset },
                            cache_hit := false, buffer := buffer2, st := st4, fs := fs1,
                            parsed := [buffer1] }
                    | .raise => .raise
                    | .fail => .fail
                    | .undefined => .undefined
                    | .diverge => .diverge

/-- Embedding of `jit_llvm_compile`. -/
def jit_llvm_compile (sys : Sys) (llvm : Llvm) (st : LlvmState) (fs : CacheDir)
    (buffer : List Nat) (hash : Nat) : Outcome CompileResult :=
  match jit_llvm_load sys fs buffer hash with
  | .ok (some result) =>
    .ok { kernel := result, cache_hit := true, buffer := buffer, st := st, fs := fs,
          parsed := [] }
  | .ok none => jit_llvm_compile_miss sys llvm st fs buffer hash
  | .raise => .raise
  | .fail => .fail
  | .undefined => .undefined
  | .diverge => .diverge

/-- The cache file format of the specification: version byte, the three little-endian
`u32` fields (IR length, payload length, function offset), the IR text and the payload. -/
def cache_file_layout (ir payload : List Nat) (func_offset : Nat) : List Nat :=
  [1] ++ u32_bytes ir.length ++ u32_bytes payload.length ++ u32_bytes func_offset ++ ir ++ payload

/-- A call of `jit_llvm_write` followed by `jit_llvm_load` with the same IR text and hash,
as on the second evaluation of a kernel. -/
def write_then_load (sys : Sys) (st : LlvmState) (fs : CacheDir) (buffer : List Nat)
    (hash : Nat) (func_offset : Nat) : Outcome (Option Kernel) :=
  match jit_llvm_write sys st fs buffer hash func_offset with
  | .ok fs1 => jit_llvm_load sys fs1 buffer hash
  | .raise => .raise
  | .fail => .fail
  | .undefined => .undefined
  | .diverge => .diverge

/-! ## The variable store used by the loop recorder

`loop.cpp` is written against `internal.h`, `var.h` and `loop.h`, which are not part of
the sources at hand.  The declarations it needs from them are modelled from the
specification (section 3 and section 4.2) and from the way `loop.cpp` uses them. -/

/-- Modelled from the spec: the node kinds (`VarKind`, declared in the missing `internal.h`). -/
inductive VarKind where
  | Expression | LoopStart | LoopPhi | LoopCond | LoopEnd | LoopResult | Nop
  deriving DecidableEq, Repr

/-- Modelled from the spec: the element types (`VarType`, declared in the missing
`internal.h`). -/
inductive VarType where
  | Invalid | Int8 | UInt8 | Int16 | UInt16 | Int32 | UInt32 | Int64 | UInt64
  | Float16 | Float32 | Float64 | Bool | Pointer | Void
  deriving DecidableEq, Repr

/-- Modelled from the spec: the compilation targets (`JitBackend`, declared in the missing
`internal.h`). -/
inductive JitBackend where
  | None | CUDA | LLVM
  deriving DecidableEq, Repr

/-- Modelled from the spec: the fields of `Variable` (declared in the missing `internal.h`)
that `loop.cpp` reads or writes.  `dirty` and `is_literal` are the results of
`is_dirty()` and `is_literal()`, `ref_count` is the reference count that
`jitc_var_inc_ref` / `jitc_var_dec_ref` maintain. -/
structure Variable where
  kind : VarKind := .Expression
  type : VarType := .Invalid
  size : Nat := 0
  backend : JitBackend := .None
  symbolic : Bool := false
  extra : Bool := false
  literal : Nat := 0
  dep0 : Nat := 0
  dep1 : Nat := 0
  dep2 : Nat := 0
  dep3 : Nat := 0
  is_literal : Bool := false
  dirty : Bool := false
  side_effect : Bool := false
  ref_count : Nat := 0
  counter : Nat := 0
  deriving DecidableEq, Repr

/-- Modelled from the spec: the side structure `LoopData` (declared in the missing `loop.h`)
as left by its constructor `LoopData(name, loop_start, n_indices, symbolic)` and used in
`loop.cpp`. -/
structure LoopData where
  name : String
  loop_start : Nat
  size : Nat
  symbolic : Bool
  retry : Bool := false
  outer_inputs : List Nat := []
  inner_inputs : List Nat := []
  inner_outputs : List Nat := []
  outer_outputs : List (Nat × Nat) := []
  deriving DecidableEq, Repr

/-- Modelled from the spec: the fields of an entry of `state.extra` that `loop.cpp` uses.
The callback itself is only recorded as present; `callback_data` is the address of a
`LoopData` (`none` is the null pointer). -/
structure Extra where
  callback : Bool := false
  callback_internal : Bool := false
  callback_data : Option Nat := none
  deriving DecidableEq, Repr

/-- The part of the global `state`, of the thread state and of the memory of the caller
that `loop.cpp` works on. -/
structure JitState where
  /-- The table `state.variables` (the field name is a reserved word here). -/
  vars : Nat → Option Variable
  /-- The counter `state.variable_index`: the index the next variable gets. -/
  variable_index : Nat
  /-- The bit `JitFlag::OptimizeLoops` of `jitc_flags()`. -/
  optimize_loops : Bool
  /-- Number of calls of `jitc_new_scope` so far. -/
  scope : Nat
  /-- The list `thread_state(backend)->side_effects_symbolic`. -/
  side_effects_symbolic : JitBackend → List Nat
  /-- The table `state.extra`. -/
  extra : Nat → Extra
  /-- The `LoopData` objects on the heap, by address. -/
  loop_data : Nat → Option LoopData
  /-- The array `indices` of the caller. -/
  indices : List Nat

/-- Result of running a routine of the loop recorder from a state. -/
inductive Res (α : Type) where
  /-- Normal return with a value and the state afterwards. -/
  | ok (a : α) (s : JitState)
  /-- The routine left by `jitc_raise`; the state at that moment. -/
  | raise (s : JitState)
  /-- The C++ code has no defined behaviour on this path. -/
  | undefined
  /-- A loop of the model ran out of fuel. -/
  | diverge

/-- A routine that reads and changes the state and may raise. -/
abbrev JitM (α : Type) := JitState → Res α

/-- Sequencing of routines: the second one runs when the first one returned. -/
def JitM.bind {α β : Type} (m : JitM α) (f : α → JitM β) : JitM β := fun s =>
  match m s with
  | .ok a s1 => f a s1
  | .raise s1 => .raise s1
  | .undefined => .undefined
  | .diverge => .diverge

instance : Monad JitM where
  pure a := fun s => .ok a s
  bind := JitM.bind

/-- The call `jitc_raise(...)`. -/
def jitc_raise {α : Type} : JitM α := fun s => .raise s

/-- An access that C++ leaves undefined. -/
def jitc_undefined {α : Type} : JitM α := fun _ => .undefined

/-- Element `i` of a `std::vector`; reading past the end is undefined. -/
def vec_get (xs : List Nat) (i : Nat) : JitM Nat :=
  match xs[i]? with
  | some x => pure x
  | none => jitc_undefined

/-- The read `indices[i]` of the array of the caller. -/
def get_index (i : Nat) : JitM Nat := fun s =>
  match s.indices[i]? with
  | some x => .ok x s
  | none => .undefined

/-- The write `indices[i] = value` to the array of the caller. -/
def set_index (i value : Nat) : JitM Unit := fun s =>
  if i < s.indices.length then .ok () { s with indices := s.indices.set i value }
  else .undefined

/-- Dereference of a `LoopData *`. -/
def get_ld (p : Nat) : JitM LoopData := fun s =>
  match s.loop_data p with
  | some ld => .ok ld s
  | none => .undefined

/-- An assignment to fields of the `LoopData` at address `p`. -/
def modify_ld (p : Nat) (f : LoopData → LoopData) : JitM Unit := fun s =>
  match s.loop_data p with
  | some ld => .ok () { s with loop_data := fun q => if q = p then some (f ld) else s.loop_data q }
  | none => .undefined

/-- Replacement of the table entry of variable `index`. -/
def set_var (s : JitState) (index : Nat) (v : Option Variable) : JitState :=
  { s with vars := fun j => if j = index then v else s.vars j }

/-- Modelled from the spec: `jitc_var(index)` (in the missing `var.cpp`) returns the
variable with that index and raises when there is none (`UnknownIndex`). -/
def jitc_var (index : Nat) : JitM Variable := fun s =>
  match s.vars index with
  | some v => .ok v s
  | none => .raise s

/-- Modelled from the spec: `jitc_var_inc_ref(index)` (in the missing `var.cpp`) adds one
reference to the variable; index 0 names no variable and is ignored. -/
def jitc_var_inc_ref (index : Nat) : JitM Unit := fun s =>
  if index = 0 then .ok () s
  else
    match s.vars index with
    | some v => .ok () (set_var s index (some { v with ref_count := v.ref_count + 1 }))
    | none => .raise s

/-- Modelled from the spec: the state after `jitc_var_dec_ref(index)` (in the missing
`var.cpp`): one reference less; a variable whose count reaches zero is erased and the
references it held through `dep[]` are released in turn.  The fuel bounds the depth of
that cascade. -/
def dec_ref_state : Nat → Nat → JitState → JitState
  | 0, _, s => s
  | fuel + 1, index, s =>
    if index = 0 then s
    else
      match s.vars index with
      | none => s
      | some v =>
        if v.ref_count ≤ 1 then
          dec_ref_state fuel v.dep3 (dec_ref_state fuel v.dep2 (dec_ref_state fuel v.dep1
            (dec_ref_state fuel v.dep0 (set_var s index none))))
        else set_var s index (some { v with ref_count := v.ref_count - 1 })

/-- Modelled from the spec: `jitc_var_dec_ref(index)` (in the missing `var.cpp`). -/
def jitc_var_dec_ref (index : Nat) : JitM Unit := fun s =>
  if index = 0 then .ok () s
  else
    match s.vars index with
    | some _ => .ok () (dec_ref_state (s.variable_index + 1) index s)
    | none => .raise s

/-- Modelled from the spec: `jitc_var_new(v, true)` (in the missing `var.cpp`) stores `v`
under the next index of the monotonically increasing counter, without deduplication, and
returns that index holding one reference. -/
def jitc_var_new (v : Variable) : JitM Nat := fun s =>
  .ok s.variable_index
    { set_var s s.variable_index (some { v with ref_count := 1 }) with
      variable_index := s.variable_index + 1 }

/-- Modelled from the spec: `jitc_new_scope(backend)` (in the missing `var.cpp`) opens a
new scope. -/
def jitc_new_scope (_backend : JitBackend) : JitM Unit := fun s =>
  .ok () { s with scope := s.scope + 1 }

/-- Modelled from the spec: `jitc_var_select(mask, t, f)` (in the missing `op.cpp`) appends
the node `mask ? t : f`, which has the type of `t`, the larger of the sizes and holds one
reference to each operand. -/
def jitc_var_select (mask t f : Nat) : JitM Nat :=
  (jitc_var mask).bind fun vm =>
  (jitc_var t).bind fun vt =>
  (jitc_var f).bind fun vf =>
  (jitc_var_inc_ref mask).bind fun _ =>
  (jitc_var_inc_ref t).bind fun _ =>
  (jitc_var_inc_ref f).bind fun _ =>
  jitc_var_new { kind := .Expression, type := vt.type, backend := vt.backend,
                 size := max vm.size (max vt.size vf.size),
                 symbolic := vm.symbolic || vt.symbolic || vf.symbolic,
                 dep0 := mask, dep1 := t, dep2 := f }

/-- Modelled from the spec: `jitc_var_mark_side_effect(index)` (in the missing `var.cpp`)
records that evaluating the variable has side effects; index 0 is ignored. -/
def jitc_var_mark_side_effect (index : Nat) : JitM Unit := fun s =>
  if index = 0 then .ok () s
  else
    match s.vars index with
    | some v => .ok () (set_var s index (some { v with side_effect := true }))
    | none => .raise s

/-- The destructor of a `Ref` that still owns `index` runs when `body` is left, by return
or by exception, and releases the reference. -/
def with_ref {α : Type} (index : Nat) (body : JitM α) : JitM α := fun s =>
  match body s with
  | .ok a s1 =>
    match jitc_var_dec_ref index s1 with
    | .ok _ s2 => .ok a s2
    | .raise s2 => .raise s2
    | .undefined => .undefined
    | .diverge => .diverge
  | .raise s1 =>
    match jitc_var_dec_ref index s1 with
    | .ok _ s2 => .raise s2
    | .raise s2 => .raise s2
    | .undefined => .undefined
    | .diverge => .diverge
  | .undefined => .undefined
  | .diverge => .diverge

/-- A loop `for (size_t i = 0; i < n; ++i)` whose body updates a local variable;
`is` lists the values of `i` still to come. -/
def for_fold {β : Type} (body : Nat → β → JitM β) : List Nat → β → JitM β
  | [], acc => pure acc
  | i :: is, acc => (body i acc).bind fun acc1 => for_fold body is acc1

/-- The read `state.extra[index].callback_data`, dereferenced as a `LoopData *`. -/
def get_callback_data (index : Nat) : JitM Nat := fun s =>
  match (s.extra index).callback_data with
  | some p => .ok p s
  | none => .undefined

/-- An assignment to the entry `state.extra[index]`. -/
def modify_extra (index : Nat) (f : Extra → Extra) : JitM Unit := fun s =>
  .ok () { s with extra := fun j => if j = index then f (s.extra index) else s.extra j }

/-- The destructor of the `std::unique_ptr<LoopData>` that still owns the object at `p`
runs when `body` is left by an exception. -/
def with_unique_ptr {α : Type} (p : Nat) (body : JitM α) : JitM α := fun s =>
  match body s with
  | .raise s1 => .raise { s1 with loop_data := fun q => if q = p then none else s1.loop_data q }
  | r => r

/-! ## `jitc_var_loop_start` -/

/-- Body of the first loop of `jitc_var_loop_start`; the local variables are
`(backend, symbolic, dirty)`. -/
def loop_start_check (i : Nat) (acc : JitBackend × Bool × Bool) :
    JitM (JitBackend × Bool × Bool) := do
  let index ← get_index i
  if index = 0 then jitc_raise
  else do
    let v2 ← jitc_var index
    if i = 0 then pure (v2.backend, v2.symbolic, v2.dirty)
    else if v2.backend ≠ acc.1 then jitc_raise
    else pure (acc.1, acc.2.1 || v2.symbolic, acc.2.2 || v2.dirty)

/-- Body of the loop of `jitc_var_loop_start` that looks for dirty inputs after the
evaluation. -/
def loop_start_dirty (i : Nat) (dirty : Bool) : JitM Bool := do
  let index ← get_index i
  let v ← jitc_var index
  pure (dirty || v.dirty)

/-- Body of the loop of `jitc_var_loop_start` that creates the `LoopPhi` nodes; `p` is the
address of the `LoopData`. -/
def loop_start_phi (p : Nat) (backend : JitBackend) (i : Nat) (_acc : Unit) : JitM Unit := do
  let index ← get_index i
  let v2 ← jitc_var index
  jitc_var_inc_ref index
  jitc_var_inc_ref index
  modify_ld p fun ld => { ld with outer_inputs := ld.outer_inputs ++ [index] }
  let ld ← get_ld p
  jitc_var_inc_ref ld.loop_start
  let index_new ← jitc_var_new
    { kind := .LoopPhi, backend := backend, symbolic := true, dep0 := ld.loop_start,
      type := v2.type, literal := i, size := v2.size, dep3 := index }
  modify_ld p fun ld => { ld with inner_inputs := ld.inner_inputs ++ [index_new] }
  jitc_var_inc_ref index_new
  set_index i index_new

/-- The part of `jitc_var_loop_start` that runs while the `std::unique_ptr` owns the
`LoopData` at address `loop_start`: the phi nodes and the variable that keeps the
`LoopData` alive. -/
def loop_start_body (loop_start : Nat) (backend : JitBackend) (n_indices : Nat) : JitM Nat := do
  modify_extra loop_start fun e => { e with callback_data := some loop_start }
  for_fold (loop_start_phi loop_start backend) (List.range n_indices) ()
  jitc_new_scope backend
  let loop_holder ← jitc_var_new
    { kind := .Nop, type := .Void, size := 1, backend := backend, extra := true }
  modify_extra loop_holder fun _ =>
    { callback := true, callback_internal := true, callback_data := some loop_start }
  pure loop_holder

/-- The part of `jitc_var_loop_start` that follows the validation of the loop state.  The
new `LoopData` is placed at the address that equals the index of the `LoopStart` node. -/
def loop_start_create (backend : JitBackend) (symbolic : Bool) (name : Option String)
    (n_indices : Nat) : JitM Nat := do
  jitc_new_scope backend
  let loop_start ← jitc_var_new
    { kind := .LoopStart, type := .Void, size := 1, backend := backend, symbolic := true,
      extra := true }
  jitc_new_scope backend
  let ld : LoopData :=
    { name := name.getD "unnamed", loop_start := loop_start, size := n_indices,
      symbolic := symbolic }
  fun s => (with_unique_ptr loop_start (loop_start_body loop_start backend n_indices))
    { s with loop_data := fun q => if q = loop_start then some ld else s.loop_data q }

/-- Embedding of `jitc_var_loop_start(name, n_indices, indices)`; the array `indices` is
`JitState.indices`, and `jitc_eval` (in the missing `eval.cpp`) is a parameter. -/
def jitc_var_loop_start (jitc_eval : JitBackend → JitM Unit) (name : Option String)
    (n_indices : Nat) : JitM Nat :=
  if n_indices = 0 then jitc_raise
  else
    (for_fold loop_start_check (List.range n_indices) (JitBackend.None, false, false)).bind
      fun r =>
        (if r.2.2 then
          (jitc_eval r.1).bind fun _ =>
            for_fold loop_start_dirty (List.range n_indices) false
         else pure false).bind fun dirty =>
        if dirty then jitc_raise
        else loop_start_create r.1 r.2.1 name n_indices

/-! ## `jitc_var_loop_cond` -/

/-- Embedding of `jitc_var_loop_cond(loop, active)`. -/
def jitc_var_loop_cond (loop active : Nat) : JitM Nat := do
  let p ← get_callback_data loop
  let ld ← get_ld p
  let loop_start_v ← jitc_var ld.loop_start
  let active_v ← jitc_var active
  if active_v.type ≠ VarType.Bool then jitc_raise
  else if !active_v.symbolic then jitc_raise
  else do
    jitc_var_inc_ref ld.loop_start
    jitc_var_inc_ref active
    jitc_new_scope active_v.backend
    let cond ← jitc_var_new
      { kind := .LoopCond, type := .Void, size := max loop_start_v.size active_v.size,
        backend := active_v.backend, dep0 := ld.loop_start, dep1 := active, symbolic := true }
    jitc_new_scope active_v.backend
    pure cond

/-! ## `jitc_var_loop_end` -/

/-- Body of the loop of `jitc_var_loop_end` that determines the size of the variables
processed by the loop; the local variable is `size`. -/
def loop_end_size (p : Nat) (i : Nat) (size : Nat) : JitM Nat := do
  let ld ← get_ld p
  let index ← get_index i
  let inner ← vec_get ld.inner_inputs i
  if index = inner then pure size
  else do
    let outer ← vec_get ld.outer_inputs i
    let v1 ← jitc_var outer
    let v2 ← jitc_var index
    if v2.dirty then pure size
    else pure (max size (max v1.size v2.size))

/-- The value of the local `eliminate` in the optimization pass of `jitc_var_loop_end`. -/
def loop_end_eliminate_test (optimize : Bool) (size index inner : Nat) (v1 v2 : Variable) :
    Bool :=
  if v2.dirty then true
  else if index = inner then optimize || v2.size != size
  else optimize && v1.is_literal && v2.is_literal && v1.literal == v2.literal

/-- Body of the loop of the optimization pass of `jitc_var_loop_end`; the local variable
is `n_eliminated`. -/
def loop_end_eliminate (p : Nat) (optimize : Bool) (size : Nat) (i : Nat)
    (n_eliminated : Nat) : JitM Nat := do
  let ld ← get_ld p
  let outer ← vec_get ld.outer_inputs i
  let v1 ← jitc_var outer
  let index ← get_index i
  let v2 ← jitc_var index
  let inner ← vec_get ld.inner_inputs i
  if loop_end_eliminate_test optimize size index inner v1 v2 then do
    jitc_var_inc_ref outer
    jitc_var_dec_ref inner
    modify_ld p fun ld => { ld with inner_inputs := ld.inner_inputs.set i outer }
    pure (n_eliminated + 1)
  else pure n_eliminated

/-- Body of the loop `indices[i] = ld->inner_inputs[i]` of `jitc_var_loop_end`. -/
def loop_end_reset (p : Nat) (i : Nat) (_acc : Unit) : JitM Unit := do
  let ld ← get_ld p
  let inner ← vec_get ld.inner_inputs i
  set_index i inner

/-- Body of the loop of the second pass of `jitc_var_loop_end`, which fills
`ld->inner_outputs`; the local variable is `size`. -/
def loop_end_output (p : Nat) (backend : JitBackend) (active : Nat) (i : Nat) (size : Nat) :
    JitM Nat := do
  let index ← get_index i
  if index = 0 then jitc_raise
  else do
    let ld ← get_ld p
    let inner ← vec_get ld.inner_inputs i
    let v1 ← jitc_var inner
    let v2 ← jitc_var index
    let outer ← vec_get ld.outer_inputs i
    if inner ≠ outer then
      if v2.size ≠ size ∧ size ≠ 1 ∧ v2.size ≠ 1 then jitc_raise
      else do
        let new_index ←
          if backend = JitBackend.LLVM then jitc_var_select active index inner
          else do
            jitc_var_inc_ref index
            pure index
        modify_ld p fun ld => { ld with inner_outputs := ld.inner_outputs ++ [new_index] }
        pure (max v2.size size)
    else if v2.dirty then do
      jitc_var_inc_ref index
      modify_ld p fun ld => { ld with inner_outputs := ld.inner_outputs ++ [index] }
      pure size
    else if index ≠ inner ∧ ¬ (v2.is_literal ∧ v1.is_literal ∧ v1.literal = v2.literal) then
      jitc_raise
    else do
      jitc_var_inc_ref inner
      modify_ld p fun ld => { ld with inner_outputs := ld.inner_outputs ++ [inner] }
      pure size

/-- Body of the loop of `jitc_var_loop_end` that creates the `LoopResult` nodes and
rewrites the array of the caller. -/
def loop_end_result (p : Nat) (backend : JitBackend) (size loop_end : Nat) (i : Nat)
    (_acc : Unit) : JitM Unit := do
  let index ← get_index i
  let ld ← get_ld p
  let inner ← vec_get ld.inner_inputs i
  let outer ← vec_get ld.outer_inputs i
  let index_new ←
    if inner ≠ outer then do
      let v2 ← jitc_var index
      jitc_var_inc_ref ld.loop_start
      jitc_var_inc_ref loop_end
      jitc_var_new
        { kind := .LoopResult, backend := backend, symbolic := ld.symbolic, size := size,
          dep0 := ld.loop_start, dep1 := loop_end, literal := i, type := v2.type }
    else do
      let index_new ← vec_get ld.inner_outputs i
      jitc_var_inc_ref index_new
      pure index_new
  let _ ← jitc_var index_new
  set_index i index_new
  let v ← jitc_var index_new
  modify_ld p fun ld => { ld with outer_outputs := ld.outer_outputs ++ [(index_new, v.counter)] }

/-- The loop of `jitc_var_loop_end` that re-parents the side effects recorded after the
checkpoint; the local variables are `(se_prev, se_count)`.  One unit of fuel is used per
iteration. -/
def loop_end_side_effects (backend : JitBackend) (symbolic : Bool) (size loop_end : Nat)
    (checkpoint : Nat) : Nat → Nat × Nat → JitM (Nat × Nat)
  | 0, acc => fun s =>
    if (s.side_effects_symbolic backend).length ≠ checkpoint then .diverge else .ok acc s
  | fuel + 1, acc => fun s =>
    if (s.side_effects_symbolic backend).length ≠ checkpoint then
      match (s.side_effects_symbolic backend).getLast? with
      | none => .undefined
      | some se =>
        let s1 := { s with side_effects_symbolic := fun b =>
          if b = backend then (s.side_effects_symbolic backend).dropLast
          else s.side_effects_symbolic b }
        let se_prev := if acc.1 = 0 then loop_end else acc.1
        (do
          jitc_var_inc_ref se_prev
          jitc_var_inc_ref se
          let se_new ← jitc_var_new
            { kind := .Nop, type := .Void, backend := backend, symbolic := symbolic,
              size := size, dep0 := se, dep1 := se_prev }
          loop_end_side_effects backend symbolic size loop_end checkpoint fuel
            (se_new, acc.2 + 1)) s1
    else .ok acc s

/-- The block of `jitc_var_loop_end` that transfers the ownership of the `LoopData`:
`callback`, `callback_data` and `callback_internal` of `state.extra[loop_end]` and
`state.extra[loop]` are swapped. -/
def loop_end_transfer (loop_end loop : Nat) : JitM Unit := fun s =>
  let e1 := s.extra loop_end
  let e2 := s.extra loop
  .ok () { s with extra := fun j =>
    if j = loop then e1 else if j = loop_end then e2 else s.extra j }

/-- The test `jitc_flags() & (uint32_t) JitFlag::OptimizeLoops`. -/
def get_optimize : JitM Bool := fun s => .ok s.optimize_loops s

/-- The optimization pass of `jitc_var_loop_end` (the block guarded by `if (!ld->retry)`);
the value tells whether the block executed `return false`. -/
def loop_end_optimize (p : Nat) (ld : LoopData) (optimize : Bool) (size : Nat) : JitM Bool :=
  if !ld.retry then
    (for_fold (loop_end_eliminate p optimize size) (List.range ld.size) 0).bind
      fun n_eliminated =>
        if n_eliminated > 0 then
          (for_fold (loop_end_reset p) (List.range ld.size) ()).bind fun _ =>
          (modify_ld p fun ld => { ld with retry := true }).bind fun _ =>
          pure true
        else pure false
  else pure false

/-- The part of `jitc_var_loop_end` that follows the optimization pass: second pass,
`LoopEnd` and `LoopResult` nodes, side effects, transfer of the `LoopData`. -/
def loop_end_finish (loop cond checkpoint : Nat) (p : Nat) (ld : LoopData) : JitM Bool := do
  let cond_v ← jitc_var cond
  let backend := cond_v.backend
  let active := cond_v.dep1
  let size ← for_fold (loop_end_output p backend active) (List.range ld.size) cond_v.size
  jitc_var_inc_ref ld.loop_start
  jitc_var_inc_ref cond
  jitc_new_scope backend
  let loop_end ← jitc_var_new
    { kind := .LoopEnd, type := .Void, backend := backend, size := size,
      dep0 := ld.loop_start, dep1 := cond, symbolic := true, extra := true }
  with_ref loop_end (do
    jitc_new_scope backend
    for_fold (loop_end_result p backend size loop_end) (List.range ld.size) ()
    let se_fuel ← fun s => Res.ok ((s.side_effects_symbolic backend).length + 1) s
    let se ← loop_end_side_effects backend ld.symbolic size loop_end checkpoint se_fuel (0, 0)
    jitc_var_mark_side_effect se.1
    loop_end_transfer loop_end loop
    pure true)

/-- Embedding of `jitc_var_loop_end(loop, cond, indices, checkpoint)`; the array `indices`
is `JitState.indices`.  Values that are computed for the log message only are left out. -/
def jitc_var_loop_end (loop cond checkpoint : Nat) : JitM Bool :=
  (get_callback_data loop).bind fun p =>
  (get_ld p).bind fun ld =>
  get_optimize.bind fun optimize =>
  (jitc_var cond).bind fun cond_v =>
  (for_fold (loop_end_size p) (List.range ld.size) cond_v.size).bind fun size =>
  (loop_end_optimize p ld optimize size).bind fun rerecord =>
  if rerecord then pure false
  else loop_end_finish loop cond checkpoint p ld

/-- The function `jitc_var_loop_end` without its optimization pass (the block guarded by
`if (!ld->retry)`); stated for comparison with `jitc_var_loop_end`. -/
def loop_end_without_elimination (loop cond checkpoint : Nat) : JitM Bool :=
  (get_callback_data loop).bind fun p =>
  (get_ld p).bind fun ld =>
  get_optimize.bind fun _ =>
  (jitc_var cond).bind fun cond_v =>
  (for_fold (loop_end_size p) (List.range ld.size) cond_v.size).bind fun _ =>
  loop_end_finish loop cond checkpoint p ld

/-! ## The iteration size in the words of the specification -/

/-- Size of variable `index`; 0 when there is no such variable. -/
def var_size (s : JitState) (index : Nat) : Nat :=
  match s.vars index with
  | some v => v.size
  | none => 0

/-- Variable `index` is the target of a pending side effect. -/
def var_dirty (s : JitState) (index : Nat) : Bool :=
  match s.vars index with
  | some v => v.dirty
  | none => false

/-- Slot `i` is loop-invariant: the final index of the slot, in the array of the caller,
equals the inner input of the slot. -/
def slot_invariant (s : JitState) (ld : LoopData) (i : Nat) : Bool :=
  s.indices[i]? == ld.inner_inputs[i]?

/-- The final variable of slot `i` is dirty. -/
def slot_dirty (s : JitState) (i : Nat) : Bool :=
  var_dirty s (s.indices.getD i 0)

/-- The iteration size as the specification describes it: the maximum of the size of the
cond node and, over the slots that are neither loop-invariant nor dirty, of the sizes of
the outer input and of the final variable of the slot. -/
def iteration_size_spec (s : JitState) (ld : LoopData) (cond_size : Nat) : Nat :=
  (((List.range ld.size).filter fun i => !slot_invariant s ld i && !slot_dirty s i).map
    fun i => max (var_size s (ld.outer_inputs.getD i 0)) (var_size s (s.indices.getD i 0))).foldl
    max cond_size

/-! ## The elimination criterion -/

/-- The fields of a variable that reference counting and the side-effect mark leave
alone. -/
def Variable.node (v : Variable) : Variable :=
  { v with ref_count := 0, side_effect := false }

/-- The variables of `s1` are those of `s`, up to reference counts and side-effect
marks. -/
def NodesEq (s s1 : JitState) : Prop :=
  ∀ j, (s1.vars j).map Variable.node = (s.vars j).map Variable.node

/-- The value of variable `index` when it is a literal. -/
def var_literal (s : JitState) (index : Nat) : Option Nat :=
  match s.vars index with
  | some v => if v.is_literal then some v.literal else none
  | none => none

/-- The outer input and the final variable of slot `i` are literals that carry the same
value. -/
def slot_same_literal (s : JitState) (ld : LoopData) (i : Nat) : Bool :=
  (var_literal s (ld.outer_inputs.getD i 0)).isSome &&
    var_literal s (ld.outer_inputs.getD i 0) == var_literal s (s.indices.getD i 0)

/-- When slot `i` is eliminated: its final variable is dirty; or the slot is
loop-invariant and either loop optimizations are on or the size of its variable differs
from the iteration size; or loop optimizations are on and the outer input and the final
variable are literals of the same value. -/
def elimination_criterion (s : JitState) (ld : LoopData) (optimize : Bool) (size i : Nat) :
    Bool :=
  slot_dirty s i ||
  (slot_invariant s ld i && (optimize || var_size s (s.indices.getD i 0) != size)) ||
  (optimize && slot_same_literal s ld i)

/-- Number of references to variable `index`; 0 when there is no such variable. -/
def var_ref_count (s : JitState) (index : Nat) : Nat :=
  match s.vars index with
  | some v => v.ref_count
  | none => 0

/-- The state after a successful `jitc_var_inc_ref(index)`. -/
def inc_ref_state (s : JitState) (index : Nat) : JitState :=
  if index = 0 then s
  else
    match s.vars index with
    | some v => set_var s index (some { v with ref_count := v.ref_count + 1 })
    | none => s

/-! ## State updates -/

/-- The state after an assignment that makes `l` the `LoopData` at address `p`. -/
def set_ld (s : JitState) (p : Nat) (l : LoopData) : JitState :=
  { s with loop_data := fun q => if q = p then some l else s.loop_data q }

/-- The state after the array of the caller became `idx`. -/
def set_indices (s : JitState) (idx : List Nat) : JitState :=
  { s with indices := idx }

/-- The state after `jitc_var_new(v, true)`. -/
def new_var_state (s : JitState) (v : Variable) : JitState :=
  { set_var s s.variable_index (some { v with ref_count := 1 }) with
    variable_index := s.variable_index + 1 }

/-- The state after `jitc_new_scope`. -/
def new_scope_state (s : JitState) : JitState :=
  { s with scope := s.scope + 1 }

/-- The state after an assignment to `state.extra[index]`. -/
def set_extra (s : JitState) (index : Nat) (e : Extra) : JitState :=
  { s with extra := fun j => if j = index then e else s.extra j }

/-- The phi node that `jitc_var_loop_start` creates for slot `i`, whose original variable
`v` has the index `index`. -/
def phi_node (backend : JitBackend) (loop_start i index : Nat) (v : Variable) : Variable :=
  { kind := .LoopPhi, backend := backend, symbolic := true, dep0 := loop_start,
    type := v.type, literal := i, size := v.size, dep3 := index }

/-- The state after one round of the phi loop of `jitc_var_loop_start` for slot `k`, from
a state `u` in which `ld` is the `LoopData` at `p` and the slot holds the variable `v2`
with index `index`. -/
def loop_start_phi_state (u : JitState) (p : Nat) (backend : JitBackend) (k : Nat)
    (ld : LoopData) (index : Nat) (v2 : Variable) : JitState :=
  set_indices
    (inc_ref_state
      (set_ld
        (new_var_state
          (inc_ref_state
            (set_ld (inc_ref_state (inc_ref_state u index) index) p
              { ld with outer_inputs := ld.outer_inputs ++ [index] })
            ld.loop_start)
          (phi_node backend ld.loop_start k index v2))
        p { ld with
          outer_inputs := ld.outer_inputs ++ [index]
          inner_inputs := ld.inner_inputs ++ [u.variable_index] })
      u.variable_index)
    (u.indices.set k u.variable_index)

/-! ## The second pass in the words of the specification -/

/-- Slot `i` survives: its inner input differs from its outer input. -/
def slot_survives (ld : LoopData) (i : Nat) : Bool :=
  ld.inner_inputs.getD i 0 != ld.outer_inputs.getD i 0

/-- The running size of the second pass before slot `k`: it starts at the size of the cond
node and is raised to the final size of each surviving slot, in slot order. -/
def running_size (s : JitState) (ld : LoopData) (cond_size k : Nat) : Nat :=
  (((List.range k).filter (slot_survives ld)).map
    fun i => var_size s (s.indices.getD i 0)).foldl max cond_size

/-- Slot `i` survives and its final size differs from the running size while neither of
the two is 1. -/
def size_mismatch (s : JitState) (ld : LoopData) (cond_size i : Nat) : Bool :=
  slot_survives ld i && var_size s (s.indices.getD i 0) != running_size s ld cond_size i &&
    running_size s ld cond_size i != 1 && var_size s (s.indices.getD i 0) != 1

/-- The final variable of the eliminated slot `i` is acceptable on the second pass: it is
dirty, or it is the inner input, or both are literals of the same value. -/
def slot_consistent (s : JitState) (ld : LoopData) (i : Nat) : Bool :=
  slot_dirty s i || s.indices.getD i 0 == ld.inner_inputs.getD i 0 ||
    ((var_literal s (s.indices.getD i 0)).isSome &&
      var_literal s (ld.inner_inputs.getD i 0) == var_literal s (s.indices.getD i 0))

/-- The state `s1` extends `s`: the counter did not go back, and every variable below the
counter of `s` is kept, up to reference counts that did not drop and side-effect marks. -/
def Extends (s s1 : JitState) : Prop :=
  s.variable_index ≤ s1.variable_index ∧
  (∀ j, j < s.variable_index → (s1.vars j).map Variable.node = (s.vars j).map Variable.node) ∧
  (∀ j, j < s.variable_index → var_ref_count s j ≤ var_ref_count s1 j)

/-- The `LoopResult` node that `jitc_var_loop_end` creates for the surviving slot `i`
whose final variable has the type `type`. -/
def result_node (backend : JitBackend) (ld : LoopData) (size loop_end i : Nat)
    (type : VarType) : Variable :=
  { kind := .LoopResult, backend := backend, symbolic := ld.symbolic, size := size,
    dep0 := ld.loop_start, dep1 := loop_end, literal := i, type := type }

/-- The `LoopEnd` node that `jitc_var_loop_end` creates. -/
def loop_end_node (backend : JitBackend) (ld : LoopData) (size cond : Nat) : Variable :=
  { kind := .LoopEnd, type := .Void, backend := backend, size := size,
    dep0 := ld.loop_start, dep1 := cond, symbolic := true, extra := true }

/-- Number of surviving slots before slot `k`. -/
def survivors_before (ld : LoopData) (k : Nat) : Nat :=
  ((List.range k).filter (slot_survives ld)).length

/-- The state after `se_list.pop_back()` on the list of symbolic side effects of
`backend`. -/
def pop_side_effect (s : JitState) (backend : JitBackend) : JitState :=
  { s with side_effects_symbolic := fun b =>
      if b = backend then (s.side_effects_symbolic backend).dropLast
      else s.side_effects_symbolic b }

/-- The `Nop` node that the loop of `jitc_var_loop_end` creates for the side effect
`se`, with `se_prev` as its second operand. -/
def side_effect_node (backend : JitBackend) (symbolic : Bool) (size se se_prev : Nat) :
    Variable :=
  { kind := .Nop, type := .Void, backend := backend, symbolic := symbolic,
    size := size, dep0 := se, dep1 := se_prev }

/-- Variable `index` is marked as a side effect; false when there is no such variable. -/
def var_side_effect (s : JitState) (index : Nat) : Bool :=
  match s.vars index with
  | some v => v.side_effect
  | none => false

/-- Variable `out` of `s` is a node `select(mask, t, f)`: an expression whose operands
are `mask`, `t` and `f`, in this order. -/
def is_select (s : JitState) (out mask t f : Nat) : Bool :=
  match s.vars out with
  | some w => decide (w.kind = VarKind.Expression ∧ w.dep0 = mask ∧ w.dep1 = t ∧ w.dep2 = f)
  | none => false

/-! ## Reference counts and dependency edges -/

/-- Number of entries of `dep[]` of the variable `v` that name variable `j`. -/
def dep_count (v : Variable) (j : Nat) : Nat :=
  [v.dep0, v.dep1, v.dep2, v.dep3].count j

/-- Number of entries of `dep[]` of variable `i` of `s` that name variable `j`; 0 when
there is no variable `i`. -/
def edges (s : JitState) (j i : Nat) : Nat :=
  match s.vars i with
  | some v => dep_count v j
  | none => 0

/-- Number of dependency edges of `s` that point at variable `j`. -/
def in_degree (s : JitState) (j : Nat) : Nat :=
  ((List.range s.variable_index).map (edges s j)).sum

/-- The reference counts of `s` account for every dependency edge and, in addition, for
one reference per entry of `owned` (references that a `LoopData` or a local variable of
the running function holds): for every variable, the number of edges that point at it
plus the number of its entries in `owned` is at most its reference count.  Index 0 names
no variable, and no variable lies at or beyond the counter `variable_index`. -/
def accounted (owned : List Nat) (s : JitState) : Prop :=
  (∀ i, s.variable_index ≤ i → s.vars i = none) ∧
  ∀ j, j ≠ 0 → in_degree s j + owned.count j ≤ var_ref_count s j

/-- The reference counts of `s` are made up exactly of the dependency edges, of one
reference per entry of `owned` and of the `base j` references to each variable `j` that
were there before: for every variable `j`, its reference count is the number of edges
that point at it plus the number of its entries in `owned` plus `base j`. -/
def balanced (owned : List Nat) (base : Nat → Nat) (s : JitState) : Prop :=
  (∀ i, s.variable_index ≤ i → s.vars i = none) ∧
  ∀ j, j ≠ 0 → in_degree s j + owned.count j + base j = var_ref_count s j

/-! ## The validation of the loop state -/

/-- Backend of variable `index`; `None` when there is no such variable. -/
def var_backend (s : JitState) (index : Nat) : JitBackend :=
  match s.vars index with
  | some v => v.backend
  | none => .None

/-- Type of variable `index`; `Invalid` when there is no such variable. -/
def var_type (s : JitState) (index : Nat) : VarType :=
  match s.vars index with
  | some v => v.type
  | none => .Invalid

/-- Variable `index` is symbolic. -/
def var_symbolic (s : JitState) (index : Nat) : Bool :=
  match s.vars index with
  | some v => v.symbolic
  | none => false

/-- The first loop of `jitc_var_loop_start` does not get past slot `i`: the index is 0,
names no variable, or names a variable whose backend is not that of the first state
variable. -/
def check_bad (s : JitState) (i : Nat) : Bool :=
  s.indices.getD i 0 == 0 || (s.vars (s.indices.getD i 0)).isNone ||
    var_backend s (s.indices.getD i 0) != var_backend s (s.indices.getD 0 0)

/-- The local variables `(backend, symbolic, dirty)` of `jitc_var_loop_start` after `k`
rounds of its first loop. -/
def check_acc (s : JitState) (k : Nat) : JitBackend × Bool × Bool :=
  (if k = 0 then JitBackend.None else var_backend s (s.indices.getD 0 0),
   (List.range k).any (fun i => var_symbolic s (s.indices.getD i 0)),
   (List.range k).any (fun i => slot_dirty s i))

/-- The loop state of `n` variables is invalid in the words of the specification: it is
empty, or some state index is 0, or two state variables have different backends. -/
def loop_state_invalid (s : JitState) (n : Nat) : Bool :=
  n == 0 || (List.range n).any (fun i => s.indices.getD i 0 == 0) ||
    (List.range n).any (fun i => (List.range n).any fun j =>
      var_backend s (s.indices.getD i 0) != var_backend s (s.indices.getD j 0))

/-- Some of the `n` state variables is dirty. -/
def loop_state_dirty (s : JitState) (n : Nat) : Bool :=
  (List.range n).any (fun i => slot_dirty s i)

/-- The retry flag of the `LoopData` at address `p` of the heap `heap` is set. -/
def retry_in (p : Nat) (heap : Nat → Option LoopData) : Prop :=
  ∃ ld, heap p = some ld ∧ ld.retry = true

/-- The retry flag of the `LoopData` at address `p` is set. -/
def retry_set (p : Nat) (s : JitState) : Prop :=
  retry_in p s.loop_data

/-- One call of `jitc_var_loop_end` in a sequence of calls: the arguments and what the
caller did since the previous call (recording the loop body, filling `indices`). -/
structure EndCall where
  loop : Nat
  cond : Nat
  checkpoint : Nat
  prepare : JitState → JitState

/-- A sequence of calls of `jitc_var_loop_end`: for each call the address of the `LoopData`
that the handle `loop` referred to and the result.  The sequence ends when a call has no
defined behaviour. -/
def run_loop_end : List EndCall → JitState → List (Option Nat × Res Bool)
  | [], _ => []
  | c :: cs, s =>
    let s0 := c.prepare s
    let r := jitc_var_loop_end c.loop c.cond c.checkpoint s0
    ((s0.extra c.loop).callback_data, r) ::
      match r with
      | .ok _ s1 => run_loop_end cs s1
      | .raise s1 => run_loop_end cs s1
      | .undefined => []
      | .diverge => []

/-- The entry of a run is a call on the `LoopData` at `p` that returned false. -/
def returned_false_on (p : Nat) : Option Nat × Res Bool → Bool
  | (some q, .ok false _) => q == p
  | _ => false

/-- The state in which a routine ended, by return or by raise, has the property `P`. -/
def Res.All {α : Type} (P : JitState → Prop) : Res α → Prop
  | .ok _ s => P s
  | .raise s => P s
  | .undefined => True
  | .diverge => True

/-- The routine `m` keeps the property `P` of the state, on return and on raise. -/
def Preserves (P : JitState → Prop) {α : Type} (m : JitM α) : Prop :=
  ∀ s, P s → (m s).All P

/-- A result that is a normal return satisfies `R`. -/
def Res.Post {α : Type} (R : α → JitState → Prop) : Res α → Prop
  | .ok a s => R a s
  | .raise _ => True
  | .undefined => True
  | .diverge => True

/-- Partial correctness: from a state with `Pre`, whenever `m` returns, `R` holds of the
value returned and the state reached. -/
def Triple {α : Type} (Pre : JitState → Prop) (m : JitM α) (R : α → JitState → Prop) : Prop :=
  ∀ s, Pre s → (m s).Post R

/-- Total correctness: from a state with `Pre` the routine `m` returns, and `R` holds of
the value returned and the state reached. -/
def Total {α : Type} (Pre : JitState → Prop) (m : JitM α) (R : α → JitState → Prop) : Prop :=
  ∀ s, Pre s → ∃ a s1, m s = .ok a s1 ∧ R a s1

/-! ## `Variable` and `VariableKey` of `jit.h`

The header `jit.h` declares the variable record of the first generation of the library.
`VariableKey` is built by `memcpy` from the first `sizeof(VariableKey)` bytes of a
`Variable` and compared by `memcmp`, so both are modelled through the bytes of the two
structs (x86-64: little endian, 8-byte pointers, no padding in the first 32 bytes). -/

namespace Enoki

/-- The struct `Variable` of `jit.h`.  Pointers (`cmd`, `label`, `data`) are addresses. -/
structure Variable where
  cmd : Nat
  type : Nat
  size : Nat
  dep0 : Nat
  dep1 : Nat
  dep2 : Nat
  extra_dep : Nat
  label : Nat
  data : Nat
  ref_count_ext : Nat
  ref_count_int : Nat
  tsize : Nat
  side_effect : Bool
  dirty : Bool
  free_variable : Bool
  direct_pointer : Bool
  deriving DecidableEq, Repr

/-- The eight bytes of a 64-bit value, in little-endian order. -/
def u64_bytes (x : Nat) : List Nat :=
  u32_bytes x ++ u32_bytes (x / 4294967296)

/-- The object representation of a `Variable`: `cmd` at offset 0, `type` at 8, `size` at
12, `dep` at 16, `extra_dep` at 28, then the remaining members. -/
def Variable.bytes (v : Variable) : List Nat :=
  u64_bytes v.cmd ++ u32_bytes v.type ++ u32_bytes v.size ++ u32_bytes v.dep0 ++
  u32_bytes v.dep1 ++ u32_bytes v.dep2 ++ u32_bytes v.extra_dep ++
  u64_bytes v.label ++ u64_bytes v.data ++ u32_bytes v.ref_count_ext ++
  u32_bytes v.ref_count_int ++ u32_bytes v.tsize ++
  [v.side_effect.toNat, v.dirty.toNat, v.free_variable.toNat, v.direct_pointer.toNat]

/-- The value of `sizeof(VariableKey)`: a pointer and six `uint32_t`. -/
def sizeof_VariableKey : Nat := 32

/-- The object representation of the `VariableKey` that the constructor
`VariableKey(const Variable &v)` produces: `memcpy(this, &v, sizeof(VariableKey))`. -/
def VariableKey (v : Variable) : List Nat :=
  v.bytes.take sizeof_VariableKey

/-- The comparison `VariableKey::operator==`: `memcmp(this, &v, sizeof(VariableKey)) == 0`. -/
def VariableKey_eq (a b : List Nat) : Bool :=
  a.take sizeof_VariableKey == b.take sizeof_VariableKey

/-- The members of a `Variable` are in the range of their C types. -/
def Variable.in_range (v : Variable) : Prop :=
  v.cmd < 2 ^ 64 ∧ v.type < 2 ^ 32 ∧ v.size < 2 ^ 32 ∧ v.dep0 < 2 ^ 32 ∧ v.dep1 < 2 ^ 32 ∧
  v.dep2 < 2 ^ 32 ∧ v.extra_dep < 2 ^ 32

/-- The command text of a variable: the C string that `cmd` points to in the memory
`strings`. -/
def Variable.text (strings : Nat → List Nat) (v : Variable) : List Nat :=
  strings v.cmd

/-- A variable with command `cmd`, type 10 (`Float32`), size 4 and operands 1 and 2. -/
def sample_variable (cmd : Nat) : Variable :=
  { cmd := cmd, type := 10, size := 4, dep0 := 1, dep1 := 2, dep2 := 0, extra_dep := 0,
    label := 0, data := 0, ref_count_ext := 1, ref_count_int := 0, tsize := 3,
    side_effect := false, dirty := false, free_variable := true, direct_pointer := false }

/-- A memory that holds the text `add` at the two addresses 4096 and 8192. -/
def sample_strings : Nat → List Nat := fun a =>
  if a = 4096 then [97, 100, 100] else if a = 8192 then [97, 100, 100] else []

end Enoki

/-! ## The locking structure of the API layer (`api.cpp`) -/

/-- What a function of `api.cpp` does with `state.mutex` around its accesses to the core
(the names of the `jit_*` functions it calls and of the members of `state` it touches). -/
inductive ApiBody where
  /-- The body starts with `lock_guard guard(state.mutex);` and then makes the accesses. -/
  | guarded (accesses : List String)
  /-- The body makes the accesses without touching the mutex. -/
  | unguarded (accesses : List String)
  /-- The body calls `state.mutex.lock()` and detaches a thread that makes the accesses
  and then calls `state.mutex.unlock()`. -/
  | async (accesses : List String)
  deriving DecidableEq, Repr

/-- A function of `api.cpp`. -/
structure ApiFunction where
  name : String
  body : ApiBody
  deriving DecidableEq, Repr

/-- The functions of `api.cpp`, in the order of the file. -/
def api_functions : List ApiFunction :=
  [
   { name := "jitc_init", body := .guarded ["jit_init"] },
   { name := "jitc_init_async", body := .async ["jit_init"] },
   { name := "jitc_has_llvm", body := .unguarded ["state.has_llvm"] },
   { name := "jitc_has_cuda", body := .unguarded ["state.has_cuda"] },
   { name := "jitc_shutdown", body := .guarded ["jit_shutdown"] },
   { name := "jitc_log_set_stderr", body := .guarded ["state.log_level_stderr"] },
   { name := "jitc_log_stderr", body := .guarded ["state.log_level_stderr"] },
   { name := "jitc_set_log_callback", body := .guarded ["state.log_level_callback", "state.log_callback"] },
   { name := "jitc_log_callback", body := .guarded ["state.log_level_callback"] },
   { name := "jitc_log", body := .guarded ["jit_vlog"] },
   { name := "jitc_raise", body := .guarded ["jit_vraise"] },
   { name := "jitc_fail", body := .guarded ["jit_vfail"] },
   { name := "jitc_device_count", body := .guarded ["state.devices"] },
   { name := "jitc_device_set", body := .guarded ["jit_device_set"] },
   { name := "jitc_llvm_set_target", body := .guarded ["jit_llvm_set_target"] },
   { name := "jitc_llvm_version_major", body := .guarded ["jit_llvm_version_major"] },
   { name := "jitc_llvm_if_at_least", body := .guarded ["jit_llvm_if_at_least"] },
   { name := "jitc_parallel_set_dispatch", body := .guarded ["state.parallel_dispatch"] },
   { name := "jitc_parallel_dispatch", body := .guarded ["state.parallel_dispatch"] },
   { name := "jitc_sync_stream", body := .guarded ["jit_sync_stream"] },
   { name := "jitc_sync_device", body := .guarded ["jit_sync_device"] },
   { name := "jitc_malloc", body := .guarded ["jit_malloc"] },
   { name := "jitc_free", body := .guarded ["jit_free"] },
   { name := "jitc_malloc_migrate", body := .guarded ["jit_malloc_migrate"] },
   { name := "jitc_malloc_trim", body := .guarded ["jit_malloc_trim"] },
   { name := "jitc_malloc_prefetch", body := .guarded ["jit_malloc_prefetch"] },
   { name := "jitc_var_inc_ref_ext", body := .guarded ["jit_var_inc_ref_ext"] },
   { name := "jitc_var_dec_ref_ext", body := .guarded ["jit_var_dec_ref_ext"] },
   { name := "jitc_var_ext_ref", body := .guarded ["jit_var"] },
   { name := "jitc_var_int_ref", body := .guarded ["jit_var"] },
   { name := "jitc_var_ptr", body := .guarded ["jit_var_ptr"] },
   { name := "jitc_var_size", body := .guarded ["jit_var_size"] },
   { name := "jitc_var_label", body := .guarded ["jit_var_label"] },
   { name := "jitc_var_set_label", body := .guarded ["jit_var_set_label"] },
   { name := "jitc_var_map", body := .guarded ["jit_var_map"] },
   { name := "jitc_var_copy_ptr", body := .guarded ["jit_var_copy_ptr"] },
   { name := "jitc_var_copy_from_host", body := .guarded ["jit_var_copy_from_host"] },
   { name := "jitc_trace_append_0", body := .guarded ["jit_trace_append_0"] },
   { name := "jitc_trace_append_1", body := .guarded ["jit_trace_append_1"] },
   { name := "jitc_trace_append_2", body := .guarded ["jit_trace_append_2"] },
   { name := "jitc_trace_append_3", body := .guarded ["jit_trace_append_3"] },
   { name := "jitc_trace_append_4", body := .guarded ["jit_trace_append_4"] },
   { name := "jitc_var_migrate", body := .guarded ["jit_var_migrate"] },
   { name := "jitc_var_mark_scatter", body := .guarded ["jit_var_mark_scatter"] },
   { name := "jitc_var_is_literal_zero", body := .guarded ["jit_var_is_literal_zero"] },
   { name := "jitc_var_is_literal_one", body := .guarded ["jit_var_is_literal_one"] },
   { name := "jitc_var_whos", body := .guarded ["jit_var_whos"] },
   { name := "jitc_var_str", body := .guarded ["jit_var_str"] },
   { name := "jitc_var_read", body := .guarded ["jit_var_read"] },
   { name := "jitc_var_write", body := .guarded ["jit_var_write"] },
   { name := "jitc_eval", body := .guarded ["jit_eval"] },
   { name := "jitc_var_eval", body := .guarded ["jit_var_eval"] },
   { name := "jitc_var_schedule", body := .guarded ["jit_var_schedule"] },
   { name := "jitc_fill", body := .guarded ["jit_fill"] },
   { name := "jitc_memcpy", body := .guarded ["jit_memcpy"] },
   { name := "jitc_memcpy_async", body := .guarded ["jit_memcpy_async"] },
   { name := "jitc_reduce", body := .guarded ["jit_reduce"] },
   { name := "jitc_scan", body := .guarded ["jit_scan"] },
   { name := "jitc_all", body := .guarded ["jit_all"] },
   { name := "jitc_any", body := .guarded ["jit_any"] },
   { name := "jitc_mkperm", body := .guarded ["jit_mkperm"] },
   { name := "jitc_registry_put", body := .guarded ["jit_registry_put"] },
   { name := "jitc_registry_remove", body := .guarded ["jit_registry_remove"] },
   { name := "jitc_registry_get_id", body := .guarded ["jit_registry_get_id"] },
   { name := "jitc_registry_get_domain", body := .guarded ["jit_registry_get_domain"] },
   { name := "jitc_registry_get_ptr", body := .guarded ["jit_registry_get_ptr"] },
   { name := "jitc_registry_get_max", body := .guarded ["jit_registry_get_max"] },
   { name := "jitc_registry_trim", body := .guarded ["jit_registry_trim"] }
  ]

/-- What a thread does that matters for the locking discipline. -/
inductive Event where
  | lock
  | unlock
  | access (what : String)
  | spawn
  deriving DecidableEq, Repr

/-- The events of the calling thread from the call of the function to its exit.  With
`raise_at = some k` access number `k` raises and the function is left by the exception;
the destructor of a `lock_guard` runs on either exit. -/
def caller_events (body : ApiBody) (raise_at : Option Nat) : List Event :=
  match body with
  | .guarded accesses =>
    match raise_at with
    | none => [Event.lock] ++ accesses.map Event.access ++ [Event.unlock]
    | some k => [Event.lock] ++ (accesses.take (k + 1)).map Event.access ++ [Event.unlock]
  | .unguarded accesses =>
    match raise_at with
    | none => accesses.map Event.access
    | some k => (accesses.take (k + 1)).map Event.access
  | .async _ => [Event.lock, Event.spawn]

/-- The events of the thread that the function detaches. -/
def thread_events (body : ApiBody) : List Event :=
  match body with
  | .async accesses => accesses.map Event.access ++ [Event.unlock]
  | .guarded _ => []
  | .unguarded _ => []

/-- Whether the mutex is held after the events, for a thread of control that holds it or
not at the start; `none` when an access is made without the mutex, the mutex is unlocked
while not held, or locked while held (it is not recursive). -/
def run_lock (held : Bool) : List Event → Option Bool
  | [] => some held
  | Event.lock :: rest => if held then none else run_lock true rest
  | Event.unlock :: rest => if held then run_lock false rest else none
  | Event.access _ :: rest => if held then run_lock true rest else none
  | Event.spawn :: rest => run_lock held rest

/-! ## `VariableKeyHasher` of `jit.h` -/

/-- The call operator of `VariableKeyHasher` on the object representation `k` of a
`VariableKey`: `crc32` over the text that the member `cmd` (the first eight bytes)
points to in the memory `strings`, combined by `hash_combine` with `crc32` over the
24 bytes that start at the member `type`.  The functions `crc32` and `hash_combine`
are not part of the sources and are arguments. -/
def VariableKeyHasher (crc32 : List Nat → Nat) (hash_combine : Nat → Nat → Nat)
    (strings : Nat → List Nat) (k : List Nat) : Nat :=
  let result := crc32 (strings (le_decode (k.take 8)))
  hash_combine result (crc32 ((k.drop 8).take (4 * 6)))

/-! ## The padding that `jit_llvm_mem_allocate` zero-fills -/

/-- The offsets into `jit_llvm_mem` of the bytes that the `memset` of
`jit_llvm_mem_allocate` writes: `offset_align - jit_llvm_mem_offset` bytes from
`jit_llvm_mem_offset` on. -/
def padding_bytes (st : LlvmState) (align : Nat) : List Nat :=
  List.range' st.jit_llvm_mem_offset
    ((offset_align st.jit_llvm_mem_offset align + 2 ^ 64 - st.jit_llvm_mem_offset) % 2 ^ 64)

/-- The offsets that a sequence of calls `(size, align)` of `jit_llvm_mem_allocate`
zero-fills, call by call. -/
def padding_all (st : LlvmState) : List (Nat × Nat) → List (List Nat)
  | [] => []
  | (size, align) :: rest =>
    padding_bytes st align :: padding_all (jit_llvm_mem_allocate st size align).2 rest

/-! ## `jit_llvm_init` -/

/-- What `jit_llvm_init` finds in its environment. -/
structure InitEnv where
  /-- The call `stat` on the directory `$HOME/.enoki` succeeds. -/
  stat_ok : Bool
  /-- The call `mkdir` on that directory succeeds. -/
  mkdir_ok : Bool
  /-- The call `jit_find_library` returns a handle. -/
  library_found : Bool
  /-- Every symbol of the list is found by `dlsym`. -/
  symbols_found : Bool
  /-- The call `LLVMGetGlobalContext` returns a context. -/
  context_ok : Bool
  /-- The call `LLVMCreateDisasm` returns a disassembler. -/
  disasm_ok : Bool
  /-- The call `LLVMSetDisasmOptions` returns a non-zero value. -/
  disasm_options_ok : Bool
  /-- The call `LLVMCreateMCJITCompilerForModule` returns zero. -/
  mcjit_ok : Bool
  /-- The host CPU features contain `+sse4.2`. -/
  sse42 : Bool
  /-- The host CPU features contain `+avx`. -/
  avx : Bool
  /-- The host CPU features contain `+avx512f`. -/
  avx512f : Bool
  deriving DecidableEq, Repr

/-- The globals of `llvm_api.cpp` that `jit_llvm_init` reads and writes. -/
structure InitState where
  /-- The flag `jit_llvm_init_attempted`. -/
  jit_llvm_init_attempted : Bool
  /-- The flag `jit_llvm_init_success`. -/
  jit_llvm_init_success : Bool
  /-- The global `jit_llvm_vector_width`. -/
  jit_llvm_vector_width : Nat
  deriving DecidableEq, Repr

/-- The conversion of an `int` to `bool` that a `return` in a function of type `bool`
makes: every non-zero value is `true`. -/
def int_to_bool (x : Int) : Bool :=
  x != 0

/-- The vector width that `jit_llvm_init` derives from the host CPU features. -/
def vector_width (env : InitEnv) : Nat :=
  let w := 1
  let w := if env.sse42 then 4 else w
  let w := if env.avx then 8 else w
  if env.avx512f then 16 else w

/-- Embedding of `jit_llvm_shutdown`, restricted to the globals of `InitState`: nothing
happens unless `jit_llvm_init_success` is set; otherwise the vector width and the two
flags are reset. -/
def jit_llvm_shutdown (st : InitState) : InitState :=
  if !st.jit_llvm_init_success then st
  else
    { jit_llvm_vector_width := 0, jit_llvm_init_success := false,
      jit_llvm_init_attempted := false }

/-- Embedding of `jit_llvm_init`: the value returned and the globals afterwards. -/
def jit_llvm_init (env : InitEnv) (st : InitState) : Outcome (Bool × InitState) :=
  if st.jit_llvm_init_attempted then .ok (st.jit_llvm_init_success, st)
  else
    let st := { st with jit_llvm_init_attempted := true }
    if !env.stat_ok && !env.mkdir_ok then .fail
    else if !env.library_found then .ok (false, st)
    else if !env.symbols_found then .ok (false, st)
    else if !env.context_ok then .ok (false, st)
    else if !env.disasm_ok then .ok (false, st)
    else if !env.disasm_options_ok then .ok (false, st)
    else if !env.mcjit_ok then .ok (int_to_bool (-1), st)
    else
      let st := { st with jit_llvm_vector_width := vector_width env }
      let st := { st with jit_llvm_init_success := decide (st.jit_llvm_vector_width > 1) }
      let st := if !st.jit_llvm_init_success then jit_llvm_shutdown st else st
      .ok (st.jit_llvm_init_success, st)

/-- Two calls of `jit_llvm_init` one after the other, with no `jit_llvm_shutdown` in
between: the two values returned, `none` when a call does not return. -/
def jit_llvm_init_twice (env1 env2 : InitEnv) (st : InitState) : Option (Bool × Bool) :=
  match jit_llvm_init env1 st with
  | .ok (r1, st1) =>
    match jit_llvm_init env2 st1 with
    | .ok (r2, _) => some (r1, r2)
    | _ => none
  | _ => none

/-! ## The class `Buffer` of `jit.h` -/

/-- The members of a `Buffer`: the bytes of the allocation from `m_start` to `m_end`,
and `m_cur` as an offset from `m_start`. -/
structure Buffer where
  /-- The bytes of the allocation; its length is `m_end - m_start`. -/
  mem : List Nat
  /-- The offset `m_cur - m_start`. -/
  cur : Nat
  deriving DecidableEq, Repr

/-- The C function `memccpy(dest + off, src, c, n)`: bytes are copied from `src` until
the byte `c` has been copied or `n` bytes have been; the result is the offset that
follows the copy of `c`, and `none` (a null pointer) when `c` was not among the first
`n` bytes of `src`. -/
def memccpy (dest : List Nat) (off : Nat) (src : List Nat) (c n : Nat) :
    List Nat × Option Nat :=
  let i := (src.take n).indexOf c
  if i < (src.take n).length then (memcpy_at dest off (src.take (i + 1)), some (off + i + 1))
  else (memcpy_at dest off (src.take n), none)

/-- The C function `vsnprintf(dest + off, size, format, args)`, where `out` is the text
that the format and its arguments produce: at most `size - 1` bytes of `out` and a NUL
are stored, nothing when `size` is 0; the result is the length of `out`. -/
def vsnprintf (dest : List Nat) (off size : Nat) (out : List Nat) : List Nat × Nat :=
  (if size = 0 then dest else memcpy_at dest off (out.take (size - 1) ++ [0]), out.length)

/-- Modelled from the spec: what is assumed of `Buffer::expand`, whose definition is
not part of the sources: when `m_cur` lies inside the allocation, it keeps its offset,
the bytes before it are kept, and the allocation becomes strictly larger. -/
def expand_spec (expand : Buffer → Buffer) : Prop :=
  ∀ b : Buffer, b.cur ≤ b.mem.length →
    (expand b).cur = b.cur ∧ (expand b).mem.take b.cur = b.mem.take b.cur ∧
    b.mem.length < (expand b).mem.length

/-- Embedding of `Buffer::get`: the C string at `m_start`, `none` when no NUL lies in
the allocation. -/
def Buffer.get (b : Buffer) : Option (List Nat) :=
  if 0 ∈ b.mem then some (b.mem.takeWhile fun x => x != 0) else none

/-- Embedding of `Buffer::clear`. -/
def Buffer.clear (b : Buffer) : Buffer :=
  { mem := b.mem.set 0 0, cur := 0 }

/-- Embedding of `Buffer::put`, where `str` holds the bytes from the address `str` on;
`fuel` bounds the number of rounds of the loop and `none` says that it was used up. -/
def Buffer.put (expand : Buffer → Buffer) (str : List Nat) : Nat → Buffer → Option Buffer
  | 0, _ => none
  | fuel + 1, b =>
    let r := memccpy b.mem b.cur str 0 (b.mem.length - b.cur)
    match r.2 with
    | some cur => some { mem := r.1, cur := cur - 1 }
    | none => Buffer.put expand str fuel (expand { b with mem := r.1 })

/-- Embedding of `Buffer::fmt`, where `out` is the text that the format and its
arguments produce; `fuel` bounds the number of rounds of the loop. -/
def Buffer.fmt (expand : Buffer → Buffer) (out : List Nat) :
    Nat → Buffer → Option (Nat × Buffer)
  | 0, _ => none
  | fuel + 1, b =>
    let size := b.mem.length - b.cur
    let r := vsnprintf b.mem b.cur size out
    if r.2 < size then some (r.2, { mem := r.1, cur := b.cur + r.2 })
    else Buffer.fmt expand out fuel (expand { b with mem := r.1 })

/-- The invariant of a `Buffer`: `m_start <= m_cur < m_end`, and a NUL is stored at
`m_cur`. -/
def Buffer.valid (b : Buffer) : Prop :=
  b.cur < b.mem.length ∧ b.mem[b.cur]? = some 0

instance (b : Buffer) : Decidable b.valid := by
  unfold Buffer.valid; infer_instance

/-- Modelled from the spec: an instance of `Buffer::expand` that doubles the allocation
and keeps its bytes; the definition of `expand` is not part of the sources. -/
def expand_double (b : Buffer) : Buffer :=
  { b with mem := b.mem ++ List.replicate (max b.mem.length 1) 0 }

/-- A buffer of eight bytes that holds the text `ab`. -/
def sample_buffer : Buffer :=
  { mem := [97, 98, 0, 0, 0, 0, 0, 0], cur := 2 }

/-! ## Sample data -/

/-- A system in which every call succeeds. -/
def sys_good : Sys :=
  { open_ok := true, create_errno := none, write_ok := true, mmap_ok := true,
    mprotect_ok := true, memalign_ok := true }

/-- A two-byte IR text. -/
def sample_ir : List Nat := [65, 66]

/-- A well-formed cache file for `sample_ir` with the one-byte payload `0xc3`. -/
def sample_file : List Nat := [1, 2, 0, 0, 0, 1, 0, 0, 0, 0, 0, 0, 0, 65, 66, 195]

/-- A cache directory holding `sample_file` under hash 7 and nothing else. -/
def sample_dir : CacheDir := fun h => if h = 7 then some sample_file else none

/-- A cache directory without files. -/
def empty_dir : CacheDir := fun _ => none

/-- The globals before the first compilation. -/
def st_initial : LlvmState :=
  { jit_llvm_mem := [], jit_llvm_mem_size := 0, jit_llvm_mem_offset := 0,
    jit_llvm_kernel_id := 42 }

/-- Globals after a compilation that produced the one-byte payload `0xc3`. -/
def st_one_byte : LlvmState :=
  { jit_llvm_mem := [195, 0, 0, 0], jit_llvm_mem_size := 4, jit_llvm_mem_offset := 1,
    jit_llvm_kernel_id := 1 }

/-- The 16-byte IR text `@enoki_XXXXXXXX` followed by a line feed. -/
def sample_kernel_ir : List Nat :=
  [64, 101, 110, 111, 107, 105, 95, 88, 88, 88, 88, 88, 88, 88, 88, 10]

/-- An LLVM that accepts every IR text and emits one section of three bytes. -/
def sample_llvm : Llvm :=
  { create_buffer_ok := true
    parse_error := fun _ => false
    sections := fun _ => [{ size := 3, align := 0, data := [144, 144, 195] }]
    func := fun _ => some 0
    remove_error := false }

/-- The result of compiling `sample_kernel_ir` with `sample_llvm` from `st_initial`
into the empty cache directory under hash 7. -/
def sample_result : CompileResult :=
  { kernel := { buffer := [144, 144, 195], func := 0, size := 3 }
    cache_hit := false
    buffer := sample_kernel_ir
    st := { jit_llvm_mem := [144, 144, 195, 0, 0, 0, 0, 0, 0, 0, 0, 0, 0, 0, 0, 0],
            jit_llvm_mem_size := 16, jit_llvm_mem_offset := 3, jit_llvm_kernel_id := 43 }
    fs := fun h => if h = 7 then
        some ([1, 16, 0, 0, 0, 3, 0, 0, 0, 0, 0, 0, 0] ++ sample_kernel_ir ++ [144, 144, 195])
      else empty_dir h
    parsed := [[64, 101, 110, 111, 107, 105, 95, 48, 48, 48, 48, 48, 48, 50, 97, 10]] }

/-- A system in which the cache directory is not writable (`EACCES`). -/
def sys_readonly : Sys :=
  { open_ok := true, create_errno := some 13, write_ok := true, mmap_ok := true,
    mprotect_ok := true, memalign_ok := true }

/-- Globals with an empty bump buffer of 64 bytes. -/
def st_64 : LlvmState :=
  { jit_llvm_mem := List.replicate 64 0, jit_llvm_mem_size := 64, jit_llvm_mem_offset := 0,
    jit_llvm_kernel_id := 0 }

/-- The value with which a routine returned, if it returned. -/
def Res.value? {α : Type} : Res α → Option α
  | .ok a _ => some a
  | .raise _ => none
  | .undefined => none
  | .diverge => none

/-- The state in which a routine ended by return or raise, and `s` otherwise. -/
def Res.state {α : Type} (s : JitState) : Res α → JitState
  | .ok _ s1 => s1
  | .raise s1 => s1
  | .undefined => s
  | .diverge => s

/-- An evaluation that has nothing to do. -/
def eval_nothing (_backend : JitBackend) : JitM Unit := pure ()

/-- A state with two evaluated arrays on the LLVM backend, numbered 1 and 2, which the
caller is about to use as loop state. -/
def sample_jit : JitState :=
  { vars := fun j =>
      if j = 1 then
        some { type := .Float32, size := 4, backend := .LLVM, ref_count := 1 }
      else if j = 2 then
        some { type := .UInt32, size := 4, backend := .LLVM, ref_count := 1 }
      else none
    variable_index := 3
    optimize_loops := true
    scope := 0
    side_effects_symbolic := fun _ => []
    extra := fun _ => {}
    loop_data := fun _ => none
    indices := [1, 2] }

/-- The sample state after `jitc_var_loop_start`: `LoopStart` is variable 3, the phis are
variables 4 and 5 and the handle returned is 6. -/
def sample_started : JitState :=
  (jitc_var_loop_start eval_nothing none 2 sample_jit).state sample_jit

/-- The sample state after the caller recorded a loop condition (variable 7, a symbolic
mask) and passed it to `jitc_var_loop_cond`, which creates variable 8. -/
def sample_recorded : JitState :=
  (jitc_var_loop_cond 6 7
    { set_var sample_started 7
        (some { type := .Bool, size := 4, backend := .LLVM, symbolic := true, dep0 := 4,
                ref_count := 1 }) with variable_index := 8 }).state sample_started

/-- The sample state after the caller recorded a loop condition (variable 7, a symbolic
mask), before the call of `jitc_var_loop_cond`. -/
def sample_masked : JitState :=
  { set_var sample_started 7
      (some { type := .Bool, size := 4, backend := .LLVM, symbolic := true, dep0 := 4,
              ref_count := 1 }) with variable_index := 8 }

/-- The `LoopData` of the sample loop after `jitc_var_loop_start`. -/
def sample_ld : LoopData :=
  { name := "unnamed", loop_start := 3, size := 2, symbolic := false,
    outer_inputs := [1, 2], inner_inputs := [4, 5] }

/-- The sample state after the first call of `jitc_var_loop_end`, which eliminated both
state variables and returned false. -/
def sample_retry : JitState :=
  (jitc_var_loop_end 6 8 0 sample_recorded).state sample_recorded

/-- The `LoopData` of the sample loop after the first call of `jitc_var_loop_end`. -/
def sample_ld_retry : LoopData :=
  { name := "unnamed", loop_start := 3, size := 2, symbolic := false, retry := true,
    outer_inputs := [1, 2], inner_inputs := [1, 2] }

/-- The cond node of the sample loop. -/
def sample_cond : Variable :=
  { kind := .LoopCond, type := .Void, size := 4, backend := .LLVM, symbolic := true,
    dep0 := 3, dep1 := 7, ref_count := 1 }

/-- The sample state before the first call of `jitc_var_loop_end`, with loop optimizations
switched off. -/
def sample_unoptimized : JitState :=
  { sample_recorded with optimize_loops := false }

/-- The sample state before the first call of `jitc_var_loop_end`, with loop optimizations
switched off, when the loop body replaced the second state variable by variable 2. -/
def sample_changed : JitState :=
  { sample_unoptimized with indices := [4, 2] }

/-- A state in which three side effects, the variables 1, 2 and 3, have been recorded on
the LLVM backend, and variable 4 stands for the `LoopEnd` node. -/
def sample_effects : JitState :=
  { vars := fun j =>
      if j = 0 ∨ 4 < j then none
      else if j = 4 then
        some { kind := .LoopEnd, type := .Void, size := 4, backend := .LLVM, ref_count := 1 }
      else some { type := .Void, size := 4, backend := .LLVM, side_effect := true,
                  ref_count := 1 }
    variable_index := 5
    optimize_loops := true
    scope := 0
    side_effects_symbolic := fun b => if b = .LLVM then [1, 2, 3] else []
    extra := fun _ => {}
    loop_data := fun _ => none
    indices := [] }

/-- Two calls of `jitc_var_loop_end` on the sample loop; nothing happens in between. -/
def sample_calls : List EndCall :=
  [{ loop := 6, cond := 8, checkpoint := 0, prepare := id },
   { loop := 6, cond := 8, checkpoint := 0, prepare := id }]

/-! # Properties -/

/-! ## Lemmas on the read loops -/

theorem take_eq_split (fd ptr : List Nat) (n : Nat) (hn : n ≤ ptr.length) :
    fd.take ptr.length = ptr ↔
      fd.take n = ptr.take n ∧ (fd.drop n).take (ptr.length - n) = ptr.drop n := by
  constructor
  · intro h
    constructor
    · have := congrArg (List.take n) h
      rwa [List.take_take, min_eq_left hn] at this
    · have := congrArg (List.drop n) h
      rwa [List.drop_take] at this
  · rintro ⟨h1, h2⟩
    have e : ptr.length = n + (ptr.length - n) := by omega
    have : fd.take ptr.length = fd.take n ++ (fd.drop n).take (ptr.length - n) := by
      conv_lhs => rw [e]
      exact List.take_add fd n (ptr.length - n)
    rw [this, h1, h2, List.take_append_drop]

theorem sys_read_fst (fd : List Nat) (count : Nat) :
    (sys_read fd count).1 = fd.take (min count fd.length) := by
  simp only [sys_read]
  rcases Nat.le_total count fd.length with h | h
  · rw [min_eq_left h]
  · rw [min_eq_right h, List.take_of_length_le h, List.take_of_length_le (le_refl _)]

theorem sys_read_snd (fd : List Nat) (count : Nat) :
    (sys_read fd count).2 = fd.drop (min count fd.length) := by
  simp only [sys_read]
  rcases Nat.le_total count fd.length with h | h
  · rw [min_eq_left h]
  · rw [min_eq_right h, List.drop_of_length_le h, List.drop_of_length_le (le_refl _)]

/-- With fuel for one iteration per byte the comparison loop never times out: it
completes exactly when the unread part of the file starts with `ptr`. -/
theorem jit_llvm_load_ir_eq (fuel : Nat) (fd ptr : List Nat) (hf : ptr.length ≤ fuel) :
    jit_llvm_load_ir fuel fd ptr =
      if fd.take ptr.length = ptr then .done (fd.drop ptr.length) [] else .reject := by
  induction fuel generalizing fd ptr with
  | zero =>
    have h0 : ptr = [] := List.length_eq_zero.mp (Nat.le_zero.mp hf)
    subst h0
    simp [jit_llvm_load_ir]
  | succ fuel ih =>
    unfold jit_llvm_load_ir
    by_cases hp : ptr.length > 0
    · simp only [hp, if_true]
      rw [sys_read_fst, sys_read_snd]
      set n := min (min ptr.length SCRATCH_SIZE) fd.length with hn
      have hnlen : (fd.take n).length = n := by
        rw [List.length_take]; omega
      have hnp : n ≤ ptr.length := by omega
      rw [hnlen]
      have hsplit := take_eq_split fd ptr n hnp
      by_cases hz : n ≤ 0
      · have hfd : fd.length = 0 := by
          simp only [SCRATCH_SIZE] at hn; omega
        have hfd2 : fd = [] := List.length_eq_zero.mp hfd
        have hne : ¬ (fd.take ptr.length = ptr) := by
          intro h
          have := congrArg List.length h
          rw [hfd2] at this
          simp at this
          omega
        simp [hz, hne]
      · simp only [hz, if_false]
        by_cases hc : ptr.take n ≠ fd.take n
        · have hne : ¬ (fd.take ptr.length = ptr) := by
            intro h
            exact hc (hsplit.mp h).1.symm
          simp [hc, hne]
        · have hc2 : fd.take n = ptr.take n := by
            push_neg at hc; exact hc.symm
          simp only [hc, if_false]
          rw [ih (fd.drop n) (ptr.drop n) (by rw [List.length_drop]; omega)]
          rw [List.length_drop, List.drop_drop]
          have e : n + (ptr.length - n) = ptr.length := by omega
          by_cases hr : (fd.drop n).take (ptr.length - n) = ptr.drop n
          · have : fd.take ptr.length = ptr := hsplit.mpr ⟨hc2, hr⟩
            simp [hr, this, e]
          · have : ¬ (fd.take ptr.length = ptr) := fun h => hr (hsplit.mp h).2
            simp [hr, this]
    · have h0 : ptr = [] := List.length_eq_zero.mp (by omega)
      subst h0
      simp

/-- With fuel for one iteration per byte the payload loop never times out: it
completes exactly when the file still holds `remain` bytes, and then has read them. -/
theorem jit_llvm_load_payload_eq (fuel : Nat) (fd : List Nat) (remain : Nat) (acc : List Nat)
    (hf : remain ≤ fuel) :
    jit_llvm_load_payload fuel fd remain acc =
      if remain ≤ fd.length then .done (fd.drop remain) (acc ++ fd.take remain)
      else .reject := by
  induction fuel generalizing fd remain acc with
  | zero =>
    have h0 : remain = 0 := Nat.le_zero.mp hf
    subst h0
    simp [jit_llvm_load_payload]
  | succ fuel ih =>
    unfold jit_llvm_load_payload
    by_cases hp : remain > 0
    · simp only [hp, if_true]
      rw [sys_read_fst, sys_read_snd]
      set n := min remain fd.length with hn
      have hnlen : (fd.take n).length = n := by
        rw [List.length_take]; omega
      rw [hnlen]
      by_cases hz : n ≤ 0
      · have : ¬ remain ≤ fd.length := by omega
        simp [hz, this]
      · simp only [hz, if_false]
        rw [ih (fd.drop n) (remain - n) _ (by omega), List.length_drop]
        by_cases hr : remain ≤ fd.length
        · have hn2 : n = remain := by omega
          simp [hn2, hr]
        · have hn2 : n = fd.length := by omega
          have : ¬ (remain - n ≤ fd.length - n) := by omega
          simp [this, hr]
    · have h0 : remain = 0 := by omega
      subst h0
      simp

/-- Closed form of `jit_llvm_load` on an existing file. -/
theorem jit_llvm_load_eq (sys : Sys) (fs : CacheDir) (buffer : List Nat) (hash : Nat)
    (file : List Nat) (hfile : fs hash = some file) :
    jit_llvm_load sys fs buffer hash =
      if !sys.open_ok then .ok none
      else if ¬ header_ok file buffer then .ok none
      else if (file.drop 13).take buffer.length ≠ buffer then .ok none
      else if !sys.mmap_ok then .fail
      else if ¬ le_decode ((file.drop 5).take 4) ≤ (file.drop (13 + buffer.length)).length
        then .ok none
      else if !sys.mprotect_ok then .fail
      else .ok (some { buffer := (file.drop (13 + buffer.length)).take
                          (le_decode ((file.drop 5).take 4)),
                       func := le_decode ((file.drop 9).take 4),
                       size := le_decode ((file.drop 5).take 4) }) := by
  unfold jit_llvm_load
  rw [hfile]
  simp only
  by_cases ho : sys.open_ok = true
  swap
  · simp [ho]
  simp only [ho, Bool.not_true, Bool.false_eq_true, if_false]
  have e1 : (sys_read file 1).1 = file.take 1 := rfl
  have e2 : (sys_read file 1).2 = file.drop 1 := rfl
  have e3 : (sys_read (file.drop 1) 4).1 = (file.drop 1).take 4 := rfl
  have e4 : (sys_read (file.drop 1) 4).2 = file.drop 5 := by
    simp [sys_read, List.drop_drop]
  have e5 : (sys_read (file.drop 5) 4).1 = (file.drop 5).take 4 := rfl
  have e6 : (sys_read (file.drop 5) 4).2 = file.drop 9 := by
    simp [sys_read, List.drop_drop]
  have e7 : (sys_read (file.drop 9) 4).1 = (file.drop 9).take 4 := rfl
  have e8 : (sys_read (file.drop 9) 4).2 = file.drop 13 := by
    simp [sys_read, List.drop_drop]
  rw [e1, e2, e3, e4, e5, e6, e7, e8]
  by_cases hh : header_ok file buffer
  swap
  · have hbad : (file.take 1).length ≠ 1 ∨ ((file.drop 1).take 4).length ≠ 4 ∨
        ((file.drop 5).take 4).length ≠ 4 ∨ ((file.drop 9).take 4).length ≠ 4 ∨
        le_decode ((file.drop 1).take 4) ≠ buffer.length ∨
        le_decode ((file.drop 9).take 4) ≥ le_decode ((file.drop 5).take 4) ∨
        le_decode (file.take 1) ≠ ENOKI_LLVM_CACHE_VERSION := by
      unfold header_ok at hh
      by_contra hc
      push_neg at hc
      exact hh ⟨hc.1, hc.2.1, hc.2.2.1, hc.2.2.2.1, hc.2.2.2.2.1, hc.2.2.2.2.2.1, hc.2.2.2.2.2.2⟩
    rw [if_pos hbad, if_pos hh]
  have hgood : ¬ ((file.take 1).length ≠ 1 ∨ ((file.drop 1).take 4).length ≠ 4 ∨
        ((file.drop 5).take 4).length ≠ 4 ∨ ((file.drop 9).take 4).length ≠ 4 ∨
        le_decode ((file.drop 1).take 4) ≠ buffer.length ∨
        le_decode ((file.drop 9).take 4) ≥ le_decode ((file.drop 5).take 4) ∨
        le_decode (file.take 1) ≠ ENOKI_LLVM_CACHE_VERSION) := by
    obtain ⟨h1, h2, h3, h4, h5, h6, h7⟩ := hh
    push_neg
    exact ⟨h1, h2, h3, h4, h5, h6, h7⟩
  rw [if_neg hgood, if_neg (not_not.mpr hh)]
  rw [jit_llvm_load_ir_eq _ _ _ (le_refl _)]
  by_cases hir : (file.drop 13).take buffer.length = buffer
  swap
  · simp [hir]
  simp only [hir, if_true, ne_eq, not_true_eq_false, if_false]
  by_cases hm : sys.mmap_ok = true
  swap
  · simp [hm]
  simp only [hm, Bool.not_true, Bool.false_eq_true, if_false]
  rw [jit_llvm_load_payload_eq _ _ _ _ (le_refl _)]
  have eadd : buffer.length + 13 = 13 + buffer.length := by omega
  simp only [List.drop_drop, List.nil_append, eadd]
  by_cases hp : le_decode ((file.drop 5).take 4) ≤ (file.drop (13 + buffer.length)).length
  · rw [if_pos hp, if_neg (not_not.mpr hp)]
  · rw [if_neg hp, if_pos hp]

theorem le_decode_singleton (l : List Nat) (h1 : l.length = 1) (h2 : le_decode l = 1) :
    l = [1] := by
  match l, h1 with
  | [b], _ =>
    simp only [le_decode] at h2
    simp only [List.cons.injEq, and_true]
    omega

/-! ## The cache file is accepted only when it matches -/

/-- Claim C1: `jit_llvm_load` returns true only if the cache file exists, its version byte
is 1, the stored IR length is the length of the current IR text, the stored IR bytes are the
current IR text byte for byte, and the stored function offset is below the stored payload
length. -/
theorem jit_llvm_load_true_only_if (sys : Sys) (fs : CacheDir) (buffer : List Nat)
    (hash : Nat) (kernel : Kernel)
    (h : jit_llvm_load sys fs buffer hash = .ok (some kernel)) :
    ∃ file, fs hash = some file ∧
      file.take 1 = [ENOKI_LLVM_CACHE_VERSION] ∧
      le_decode ((file.drop 1).take 4) = buffer.length ∧
      (file.drop 13).take buffer.length = buffer ∧
      le_decode ((file.drop 9).take 4) < le_decode ((file.drop 5).take 4) := by
  cases hf : fs hash with
  | none =>
    simp [jit_llvm_load, hf] at h
  | some file =>
    refine ⟨file, rfl, ?_⟩
    rw [jit_llvm_load_eq sys fs buffer hash file hf] at h
    by_cases hh : header_ok file buffer
    swap
    · rw [if_pos hh] at h
      split at h <;> simp at h
    by_cases hir : (file.drop 13).take buffer.length = buffer
    swap
    · rw [if_neg (not_not.mpr hh), if_pos hir] at h
      split at h <;> simp at h
    obtain ⟨h1, _, _, _, h5, h6, h7⟩ := hh
    exact ⟨le_decode_singleton _ h1 h7, h5, hir, h6⟩

/-- Witness for C1 on the sample cache directory. -/
theorem jit_llvm_load_true_only_if_witness :
    ∃ file, sample_dir 7 = some file ∧
      file.take 1 = [ENOKI_LLVM_CACHE_VERSION] ∧
      le_decode ((file.drop 1).take 4) = sample_ir.length ∧
      (file.drop 13).take sample_ir.length = sample_ir ∧
      le_decode ((file.drop 9).take 4) < le_decode ((file.drop 5).take 4) :=
  jit_llvm_load_true_only_if sys_good sample_dir sample_ir 7
    { buffer := [195], func := 0, size := 1 } (by decide)

/-! ## Lemmas on `jit_llvm_compile` -/

theorem kernel_name_length (id : Nat) : (kernel_name id).length = 14 := rfl

/-- Copying the saved bytes back undoes a `memcpy` into the buffer. -/
theorem memcpy_at_restore (buf : List Nat) (off : Nat) (data : List Nat)
    (h : off + data.length ≤ buf.length) :
    memcpy_at (memcpy_at buf off data) off ((buf.drop off).take data.length) = buf := by
  have hoff : off ≤ buf.length := by omega
  have htl : (buf.take off).length = off := by rw [List.length_take]; omega
  have hsl : ((buf.drop off).take data.length).length = data.length := by
    rw [List.length_take, List.length_drop]; omega
  unfold memcpy_at
  rw [hsl]
  have e1 : (buf.take off ++ data ++ buf.drop (off + data.length)).take off = buf.take off := by
    rw [List.append_assoc, List.take_append_of_le_length (by omega)]
    rw [List.take_take, min_self]
  have e2 : (buf.take off ++ data ++ buf.drop (off + data.length)).drop (off + data.length)
      = buf.drop (off + data.length) := by
    have : off + data.length = (buf.take off ++ data).length := by
      rw [List.length_append, htl]
    rw [this, List.drop_left]
  rw [e1, e2]
  have e3 : buf.drop (off + data.length) = (buf.drop off).drop data.length := by
    rw [List.drop_drop, Nat.add_comm]
  rw [e3, List.append_assoc, List.take_append_drop, List.take_append_drop]

/-- A position returned by `find_sub` is an occurrence and no earlier position is one. -/
theorem find_sub_first (needle hay : List Nat) (k : Nat) (h : find_sub needle hay = some k) :
    (hay.drop k).take needle.length = needle ∧
      ∀ j, j < k → (hay.drop j).take needle.length ≠ needle := by
  induction hay generalizing k with
  | nil =>
    unfold find_sub at h
    split at h
    · rename_i hn
      simp only [Option.some.injEq] at h
      subst h
      subst hn
      simp
    · simp at h
  | cons a t ih =>
    unfold find_sub at h
    split at h
    · rename_i hn
      simp only [Option.some.injEq] at h
      subst h
      exact ⟨hn, fun j hj => absurd hj (Nat.not_lt_zero j)⟩
    · rename_i hn
      cases hft : find_sub needle t with
      | none => simp [hft] at h
      | some k1 =>
        simp only [hft, Option.map_some', Option.some.injEq] at h
        subst h
        obtain ⟨h1, h2⟩ := ih k1 hft
        refine ⟨by simpa using h1, ?_⟩
        intro j hj
        cases j with
        | zero => simpa using hn
        | succ j => simpa using h2 j (by omega)

theorem c_str_take (buf : List Nat) (j n : Nat) (h : j + n ≤ (c_str buf).length) :
    ((c_str buf).drop j).take n = (buf.drop j).take n := by
  obtain ⟨rest, hrest⟩ : c_str buf <+: buf := List.takeWhile_prefix _
  conv_rhs => rw [← hrest]
  rw [List.drop_append_of_le_length (by omega), List.take_append_of_le_length]
  rw [List.length_drop]; omega

/-- The offset returned by `strstr` is the first occurrence of a non-empty needle in
the buffer. -/
theorem strstr_first (buf needle : List Nat) (k : Nat) (hne : needle ≠ [])
    (h : strstr buf needle = some k) :
    (buf.drop k).take needle.length = needle ∧
      ∀ j, j < k → (buf.drop j).take needle.length ≠ needle := by
  obtain ⟨h1, h2⟩ := find_sub_first needle (c_str buf) k h
  have hlen : k + needle.length ≤ (c_str buf).length := by
    have := congrArg List.length h1
    rw [List.length_take, List.length_drop] at this
    have hpos : 0 < needle.length := List.length_pos.mpr hne
    omega
  refine ⟨by rw [← c_str_take buf k _ hlen]; exact h1, ?_⟩
  intro j hj
  rw [← c_str_take buf j _ (by omega)]
  exact h2 j hj

theorem jit_llvm_compile_miss_ok (sys : Sys) (llvm : Llvm) (st : LlvmState) (fs : CacheDir)
    (buffer : List Nat) (hash : Nat) (r : CompileResult)
    (h : jit_llvm_compile_miss sys llvm st fs buffer hash = .ok r) :
    ∃ off st4 func_offset, strstr buffer enoki_ = some off ∧ off + 14 ≤ buffer.length ∧
      r.parsed = [memcpy_at buffer off (kernel_name (st.jit_llvm_kernel_id % 2 ^ 32))] ∧
      r.buffer = buffer ∧ r.cache_hit = false ∧ r.st = st4 ∧
      jit_llvm_write sys st4 fs buffer hash func_offset = .ok r.fs := by
  unfold jit_llvm_compile_miss at h
  simp only at h
  by_cases c1 : st.jit_llvm_mem_size ≤ buffer.length ∧ (!sys.memalign_ok) = true
  · rw [if_pos c1] at h; cases h
  rw [if_neg c1] at h
  cases hs : strstr buffer enoki_ with
  | none => rw [hs] at h; cases h
  | some off =>
    rw [hs] at h
    simp only at h
    by_cases c2 : off + 14 > buffer.length
    · rw [if_pos c2] at h; cases h
    rw [if_neg c2] at h
    by_cases c3 : (!llvm.create_buffer_ok) = true
    · rw [if_pos c3] at h; cases h
    rw [if_neg c3] at h
    by_cases c4 : llvm.parse_error
        (memcpy_at buffer off (kernel_name (st.jit_llvm_kernel_id % 2 ^ 32))) = true
    · rw [if_pos c4] at h; cases h
    rw [if_neg c4] at h
    cases he : llvm_emit (jit_llvm_compile_reset st buffer.length)
        (llvm.sections (memcpy_at buffer off (kernel_name (st.jit_llvm_kernel_id % 2 ^ 32)))) with
    | none => rw [he] at h; cases h
    | some st4 =>
      rw [he] at h
      simp only at h
      cases hf : llvm.func (memcpy_at buffer off (kernel_name (st.jit_llvm_kernel_id % 2 ^ 32))) with
      | none => rw [hf] at h; cases h
      | some func =>
        rw [hf] at h
        simp only at h
        by_cases c5 : func < 0
        · rw [if_pos c5] at h; cases h
        rw [if_neg c5] at h
        by_cases c6 : (!sys.mmap_ok) = true ∨ st4.jit_llvm_mem_offset = 0
        · rw [if_pos c6] at h; cases h
        rw [if_neg c6] at h
        by_cases c7 : st4.jit_llvm_mem_offset > st4.jit_llvm_mem.length
        · rw [if_pos c7] at h; cases h
        rw [if_neg c7] at h
        by_cases c8 : (!sys.mprotect_ok) = true
        · rw [if_pos c8] at h; cases h
        rw [if_neg c8] at h
        by_cases c9 : llvm.remove_error = true
        · rw [if_pos c9] at h; cases h
        rw [if_neg c9] at h
        have hrest : memcpy_at (memcpy_at buffer off (kernel_name (st.jit_llvm_kernel_id % 2 ^ 32)))
            off ((buffer.drop off).take 14) = buffer := by
          have := memcpy_at_restore buffer off (kernel_name (st.jit_llvm_kernel_id % 2 ^ 32))
            (by rw [kernel_name_length]; omega)
          rwa [kernel_name_length] at this
        rw [hrest] at h
        cases hw : jit_llvm_write sys st4 fs buffer hash (func.toNat % 2 ^ 32) with
        | ok fs1 =>
          rw [hw] at h
          simp only [Outcome.ok.injEq] at h
          subst h
          exact ⟨off, st4, func.toNat % 2 ^ 32, rfl, by omega, rfl, rfl, rfl, rfl, hw⟩
        | raise => rw [hw] at h; cases h
        | fail => rw [hw] at h; cases h
        | undefined => rw [hw] at h; cases h
        | diverge => rw [hw] at h; cases h

/-! ## Lemmas on `jit_llvm_write` -/

theorem le_decode_u32_bytes (x : Nat) : le_decode (u32_bytes x) = x % 2 ^ 32 := by
  simp only [u32_bytes, le_decode]
  omega

theorem u32_bytes_mod (x : Nat) : u32_bytes (x % 2 ^ 32) = u32_bytes x := by
  simp only [u32_bytes, List.cons.injEq, and_true]
  refine ⟨?_, ?_, ?_, ?_⟩ <;> omega

theorem write_retry_ok (sys : Sys) (file data : List Nat) (hw : sys.write_ok = true) :
    write_retry sys file data = some (file ++ data) := by
  unfold write_retry
  by_cases hd : data.length > 0
  · simp [hd, hw]
  · have : data = [] := List.length_eq_zero.mp (by omega)
    subst this
    simp

/-- When the file exists already nothing is written. -/
theorem jit_llvm_write_eexist_eq (sys : Sys) (st : LlvmState) (fs : CacheDir)
    (buffer : List Nat) (hash func_offset : Nat)
    (h : sys_open_excl sys fs hash = .failed EEXIST) :
    jit_llvm_write sys st fs buffer hash func_offset = .ok fs := by
  unfold jit_llvm_write
  rw [h]
  simp

/-- A file that `jit_llvm_write` creates has the layout of the specification. -/
theorem jit_llvm_write_fresh_eq (sys : Sys) (st : LlvmState) (fs : CacheDir)
    (buffer : List Nat) (hash func_offset : Nat)
    (hfresh : fs hash = none) (hc : sys.create_errno = none) (hw : sys.write_ok = true)
    (hin : st.jit_llvm_mem_offset ≤ st.jit_llvm_mem.length) :
    jit_llvm_write sys st fs buffer hash func_offset =
      .ok (fun h => if h = hash then
        some (cache_file_layout buffer (st.jit_llvm_mem.take st.jit_llvm_mem_offset) func_offset)
        else fs h) := by
  have hopen : sys_open_excl sys fs hash = .fd := by
    simp [sys_open_excl, hfresh, hc]
  have hlen : (st.jit_llvm_mem.take st.jit_llvm_mem_offset).length = st.jit_llvm_mem_offset := by
    rw [List.length_take]; omega
  unfold jit_llvm_write
  rw [hopen]
  simp only [write_retry_ok _ _ _ hw, Option.bind_some, Option.some_bind, u32_bytes_mod]
  simp only [cache_file_layout, ENOKI_LLVM_CACHE_VERSION, hlen, List.nil_append]

/-- The sample compilation succeeds with `sample_result`. -/
theorem sample_compile_miss :
    jit_llvm_compile_miss sys_good sample_llvm st_initial empty_dir sample_kernel_ir 7 =
      .ok sample_result := by
  rfl

/-! ## Cache mismatches lead to recompilation -/

/-- Claim C2: when the cache file for the hash is missing, or has another version, another
IR length, or IR bytes that differ from the current IR text, `jit_llvm_load` returns false
(whatever the system calls would answer, so without raising or terminating), and
`jit_llvm_compile` continues with the compilation of the IR: whenever it returns, the IR was
handed to the parser and `cache_hit` is false. -/
theorem jit_llvm_load_mismatch_recompiles (sys : Sys) (llvm : Llvm) (st : LlvmState)
    (fs : CacheDir) (buffer : List Nat) (hash : Nat)
    (h : fs hash = none ∨ ∃ file, fs hash = some file ∧
      (file.take 1 ≠ [ENOKI_LLVM_CACHE_VERSION] ∨
       le_decode ((file.drop 1).take 4) ≠ buffer.length ∨
       (file.drop 13).take buffer.length ≠ buffer)) :
    jit_llvm_load sys fs buffer hash = .ok none ∧
    jit_llvm_compile sys llvm st fs buffer hash =
      jit_llvm_compile_miss sys llvm st fs buffer hash ∧
    ∀ r, jit_llvm_compile sys llvm st fs buffer hash = .ok r →
      r.cache_hit = false ∧
      ∃ off, strstr buffer enoki_ = some off ∧
        r.parsed = [memcpy_at buffer off (kernel_name (st.jit_llvm_kernel_id % 2 ^ 32))] := by
  have hload : jit_llvm_load sys fs buffer hash = .ok none := by
    rcases h with h | ⟨file, hf, hbad⟩
    · simp [jit_llvm_load, h]
    · rw [jit_llvm_load_eq sys fs buffer hash file hf]
      by_cases ho : (!sys.open_ok) = true
      · rw [if_pos ho]
      rw [if_neg ho]
      by_cases hh : header_ok file buffer
      swap
      · rw [if_pos hh]
      rw [if_neg (not_not.mpr hh)]
      rcases hbad with hv | hl | hi
      · exact absurd (le_decode_singleton _ hh.1 hh.2.2.2.2.2.2) hv
      · exact absurd hh.2.2.2.2.1 hl
      · rw [if_pos hi]
  have hcomp : jit_llvm_compile sys llvm st fs buffer hash =
      jit_llvm_compile_miss sys llvm st fs buffer hash := by
    unfold jit_llvm_compile
    rw [hload]
  refine ⟨hload, hcomp, ?_⟩
  intro r hr
  rw [hcomp] at hr
  obtain ⟨off, _, _, hoff, _, hparsed, _, hhit, _, _⟩ :=
    jit_llvm_compile_miss_ok sys llvm st fs buffer hash r hr
  exact ⟨hhit, off, hoff, hparsed⟩

/-- Witness for C2: the sample directory holds a file for another IR text under hash 7. -/
theorem jit_llvm_load_mismatch_recompiles_witness :
    jit_llvm_load sys_good sample_dir sample_kernel_ir 7 = .ok none ∧
    jit_llvm_compile sys_good sample_llvm st_initial sample_dir sample_kernel_ir 7 =
      jit_llvm_compile_miss sys_good sample_llvm st_initial sample_dir sample_kernel_ir 7 ∧
    ∀ r, jit_llvm_compile sys_good sample_llvm st_initial sample_dir sample_kernel_ir 7 = .ok r →
      r.cache_hit = false ∧
      ∃ off, strstr sample_kernel_ir enoki_ = some off ∧
        r.parsed = [memcpy_at sample_kernel_ir off
          (kernel_name (st_initial.jit_llvm_kernel_id % 2 ^ 32))] :=
  jit_llvm_load_mismatch_recompiles sys_good sample_llvm st_initial sample_dir
    sample_kernel_ir 7 (Or.inr ⟨sample_file, rfl, Or.inr (Or.inl (by decide))⟩)

/-! ## Round trip through the cache -/

/-- Counterexample to C3 as stated: a file written with a function offset that is not
below the payload size (here offset 1, payload of one byte) is rejected by the load. -/
theorem write_then_load_rejects :
    write_then_load sys_good st_one_byte empty_dir sample_ir 7 1 = .ok none := by
  decide

/-- Claim C3, amended: when `jit_llvm_write` creates the file, the IR length and the payload
length fit into 32 bits, the function offset is below the payload length and the system
calls of the load succeed, a later `jit_llvm_load` with the same IR text and hash accepts
the file and yields the stored payload bytes, payload size and function offset. -/
theorem write_then_load_accepts (sys : Sys) (st : LlvmState) (fs : CacheDir)
    (buffer : List Nat) (hash func_offset : Nat)
    (hfresh : fs hash = none) (hc : sys.create_errno = none) (hw : sys.write_ok = true)
    (ho : sys.open_ok = true) (hmm : sys.mmap_ok = true) (hmp : sys.mprotect_ok = true)
    (hin : st.jit_llvm_mem_offset ≤ st.jit_llvm_mem.length)
    (hn : buffer.length < 2 ^ 32) (hm : st.jit_llvm_mem_offset < 2 ^ 32)
    (hf : func_offset < st.jit_llvm_mem_offset) :
    write_then_load sys st fs buffer hash func_offset =
      .ok (some { buffer := st.jit_llvm_mem.take st.jit_llvm_mem_offset,
                  func := func_offset, size := st.jit_llvm_mem_offset }) := by
  have hlen : (st.jit_llvm_mem.take st.jit_llvm_mem_offset).length = st.jit_llvm_mem_offset := by
    rw [List.length_take]; omega
  unfold write_then_load
  rw [jit_llvm_write_fresh_eq sys st fs buffer hash func_offset hfresh hc hw hin]
  simp only
  set payload := st.jit_llvm_mem.take st.jit_llvm_mem_offset with hpay
  set file := cache_file_layout buffer payload func_offset with hfile
  rw [jit_llvm_load_eq sys _ buffer hash file (by simp)]
  have h1 : file.take 1 = [1] := rfl
  have h2 : (file.drop 1).take 4 = u32_bytes buffer.length := rfl
  have h3 : (file.drop 5).take 4 = u32_bytes payload.length := rfl
  have h4 : (file.drop 9).take 4 = u32_bytes func_offset := rfl
  have h5 : file.drop 13 = buffer ++ payload := rfl
  have h6 : file.drop (13 + buffer.length) = payload := by
    rw [← List.drop_drop, h5, List.drop_left]
  have d2 : le_decode (u32_bytes buffer.length) = buffer.length := by
    rw [le_decode_u32_bytes, Nat.mod_eq_of_lt hn]
  have d3 : le_decode (u32_bytes payload.length) = st.jit_llvm_mem_offset := by
    rw [le_decode_u32_bytes, hlen, Nat.mod_eq_of_lt hm]
  have d4 : le_decode (u32_bytes func_offset) = func_offset := by
    rw [le_decode_u32_bytes, Nat.mod_eq_of_lt (by omega)]
  have hh : header_ok file buffer := by
    unfold header_ok
    rw [h1, h2, h3, h4, d2, d3, d4]
    exact ⟨rfl, rfl, rfl, rfl, rfl, hf, rfl⟩
  have hir : (file.drop 13).take buffer.length = buffer := by
    rw [h5, List.take_left]
  rw [h3, h4, h6, d3, d4]
  simp only [ho, hmm, hmp, Bool.not_true, Bool.false_eq_true, if_false, hh, not_true_eq_false,
    hir, ne_eq, hlen, le_refl]
  rw [← hlen, List.take_length]

/-- Witness for C3 (amended): one byte of payload with the entry point at offset 0. -/
theorem write_then_load_accepts_witness :
    write_then_load sys_good st_one_byte empty_dir sample_ir 7 0 =
      .ok (some { buffer := [195], func := 0, size := 1 }) :=
  write_then_load_accepts sys_good st_one_byte empty_dir sample_ir 7 0 rfl rfl rfl rfl rfl rfl
    (by decide) (by decide) (by decide) (by decide)

/-! ## Layout of the cache file -/

/-- Claim C4: the file that `jit_llvm_write` creates for an IR text of `n` bytes and a
payload of `m` bytes (the first `m = jit_llvm_mem_offset` bytes of `jit_llvm_mem`) has
exactly `13 + n + m` bytes: byte 0 is the version 1, bytes 1-4, 5-8 and 9-12 are the
little-endian `u32` encodings of `n`, `m` and the function offset (which decode to these
numbers when they fit into 32 bits), then comes the IR text verbatim and then the payload. -/
theorem jit_llvm_write_layout (sys : Sys) (st : LlvmState) (fs : CacheDir)
    (buffer : List Nat) (hash func_offset : Nat)
    (hfresh : fs hash = none) (hc : sys.create_errno = none) (hw : sys.write_ok = true)
    (hin : st.jit_llvm_mem_offset ≤ st.jit_llvm_mem.length) :
    ∃ fs1 file, jit_llvm_write sys st fs buffer hash func_offset = .ok fs1 ∧
      fs1 hash = some file ∧
      file = cache_file_layout buffer (st.jit_llvm_mem.take st.jit_llvm_mem_offset) func_offset ∧
      file.length = 13 + buffer.length + st.jit_llvm_mem_offset ∧
      file.take 1 = [1] ∧
      (file.drop 1).take 4 = u32_bytes buffer.length ∧
      (file.drop 5).take 4 = u32_bytes st.jit_llvm_mem_offset ∧
      (file.drop 9).take 4 = u32_bytes func_offset ∧
      (file.drop 13).take buffer.length = buffer ∧
      file.drop (13 + buffer.length) = st.jit_llvm_mem.take st.jit_llvm_mem_offset ∧
      (buffer.length < 2 ^ 32 → le_decode ((file.drop 1).take 4) = buffer.length) ∧
      (st.jit_llvm_mem_offset < 2 ^ 32 →
        le_decode ((file.drop 5).take 4) = st.jit_llvm_mem_offset) ∧
      (func_offset < 2 ^ 32 → le_decode ((file.drop 9).take 4) = func_offset) := by
  have hlen : (st.jit_llvm_mem.take st.jit_llvm_mem_offset).length = st.jit_llvm_mem_offset := by
    rw [List.length_take]; omega
  refine ⟨_, _, jit_llvm_write_fresh_eq sys st fs buffer hash func_offset hfresh hc hw hin,
    by simp, rfl, ?_⟩
  set payload := st.jit_llvm_mem.take st.jit_llvm_mem_offset with hpay
  set file := cache_file_layout buffer payload func_offset with hfile
  have h1 : file.take 1 = [1] := rfl
  have h2 : (file.drop 1).take 4 = u32_bytes buffer.length := rfl
  have h3 : (file.drop 5).take 4 = u32_bytes payload.length := rfl
  have h4 : (file.drop 9).take 4 = u32_bytes func_offset := rfl
  have h5 : file.drop 13 = buffer ++ payload := rfl
  have h6 : file.drop (13 + buffer.length) = payload := by
    rw [← List.drop_drop, h5, List.drop_left]
  have hfl : file.length = 13 + buffer.length + st.jit_llvm_mem_offset := by
    simp only [hfile, cache_file_layout, u32_bytes, List.length_append, List.length_cons,
      List.length_nil, hlen]
  rw [hlen] at h3
  refine ⟨hfl, h1, h2, h3, h4, by rw [h5, List.take_left], h6, ?_, ?_, ?_⟩
  · intro hn
    rw [h2, le_decode_u32_bytes, Nat.mod_eq_of_lt hn]
  · intro hm
    rw [h3, le_decode_u32_bytes, Nat.mod_eq_of_lt hm]
  · intro hf
    rw [h4, le_decode_u32_bytes, Nat.mod_eq_of_lt hf]

/-- Witness for C4: a two-byte IR text and a one-byte payload give a file of 16 bytes. -/
theorem jit_llvm_write_layout_witness :
    ∃ fs1 file, jit_llvm_write sys_good st_one_byte empty_dir sample_ir 7 0 = .ok fs1 ∧
      fs1 7 = some file ∧
      file = cache_file_layout sample_ir
        (st_one_byte.jit_llvm_mem.take st_one_byte.jit_llvm_mem_offset) 0 ∧
      file.length = 13 + sample_ir.length + st_one_byte.jit_llvm_mem_offset ∧
      file.take 1 = [1] ∧
      (file.drop 1).take 4 = u32_bytes sample_ir.length ∧
      (file.drop 5).take 4 = u32_bytes st_one_byte.jit_llvm_mem_offset ∧
      (file.drop 9).take 4 = u32_bytes 0 ∧
      (file.drop 13).take sample_ir.length = sample_ir ∧
      file.drop (13 + sample_ir.length) =
        st_one_byte.jit_llvm_mem.take st_one_byte.jit_llvm_mem_offset ∧
      (sample_ir.length < 2 ^ 32 → le_decode ((file.drop 1).take 4) = sample_ir.length) ∧
      (st_one_byte.jit_llvm_mem_offset < 2 ^ 32 →
        le_decode ((file.drop 5).take 4) = st_one_byte.jit_llvm_mem_offset) ∧
      ((0 : Nat) < 2 ^ 32 → le_decode ((file.drop 9).take 4) = 0) :=
  jit_llvm_write_layout sys_good st_one_byte empty_dir sample_ir 7 0 rfl rfl rfl (by decide)

/-! ## The cache-hit path of `jit_llvm_compile` -/

/-- Claim C5: when `jit_llvm_load` succeeds inside `jit_llvm_compile`, the call returns
the loaded kernel with `cache_hit = true`; nothing was handed to the IR parser, the IR
buffer, the cache directory and the globals (in particular `jit_llvm_kernel_id`) are as
they were at entry. -/
theorem jit_llvm_compile_cache_hit (sys : Sys) (llvm : Llvm) (st : LlvmState)
    (fs : CacheDir) (buffer : List Nat) (hash : Nat) (kernel : Kernel)
    (h : jit_llvm_load sys fs buffer hash = .ok (some kernel)) :
    ∃ r, jit_llvm_compile sys llvm st fs buffer hash = .ok r ∧
      r.kernel = kernel ∧ r.cache_hit = true ∧ r.parsed = [] ∧ r.buffer = buffer ∧
      r.fs = fs ∧ r.st = st ∧ r.st.jit_llvm_kernel_id = st.jit_llvm_kernel_id := by
  unfold jit_llvm_compile
  rw [h]
  exact ⟨_, rfl, rfl, rfl, rfl, rfl, rfl, rfl, rfl⟩

/-- Witness for C5: the sample file is a hit for `sample_ir`. -/
theorem jit_llvm_compile_cache_hit_witness :
    ∃ r, jit_llvm_compile sys_good sample_llvm st_initial sample_dir sample_ir 7 = .ok r ∧
      r.kernel = { buffer := [195], func := 0, size := 1 } ∧ r.cache_hit = true ∧
      r.parsed = [] ∧ r.buffer = sample_ir ∧ r.fs = sample_dir ∧ r.st = st_initial ∧
      r.st.jit_llvm_kernel_id = st_initial.jit_llvm_kernel_id :=
  jit_llvm_compile_cache_hit sys_good sample_llvm st_initial sample_dir sample_ir 7
    { buffer := [195], func := 0, size := 1 } (by decide)

/-! ## The cache-miss path of `jit_llvm_compile` -/

/-- A successful `jit_llvm_write` leaves the directory alone or adds the file for `hash`,
whose IR section is `buffer`. -/
theorem jit_llvm_write_ok_cases (sys : Sys) (st : LlvmState) (fs fs1 : CacheDir)
    (buffer : List Nat) (hash func_offset : Nat)
    (h : jit_llvm_write sys st fs buffer hash func_offset = .ok fs1) :
    fs1 = fs ∨ ∃ file, (file.drop 13).take buffer.length = buffer ∧
      fs1 = fun h => if h = hash then some file else fs h := by
  unfold jit_llvm_write at h
  cases ho : sys_open_excl sys fs hash with
  | failed e =>
    rw [ho] at h
    simp only at h
    split at h
    · cases h
    · simp only [Outcome.ok.injEq] at h
      exact Or.inl h.symm
  | fd =>
    rw [ho] at h
    simp only at h
    by_cases hw : sys.write_ok = true
    · simp only [write_retry_ok _ _ _ hw, Option.bind_some, Option.some_bind,
        Outcome.ok.injEq] at h
      refine Or.inr ⟨_, ?_, h.symm⟩
      simp [ENOKI_LLVM_CACHE_VERSION, u32_bytes]
    · simp [write_retry, hw] at h

/-- Claim C6: on the cache-miss path, when `jit_llvm_compile` returns, the text handed to
the parser was the IR with exactly the 14 bytes at the first occurrence of `enoki_`
replaced by `enoki_` followed by the 8 hexadecimal digits of the kernel id, the IR buffer
is byte for byte what it was at entry, and a cache file that the call added holds that
original IR text (a file that existed before is left as it was). -/
theorem jit_llvm_compile_miss_restores (sys : Sys) (llvm : Llvm) (st : LlvmState)
    (fs : CacheDir) (buffer : List Nat) (hash : Nat) (r : CompileResult)
    (hload : jit_llvm_load sys fs buffer hash = .ok none)
    (h : jit_llvm_compile sys llvm st fs buffer hash = .ok r) :
    ∃ off, (buffer.drop off).take 6 = enoki_ ∧
      (∀ j, j < off → (buffer.drop j).take 6 ≠ enoki_) ∧
      off + 14 ≤ buffer.length ∧
      (enoki_ ++ hex8 (st.jit_llvm_kernel_id % 2 ^ 32)).length = 14 ∧
      r.parsed = [buffer.take off ++ (enoki_ ++ hex8 (st.jit_llvm_kernel_id % 2 ^ 32)) ++
        buffer.drop (off + 14)] ∧
      r.buffer = buffer ∧
      (∀ file, r.fs hash = some file → fs hash = none →
        (file.drop 13).take buffer.length = buffer) ∧
      (∀ file, fs hash = some file → r.fs hash = some file) := by
  have hcomp : jit_llvm_compile sys llvm st fs buffer hash =
      jit_llvm_compile_miss sys llvm st fs buffer hash := by
    unfold jit_llvm_compile
    rw [hload]
  rw [hcomp] at h
  obtain ⟨off, st4, func_offset, hoff, hlen, hparsed, hbuf, _, _, hwrite⟩ :=
    jit_llvm_compile_miss_ok sys llvm st fs buffer hash r h
  obtain ⟨hocc, hfirst⟩ := strstr_first buffer enoki_ off (by decide) hoff
  refine ⟨off, hocc, hfirst, hlen, rfl, ?_, hbuf, ?_, ?_⟩
  · rw [hparsed]; rfl
  · intro file hfile hnone
    rcases jit_llvm_write_ok_cases sys st4 fs r.fs buffer hash func_offset hwrite with e | e
    · rw [e, hnone] at hfile
      cases hfile
    · obtain ⟨file1, hir, e⟩ := e
      rw [e] at hfile
      simp only [if_true, Option.some.injEq] at hfile
      rw [← hfile]
      exact hir
  · intro file hfile
    have ho : sys_open_excl sys fs hash = .failed EEXIST := by
      simp [sys_open_excl, hfile]
    rw [jit_llvm_write_eexist_eq sys st4 fs buffer hash func_offset ho] at hwrite
    simp only [Outcome.ok.injEq] at hwrite
    rw [← hwrite]
    exact hfile

/-- Witness for C6: the sample compilation into the empty cache directory. -/
theorem jit_llvm_compile_miss_restores_witness :
    ∃ off, (sample_kernel_ir.drop off).take 6 = enoki_ ∧
      (∀ j, j < off → (sample_kernel_ir.drop j).take 6 ≠ enoki_) ∧
      off + 14 ≤ sample_kernel_ir.length ∧
      (enoki_ ++ hex8 (st_initial.jit_llvm_kernel_id % 2 ^ 32)).length = 14 ∧
      sample_result.parsed = [sample_kernel_ir.take off ++
        (enoki_ ++ hex8 (st_initial.jit_llvm_kernel_id % 2 ^ 32)) ++
        sample_kernel_ir.drop (off + 14)] ∧
      sample_result.buffer = sample_kernel_ir ∧
      (∀ file, sample_result.fs 7 = some file → empty_dir 7 = none →
        (file.drop 13).take sample_kernel_ir.length = sample_kernel_ir) ∧
      (∀ file, empty_dir 7 = some file → sample_result.fs 7 = some file) :=
  jit_llvm_compile_miss_restores sys_good sample_llvm st_initial empty_dir sample_kernel_ir 7
    sample_result rfl rfl

/-! ## Creation of the cache file -/

/-- Claim C7: when the cache file for the hash exists, its exclusive creation fails with
`EEXIST`; in that case `jit_llvm_write` writes nothing, leaves the directory (and with it
the existing file) unchanged and returns normally; every other failure to create the file
ends in `jit_fail`. -/
theorem jit_llvm_write_eexist (sys : Sys) (st : LlvmState) (fs : CacheDir)
    (buffer : List Nat) (hash func_offset : Nat) :
    (∀ file, fs hash = some file → sys_open_excl sys fs hash = .failed EEXIST) ∧
    (sys_open_excl sys fs hash = .failed EEXIST →
      jit_llvm_write sys st fs buffer hash func_offset = .ok fs) ∧
    (∀ e, sys_open_excl sys fs hash = .failed e → e ≠ EEXIST →
      jit_llvm_write sys st fs buffer hash func_offset = .fail) := by
  refine ⟨?_, jit_llvm_write_eexist_eq sys st fs buffer hash func_offset, ?_⟩
  · intro file hfile
    simp [sys_open_excl, hfile]
  · intro e he hne
    unfold jit_llvm_write
    rw [he]
    simp [hne]

/-- Witness for C7: writing under the hash of the sample file changes nothing, and a
directory that is not writable is fatal. -/
theorem jit_llvm_write_eexist_witness :
    sys_open_excl sys_good sample_dir 7 = .failed EEXIST ∧
    jit_llvm_write sys_good st_one_byte sample_dir sample_kernel_ir 7 0 = .ok sample_dir ∧
    jit_llvm_write sys_readonly st_one_byte empty_dir sample_kernel_ir 7 0 = .fail :=
  ⟨(jit_llvm_write_eexist sys_good st_one_byte sample_dir sample_kernel_ir 7 0).1
      sample_file rfl,
   (jit_llvm_write_eexist sys_good st_one_byte sample_dir sample_kernel_ir 7 0).2.1 rfl,
   (jit_llvm_write_eexist sys_readonly st_one_byte empty_dir sample_kernel_ir 7 0).2.2
      13 rfl (by decide)⟩

/-! ## The bump allocator -/

theorem effective_align_pos (align : Nat) : 0 < effective_align align := by
  unfold effective_align
  split <;> omega

/-- Without wrap-around `offset_align` is the least multiple of the alignment that is not
below the offset. -/
theorem offset_align_least (offset align : Nat)
    (h : offset + effective_align align ≤ 2 ^ 64) :
    effective_align align ∣ offset_align offset align ∧
    offset ≤ offset_align offset align ∧
    offset_align offset align < offset + effective_align align ∧
    ∀ q, effective_align align ∣ q → offset ≤ q → offset_align offset align ≤ q := by
  have ha := effective_align_pos align
  set a := effective_align align with hadef
  have hmod : (offset + (a - 1)) % 2 ^ 64 = offset + (a - 1) :=
    Nat.mod_eq_of_lt (by omega)
  unfold offset_align
  rw [← hadef, hmod]
  set x := offset + (a - 1) with hx
  have hdm := Nat.div_add_mod x a
  have hml := Nat.mod_lt x ha
  have hcomm : x / a * a = a * (x / a) := Nat.mul_comm _ _
  refine ⟨Dvd.intro_left _ rfl, by omega, by omega, ?_⟩
  rintro q ⟨k, rfl⟩ hq
  have hlt : x < a * (k + 1) := by
    rw [Nat.mul_succ]; omega
  have hk : x / a < k + 1 := (Nat.div_lt_iff_lt_mul ha).mpr (by rw [Nat.mul_comm]; exact hlt)
  rw [hcomm]
  exact Nat.mul_le_mul_left a (by omega)

/-- Closed form of `jit_llvm_mem_allocate` when the arithmetic does not wrap around. -/
theorem jit_llvm_mem_allocate_nowrap (st : LlvmState) (size align : Nat)
    (h : st.jit_llvm_mem_offset + effective_align align + size < 2 ^ 64) :
    (jit_llvm_mem_allocate st size align).1 =
      (if offset_align st.jit_llvm_mem_offset align + size > st.jit_llvm_mem_size then none
       else some (offset_align st.jit_llvm_mem_offset align)) ∧
    (jit_llvm_mem_allocate st size align).2.jit_llvm_mem_offset =
      offset_align st.jit_llvm_mem_offset align + size ∧
    (jit_llvm_mem_allocate st size align).2.jit_llvm_mem_size = st.jit_llvm_mem_size := by
  obtain ⟨_, _, hlt, _⟩ := offset_align_least st.jit_llvm_mem_offset align (by omega)
  have hmod : (offset_align st.jit_llvm_mem_offset align + size) % 2 ^ 64 =
      offset_align st.jit_llvm_mem_offset align + size := Nat.mod_eq_of_lt (by omega)
  unfold jit_llvm_mem_allocate
  simp only [hmod]
  split <;> simp_all

theorem allocate_all_cons (st : LlvmState) (size align : Nat) (rest : List (Nat × Nat)) :
    allocate_all st ((size, align) :: rest) =
      { offset_before := st.jit_llvm_mem_offset, size := size, align := align,
        result := (jit_llvm_mem_allocate st size align).1 } ::
        allocate_all (jit_llvm_mem_allocate st size align).2 rest := rfl

/-- Invariant of a run of allocations that starts at any offset and does not wrap around. -/
theorem allocate_all_inv (reqs : List (Nat × Nat)) : ∀ st : LlvmState,
    st.jit_llvm_mem_offset + (reqs.map (fun r => r.1 + effective_align r.2)).sum < 2 ^ 64 →
    (∀ a ∈ allocate_all st reqs, st.jit_llvm_mem_offset ≤ a.offset_before ∧
      ∀ p, a.result = some p →
        effective_align a.align ∣ p ∧ a.offset_before ≤ p ∧
        (∀ q, effective_align a.align ∣ q → a.offset_before ≤ q → p ≤ q) ∧
        p + a.size ≤ st.jit_llvm_mem_size) ∧
    (∀ a, (allocate_all st reqs).head? = some a →
      a.offset_before = st.jit_llvm_mem_offset) ∧
    (allocate_all st reqs).Chain' (fun a b => ∀ q, b.result = some q →
      ∃ p, a.result = some p ∧ b.offset_before = p + a.size) ∧
    (allocate_all st reqs).Pairwise (fun a b => ∀ p q, a.result = some p →
      b.result = some q → p + a.size ≤ q) := by
  induction reqs with
  | nil =>
    intro st _
    simp [allocate_all]
  | cons req rest ih =>
    obtain ⟨size, align⟩ := req
    intro st hfit
    simp only [List.map_cons, List.sum_cons] at hfit
    obtain ⟨hres, hoff, hsize⟩ := jit_llvm_mem_allocate_nowrap st size align (by omega)
    obtain ⟨hdvd, hle, hlt, hleast⟩ :=
      offset_align_least st.jit_llvm_mem_offset align (by omega)
    obtain ⟨ih1, ih2, ih3, ih4⟩ := ih (jit_llvm_mem_allocate st size align).2
      (by rw [hoff]; omega)
    rw [hoff] at ih1 ih2
    rw [hsize] at ih1
    rw [allocate_all_cons]
    have hhead : ∀ p, (jit_llvm_mem_allocate st size align).1 = some p →
        p = offset_align st.jit_llvm_mem_offset align ∧
        offset_align st.jit_llvm_mem_offset align + size ≤ st.jit_llvm_mem_size := by
      intro p hp
      rw [hres] at hp
      split at hp
      · cases hp
      · simp only [Option.some.injEq] at hp
        exact ⟨hp.symm, by omega⟩
    refine ⟨?_, ?_, ?_, ?_⟩
    · intro a ha
      rcases List.mem_cons.mp ha with rfl | ha
      · refine ⟨le_refl _, ?_⟩
        intro p hp
        obtain ⟨rfl, hin⟩ := hhead p hp
        exact ⟨hdvd, hle, hleast, hin⟩
      · obtain ⟨h1, h2⟩ := ih1 a ha
        exact ⟨by omega, h2⟩
    · intro a ha
      simp only [List.head?_cons, Option.some.injEq] at ha
      rw [← ha]
    · rw [List.chain'_cons']
      refine ⟨?_, ih3⟩
      intro b hb q hq
      have hb1 : (allocate_all (jit_llvm_mem_allocate st size align).2 rest).head? = some b := hb
      have hbmem : b ∈ allocate_all (jit_llvm_mem_allocate st size align).2 rest :=
        List.mem_of_mem_head? hb
      have hbo := ih2 b hb1
      obtain ⟨_, hbp⟩ := ih1 b hbmem
      obtain ⟨_, hbq, _, hbin⟩ := hbp q hq
      refine ⟨offset_align st.jit_llvm_mem_offset align, ?_, hbo⟩
      simp only
      rw [hres, if_neg (by omega)]
    · rw [List.pairwise_cons]
      refine ⟨?_, ih4⟩
      intro b hb p q hp hq
      obtain ⟨rfl, _⟩ := hhead p hp
      obtain ⟨hb1, hb2⟩ := ih1 b hb
      obtain ⟨_, hbq, _, _⟩ := hb2 q hq
      simp only
      omega

/-- Counterexample to C8 as stated: with the offset reset to 0 and a buffer of 64 bytes, the
requests (size 16, align 16), (size 2^64 - 16, align 16), (size 8, align 1) all get a
non-null result, at offsets 0, 16 and 0: the sum `16 + (2^64 - 16)` wraps around to 0 in
`size_t`, so the second region ends far outside the buffer and the third one overlaps the
first. -/
theorem allocate_all_wraps :
    (allocate_all st_64 [(16, 16), (18446744073709551600, 16), (8, 1)]).map Allocation.result
      = [some 0, some 16, some 0] ∧
    ¬ (16 + 18446744073709551600 ≤ st_64.jit_llvm_mem_size) := by
  decide

/-- Claim C8, amended: for every sequence of section allocations made after the offset was
reset to 0 whose sizes and alignments (16 where the request says 0) add up to less than
2^64, each non-null result starts at the least multiple of its alignment that is not below
the offset at the time of the call and lies entirely inside `[0, jit_llvm_mem_size)`; the
offset at the first call is 0 and the offset at every later call with a non-null result is
the end of the preceding allocation, which is non-null too; the regions returned are
pairwise disjoint and in increasing address order. -/
theorem allocate_all_regions (st : LlvmState) (reqs : List (Nat × Nat))
    (h0 : st.jit_llvm_mem_offset = 0)
    (hfit : (reqs.map (fun r => r.1 + effective_align r.2)).sum < 2 ^ 64) :
    (∀ a ∈ allocate_all st reqs, ∀ p, a.result = some p →
      effective_align a.align ∣ p ∧ a.offset_before ≤ p ∧
      (∀ q, effective_align a.align ∣ q → a.offset_before ≤ q → p ≤ q) ∧
      p + a.size ≤ st.jit_llvm_mem_size) ∧
    (∀ a, (allocate_all st reqs).head? = some a → a.offset_before = 0) ∧
    (allocate_all st reqs).Chain' (fun a b => ∀ q, b.result = some q →
      ∃ p, a.result = some p ∧ b.offset_before = p + a.size) ∧
    (allocate_all st reqs).Pairwise (fun a b => ∀ p q, a.result = some p →
      b.result = some q → p + a.size ≤ q) := by
  obtain ⟨h1, h2, h3, h4⟩ := allocate_all_inv reqs st (by omega)
  rw [h0] at h2
  exact ⟨fun a ha => (h1 a ha).2, h2, h3, h4⟩

/-- Witness for C8 (amended): three sections in a buffer of 64 bytes, the last of which
does not fit. -/
theorem allocate_all_regions_witness :
    allocate_all st_64 [(3, 0), (20, 8), (40, 4)] =
      [{ offset_before := 0, size := 3, align := 0, result := some 0 },
       { offset_before := 3, size := 20, align := 8, result := some 8 },
       { offset_before := 28, size := 40, align := 4, result := none }] ∧
    ((∀ a ∈ allocate_all st_64 [(3, 0), (20, 8), (40, 4)], ∀ p, a.result = some p →
      effective_align a.align ∣ p ∧ a.offset_before ≤ p ∧
      (∀ q, effective_align a.align ∣ q → a.offset_before ≤ q → p ≤ q) ∧
      p + a.size ≤ st_64.jit_llvm_mem_size) ∧
    (∀ a, (allocate_all st_64 [(3, 0), (20, 8), (40, 4)]).head? = some a →
      a.offset_before = 0) ∧
    (allocate_all st_64 [(3, 0), (20, 8), (40, 4)]).Chain' (fun a b => ∀ q,
      b.result = some q → ∃ p, a.result = some p ∧ b.offset_before = p + a.size) ∧
    (allocate_all st_64 [(3, 0), (20, 8), (40, 4)]).Pairwise (fun a b => ∀ p q,
      a.result = some p → b.result = some q → p + a.size ≤ q)) :=
  ⟨by decide, allocate_all_regions st_64 [(3, 0), (20, 8), (40, 4)] rfl (by decide)⟩

/-! ## Reasoning about routines of the loop recorder -/

theorem bind_eq {α β : Type} (m : JitM α) (f : α → JitM β) (s : JitState) :
    (m >>= f) s = JitM.bind m f s := rfl

theorem pure_eq {α : Type} (a : α) (s : JitState) : (pure a : JitM α) s = .ok a s := rfl

theorem preserves_pure (P : JitState → Prop) {α : Type} (a : α) :
    Preserves P (pure a : JitM α) := by
  intro s h
  exact h

theorem preserves_bind' (P : JitState → Prop) {α β : Type} (m : JitM α) (f : α → JitM β)
    (hm : Preserves P m) (hf : ∀ a, Preserves P (f a)) : Preserves P (m.bind f) := by
  intro s h
  have := hm s h
  unfold JitM.bind
  cases hr : m s with
  | ok a s1 =>
    rw [hr] at this
    exact hf a s1 this
  | raise s1 =>
    rw [hr] at this
    exact this
  | undefined => trivial
  | diverge => trivial

theorem preserves_bind (P : JitState → Prop) {α β : Type} (m : JitM α) (f : α → JitM β)
    (hm : Preserves P m) (hf : ∀ a, Preserves P (f a)) : Preserves P (m >>= f) :=
  preserves_bind' P m f hm hf

theorem preserves_ite (P : JitState → Prop) {α : Type} (c : Prop) [Decidable c]
    (m1 m2 : JitM α) (h1 : Preserves P m1) (h2 : Preserves P m2) :
    Preserves P (if c then m1 else m2) := by
  split
  · exact h1
  · exact h2

theorem preserves_for_fold (P : JitState → Prop) {β : Type} (body : Nat → β → JitM β)
    (hb : ∀ i acc, Preserves P (body i acc)) (is : List Nat) :
    ∀ acc, Preserves P (for_fold body is acc) := by
  induction is with
  | nil => intro acc; exact preserves_pure P acc
  | cons i is ih =>
    intro acc
    exact preserves_bind' P _ _ (hb i acc) ih

theorem preserves_raise (P : JitState → Prop) {α : Type} : Preserves P (jitc_raise : JitM α) := by
  intro s h
  exact h

theorem preserves_undefined (P : JitState → Prop) {α : Type} :
    Preserves P (jitc_undefined : JitM α) := by
  intro s _
  trivial

theorem dec_ref_state_frame (fuel : Nat) : ∀ (index : Nat) (s : JitState),
    (dec_ref_state fuel index s).variable_index = s.variable_index ∧
    (dec_ref_state fuel index s).optimize_loops = s.optimize_loops ∧
    (dec_ref_state fuel index s).scope = s.scope ∧
    (dec_ref_state fuel index s).side_effects_symbolic = s.side_effects_symbolic ∧
    (dec_ref_state fuel index s).extra = s.extra ∧
    (dec_ref_state fuel index s).loop_data = s.loop_data ∧
    (dec_ref_state fuel index s).indices = s.indices := by
  induction fuel with
  | zero => intro index s; exact ⟨rfl, rfl, rfl, rfl, rfl, rfl, rfl⟩
  | succ fuel ih =>
    intro index s
    have h1 := fun i s => (ih i s).1
    have h2 := fun i s => (ih i s).2.1
    have h3 := fun i s => (ih i s).2.2.1
    have h4 := fun i s => (ih i s).2.2.2.1
    have h5 := fun i s => (ih i s).2.2.2.2.1
    have h6 := fun i s => (ih i s).2.2.2.2.2.1
    have h7 := fun i s => (ih i s).2.2.2.2.2.2
    unfold dec_ref_state
    split
    · exact ⟨rfl, rfl, rfl, rfl, rfl, rfl, rfl⟩
    · split
      · exact ⟨rfl, rfl, rfl, rfl, rfl, rfl, rfl⟩
      · split
        · simp only [h1, h2, h3, h4, h5, h6, h7, set_var, and_self]
        · exact ⟨rfl, rfl, rfl, rfl, rfl, rfl, rfl⟩

/-! ### Routines that leave the `LoopData` objects alone -/

section loop_data_frame

variable (Q : (Nat → Option LoopData) → Prop)

theorem preserves_ld_var (index : Nat) :
    Preserves (fun s => Q s.loop_data) (jitc_var index) := by
  intro s h
  unfold jitc_var
  split <;> exact h

theorem preserves_ld_inc_ref (index : Nat) :
    Preserves (fun s => Q s.loop_data) (jitc_var_inc_ref index) := by
  intro s h
  unfold jitc_var_inc_ref
  split
  · exact h
  · split <;> exact h

theorem preserves_ld_dec_ref (index : Nat) :
    Preserves (fun s => Q s.loop_data) (jitc_var_dec_ref index) := by
  intro s h
  unfold jitc_var_dec_ref
  split
  · exact h
  · split
    · simp only [Res.All]
      rw [(dec_ref_state_frame _ _ _).2.2.2.2.2.1]
      exact h
    · exact h

theorem preserves_ld_new (v : Variable) :
    Preserves (fun s => Q s.loop_data) (jitc_var_new v) := by
  intro s h
  exact h

theorem preserves_ld_new_scope (b : JitBackend) :
    Preserves (fun s => Q s.loop_data) (jitc_new_scope b) := by
  intro s h
  exact h

theorem preserves_ld_mark (index : Nat) :
    Preserves (fun s => Q s.loop_data) (jitc_var_mark_side_effect index) := by
  intro s h
  unfold jitc_var_mark_side_effect
  split
  · exact h
  · split <;> exact h

theorem preserves_ld_vec_get (xs : List Nat) (i : Nat) :
    Preserves (fun s => Q s.loop_data) (vec_get xs i) := by
  intro s h
  unfold vec_get
  cases xs[i]? with
  | some x => exact h
  | none => trivial

theorem preserves_ld_get_index (i : Nat) :
    Preserves (fun s => Q s.loop_data) (get_index i) := by
  intro s h
  unfold get_index
  split
  · exact h
  · trivial

theorem preserves_ld_set_index (i v : Nat) :
    Preserves (fun s => Q s.loop_data) (set_index i v) := by
  intro s h
  unfold set_index
  split
  · exact h
  · trivial

theorem preserves_ld_get_ld (p : Nat) :
    Preserves (fun s => Q s.loop_data) (get_ld p) := by
  intro s h
  unfold get_ld
  split
  · exact h
  · trivial

theorem preserves_ld_get_callback_data (i : Nat) :
    Preserves (fun s => Q s.loop_data) (get_callback_data i) := by
  intro s h
  unfold get_callback_data
  split
  · exact h
  · trivial

theorem preserves_ld_transfer (a b : Nat) :
    Preserves (fun s => Q s.loop_data) (loop_end_transfer a b) := by
  intro s h
  exact h

theorem preserves_ld_select (m t f : Nat) :
    Preserves (fun s => Q s.loop_data) (jitc_var_select m t f) := by
  unfold jitc_var_select
  refine preserves_bind' _ _ _ (preserves_ld_var Q _) fun _ => ?_
  refine preserves_bind' _ _ _ (preserves_ld_var Q _) fun _ => ?_
  refine preserves_bind' _ _ _ (preserves_ld_var Q _) fun _ => ?_
  refine preserves_bind' _ _ _ (preserves_ld_inc_ref Q _) fun _ => ?_
  refine preserves_bind' _ _ _ (preserves_ld_inc_ref Q _) fun _ => ?_
  refine preserves_bind' _ _ _ (preserves_ld_inc_ref Q _) fun _ => ?_
  exact preserves_ld_new Q _

end loop_data_frame

/-! ### The retry flag is never cleared -/

theorem preserves_retry_modify_ld (p q : Nat) (f : LoopData → LoopData)
    (hf : ∀ ld, ld.retry = true → (f ld).retry = true) :
    Preserves (fun s => retry_in p s.loop_data) (modify_ld q f) := by
  intro s h
  unfold modify_ld
  cases hq : s.loop_data q with
  | none => trivial
  | some ld =>
    simp only [Res.All]
    obtain ⟨ld0, h0, hr⟩ := h
    by_cases hpq : p = q
    · subst hpq
      rw [hq] at h0
      simp only [Option.some.injEq] at h0
      subst h0
      exact ⟨f ld, by simp, hf ld hr⟩
    · exact ⟨ld0, by simp [hpq, h0], hr⟩

theorem preserves_with_ref (P : JitState → Prop) {α : Type} (index : Nat) (body : JitM α)
    (hb : Preserves P body) (hd : Preserves P (jitc_var_dec_ref index)) :
    Preserves P (with_ref index body) := by
  intro s h
  have h1 := hb s h
  unfold with_ref
  cases hr : body s with
  | ok a s1 =>
    rw [hr] at h1
    have h2 := hd s1 h1
    simp only
    cases hr2 : jitc_var_dec_ref index s1 with
    | ok a s2 => rw [hr2] at h2; exact h2
    | raise s2 => rw [hr2] at h2; exact h2
    | undefined => trivial
    | diverge => trivial
  | raise s1 =>
    rw [hr] at h1
    have h2 := hd s1 h1
    simp only
    cases hr2 : jitc_var_dec_ref index s1 with
    | ok a s2 => rw [hr2] at h2; exact h2
    | raise s2 => rw [hr2] at h2; exact h2
    | undefined => trivial
    | diverge => trivial
  | undefined => trivial
  | diverge => trivial

theorem preserves_ld_side_effects (Q : (Nat → Option LoopData) → Prop) (backend : JitBackend)
    (symbolic : Bool) (size loop_end checkpoint : Nat) (fuel : Nat) :
    ∀ acc, Preserves (fun s => Q s.loop_data)
      (loop_end_side_effects backend symbolic size loop_end checkpoint fuel acc) := by
  induction fuel with
  | zero =>
    intro acc s h
    unfold loop_end_side_effects
    split
    · trivial
    · exact h
  | succ fuel ih =>
    intro acc s h
    unfold loop_end_side_effects
    split
    · cases (s.side_effects_symbolic backend).getLast? with
      | none => trivial
      | some se =>
        simp only
        refine preserves_bind _ _ _ (preserves_ld_inc_ref Q _) (fun _ => ?_) _ h
        refine preserves_bind _ _ _ (preserves_ld_inc_ref Q _) (fun _ => ?_)
        refine preserves_bind _ _ _ (preserves_ld_new Q _) (fun _ => ?_)
        exact ih _
    · exact h

theorem preserves_retry_loop_end_size (p q i size : Nat) :
    Preserves (fun s => retry_in p s.loop_data) (loop_end_size q i size) := by
  unfold loop_end_size
  repeat first
    | exact preserves_pure _ _
    | exact preserves_raise _
    | exact preserves_ld_var _ _
    | exact preserves_ld_get_ld _ _
    | exact preserves_ld_get_index _ _
    | exact preserves_ld_vec_get _ _ _
    | refine preserves_bind _ _ _ ?_ (fun _ => ?_)
    | refine preserves_ite _ _ _ _ ?_ ?_

theorem preserves_retry_loop_end_eliminate (p q : Nat) (optimize : Bool) (size i n : Nat) :
    Preserves (fun s => retry_in p s.loop_data) (loop_end_eliminate q optimize size i n) := by
  unfold loop_end_eliminate
  repeat first
    | exact preserves_pure _ _
    | exact preserves_raise _
    | exact preserves_ld_var _ _
    | exact preserves_ld_inc_ref _ _
    | exact preserves_ld_dec_ref _ _
    | exact preserves_ld_new _ _
    | exact preserves_ld_new_scope _ _
    | exact preserves_ld_mark _ _
    | exact preserves_ld_select _ _ _ _
    | exact preserves_ld_get_ld _ _
    | exact preserves_ld_get_index _ _
    | exact preserves_ld_set_index _ _ _
    | exact preserves_ld_vec_get _ _ _
    | exact preserves_ld_get_callback_data _ _
    | exact preserves_ld_transfer _ _ _
    | exact preserves_ld_side_effects _ _ _ _ _ _ _ _
    | exact preserves_retry_modify_ld _ _ _ (fun _ h => h)
    | refine preserves_bind _ _ _ ?_ (fun _ => ?_)
    | refine preserves_ite _ _ _ _ ?_ ?_

theorem preserves_retry_loop_end_reset (p q i : Nat) (u : Unit) :
    Preserves (fun s => retry_in p s.loop_data) (loop_end_reset q i u) := by
  unfold loop_end_reset
  repeat first
    | exact preserves_pure _ _
    | exact preserves_raise _
    | exact preserves_ld_var _ _
    | exact preserves_ld_inc_ref _ _
    | exact preserves_ld_dec_ref _ _
    | exact preserves_ld_new _ _
    | exact preserves_ld_new_scope _ _
    | exact preserves_ld_mark _ _
    | exact preserves_ld_select _ _ _ _
    | exact preserves_ld_get_ld _ _
    | exact preserves_ld_get_index _ _
    | exact preserves_ld_set_index _ _ _
    | exact preserves_ld_vec_get _ _ _
    | exact preserves_ld_get_callback_data _ _
    | exact preserves_ld_transfer _ _ _
    | exact preserves_ld_side_effects _ _ _ _ _ _ _ _
    | exact preserves_retry_modify_ld _ _ _ (fun _ h => h)
    | refine preserves_bind _ _ _ ?_ (fun _ => ?_)
    | refine preserves_ite _ _ _ _ ?_ ?_

theorem preserves_retry_loop_end_output (p q : Nat) (backend : JitBackend)
    (active i size : Nat) :
    Preserves (fun s => retry_in p s.loop_data) (loop_end_output q backend active i size) := by
  unfold loop_end_output
  repeat first
    | exact preserves_pure _ _
    | exact preserves_raise _
    | exact preserves_ld_var _ _
    | exact preserves_ld_inc_ref _ _
    | exact preserves_ld_dec_ref _ _
    | exact preserves_ld_new _ _
    | exact preserves_ld_new_scope _ _
    | exact preserves_ld_mark _ _
    | exact preserves_ld_select _ _ _ _
    | exact preserves_ld_get_ld _ _
    | exact preserves_ld_get_index _ _
    | exact preserves_ld_set_index _ _ _
    | exact preserves_ld_vec_get _ _ _
    | exact preserves_ld_get_callback_data _ _
    | exact preserves_ld_transfer _ _ _
    | exact preserves_ld_side_effects _ _ _ _ _ _ _ _
    | exact preserves_retry_modify_ld _ _ _ (fun _ h => h)
    | refine preserves_bind _ _ _ ?_ (fun _ => ?_)
    | refine preserves_ite _ _ _ _ ?_ ?_

theorem preserves_retry_loop_end_result (p q : Nat) (backend : JitBackend)
    (size loop_end i : Nat) (u : Unit) :
    Preserves (fun s => retry_in p s.loop_data)
      (loop_end_result q backend size loop_end i u) := by
  unfold loop_end_result
  repeat first
    | exact preserves_pure _ _
    | exact preserves_raise _
    | exact preserves_ld_var _ _
    | exact preserves_ld_inc_ref _ _
    | exact preserves_ld_dec_ref _ _
    | exact preserves_ld_new _ _
    | exact preserves_ld_new_scope _ _
    | exact preserves_ld_mark _ _
    | exact preserves_ld_select _ _ _ _
    | exact preserves_ld_get_ld _ _
    | exact preserves_ld_get_index _ _
    | exact preserves_ld_set_index _ _ _
    | exact preserves_ld_vec_get _ _ _
    | exact preserves_ld_get_callback_data _ _
    | exact preserves_ld_transfer _ _ _
    | exact preserves_ld_side_effects _ _ _ _ _ _ _ _
    | exact preserves_retry_modify_ld _ _ _ (fun _ h => h)
    | refine preserves_bind _ _ _ ?_ (fun _ => ?_)
    | refine preserves_ite _ _ _ _ ?_ ?_

theorem preserves_read (P : JitState → Prop) {α : Type} (g : JitState → α) :
    Preserves P (fun s => Res.ok (g s) s) := by
  intro s h
  exact h

theorem preserves_retry_loop_end_optimize (p q : Nat) (ld : LoopData) (optimize : Bool)
    (size : Nat) :
    Preserves (fun s => retry_in p s.loop_data) (loop_end_optimize q ld optimize size) := by
  unfold loop_end_optimize
  repeat first
    | exact preserves_pure _ _
    | exact preserves_raise _
    | exact preserves_read _ _
    | exact preserves_ld_var _ _
    | exact preserves_ld_inc_ref _ _
    | exact preserves_ld_dec_ref _ _
    | exact preserves_ld_new _ _
    | exact preserves_ld_new_scope _ _
    | exact preserves_ld_mark _ _
    | exact preserves_ld_get_ld _ _
    | exact preserves_ld_get_callback_data _ _
    | exact preserves_ld_transfer _ _ _
    | exact preserves_ld_side_effects _ _ _ _ _ _ _ _
    | exact preserves_retry_modify_ld _ _ _ (fun _ _ => rfl)
    | exact preserves_for_fold _ _ (preserves_retry_loop_end_size _ _) _ _
    | exact preserves_for_fold _ _ (preserves_retry_loop_end_eliminate _ _ _ _) _ _
    | exact preserves_for_fold _ _ (preserves_retry_loop_end_reset _ _) _ _
    | exact preserves_for_fold _ _ (preserves_retry_loop_end_output _ _ _ _) _ _
    | exact preserves_for_fold _ _ (preserves_retry_loop_end_result _ _ _ _ _) _ _
    | refine preserves_with_ref _ _ _ ?_ ?_
    | refine preserves_bind _ _ _ ?_ (fun _ => ?_)
    | refine preserves_bind' _ _ _ ?_ (fun _ => ?_)
    | refine preserves_ite _ _ _ _ ?_ ?_

theorem preserves_retry_loop_end_finish (p loop cond checkpoint q : Nat) (ld : LoopData) :
    Preserves (fun s => retry_in p s.loop_data)
      (loop_end_finish loop cond checkpoint q ld) := by
  unfold loop_end_finish
  repeat first
    | exact preserves_pure _ _
    | exact preserves_raise _
    | exact preserves_read _ _
    | exact preserves_ld_var _ _
    | exact preserves_ld_inc_ref _ _
    | exact preserves_ld_dec_ref _ _
    | exact preserves_ld_new _ _
    | exact preserves_ld_new_scope _ _
    | exact preserves_ld_mark _ _
    | exact preserves_ld_get_ld _ _
    | exact preserves_ld_get_callback_data _ _
    | exact preserves_ld_transfer _ _ _
    | exact preserves_ld_side_effects _ _ _ _ _ _ _ _
    | exact preserves_retry_modify_ld _ _ _ (fun _ _ => rfl)
    | exact preserves_for_fold _ _ (preserves_retry_loop_end_size _ _) _ _
    | exact preserves_for_fold _ _ (preserves_retry_loop_end_eliminate _ _ _ _) _ _
    | exact preserves_for_fold _ _ (preserves_retry_loop_end_reset _ _) _ _
    | exact preserves_for_fold _ _ (preserves_retry_loop_end_output _ _ _ _) _ _
    | exact preserves_for_fold _ _ (preserves_retry_loop_end_result _ _ _ _ _) _ _
    | refine preserves_with_ref _ _ _ ?_ ?_
    | refine preserves_bind _ _ _ ?_ (fun _ => ?_)
    | refine preserves_bind' _ _ _ ?_ (fun _ => ?_)
    | refine preserves_ite _ _ _ _ ?_ ?_

/-- No call of `jitc_var_loop_end`, on whichever loop, clears a retry flag that is set. -/
theorem preserves_retry_loop_end (p loop cond checkpoint : Nat) :
    Preserves (fun s => retry_in p s.loop_data) (jitc_var_loop_end loop cond checkpoint) := by
  unfold jitc_var_loop_end get_optimize
  repeat first
    | exact preserves_retry_loop_end_optimize _ _ _ _ _
    | exact preserves_retry_loop_end_finish _ _ _ _ _ _
    | exact preserves_pure _ _
    | exact preserves_raise _
    | exact preserves_read _ _
    | exact preserves_ld_var _ _
    | exact preserves_ld_inc_ref _ _
    | exact preserves_ld_dec_ref _ _
    | exact preserves_ld_new _ _
    | exact preserves_ld_new_scope _ _
    | exact preserves_ld_mark _ _
    | exact preserves_ld_get_ld _ _
    | exact preserves_ld_get_callback_data _ _
    | exact preserves_ld_transfer _ _ _
    | exact preserves_ld_side_effects _ _ _ _ _ _ _ _
    | exact preserves_retry_modify_ld _ _ _ (fun _ _ => rfl)
    | exact preserves_for_fold _ _ (preserves_retry_loop_end_size _ _) _ _
    | exact preserves_for_fold _ _ (preserves_retry_loop_end_eliminate _ _ _ _) _ _
    | exact preserves_for_fold _ _ (preserves_retry_loop_end_reset _ _) _ _
    | exact preserves_for_fold _ _ (preserves_retry_loop_end_output _ _ _ _) _ _
    | exact preserves_for_fold _ _ (preserves_retry_loop_end_result _ _ _ _ _) _ _
    | refine preserves_with_ref _ _ _ ?_ ?_
    | refine preserves_bind _ _ _ ?_ (fun _ => ?_)
    | refine preserves_bind' _ _ _ ?_ (fun _ => ?_)
    | refine preserves_ite _ _ _ _ ?_ ?_

/-! ### Partial correctness -/

theorem triple_bind' {α β : Type} (Pre : JitState → Prop) (m : JitM α) (f : α → JitM β)
    (R1 : α → JitState → Prop) (R : β → JitState → Prop)
    (hm : Triple Pre m R1) (hf : ∀ a, Triple (R1 a) (f a) R) : Triple Pre (m.bind f) R := by
  intro s h
  have h1 := hm s h
  unfold JitM.bind
  cases hr : m s with
  | ok a s1 =>
    rw [hr] at h1
    exact hf a s1 h1
  | raise s1 => trivial
  | undefined => trivial
  | diverge => trivial

theorem triple_bind {α β : Type} (Pre : JitState → Prop) (m : JitM α) (f : α → JitM β)
    (R1 : α → JitState → Prop) (R : β → JitState → Prop)
    (hm : Triple Pre m R1) (hf : ∀ a, Triple (R1 a) (f a) R) : Triple Pre (m >>= f) R :=
  triple_bind' Pre m f R1 R hm hf

theorem triple_any {α : Type} (Pre : JitState → Prop) (m : JitM α) :
    Triple Pre m (fun _ _ => True) := by
  intro s _
  cases m s <;> trivial

/-- A routine that is followed by one that returns only values with `V` returns only
values with `V`. -/
theorem triple_then' {α β : Type} (Pre : JitState → Prop) (m : JitM α) (f : α → JitM β)
    (V : β → Prop) (hf : ∀ a, Triple (fun _ => True) (f a) (fun b _ => V b)) :
    Triple Pre (m.bind f) (fun b _ => V b) :=
  triple_bind' Pre m f (fun _ _ => True) _ (triple_any Pre m) hf

theorem triple_then {α β : Type} (Pre : JitState → Prop) (m : JitM α) (f : α → JitM β)
    (V : β → Prop) (hf : ∀ a, Triple (fun _ => True) (f a) (fun b _ => V b)) :
    Triple Pre (m >>= f) (fun b _ => V b) :=
  triple_then' Pre m f V hf

theorem triple_of_prop {α : Type} (c : Prop) (m : JitM α) (R : α → JitState → Prop)
    (h : c → Triple (fun _ => True) m R) : Triple (fun _ => c) m R :=
  fun s hs => h hs s trivial

theorem triple_pure {α : Type} (Pre : JitState → Prop) (a : α) (R : α → JitState → Prop)
    (h : ∀ s, Pre s → R a s) : Triple Pre (pure a : JitM α) R :=
  fun s hs => h s hs

theorem triple_with_ref {α : Type} (Pre : JitState → Prop) (index : Nat) (body : JitM α)
    (V : α → Prop) (hb : Triple Pre body (fun a _ => V a)) :
    Triple Pre (with_ref index body) (fun a _ => V a) := by
  intro s h
  have h1 := hb s h
  unfold with_ref
  cases hr : body s with
  | ok a s1 =>
    rw [hr] at h1
    simp only
    cases jitc_var_dec_ref index s1 with
    | ok _ s2 => exact h1
    | raise s2 => trivial
    | undefined => trivial
    | diverge => trivial
  | raise s1 =>
    simp only
    cases jitc_var_dec_ref index s1 <;> trivial
  | undefined => trivial
  | diverge => trivial

/-- The part of `jitc_var_loop_end` after the optimization pass has no path that returns
false. -/
theorem loop_end_finish_true (loop cond checkpoint p : Nat) (ld : LoopData) :
    Triple (fun _ => True) (loop_end_finish loop cond checkpoint p ld)
      (fun b _ => b = true) := by
  unfold loop_end_finish
  repeat refine triple_then _ _ _ _ (fun _ => ?_)
  refine triple_with_ref _ _ _ _ ?_
  repeat refine triple_then _ _ _ _ (fun _ => ?_)
  exact triple_pure _ _ _ (fun _ _ => rfl)

/-- With the retry flag set `jitc_var_loop_end` skips its optimization pass. -/
theorem loop_end_retry_eq (p loop cond checkpoint : Nat) (s : JitState)
    (hcb : (s.extra loop).callback_data = some p) (hr : retry_set p s) :
    jitc_var_loop_end loop cond checkpoint s =
      loop_end_without_elimination loop cond checkpoint s := by
  obtain ⟨ld, hld, hretry⟩ := hr
  unfold jitc_var_loop_end loop_end_without_elimination loop_end_optimize
  simp only [JitM.bind, get_callback_data, hcb, get_ld, hld, hretry, Bool.not_true,
    Bool.false_eq_true, if_false, pure_eq]

/-- With the retry flag set `jitc_var_loop_end` does not return false. -/
theorem loop_end_retry_true (p loop cond checkpoint : Nat) (s s1 : JitState)
    (hcb : (s.extra loop).callback_data = some p) (hr : retry_set p s) :
    jitc_var_loop_end loop cond checkpoint s ≠ .ok false s1 := by
  rw [loop_end_retry_eq p loop cond checkpoint s hcb hr]
  have h : Triple (fun _ => True) (loop_end_without_elimination loop cond checkpoint)
      (fun b _ => b = true) := by
    unfold loop_end_without_elimination
    iterate 5 refine triple_then' _ _ _ _ (fun _ => ?_)
    exact loop_end_finish_true _ _ _ _ _
  intro hc
  have := h s trivial
  rw [hc] at this
  exact Bool.noConfusion this

theorem triple_get_callback_data (loop p : Nat) :
    Triple (fun s => (s.extra loop).callback_data = some p) (get_callback_data loop)
      (fun a _ => a = p) := by
  intro s h
  unfold get_callback_data
  rw [h]
  rfl

theorem triple_modify_ld_retry (p : Nat) :
    Triple (fun _ => True) (modify_ld p fun ld => { ld with retry := true })
      (fun _ s => retry_set p s) := by
  intro s _
  unfold modify_ld
  cases s.loop_data p with
  | none => trivial
  | some ld => exact ⟨{ ld with retry := true }, by simp, rfl⟩

/-- The optimization pass requests a re-recording only after it has set the retry flag. -/
theorem loop_end_optimize_sets_retry (p : Nat) (ld : LoopData) (optimize : Bool) (size : Nat) :
    Triple (fun _ => True) (loop_end_optimize p ld optimize size)
      (fun b s => b = true → retry_set p s) := by
  unfold loop_end_optimize
  split
  · refine triple_bind' _ _ _ (fun _ _ => True) _ (triple_any _ _) (fun n => ?_)
    split
    · refine triple_bind' _ _ _ (fun _ _ => True) _ (triple_any _ _) (fun _ => ?_)
      refine triple_bind' _ _ _ (fun _ s => retry_set p s) _ (triple_modify_ld_retry p)
        (fun _ => ?_)
      exact triple_pure _ _ _ (fun s hs _ => hs)
    · exact triple_pure _ _ _ (fun _ _ hc => Bool.noConfusion hc)
  · exact triple_pure _ _ _ (fun _ _ hc => Bool.noConfusion hc)

/-- A call of `jitc_var_loop_end` that returns false has set the retry flag. -/
theorem loop_end_false_sets_retry (p loop cond checkpoint : Nat) :
    Triple (fun s => (s.extra loop).callback_data = some p)
      (jitc_var_loop_end loop cond checkpoint) (fun b s => b = false → retry_set p s) := by
  unfold jitc_var_loop_end
  refine triple_bind' _ _ _ (fun a _ => a = p) _ (triple_get_callback_data loop p) (fun a => ?_)
  refine triple_of_prop _ _ _ (fun ha => ?_)
  subst ha
  refine triple_bind' _ _ _ (fun _ _ => True) _ (triple_any _ _) (fun ld => ?_)
  refine triple_bind' _ _ _ (fun _ _ => True) _ (triple_any _ _) (fun optimize => ?_)
  refine triple_bind' _ _ _ (fun _ _ => True) _ (triple_any _ _) (fun cond_v => ?_)
  refine triple_bind' _ _ _ (fun _ _ => True) _ (triple_any _ _) (fun size => ?_)
  refine triple_bind' _ _ _ (fun b s => b = true → retry_set a s) _
    (loop_end_optimize_sets_retry a ld optimize size) (fun rerecord => ?_)
  cases rerecord with
  | true =>
    exact triple_pure _ _ _ (fun s hs _ => hs rfl)
  | false =>
    intro s _
    have := loop_end_finish_true loop cond checkpoint a ld s trivial
    simp only [Bool.false_eq_true, if_false]
    cases hr : loop_end_finish loop cond checkpoint a ld s with
    | ok b s1 =>
      rw [hr] at this
      intro hb
      rw [show b = true from this] at hb
      exact Bool.noConfusion hb
    | raise s1 => trivial
    | undefined => trivial
    | diverge => trivial

/-! ## At most one call of `jitc_var_loop_end` returns false -/

theorem returned_false_on_iff (p : Nat) (cb : Option Nat) (r : Res Bool) :
    returned_false_on p (cb, r) = true ↔ cb = some p ∧ ∃ s1, r = .ok false s1 := by
  cases cb with
  | none => simp [returned_false_on]
  | some q =>
    cases r with
    | ok b s1 =>
      cases b with
      | true => simp [returned_false_on]
      | false =>
        simp only [returned_false_on, beq_iff_eq, Option.some.injEq, Res.ok.injEq, true_and]
        exact ⟨fun h => ⟨h, s1, rfl⟩, fun h => h.1⟩
    | raise s1 => simp [returned_false_on]
    | undefined => simp [returned_false_on]
    | diverge => simp [returned_false_on]

/-- In a sequence of calls at most one call on the `LoopData` at `p` returns false, and
none does once the retry flag is set. -/
theorem run_loop_end_count (p : Nat) (calls : List EndCall) :
    (∀ c ∈ calls, ∀ s, (c.prepare s).loop_data = s.loop_data) →
    ∀ s, (run_loop_end calls s).countP (returned_false_on p) ≤ 1 ∧
      (retry_set p s → (run_loop_end calls s).countP (returned_false_on p) = 0) := by
  induction calls with
  | nil =>
    intro _ s
    simp [run_loop_end]
  | cons c cs ih =>
    intro hprep s
    have ih1 := ih (fun c1 hc1 => hprep c1 (List.mem_cons_of_mem _ hc1))
    have hs0 : (c.prepare s).loop_data = s.loop_data := hprep c (List.mem_cons_self _ _) s
    have hpres := preserves_retry_loop_end p c.loop c.cond c.checkpoint (c.prepare s)
    have hsets := loop_end_false_sets_retry p c.loop c.cond c.checkpoint (c.prepare s)
    have hnot := fun s1 hcb hr =>
      loop_end_retry_true p c.loop c.cond c.checkpoint (c.prepare s) s1 hcb hr
    have hretry0 : retry_set p s ↔ retry_set p (c.prepare s) := by
      unfold retry_set
      rw [hs0]
    unfold run_loop_end
    simp only [List.countP_cons]
    cases hr : jitc_var_loop_end c.loop c.cond c.checkpoint (c.prepare s) with
    | ok b s1 =>
      rw [hr] at hpres hsets
      simp only
      by_cases hhead : returned_false_on p (((c.prepare s).extra c.loop).callback_data,
          (Res.ok b s1 : Res Bool)) = true
      · obtain ⟨hcb, s2, hb⟩ := (returned_false_on_iff p _ _).mp hhead
        simp only [Res.ok.injEq] at hb
        have hb1 : b = false := hb.1
        have hrs1 : retry_set p s1 := hsets hcb hb1
        have htail := (ih1 s1).2 hrs1
        rw [htail, if_pos hhead]
        refine ⟨le_refl _, fun hrs => ?_⟩
        exact absurd (hb1 ▸ hr) (hnot s1 hcb (hretry0.mp hrs))
      · rw [if_neg hhead]
        refine ⟨(ih1 s1).1, fun hrs => ?_⟩
        exact (ih1 s1).2 (hpres (hretry0.mp hrs))
    | raise s1 =>
      rw [hr] at hpres
      simp only
      have hhead : ¬ returned_false_on p (((c.prepare s).extra c.loop).callback_data,
          (Res.raise s1 : Res Bool)) = true := by
        rw [returned_false_on_iff]
        rintro ⟨_, s2, h2⟩
        cases h2
      rw [if_neg hhead]
      refine ⟨(ih1 s1).1, fun hrs => ?_⟩
      exact (ih1 s1).2 (hpres (hretry0.mp hrs))
    | undefined =>
      have hhead : ¬ returned_false_on p (((c.prepare s).extra c.loop).callback_data,
          (Res.undefined : Res Bool)) = true := by
        rw [returned_false_on_iff]
        rintro ⟨_, s2, h2⟩
        cases h2
      simp [hhead]
    | diverge =>
      have hhead : ¬ returned_false_on p (((c.prepare s).extra c.loop).callback_data,
          (Res.diverge : Res Bool)) = true := by
        rw [returned_false_on_iff]
        rintro ⟨_, s2, h2⟩
        cases h2
      simp [hhead]

/-- Claim C9: in every sequence of calls of `jitc_var_loop_end`, between which the caller
records but does not touch the `LoopData` objects, at most one call on a given loop (the
`LoopData` at address `p`) returns false; a call on it that returns false has set its
retry flag; and a call on it that finds the retry flag set skips the optimization pass (it
behaves as `jitc_var_loop_end` without that block), does not return false, so that it
returns true or raises, and leaves the retry flag set for all later calls. -/
theorem jitc_var_loop_end_false_once (p : Nat) (calls : List EndCall) (s : JitState)
    (hprep : ∀ c ∈ calls, ∀ s, (c.prepare s).loop_data = s.loop_data) :
    (run_loop_end calls s).countP (returned_false_on p) ≤ 1 ∧
    (∀ loop cond checkpoint s0 s1, (s0.extra loop).callback_data = some p →
      jitc_var_loop_end loop cond checkpoint s0 = .ok false s1 → retry_set p s1) ∧
    (∀ loop cond checkpoint s0, (s0.extra loop).callback_data = some p → retry_set p s0 →
      jitc_var_loop_end loop cond checkpoint s0 =
        loop_end_without_elimination loop cond checkpoint s0 ∧
      (∀ s1, jitc_var_loop_end loop cond checkpoint s0 ≠ .ok false s1) ∧
      (jitc_var_loop_end loop cond checkpoint s0).All (retry_set p)) := by
  refine ⟨(run_loop_end_count p calls hprep s).1, ?_, ?_⟩
  · intro loop cond checkpoint s0 s1 hcb hr
    have := loop_end_false_sets_retry p loop cond checkpoint s0 hcb
    rw [hr] at this
    exact this rfl
  · intro loop cond checkpoint s0 hcb hr
    exact ⟨loop_end_retry_eq p loop cond checkpoint s0 hcb hr,
      fun s1 => loop_end_retry_true p loop cond checkpoint s0 s1 hcb hr,
      preserves_retry_loop_end p loop cond checkpoint s0 hr⟩

/-- Witness for C9: on the sample loop the first call returns false and the second true. -/
theorem jitc_var_loop_end_false_once_witness :
    (run_loop_end sample_calls sample_recorded).map (fun e => (e.1, e.2.value?)) =
      [(some 3, some false), (some 3, some true)] ∧
    (run_loop_end sample_calls sample_recorded).countP (returned_false_on 3) ≤ 1 :=
  ⟨by decide!,
   (jitc_var_loop_end_false_once 3 sample_calls sample_recorded (by
      intro c hc s
      simp only [sample_calls, List.mem_cons, List.mem_singleton, List.not_mem_nil,
        or_false] at hc
      rcases hc with rfl | rfl <;> rfl)).1⟩

/-! ## `VariableKey` -/

theorem u32_bytes_inj (x y : Nat) (hx : x < 2 ^ 32) (hy : y < 2 ^ 32)
    (h : u32_bytes x = u32_bytes y) : x = y := by
  have := congrArg le_decode h
  rwa [le_decode_u32_bytes, le_decode_u32_bytes, Nat.mod_eq_of_lt hx, Nat.mod_eq_of_lt hy] at this

theorem u64_bytes_inj (x y : Nat) (hx : x < 2 ^ 64) (hy : y < 2 ^ 64)
    (h : Enoki.u64_bytes x = Enoki.u64_bytes y) : x = y := by
  unfold Enoki.u64_bytes at h
  have h1 := List.append_inj_left h rfl
  have h2 := List.append_inj_right h rfl
  have e1 := congrArg le_decode h1
  have e2 := u32_bytes_inj _ _ (by omega) (by omega) h2
  rw [le_decode_u32_bytes, le_decode_u32_bytes] at e1
  omega

/-- The comparison of two keys by `memcmp` is the comparison of the `cmd` pointers, of
`type`, `size`, `dep[0..2]` and `extra_dep`; no other member of the variables enters. -/
theorem VariableKey_eq_iff (a b : Enoki.Variable) (ha : a.in_range) (hb : b.in_range) :
    Enoki.VariableKey_eq (Enoki.VariableKey a) (Enoki.VariableKey b) = true ↔
      a.cmd = b.cmd ∧ a.type = b.type ∧ a.size = b.size ∧ a.dep0 = b.dep0 ∧
      a.dep1 = b.dep1 ∧ a.dep2 = b.dep2 ∧ a.extra_dep = b.extra_dep := by
  obtain ⟨ha1, ha2, ha3, ha4, ha5, ha6, ha7⟩ := ha
  obtain ⟨hb1, hb2, hb3, hb4, hb5, hb6, hb7⟩ := hb
  have key : ∀ v : Enoki.Variable, (Enoki.VariableKey v).take Enoki.sizeof_VariableKey =
      Enoki.u64_bytes v.cmd ++ (u32_bytes v.type ++ (u32_bytes v.size ++ (u32_bytes v.dep0 ++
        (u32_bytes v.dep1 ++ (u32_bytes v.dep2 ++ u32_bytes v.extra_dep))))) := by
    intro v
    rfl
  unfold Enoki.VariableKey_eq
  rw [key a, key b, beq_iff_eq]
  constructor
  · intro h
    have h1 := List.append_inj_left h rfl
    have t1 := List.append_inj_right h rfl
    have h2 := List.append_inj_left t1 rfl
    have t2 := List.append_inj_right t1 rfl
    have h3 := List.append_inj_left t2 rfl
    have t3 := List.append_inj_right t2 rfl
    have h4 := List.append_inj_left t3 rfl
    have t4 := List.append_inj_right t3 rfl
    have h5 := List.append_inj_left t4 rfl
    have t5 := List.append_inj_right t4 rfl
    have h6 := List.append_inj_left t5 rfl
    have h7 := List.append_inj_right t5 rfl
    exact ⟨u64_bytes_inj _ _ ha1 hb1 h1, u32_bytes_inj _ _ ha2 hb2 h2,
      u32_bytes_inj _ _ ha3 hb3 h3, u32_bytes_inj _ _ ha4 hb4 h4,
      u32_bytes_inj _ _ ha5 hb5 h5, u32_bytes_inj _ _ ha6 hb6 h6,
      u32_bytes_inj _ _ ha7 hb7 h7⟩
  · rintro ⟨h1, h2, h3, h4, h5, h6, h7⟩
    rw [h1, h2, h3, h4, h5, h6, h7]

/-- Claim C17 at the failing input: two variables whose commands are the same text `add`,
stored at the addresses 4096 and 8192, and which agree in type, size, `dep[0..2]` and
`extra_dep`, have keys that `VariableKey::operator==` tells apart. -/
theorem VariableKey_same_text_differs :
    (Enoki.sample_variable 4096).text Enoki.sample_strings =
      (Enoki.sample_variable 8192).text Enoki.sample_strings ∧
    (Enoki.sample_variable 4096).type = (Enoki.sample_variable 8192).type ∧
    (Enoki.sample_variable 4096).size = (Enoki.sample_variable 8192).size ∧
    (Enoki.sample_variable 4096).dep0 = (Enoki.sample_variable 8192).dep0 ∧
    (Enoki.sample_variable 4096).dep1 = (Enoki.sample_variable 8192).dep1 ∧
    (Enoki.sample_variable 4096).dep2 = (Enoki.sample_variable 8192).dep2 ∧
    (Enoki.sample_variable 4096).extra_dep = (Enoki.sample_variable 8192).extra_dep ∧
    Enoki.VariableKey_eq (Enoki.VariableKey (Enoki.sample_variable 4096))
      (Enoki.VariableKey (Enoki.sample_variable 8192)) = false := by
  decide

/-! ## Locking discipline of the API layer -/

theorem run_lock_accesses (accesses : List String) (rest : List Event) :
    run_lock true (accesses.map Event.access ++ rest) = run_lock true rest := by
  induction accesses with
  | nil => rfl
  | cons a as ih => simpa [run_lock] using ih

/-- A function that starts with a `lock_guard` makes all its accesses with the mutex held
and has released it when it is left, by return or by exception. -/
theorem run_lock_guarded (accesses : List String) (raise_at : Option Nat) :
    run_lock false (caller_events (.guarded accesses) raise_at) = some false := by
  cases raise_at with
  | none =>
    show run_lock true (accesses.map Event.access ++ [Event.unlock]) = some false
    rw [run_lock_accesses]
    rfl
  | some k =>
    show run_lock true ((accesses.take (k + 1)).map Event.access ++ [Event.unlock])
      = some false
    rw [run_lock_accesses]
    rfl

/-- Counterexample to C18 as stated: `jitc_has_llvm` reads `state.has_llvm` without the
mutex and `jitc_init_async` returns with the mutex held. -/
theorem api_not_all_guarded :
    { name := "jitc_has_llvm", body := .unguarded ["state.has_llvm"] } ∈ api_functions ∧
    run_lock false (caller_events (.unguarded ["state.has_llvm"]) none) = none ∧
    { name := "jitc_init_async", body := .async ["jit_init"] } ∈ api_functions ∧
    run_lock false (caller_events (.async ["jit_init"]) none) = some true := by
  decide

/-- Claim C18, amended: every function of the API layer other than `jitc_has_llvm`,
`jitc_has_cuda` and `jitc_init_async` acquires the state mutex before it reads or calls
into the core state and has released it on every exit, by return or by exception;
`jitc_init_async` acquires the mutex and returns holding it, and the thread it detaches
makes its accesses under the mutex and then releases it. -/
theorem api_lock_discipline (f : ApiFunction) (hf : f ∈ api_functions) :
    (f.name ≠ "jitc_has_llvm" → f.name ≠ "jitc_has_cuda" → f.name ≠ "jitc_init_async" →
      ∀ raise_at, run_lock false (caller_events f.body raise_at) = some false) ∧
    (f.name = "jitc_init_async" →
      (∀ raise_at, run_lock false (caller_events f.body raise_at) = some true) ∧
      run_lock true (thread_events f.body) = some false) := by
  have hall : ∀ g ∈ api_functions,
      (g.name ≠ "jitc_has_llvm" → g.name ≠ "jitc_has_cuda" → g.name ≠ "jitc_init_async" →
        ∃ accesses, g.body = .guarded accesses) ∧
      (g.name = "jitc_init_async" → g.body = .async ["jit_init"]) := by
    intro g hg
    simp only [api_functions, List.mem_cons, List.mem_singleton, List.not_mem_nil,
      or_false] at hg
    rcases hg with rfl | hg
    · exact ⟨fun _ _ _ => ⟨_, rfl⟩, fun h => absurd h (by decide)⟩
    rcases hg with rfl | hg
    · exact ⟨fun _ _ h => absurd rfl h, fun _ => rfl⟩
    rcases hg with rfl | hg
    · exact ⟨fun h _ _ => absurd rfl h, fun h => absurd h (by decide)⟩
    rcases hg with rfl | hg
    · exact ⟨fun _ h _ => absurd rfl h, fun h => absurd h (by decide)⟩
    repeat
      rcases hg with rfl | hg
      · exact ⟨fun _ _ _ => ⟨_, rfl⟩, fun h => absurd h (by decide)⟩
  obtain ⟨h1, h2⟩ := hall f hf
  constructor
  · intro n1 n2 n3 raise_at
    obtain ⟨accesses, hb⟩ := h1 n1 n2 n3
    rw [hb]
    exact run_lock_guarded accesses raise_at
  · intro hn
    rw [h2 hn]
    exact ⟨fun raise_at => rfl, rfl⟩

/-- Witness for C18 (amended): `jitc_malloc` and `jitc_init_async`. -/
theorem api_lock_discipline_witness :
    (∀ raise_at, run_lock false (caller_events (.guarded ["jit_malloc"]) raise_at)
      = some false) ∧
    (∀ raise_at, run_lock false (caller_events (.async ["jit_init"]) raise_at) = some true) ∧
    run_lock true (thread_events (.async ["jit_init"])) = some false :=
  ⟨(api_lock_discipline { name := "jitc_malloc", body := .guarded ["jit_malloc"] }
      (by decide)).1 (by decide) (by decide) (by decide),
   ((api_lock_discipline { name := "jitc_init_async", body := .async ["jit_init"] }
      (by decide)).2 rfl).1,
   ((api_lock_discipline { name := "jitc_init_async", body := .async ["jit_init"] }
      (by decide)).2 rfl).2⟩

/-! ## `jitc_var_loop_cond` -/

theorem bind_ok {α β : Type} (m : JitM α) (f : α → JitM β) (s s1 : JitState) (a : α)
    (h : m s = .ok a s1) : m.bind f s = f a s1 := by
  simp only [JitM.bind, h]

theorem bind_raise {α β : Type} (m : JitM α) (f : α → JitM β) (s s1 : JitState)
    (h : m s = .raise s1) : m.bind f s = .raise s1 := by
  simp only [JitM.bind, h]

theorem jitc_var_inc_ref_ok (s : JitState) (i : Nat) (v : Variable) (h : s.vars i = some v) :
    ∃ s1, jitc_var_inc_ref i s = .ok () s1 ∧ s1.variable_index = s.variable_index ∧
      (∀ j w, s.vars j = some w → ∃ w1, s1.vars j = some w1) := by
  unfold jitc_var_inc_ref
  by_cases h0 : i = 0
  · rw [if_pos h0]
    exact ⟨s, rfl, rfl, fun j w hw => ⟨w, hw⟩⟩
  · rw [if_neg h0, h]
    refine ⟨_, rfl, rfl, fun j w hw => ?_⟩
    simp only [set_var]
    split
    · exact ⟨_, rfl⟩
    · exact ⟨w, hw⟩

/-- Claim C14: for a valid loop handle and an existing variable `active`,
`jitc_var_loop_cond` raises exactly when `active` is not of type `Bool` or is not
symbolic, and then the state is the one at the call (no node was created and no
reference count changed); otherwise it returns the index of a new node of kind
`LoopCond` whose `dep[0]` is the start node of the loop and whose `dep[1]` is `active`. -/
theorem jitc_var_loop_cond_spec (s : JitState) (loop active p : Nat) (ld : LoopData)
    (lsv av : Variable)
    (hp : (s.extra loop).callback_data = some p) (hld : s.loop_data p = some ld)
    (hls : s.vars ld.loop_start = some lsv) (hav : s.vars active = some av) :
    ((av.type ≠ VarType.Bool ∨ av.symbolic = false) →
        jitc_var_loop_cond loop active s = .raise s) ∧
    ((av.type = VarType.Bool ∧ av.symbolic = true) →
        ∃ s1 v, jitc_var_loop_cond loop active s = .ok s.variable_index s1 ∧
          s1.variable_index = s.variable_index + 1 ∧
          s1.vars s.variable_index = some v ∧ v.kind = VarKind.LoopCond ∧
          v.dep0 = ld.loop_start ∧ v.dep1 = active) := by
  constructor
  · intro h
    simp only [jitc_var_loop_cond, bind, JitM.bind, get_callback_data, hp, get_ld, hld,
      jitc_var, hls, hav]
    rcases h with h | h
    · rw [if_pos h]; rfl
    · by_cases ht : av.type ≠ VarType.Bool
      · rw [if_pos ht]; rfl
      · rw [if_neg ht, h]; rfl
  · rintro ⟨ht, hsym⟩
    obtain ⟨s1, h1, hv1, he1⟩ := jitc_var_inc_ref_ok s ld.loop_start lsv hls
    obtain ⟨av1, hav1⟩ := he1 active av hav
    obtain ⟨s2, h2, hv2, _⟩ := jitc_var_inc_ref_ok s1 active av1 hav1
    simp only [jitc_var_loop_cond, bind, JitM.bind, get_callback_data, hp, get_ld, hld,
      jitc_var, hls, hav, ht, hsym, ne_eq, not_true_eq_false, if_false, Bool.not_true,
      Bool.false_eq_true]
    simp only [h1, h2, jitc_new_scope, jitc_var_new, set_var, pure]
    simp [hv1, hv2]

/-- Witness for C14: the mask of the sample loop is accepted and variable 8 is created. -/
theorem jitc_var_loop_cond_spec_witness :
    ∃ s1 v, jitc_var_loop_cond 6 7 sample_masked = .ok sample_masked.variable_index s1 ∧
      s1.variable_index = sample_masked.variable_index + 1 ∧
      s1.vars sample_masked.variable_index = some v ∧ v.kind = VarKind.LoopCond ∧
      v.dep0 = sample_ld.loop_start ∧ v.dep1 = 7 :=
  (jitc_var_loop_cond_spec sample_masked 6 7 3 sample_ld
    { kind := .LoopStart, type := .Void, size := 1, backend := .LLVM, symbolic := true,
      extra := true, ref_count := 3 }
    { type := .Bool, size := 4, backend := .LLVM, symbolic := true, dep0 := 4, ref_count := 1 }
    (by decide!) (by decide!) (by decide!) (by decide!)).2 ⟨rfl, rfl⟩

/-! ## The iteration size -/

theorem foldl_filter_map_max (c : Nat → Bool) (f : Nat → Nat) (is : List Nat) :
    ∀ acc, ((is.filter c).map f).foldl max acc
      = is.foldl (fun acc i => if c i then max acc (f i) else acc) acc := by
  induction is with
  | nil => intro acc; rfl
  | cons i is ih =>
    intro acc
    by_cases hc : c i = true
    · simp only [List.filter_cons, hc, if_true, List.map_cons, List.foldl_cons]
      exact ih _
    · simp only [List.filter_cons, hc, if_false, List.foldl_cons, Bool.false_eq_true]
      exact ih _

theorem loop_end_size_step (s : JitState) (p : Nat) (ld : LoopData) (i size : Nat)
    (hld : s.loop_data p = some ld) (hi : i < s.indices.length)
    (hin : i < ld.inner_inputs.length) (hout : i < ld.outer_inputs.length)
    (hex : slot_invariant s ld i = false →
      (s.vars (ld.outer_inputs.getD i 0)).isSome = true ∧
      (s.vars (s.indices.getD i 0)).isSome = true) :
    loop_end_size p i size s = .ok
      (if (!slot_invariant s ld i && !slot_dirty s i) = true then
        max size (max (var_size s (ld.outer_inputs.getD i 0)) (var_size s (s.indices.getD i 0)))
       else size) s := by
  have e1 : s.indices[i]? = some s.indices[i] := List.getElem?_eq_getElem hi
  have e2 : ld.inner_inputs[i]? = some ld.inner_inputs[i] := List.getElem?_eq_getElem hin
  have e3 : ld.outer_inputs[i]? = some ld.outer_inputs[i] := List.getElem?_eq_getElem hout
  have d1 : s.indices.getD i 0 = s.indices[i] := by simp [List.getD, e1]
  have d3 : ld.outer_inputs.getD i 0 = ld.outer_inputs[i] := by simp [List.getD, e3]
  rw [d1, d3] at hex ⊢
  by_cases hinv : s.indices[i] = ld.inner_inputs[i]
  · have : slot_invariant s ld i = true := by simp [slot_invariant, e1, e2, hinv]
    simp [loop_end_size, bind, JitM.bind, get_ld, hld, get_index, e1, vec_get, e2, hinv, this,
      pure]
  · have hsi : slot_invariant s ld i = false := by simp [slot_invariant, e1, e2, hinv]
    obtain ⟨h1, h2⟩ := hex hsi
    obtain ⟨v1, hv1⟩ := Option.isSome_iff_exists.mp h1
    obtain ⟨v2, hv2⟩ := Option.isSome_iff_exists.mp h2
    by_cases hd : v2.dirty = true
    · simp [loop_end_size, bind, JitM.bind, get_ld, hld, get_index, e1, vec_get, e2, e3, hinv,
        hsi, pure, jitc_var, hv1, hv2, hd, slot_dirty, var_dirty, d1]
    · simp [loop_end_size, bind, JitM.bind, get_ld, hld, get_index, e1, vec_get, e2, e3, hinv,
        hsi, pure, jitc_var, hv1, hv2, hd, slot_dirty, var_dirty, d1, var_size]

theorem loop_end_size_fold (s : JitState) (p : Nat) (ld : LoopData)
    (hld : s.loop_data p = some ld)
    (hex : ∀ i, i < ld.size → i < s.indices.length ∧ i < ld.inner_inputs.length ∧
      i < ld.outer_inputs.length ∧ (slot_invariant s ld i = false →
        (s.vars (ld.outer_inputs.getD i 0)).isSome = true ∧
        (s.vars (s.indices.getD i 0)).isSome = true))
    (is : List Nat) (his : ∀ i ∈ is, i < ld.size) :
    ∀ acc, for_fold (loop_end_size p) is acc s = .ok
      (is.foldl (fun acc i => if (!slot_invariant s ld i && !slot_dirty s i) = true then
        max acc (max (var_size s (ld.outer_inputs.getD i 0)) (var_size s (s.indices.getD i 0)))
        else acc) acc) s := by
  induction is with
  | nil => intro acc; rfl
  | cons i is ih =>
    intro acc
    obtain ⟨h1, h2, h3, h4⟩ := hex i (his i (List.mem_cons_self _ _))
    simp only [for_fold, List.foldl_cons]
    rw [bind_ok _ _ _ _ _ (loop_end_size_step s p ld i acc hld h1 h2 h3 h4)]
    exact ih (fun j hj => his j (List.mem_cons_of_mem _ hj)) _

/-- Claim C19: for a valid loop handle whose slots name existing variables, the first loop
of `jitc_var_loop_end` leaves the state alone and computes the maximum of the size of the
cond node and, over exactly the slots that are neither loop-invariant nor dirty, of the
sizes of the outer input and of the final variable; the call then makes its elimination
decisions with that size. -/
theorem jitc_var_loop_end_iteration_size (s : JitState) (loop cond checkpoint p : Nat)
    (ld : LoopData) (cv : Variable)
    (hp : (s.extra loop).callback_data = some p) (hld : s.loop_data p = some ld)
    (hc : s.vars cond = some cv)
    (hex : ∀ i, i < ld.size → i < s.indices.length ∧ i < ld.inner_inputs.length ∧
      i < ld.outer_inputs.length ∧ (slot_invariant s ld i = false →
        (s.vars (ld.outer_inputs.getD i 0)).isSome = true ∧
        (s.vars (s.indices.getD i 0)).isSome = true)) :
    for_fold (loop_end_size p) (List.range ld.size) cv.size s
      = .ok (iteration_size_spec s ld cv.size) s ∧
    jitc_var_loop_end loop cond checkpoint s
      = ((loop_end_optimize p ld s.optimize_loops (iteration_size_spec s ld cv.size)).bind
          fun rerecord =>
            if rerecord then pure false else loop_end_finish loop cond checkpoint p ld) s := by
  have h := loop_end_size_fold s p ld hld hex (List.range ld.size)
    (fun i hi => List.mem_range.mp hi) cv.size
  rw [← foldl_filter_map_max] at h
  refine ⟨h, ?_⟩
  unfold jitc_var_loop_end
  rw [bind_ok _ _ s s p (by simp [get_callback_data, hp]),
    bind_ok _ _ s s ld (by simp [get_ld, hld]),
    bind_ok get_optimize _ s s s.optimize_loops rfl,
    bind_ok _ _ s s cv (by simp [jitc_var, hc]),
    bind_ok _ _ _ _ _ h]
  rfl

/-- Witness for C19: the sample loop when the body replaced the second state variable by
variable 2. -/
theorem jitc_var_loop_end_iteration_size_witness :
    for_fold (loop_end_size 3) (List.range sample_ld.size) 4
        { sample_recorded with indices := [4, 2] }
      = .ok (iteration_size_spec { sample_recorded with indices := [4, 2] } sample_ld 4)
          { sample_recorded with indices := [4, 2] } ∧
    jitc_var_loop_end 6 8 0 { sample_recorded with indices := [4, 2] }
      = ((loop_end_optimize 3 sample_ld
            ({ sample_recorded with indices := [4, 2] } : JitState).optimize_loops
            (iteration_size_spec { sample_recorded with indices := [4, 2] } sample_ld 4)).bind
          fun rerecord =>
            if rerecord then pure false else loop_end_finish 6 8 0 3 sample_ld)
          { sample_recorded with indices := [4, 2] } :=
  jitc_var_loop_end_iteration_size { sample_recorded with indices := [4, 2] } 6 8 0 3
    sample_ld
    { kind := .LoopCond, type := .Void, size := 4, backend := .LLVM, symbolic := true,
      dep0 := 3, dep1 := 7, ref_count := 1 }
    (by decide!) (by decide!) (by decide!) (by decide!)

/-! ## The second pass of `jitc_var_loop_end` on an eliminated slot -/

theorem jitc_var_inc_ref_frame (s : JitState) (i : Nat) (v : Variable)
    (h : s.vars i = some v) :
    ∃ s1, jitc_var_inc_ref i s = .ok () s1 ∧ s1.loop_data = s.loop_data ∧
      s1.indices = s.indices ∧ s1.variable_index = s.variable_index := by
  unfold jitc_var_inc_ref
  by_cases h0 : i = 0
  · rw [if_pos h0]
    exact ⟨s, rfl, rfl, rfl, rfl⟩
  · rw [if_neg h0, h]
    exact ⟨_, rfl, rfl, rfl, rfl⟩

theorem for_fold_append {β : Type} (body : Nat → β → JitM β) (l1 l2 : List Nat) :
    ∀ (acc : β) (s : JitState), for_fold body (l1 ++ l2) acc s
      = (for_fold body l1 acc).bind (fun a => for_fold body l2 a) s := by
  induction l1 with
  | nil => intro acc s; rfl
  | cons i l1 ih =>
    intro acc s
    simp only [List.cons_append, for_fold, JitM.bind]
    cases body i acc s with
    | ok a s1 => exact ih a s1
    | raise s1 => rfl
    | undefined => rfl
    | diverge => rfl

theorem for_fold_range_succ {β : Type} (body : Nat → β → JitM β) (n : Nat) (acc : β)
    (s : JitState) : for_fold body (List.range (n + 1)) acc s
      = (for_fold body (List.range n) acc).bind (fun a => body n a) s := by
  rw [List.range_succ, for_fold_append]
  simp only [JitM.bind, for_fold]
  cases for_fold body (List.range n) acc s with
  | ok a s1 =>
    simp only []
    cases body n a s1 <;> rfl
  | raise s1 => rfl
  | undefined => rfl
  | diverge => rfl

theorem for_fold_range_raise {β : Type} (body : Nat → β → JitM β) (i : Nat) (acc a : β)
    (s0 s s1 : JitState) (hpre : for_fold body (List.range i) acc s0 = .ok a s)
    (hr : body i a s = .raise s1) :
    ∀ n, i < n → for_fold body (List.range n) acc s0 = .raise s1 := by
  intro n
  induction n with
  | zero => intro h; omega
  | succ k ih =>
    intro h
    rw [for_fold_range_succ]
    by_cases hk : i = k
    · subst hk
      rw [bind_ok _ _ _ _ _ hpre]
      exact hr
    · exact bind_raise _ _ _ _ (ih (by omega))

/-- One step of the second pass of `jitc_var_loop_end` on a slot that was
eliminated (its inner input equals its outer input) and whose final variable is not
dirty, the call raises at that slot, in the state reached, exactly when the final index
differs from the inner input of the slot and the two variables are not literals of equal
value; when it does not raise, the inner output appended for the slot is the inner input
itself. -/
theorem loop_end_output_eliminated_step (s : JitState) (p : Nat) (backend : JitBackend)
    (active i size : Nat) (ld : LoopData) (index inner : Nat) (v1 v2 : Variable)
    (hld : s.loop_data p = some ld) (hidx : s.indices[i]? = some index) (h0 : index ≠ 0)
    (hin : ld.inner_inputs[i]? = some inner) (hout : ld.outer_inputs[i]? = some inner)
    (hv1 : s.vars inner = some v1) (hv2 : s.vars index = some v2)
    (hd : v2.dirty = false) :
    ((index ≠ inner ∧
        ¬ (v2.is_literal = true ∧ v1.is_literal = true ∧ v1.literal = v2.literal)) →
      loop_end_output p backend active i size s = .raise s) ∧
    (¬ (index ≠ inner ∧
        ¬ (v2.is_literal = true ∧ v1.is_literal = true ∧ v1.literal = v2.literal)) →
      ∃ s1, loop_end_output p backend active i size s = .ok size s1 ∧
        s1.loop_data p = some { ld with inner_outputs := ld.inner_outputs ++ [inner] } ∧
        s1.indices = s.indices) := by
  constructor
  · intro h
    simp only [loop_end_output, bind, JitM.bind, get_index, hidx, h0, if_false, get_ld, hld,
      vec_get, hin, hout, pure, jitc_var, hv1, hv2, ne_eq, not_true_eq_false, hd,
      Bool.false_eq_true]
    rw [if_pos h]
    rfl
  · intro h
    obtain ⟨s1, h1, hl1, hi1, _⟩ := jitc_var_inc_ref_frame s inner v1 hv1
    simp only [loop_end_output, bind, JitM.bind, get_index, hidx, h0, if_false, get_ld, hld,
      vec_get, hin, hout, pure, jitc_var, hv1, hv2, ne_eq, not_true_eq_false, hd,
      Bool.false_eq_true]
    rw [if_neg h]
    rw [bind_ok _ _ _ _ _ h1]
    simp only [JitM.bind, modify_ld, hl1, hld]
    exact ⟨_, rfl, by simp, hi1⟩

/-- Claim C16: on the retry pass of `jitc_var_loop_end`, when the second pass has reached
slot `i` in state `s`, the slot was eliminated (its inner input equals its outer input)
and its final variable is not dirty, then the call raises at that slot exactly when the
final index differs from the inner input of the slot and the two variables are not
literals of equal value; when it does not raise there, the second pass goes on with the
inner input itself appended as the inner output of the slot. -/
theorem jitc_var_loop_end_retry_slot (s0 s : JitState) (loop cond checkpoint p : Nat)
    (ld0 ld : LoopData) (cv : Variable) (sz i size index inner : Nat) (v1 v2 : Variable)
    (hp : (s0.extra loop).callback_data = some p) (hld0 : s0.loop_data p = some ld0)
    (hretry : ld0.retry = true) (hc : s0.vars cond = some cv)
    (hsize : for_fold (loop_end_size p) (List.range ld0.size) cv.size s0 = .ok sz s0)
    (hi : i < ld0.size)
    (hpre : for_fold (loop_end_output p cv.backend cv.dep1) (List.range i) cv.size s0
      = .ok size s)
    (hld : s.loop_data p = some ld) (hidx : s.indices[i]? = some index) (h0 : index ≠ 0)
    (hin : ld.inner_inputs[i]? = some inner) (hout : ld.outer_inputs[i]? = some inner)
    (hv1 : s.vars inner = some v1) (hv2 : s.vars index = some v2)
    (hd : v2.dirty = false) :
    ((index ≠ inner ∧
        ¬ (v2.is_literal = true ∧ v1.is_literal = true ∧ v1.literal = v2.literal)) →
      jitc_var_loop_end loop cond checkpoint s0 = .raise s) ∧
    (¬ (index ≠ inner ∧
        ¬ (v2.is_literal = true ∧ v1.is_literal = true ∧ v1.literal = v2.literal)) →
      ∃ s1, for_fold (loop_end_output p cv.backend cv.dep1) (List.range (i + 1)) cv.size s0
          = .ok size s1 ∧
        s1.loop_data p = some { ld with inner_outputs := ld.inner_outputs ++ [inner] } ∧
        s1.indices = s.indices) := by
  have hstep := loop_end_output_eliminated_step s p cv.backend cv.dep1 i size ld index inner
    v1 v2 hld hidx h0 hin hout hv1 hv2 hd
  constructor
  · intro h
    have hr := for_fold_range_raise _ i _ _ s0 s s hpre (hstep.1 h) ld0.size hi
    unfold jitc_var_loop_end
    rw [bind_ok _ _ s0 s0 p (by simp [get_callback_data, hp]),
      bind_ok _ _ s0 s0 ld0 (by simp [get_ld, hld0]),
      bind_ok get_optimize _ s0 s0 s0.optimize_loops rfl,
      bind_ok _ _ s0 s0 cv (by simp [jitc_var, hc]),
      bind_ok _ _ _ _ _ hsize,
      bind_ok _ _ s0 s0 false (by simp [loop_end_optimize, hretry, pure])]
    simp only [Bool.false_eq_true, if_false, loop_end_finish, bind]
    rw [bind_ok _ _ s0 s0 cv (by simp [jitc_var, hc])]
    exact bind_raise _ _ _ _ hr
  · intro h
    obtain ⟨s1, h1, h2, h3⟩ := hstep.2 h
    refine ⟨s1, ?_, h2, h3⟩
    rw [for_fold_range_succ, bind_ok _ _ _ _ _ hpre]
    exact h1

/-- Witness for C16: the first slot of the sample loop on the retry pass. -/
theorem jitc_var_loop_end_retry_slot_witness :
    ∃ s1, for_fold (loop_end_output 3 sample_cond.backend sample_cond.dep1) (List.range (0 + 1))
        sample_cond.size sample_retry = .ok 4 s1 ∧
      s1.loop_data 3
        = some { sample_ld_retry with inner_outputs := sample_ld_retry.inner_outputs ++ [1] } ∧
      s1.indices = sample_retry.indices :=
  (jitc_var_loop_end_retry_slot sample_retry sample_retry 6 8 0 3 sample_ld_retry
    sample_ld_retry sample_cond _ 0 4 1 1
    { type := .Float32, size := 4, backend := .LLVM, ref_count := 4 }
    { type := .Float32, size := 4, backend := .LLVM, ref_count := 4 }
    (by decide!) (by decide!) rfl (by decide!)
    (loop_end_size_fold sample_retry 3 sample_ld_retry (by decide!) (by decide!)
      (List.range sample_ld_retry.size) (fun _ hi => List.mem_range.mp hi) 4)
    (by decide) rfl (by decide!) (by decide!) (by decide) (by decide!) (by decide!)
    (by decide!) (by decide!) rfl).2 (by decide)

/-! ## The optimization pass of `jitc_var_loop_end` -/

theorem nodesEq_refl (s : JitState) : NodesEq s s := fun _ => rfl

theorem nodesEq_trans (s s1 s2 : JitState) (h1 : NodesEq s s1) (h2 : NodesEq s1 s2) :
    NodesEq s s2 := fun j => (h2 j).trans (h1 j)

theorem nodesEq_lookup (s s1 : JitState) (h : NodesEq s s1) (j : Nat) (v : Variable)
    (hv : s.vars j = some v) : ∃ w, s1.vars j = some w ∧ w.node = v.node := by
  have := h j
  rw [hv] at this
  cases h1 : s1.vars j with
  | none => rw [h1] at this; cases this
  | some w =>
    rw [h1] at this
    exact ⟨w, rfl, Option.some.inj this⟩

theorem nodesEq_set_ref (s : JitState) (i : Nat) (v : Variable) (n : Nat)
    (h : s.vars i = some v) :
    NodesEq s (set_var s i (some { v with ref_count := n })) := by
  intro j
  simp only [set_var]
  split
  · next hj => rw [hj, h]; rfl
  · rfl

theorem jitc_var_inc_ref_eq (s : JitState) (i : Nat) (v : Variable) (h : s.vars i = some v) :
    jitc_var_inc_ref i s = .ok ()
      (if i = 0 then s else set_var s i (some { v with ref_count := v.ref_count + 1 })) := by
  unfold jitc_var_inc_ref
  split
  · rfl
  · rw [h]

theorem jitc_var_dec_ref_shared (s : JitState) (i : Nat) (v : Variable)
    (h : s.vars i = some v) (hrc : 2 ≤ v.ref_count) (h0 : i ≠ 0) :
    jitc_var_dec_ref i s = .ok ()
      (set_var s i (some { v with ref_count := v.ref_count - 1 })) := by
  unfold jitc_var_dec_ref
  rw [if_neg h0, h]
  simp only [dec_ref_state, if_neg h0, h]
  rw [if_neg (by omega)]

theorem loop_end_eliminate_test_node (optimize : Bool) (size index inner : Nat)
    (v1 v2 w1 w2 : Variable) (h1 : w1.node = v1.node) (h2 : w2.node = v2.node) :
    loop_end_eliminate_test optimize size index inner w1 w2
      = loop_end_eliminate_test optimize size index inner v1 v2 := by
  have a1 : w2.dirty = v2.dirty :=
    (congrArg Variable.dirty h2 : w2.node.dirty = v2.node.dirty)
  have a2 : w2.size = v2.size :=
    (congrArg Variable.size h2 : w2.node.size = v2.node.size)
  have a3 : w2.is_literal = v2.is_literal :=
    (congrArg Variable.is_literal h2 : w2.node.is_literal = v2.node.is_literal)
  have a4 : w2.literal = v2.literal :=
    (congrArg Variable.literal h2 : w2.node.literal = v2.node.literal)
  have a5 : w1.is_literal = v1.is_literal :=
    (congrArg Variable.is_literal h1 : w1.node.is_literal = v1.node.is_literal)
  have a6 : w1.literal = v1.literal :=
    (congrArg Variable.literal h1 : w1.node.literal = v1.node.literal)
  simp only [loop_end_eliminate_test, a1, a2, a3, a4, a5, a6]

theorem elimination_criterion_eq (s : JitState) (ld : LoopData) (optimize : Bool)
    (size i outer index inner : Nat) (v1 v2 : Variable)
    (hout : ld.outer_inputs[i]? = some outer) (hidx : s.indices[i]? = some index)
    (hin : ld.inner_inputs[i]? = some inner)
    (hv1 : s.vars outer = some v1) (hv2 : s.vars index = some v2) :
    elimination_criterion s ld optimize size i
      = loop_end_eliminate_test optimize size index inner v1 v2 := by
  have d1 : s.indices.getD i 0 = index := by simp [List.getD, hidx]
  have d3 : ld.outer_inputs.getD i 0 = outer := by simp [List.getD, hout]
  simp only [elimination_criterion, slot_dirty, slot_invariant, slot_same_literal, var_dirty,
    var_size, var_literal, d1, d3, hv1, hv2, hidx, hin, loop_end_eliminate_test]
  cases hd : v2.dirty <;> cases optimize <;> cases hl1 : v1.is_literal <;>
    cases hl2 : v2.is_literal <;> by_cases hii : index = inner <;>
    simp [hii]

theorem loop_end_eliminate_step (sk : JitState) (p : Nat) (ldk : LoopData) (optimize : Bool)
    (size i n outer index inner : Nat) (v1 v2 vi : Variable)
    (hld : sk.loop_data p = some ldk) (hout : ldk.outer_inputs[i]? = some outer)
    (hidx : sk.indices[i]? = some index) (hin : ldk.inner_inputs[i]? = some inner)
    (hv1 : sk.vars outer = some v1) (hv2 : sk.vars index = some v2)
    (hvi : sk.vars inner = some vi) (hrc : 2 ≤ vi.ref_count) (hi0 : inner ≠ 0) :
    ∃ s1, loop_end_eliminate p optimize size i n sk
        = .ok (if loop_end_eliminate_test optimize size index inner v1 v2 = true
            then n + 1 else n) s1 ∧
      s1.loop_data p = some (if loop_end_eliminate_test optimize size index inner v1 v2 = true
        then { ldk with inner_inputs := ldk.inner_inputs.set i outer } else ldk) ∧
      (∀ q, q ≠ p → s1.loop_data q = sk.loop_data q) ∧
      s1.indices = sk.indices ∧ NodesEq sk s1 ∧
      (∀ j w, j ≠ inner → sk.vars j = some w →
        ∃ w1, s1.vars j = some w1 ∧ w.ref_count ≤ w1.ref_count) := by
  by_cases ht : loop_end_eliminate_test optimize size index inner v1 v2 = true
  · -- the slot is eliminated
    have e1 := jitc_var_inc_ref_eq sk outer v1 hv1
    generalize hs1 : (if outer = 0 then sk
      else set_var sk outer (some { v1 with ref_count := v1.ref_count + 1 })) = s1 at e1
    have f1 : s1.loop_data = sk.loop_data ∧ s1.indices = sk.indices := by
      rw [← hs1]; split <;> exact ⟨rfl, rfl⟩
    have n1 : NodesEq sk s1 := by
      rw [← hs1]; split
      · exact nodesEq_refl sk
      · exact nodesEq_set_ref sk outer v1 _ hv1
    have r1 : ∀ j w, sk.vars j = some w →
        ∃ w1, s1.vars j = some w1 ∧ w.ref_count ≤ w1.ref_count := by
      intro j w hw
      rw [← hs1]; split
      · exact ⟨w, hw, le_refl _⟩
      · simp only [set_var]
        split
        · next hj =>
          rw [hj, hv1] at hw
          cases hw
          exact ⟨_, rfl, Nat.le_succ _⟩
        · exact ⟨w, hw, le_refl _⟩
    obtain ⟨vi1, hvi1, hrc1⟩ := r1 inner vi hvi
    have e2 := jitc_var_dec_ref_shared s1 inner vi1 hvi1 (by omega) hi0
    refine ⟨{ set_var s1 inner (some { vi1 with ref_count := vi1.ref_count - 1 }) with
      loop_data := fun q => if q = p then
        some { ldk with inner_inputs := ldk.inner_inputs.set i outer } else s1.loop_data q },
      ?_, ?_, ?_, ?_, ?_, ?_⟩
    · simp only [loop_end_eliminate, bind, JitM.bind, get_ld, hld, vec_get, hout, pure, jitc_var,
        hv1, get_index, hidx, hv2, hin, ht, if_true, e1, e2, modify_ld, set_var, f1.1]
    · simp [ht]
    · intro q hq
      simp [hq, f1.1]
    · exact f1.2
    · exact nodesEq_trans _ _ _ n1 (nodesEq_set_ref s1 inner vi1 _ hvi1)
    · intro j w hj hw
      obtain ⟨w1, hw1, hle⟩ := r1 j w hw
      refine ⟨w1, ?_, hle⟩
      simp only [set_var, if_neg hj]
      exact hw1
  · refine ⟨sk, ?_, ?_, fun _ _ => rfl, rfl, nodesEq_refl sk,
      fun j w _ hw => ⟨w, hw, le_refl _⟩⟩
    · simp only [loop_end_eliminate, bind, JitM.bind, get_ld, hld, vec_get, hout, pure, jitc_var,
        hv1, get_index, hidx, hv2, hin, ht, if_false, Bool.false_eq_true]
    · simp [ht, hld]

theorem getD_eq_of_getElem? (l : List Nat) (i x : Nat) (h : l[i]? = some x) :
    l.getD i 0 = x := by
  simp [List.getD, h]

theorem getElem?_eq_some_getD (l : List Nat) (i : Nat) (h : i < l.length) :
    l[i]? = some (l.getD i 0) := by
  simp [List.getD, List.getElem?_eq_getElem h]

theorem loop_end_eliminate_fold (s : JitState) (p : Nat) (ld : LoopData) (optimize : Bool)
    (size : Nat) (hld : s.loop_data p = some ld)
    (hlen : ld.size ≤ s.indices.length ∧ ld.size ≤ ld.inner_inputs.length ∧
      ld.size ≤ ld.outer_inputs.length)
    (hex : ∀ i, i < ld.size → (s.vars (ld.outer_inputs.getD i 0)).isSome = true ∧
      (s.vars (s.indices.getD i 0)).isSome = true)
    (hphi : ∀ i, i < ld.size → ld.inner_inputs.getD i 0 ≠ 0 ∧
      ∃ v, s.vars (ld.inner_inputs.getD i 0) = some v ∧ 2 ≤ v.ref_count)
    (hinj : ∀ i j, i < ld.size → j < ld.size →
      ld.inner_inputs.getD i 0 = ld.inner_inputs.getD j 0 → i = j) :
    ∀ k, k ≤ ld.size → ∃ sk inner_k,
      for_fold (loop_end_eliminate p optimize size) (List.range k) 0 s
        = .ok ((List.range k).filter (elimination_criterion s ld optimize size)).length sk ∧
      sk.loop_data p = some { ld with inner_inputs := inner_k } ∧
      (∀ q, q ≠ p → sk.loop_data q = s.loop_data q) ∧
      (∀ i, inner_k[i]? = if i < k ∧ elimination_criterion s ld optimize size i = true
        then ld.outer_inputs[i]? else ld.inner_inputs[i]?) ∧
      sk.indices = s.indices ∧ NodesEq s sk ∧
      (∀ i, k ≤ i → i < ld.size →
        ∃ v, sk.vars (ld.inner_inputs.getD i 0) = some v ∧ 2 ≤ v.ref_count) := by
  intro k
  induction k with
  | zero =>
    intro _
    refine ⟨s, ld.inner_inputs, rfl, hld, fun _ _ => rfl, fun i => ?_, rfl, nodesEq_refl s,
      fun i _ hi => (hphi i hi).2⟩
    simp
  | succ k ih =>
    intro hk
    obtain ⟨sk, inner_k, hrun, hldk, hother, hinner, hind, hnodes, hrcs⟩ := ih (by omega)
    have hks : k < ld.size := by omega
    have hout := getElem?_eq_some_getD ld.outer_inputs k (by omega)
    have hidx := getElem?_eq_some_getD s.indices k (by omega)
    have hin0 := getElem?_eq_some_getD ld.inner_inputs k (by omega)
    have hin : inner_k[k]? = some (ld.inner_inputs.getD k 0) := by
      rw [hinner k, if_neg (by omega), hin0]
    obtain ⟨v1, hv1⟩ := Option.isSome_iff_exists.mp (hex k hks).1
    obtain ⟨v2, hv2⟩ := Option.isSome_iff_exists.mp (hex k hks).2
    obtain ⟨w1, hw1, hn1⟩ := nodesEq_lookup s sk hnodes _ v1 hv1
    obtain ⟨w2, hw2, hn2⟩ := nodesEq_lookup s sk hnodes _ v2 hv2
    obtain ⟨vi, hvi, hrc⟩ := hrcs k (le_refl _) hks
    have hcrit := elimination_criterion_eq s ld optimize size k _ _ _ v1 v2 hout hidx hin0
      hv1 hv2
    have htest := loop_end_eliminate_test_node optimize size (s.indices.getD k 0)
      (ld.inner_inputs.getD k 0) v1 v2 w1 w2 hn1 hn2
    obtain ⟨s1, hstep, hld1, hother1, hind1, hnodes1, hrc1⟩ :=
      loop_end_eliminate_step sk p { ld with inner_inputs := inner_k } optimize size k
        ((List.range k).filter (elimination_criterion s ld optimize size)).length
        (ld.outer_inputs.getD k 0) (s.indices.getD k 0) (ld.inner_inputs.getD k 0) w1 w2 vi
        hldk hout (by rw [hind]; exact hidx) hin hw1 hw2 hvi hrc (hphi k hks).1
    rw [htest, ← hcrit] at hstep hld1
    refine ⟨s1, if elimination_criterion s ld optimize size k = true
        then inner_k.set k (ld.outer_inputs.getD k 0) else inner_k, ?_, ?_, ?_, ?_, ?_, ?_, ?_⟩
    · rw [for_fold_range_succ, bind_ok _ _ _ _ _ hrun, hstep, List.range_succ,
        List.filter_append]
      congr 1
      by_cases hc : elimination_criterion s ld optimize size k = true
      · simp [hc]
      · simp [hc]
    · rw [hld1]
      split <;> rfl
    · intro q hq
      rw [hother1 q hq, hother q hq]
    · intro i
      by_cases hc : elimination_criterion s ld optimize size k = true
      · rw [if_pos hc, List.getElem?_set]
        by_cases hki : k = i
        · subst hki
          have hl : k < inner_k.length := by
            have := hin
            by_contra hcon
            rw [List.getElem?_eq_none (by omega)] at this
            cases this
          rw [if_pos rfl, if_pos hl, if_pos ⟨by omega, hc⟩, hout]
        · rw [if_neg hki, hinner i]
          by_cases hik : i < k
          · by_cases hci : elimination_criterion s ld optimize size i = true
            · rw [if_pos ⟨hik, hci⟩, if_pos ⟨by omega, hci⟩]
            · rw [if_neg (fun h => hci h.2), if_neg (fun h => hci h.2)]
          · rw [if_neg (fun h => hik h.1), if_neg (fun h => by omega)]
      · rw [if_neg hc, hinner i]
        by_cases hki : k = i
        · subst hki
          rw [if_neg (fun h => hc h.2), if_neg (fun h => hc h.2)]
        · by_cases hik : i < k
          · by_cases hci : elimination_criterion s ld optimize size i = true
            · rw [if_pos ⟨hik, hci⟩, if_pos ⟨by omega, hci⟩]
            · rw [if_neg (fun h => hci h.2), if_neg (fun h => hci h.2)]
          · rw [if_neg (fun h => hik h.1), if_neg (fun h => by omega)]
    · rw [hind1, hind]
    · exact nodesEq_trans _ _ _ hnodes hnodes1
    · intro i hki hi
      obtain ⟨v, hv, hvrc⟩ := hrcs i (by omega) hi
      have hne : ld.inner_inputs.getD i 0 ≠ ld.inner_inputs.getD k 0 := by
        intro heq
        have := hinj i k hi hks heq
        omega
      obtain ⟨w, hw, hle⟩ := hrc1 _ v hne hv
      exact ⟨w, hw, by omega⟩


theorem loop_end_reset_fold (s : JitState) (p : Nat) (ld : LoopData)
    (hld : s.loop_data p = some ld) :
    ∀ k, k ≤ s.indices.length → k ≤ ld.inner_inputs.length →
      ∃ idx, for_fold (loop_end_reset p) (List.range k) () s
          = .ok () { s with indices := idx } ∧
        idx.length = s.indices.length ∧
        ∀ i, idx[i]? = if i < k then ld.inner_inputs[i]? else s.indices[i]? := by
  intro k
  induction k with
  | zero =>
    intro _ _
    exact ⟨s.indices, rfl, rfl, fun i => by simp⟩
  | succ k ih =>
    intro h1 h2
    obtain ⟨idx, hrun, hlen, hget⟩ := ih (by omega) (by omega)
    have hin := getElem?_eq_some_getD ld.inner_inputs k (by omega)
    refine ⟨idx.set k (ld.inner_inputs.getD k 0), ?_, by simp [hlen], fun i => ?_⟩
    · rw [for_fold_range_succ, bind_ok _ _ _ _ _ hrun]
      simp only [loop_end_reset, bind, JitM.bind, get_ld, hld, vec_get, hin, pure, set_index]
      rw [if_pos (by omega)]
    · rw [List.getElem?_set]
      by_cases hki : k = i
      · subst hki
        rw [if_pos rfl, if_pos (by omega), if_pos (by omega), hin]
      · rw [if_neg hki, hget i]
        by_cases hik : i < k
        · rw [if_pos hik, if_pos (by omega)]
        · rw [if_neg hik, if_neg (by omega)]

/-- Counterexample to C11 as stated: with loop optimizations switched off, the first slot
of the sample loop is loop-invariant, yet the optimization pass eliminates nothing and the
call leaves the inner inputs as they were. -/
theorem loop_end_optimize_keeps_invariant_slot :
    slot_invariant sample_unoptimized sample_ld 0 = true ∧
    (loop_end_optimize 3 sample_ld false 4 sample_unoptimized).value? = some false ∧
    ((loop_end_optimize 3 sample_ld false 4 sample_unoptimized).state
      sample_unoptimized).loop_data 3 = some sample_ld ∧
    (((jitc_var_loop_end 6 8 0 sample_unoptimized).state sample_unoptimized).loop_data 3).map
      LoopData.inner_inputs = some [4, 5] := by
  decide!

/-- Claim C11, amended: on a call of `jitc_var_loop_end` for a loop that has not yet been
retried, whose slots name existing variables and whose phi nodes are distinct and still
referenced from elsewhere, the optimization pass returns, and it eliminates slot `i`
(replaces its inner input by its outer input) exactly when the final variable of the slot
is dirty, or the slot is loop-invariant and either loop optimizations are on or the size
of its variable differs from the iteration size, or loop optimizations are on and the
outer input and the final variable are literals of the same value; the pass asks for a
retry exactly when some slot was eliminated, and then the array of the caller holds the
new inner inputs. -/
theorem loop_end_optimize_eliminates (s : JitState) (p : Nat) (ld : LoopData)
    (optimize : Bool) (size : Nat)
    (hld : s.loop_data p = some ld) (hretry : ld.retry = false)
    (hlen : ld.size ≤ s.indices.length ∧ ld.size ≤ ld.inner_inputs.length ∧
      ld.size ≤ ld.outer_inputs.length)
    (hex : ∀ i, i < ld.size → (s.vars (ld.outer_inputs.getD i 0)).isSome = true ∧
      (s.vars (s.indices.getD i 0)).isSome = true)
    (hphi : ∀ i, i < ld.size → ld.inner_inputs.getD i 0 ≠ 0 ∧
      2 ≤ var_ref_count s (ld.inner_inputs.getD i 0))
    (hinj : ∀ i j, i < ld.size → j < ld.size →
      ld.inner_inputs.getD i 0 = ld.inner_inputs.getD j 0 → i = j) :
    ∃ s1 inner1 rerecord,
      loop_end_optimize p ld optimize size s = .ok rerecord s1 ∧
      s1.loop_data p = some { ld with inner_inputs := inner1, retry := rerecord } ∧
      (∀ i, i < ld.size →
        inner1[i]? = if elimination_criterion s ld optimize size i = true
          then ld.outer_inputs[i]? else ld.inner_inputs[i]?) ∧
      (rerecord = true ↔ ∃ i, i < ld.size ∧ elimination_criterion s ld optimize size i = true) ∧
      (∀ i, i < ld.size →
        s1.indices[i]? = if rerecord = true then inner1[i]? else s.indices[i]?) := by
  have hphi1 : ∀ i, i < ld.size → ld.inner_inputs.getD i 0 ≠ 0 ∧
      ∃ v, s.vars (ld.inner_inputs.getD i 0) = some v ∧ 2 ≤ v.ref_count := by
    intro i hi
    refine ⟨(hphi i hi).1, ?_⟩
    have h2 := (hphi i hi).2
    unfold var_ref_count at h2
    cases hv : s.vars (ld.inner_inputs.getD i 0) with
    | none => rw [hv] at h2; simp at h2
    | some v => rw [hv] at h2; exact ⟨v, rfl, h2⟩
  obtain ⟨sk, inner_k, hrun, hldk, _, hinner, hind, _, _⟩ :=
    loop_end_eliminate_fold s p ld optimize size hld hlen hex hphi1 hinj ld.size (le_refl _)
  have hlenk : inner_k.length = ld.inner_inputs.length := by
    apply le_antisymm
    · by_contra hcon
      have h1 := hinner ld.inner_inputs.length
      rw [List.getElem?_eq_getElem (by omega), List.getElem?_eq_none (le_refl _)] at h1
      split at h1
      · next hc =>
        have := hc.1
        omega
      · cases h1
    · by_contra hcon
      have h1 := hinner inner_k.length
      rw [List.getElem?_eq_none (le_refl _)] at h1
      split at h1
      · next hc =>
        rw [List.getElem?_eq_getElem (by have := hc.1; omega)] at h1
        cases h1
      · rw [List.getElem?_eq_getElem (by omega)] at h1
        cases h1
  have hcount : (0 < ((List.range ld.size).filter
      (elimination_criterion s ld optimize size)).length) ↔
      ∃ i, i < ld.size ∧ elimination_criterion s ld optimize size i = true := by
    rw [List.length_pos_iff_exists_mem]
    constructor
    · rintro ⟨i, hi⟩
      rw [List.mem_filter, List.mem_range] at hi
      exact ⟨i, hi⟩
    · rintro ⟨i, hi⟩
      exact ⟨i, by rw [List.mem_filter, List.mem_range]; exact hi⟩
  by_cases hn : 0 < ((List.range ld.size).filter
      (elimination_criterion s ld optimize size)).length
  · obtain ⟨idx, hreset, _, hidx⟩ := loop_end_reset_fold sk p { ld with inner_inputs := inner_k }
      hldk ld.size (by rw [hind]; exact hlen.1) (by rw [hlenk]; exact hlen.2.1)
    refine ⟨{ sk with
      indices := idx
      loop_data := fun q => if q = p then
        some { ld with inner_inputs := inner_k, retry := true } else sk.loop_data q },
      inner_k, true, ?_, by simp, ?_, ?_, ?_⟩
    · simp only [loop_end_optimize, hretry, Bool.not_false, if_true]
      rw [bind_ok _ _ _ _ _ hrun]
      simp only [gt_iff_lt, hn, decide_True, if_true]
      rw [bind_ok _ _ _ _ _ hreset]
      simp only [JitM.bind, modify_ld, hldk, pure]
    · intro i hi
      rw [hinner i]
      by_cases hc : elimination_criterion s ld optimize size i = true
      · rw [if_pos ⟨hi, hc⟩, if_pos hc]
      · rw [if_neg (fun h => hc h.2), if_neg hc]
    · simp only [true_iff]
      exact hcount.mp hn
    · intro i hi
      simp only [if_true]
      rw [hidx i, if_pos hi]
  · refine ⟨sk, inner_k, false, ?_, ?_, ?_, ?_, ?_⟩
    · simp only [loop_end_optimize, hretry, Bool.not_false, if_true]
      rw [bind_ok _ _ _ _ _ hrun]
      simp only [gt_iff_lt, hn, decide_False, if_false, Bool.false_eq_true]
      rfl
    · rw [hldk, ← hretry]
    · intro i hi
      rw [hinner i]
      by_cases hc : elimination_criterion s ld optimize size i = true
      · rw [if_pos ⟨hi, hc⟩, if_pos hc]
      · rw [if_neg (fun h => hc h.2), if_neg hc]
    · simp only [Bool.false_eq_true, false_iff]
      exact fun h => hn (hcount.mpr h)
    · intro i _
      simp only [Bool.false_eq_true, if_false]
      rw [hind]

/-- Witness for C11 (amended): the optimization pass on the sample loop. -/
theorem loop_end_optimize_eliminates_witness :
    ∃ s1 inner1 rerecord,
      loop_end_optimize 3 sample_ld true 4 sample_recorded = .ok rerecord s1 ∧
      s1.loop_data 3 = some { sample_ld with inner_inputs := inner1, retry := rerecord } ∧
      (∀ i, i < sample_ld.size →
        inner1[i]? = if elimination_criterion sample_recorded sample_ld true 4 i = true
          then sample_ld.outer_inputs[i]? else sample_ld.inner_inputs[i]?) ∧
      (rerecord = true ↔
        ∃ i, i < sample_ld.size ∧ elimination_criterion sample_recorded sample_ld true 4 i = true) ∧
      (∀ i, i < sample_ld.size →
        s1.indices[i]? = if rerecord = true then inner1[i]? else sample_recorded.indices[i]?) :=
  loop_end_optimize_eliminates sample_recorded 3 sample_ld true 4 (by decide!) (by decide)
    (by decide!) (by decide!) (by decide!)
    (fun i j hi hj => by
      have hi2 : i < 2 := hi
      have hj2 : j < 2 := hj
      interval_cases i <;> interval_cases j <;> decide)

/-! ## The validation in `jitc_var_loop_start` -/

theorem any_range_succ (f : Nat → Bool) (k : Nat) :
    (List.range (k + 1)).any f = ((List.range k).any f || f k) := by
  rw [List.range_succ, List.any_append]
  simp

theorem loop_start_check_step (s : JitState) (k x : Nat) (b0 : JitBackend) (a1 a2 : Bool)
    (hidx : s.indices[k]? = some x) :
    loop_start_check k (b0, a1, a2) s
      = if x = 0 then .raise s
        else match s.vars x with
          | none => .raise s
          | some v2 =>
            if k = 0 then .ok (v2.backend, v2.symbolic, v2.dirty) s
            else if v2.backend ≠ b0 then .raise s
            else .ok (b0, a1 || v2.symbolic, a2 || v2.dirty) s := by
  by_cases h0 : x = 0
  · simp only [loop_start_check, bind, JitM.bind, get_index, hidx, h0, if_true, jitc_raise]
  · cases hv : s.vars x with
    | none =>
      simp only [loop_start_check, bind, JitM.bind, get_index, hidx, h0, if_false, jitc_var, hv]
    | some v2 =>
      simp only [loop_start_check, bind, JitM.bind, get_index, hidx, h0, if_false, jitc_var, hv]
      by_cases hk : k = 0
      · simp only [hk, if_true, pure]
      · simp only [hk, if_false]
        by_cases hb : v2.backend ≠ b0
        · simp only [hb, if_true, ne_eq, not_false_eq_true, jitc_raise]
        · simp only [hb, if_false, pure]

theorem check_acc_succ (s : JitState) (k : Nat) :
    check_acc s (k + 1) = (var_backend s (s.indices.getD 0 0),
      (check_acc s k).2.1 || var_symbolic s (s.indices.getD k 0),
      (check_acc s k).2.2 || slot_dirty s k) := by
  simp only [check_acc, any_range_succ, Nat.succ_ne_zero, if_false]

theorem loop_start_check_fold (s : JitState) (n : Nat) (hn : n ≤ s.indices.length) :
    ∀ k, k ≤ n →
      for_fold loop_start_check (List.range k) (JitBackend.None, false, false) s
        = if (List.range k).any (check_bad s) = true then .raise s
          else .ok (check_acc s k) s := by
  intro k
  induction k with
  | zero => intro _; rfl
  | succ k ih =>
    intro hk
    rw [for_fold_range_succ, any_range_succ]
    have hidx := getElem?_eq_some_getD s.indices k (by omega)
    by_cases hb : (List.range k).any (check_bad s) = true
    · rw [bind_raise _ _ _ _ (by rw [ih (by omega), if_pos hb])]
      simp only [hb, Bool.true_or, if_true]
    · rw [bind_ok _ _ _ _ _ (by rw [ih (by omega), if_neg hb])]
      have hacc : check_acc s k = ((check_acc s k).1, (check_acc s k).2.1, (check_acc s k).2.2) :=
        rfl
      rw [hacc, loop_start_check_step s k _ _ _ _ hidx, check_acc_succ]
      simp only [hb, Bool.false_or, check_bad, slot_dirty]
      by_cases hk0 : k = 0
      · subst hk0
        simp only [check_acc, List.range_zero, List.any_nil, if_true, Bool.false_or]
        generalize s.indices.getD 0 0 = x
        by_cases h0 : x = 0
        · simp [h0]
        · cases hv : s.vars x with
          | none => simp [h0, hv]
          | some v2 => simp [h0, hv, var_backend, var_symbolic, var_dirty]
      · have hb0 : (check_acc s k).1 = var_backend s (s.indices.getD 0 0) := by
          simp only [check_acc, hk0, if_false]
        rw [hb0]
        generalize var_backend s (s.indices.getD 0 0) = bb
        generalize s.indices.getD k 0 = x
        by_cases h0 : x = 0
        · simp [h0]
        · cases hv : s.vars x with
          | none => simp [h0, hv]
          | some v2 =>
            by_cases hbk : v2.backend = bb
            · simp [h0, hk0, hv, hbk, var_backend, var_symbolic, var_dirty]
            · simp [h0, hk0, hv, hbk, var_backend, var_symbolic, var_dirty]

theorem loop_start_dirty_fold (t : JitState) (n : Nat) (hn : n ≤ t.indices.length)
    (hex : ∀ i, i < n → (t.vars (t.indices.getD i 0)).isSome = true) :
    ∀ k, k ≤ n → for_fold loop_start_dirty (List.range k) false t
      = .ok ((List.range k).any (slot_dirty t)) t := by
  intro k
  induction k with
  | zero => intro _; rfl
  | succ k ih =>
    intro hk
    rw [for_fold_range_succ, any_range_succ, bind_ok _ _ _ _ _ (ih (by omega))]
    have hidx := getElem?_eq_some_getD t.indices k (by omega)
    obtain ⟨v, hv⟩ := Option.isSome_iff_exists.mp (hex k (by omega))
    simp only [loop_start_dirty, bind, JitM.bind, get_index, hidx, jitc_var, hv, pure,
      slot_dirty, var_dirty]

/-! ## States after reference counting -/

theorem jitc_var_inc_ref_run (s : JitState) (i : Nat) (h : (s.vars i).isSome = true) :
    jitc_var_inc_ref i s = .ok () (inc_ref_state s i) := by
  obtain ⟨v, hv⟩ := Option.isSome_iff_exists.mp h
  unfold jitc_var_inc_ref inc_ref_state
  split
  · rfl
  · rw [hv]

@[simp] theorem inc_ref_state_loop_data (s : JitState) (i : Nat) :
    (inc_ref_state s i).loop_data = s.loop_data := by
  unfold inc_ref_state
  split
  · rfl
  · split <;> rfl

@[simp] theorem inc_ref_state_indices (s : JitState) (i : Nat) :
    (inc_ref_state s i).indices = s.indices := by
  unfold inc_ref_state
  split
  · rfl
  · split <;> rfl

@[simp] theorem inc_ref_state_variable_index (s : JitState) (i : Nat) :
    (inc_ref_state s i).variable_index = s.variable_index := by
  unfold inc_ref_state
  split
  · rfl
  · split <;> rfl

@[simp] theorem inc_ref_state_extra (s : JitState) (i : Nat) :
    (inc_ref_state s i).extra = s.extra := by
  unfold inc_ref_state
  split
  · rfl
  · split <;> rfl

@[simp] theorem inc_ref_state_side_effects (s : JitState) (i : Nat) :
    (inc_ref_state s i).side_effects_symbolic = s.side_effects_symbolic := by
  unfold inc_ref_state
  split
  · rfl
  · split <;> rfl

theorem inc_ref_state_nodesEq (s : JitState) (i : Nat) : NodesEq s (inc_ref_state s i) := by
  unfold inc_ref_state
  split
  · exact nodesEq_refl s
  · split
    · next v hv => exact nodesEq_set_ref s i v _ hv
    · exact nodesEq_refl s

@[simp] theorem inc_ref_state_node (s : JitState) (i j : Nat) :
    ((inc_ref_state s i).vars j).map Variable.node = (s.vars j).map Variable.node :=
  inc_ref_state_nodesEq s i j

@[simp] theorem inc_ref_state_isSome (s : JitState) (i j : Nat) :
    ((inc_ref_state s i).vars j).isSome = (s.vars j).isSome := by
  have h := inc_ref_state_node s i j
  cases h1 : (inc_ref_state s i).vars j <;> cases h2 : s.vars j <;> simp_all

theorem inc_ref_state_ref_count (s : JitState) (i j : Nat) :
    var_ref_count s j ≤ var_ref_count (inc_ref_state s i) j := by
  unfold inc_ref_state
  split
  · exact Nat.le_refl _
  · split
    · next v hv =>
      unfold var_ref_count set_var
      by_cases hj : j = i
      · simp only [hj, if_true, hv]
        exact Nat.le_succ _
      · simp only [hj, if_false]
        exact Nat.le_refl _
    · exact Nat.le_refl _

theorem node_of_lookup (s s1 : JitState) (j : Nat) (v : Variable)
    (h : (s1.vars j).map Variable.node = (s.vars j).map Variable.node)
    (hv : s.vars j = some v) : ∃ w, s1.vars j = some w ∧ w.node = v.node := by
  rw [hv] at h
  cases h1 : s1.vars j with
  | none => rw [h1] at h; cases h
  | some w =>
    rw [h1] at h
    exact ⟨w, rfl, Option.some.inj h⟩


/-! ## Projections of updated states -/

@[simp] theorem set_ld_vars (s : JitState) (p : Nat) (l : LoopData) :
    (set_ld s p l).vars = s.vars := rfl

@[simp] theorem set_ld_variable_index (s : JitState) (p : Nat) (l : LoopData) :
    (set_ld s p l).variable_index = s.variable_index := rfl

@[simp] theorem set_ld_indices (s : JitState) (p : Nat) (l : LoopData) :
    (set_ld s p l).indices = s.indices := rfl

@[simp] theorem set_ld_extra (s : JitState) (p : Nat) (l : LoopData) :
    (set_ld s p l).extra = s.extra := rfl

@[simp] theorem set_ld_side_effects_symbolic (s : JitState) (p : Nat) (l : LoopData) :
    (set_ld s p l).side_effects_symbolic = s.side_effects_symbolic := rfl

@[simp] theorem set_ld_optimize_loops (s : JitState) (p : Nat) (l : LoopData) :
    (set_ld s p l).optimize_loops = s.optimize_loops := rfl

@[simp] theorem set_indices_vars (s : JitState) (idx : List Nat) :
    (set_indices s idx).vars = s.vars := rfl

@[simp] theorem set_indices_variable_index (s : JitState) (idx : List Nat) :
    (set_indices s idx).variable_index = s.variable_index := rfl

@[simp] theorem set_indices_loop_data (s : JitState) (idx : List Nat) :
    (set_indices s idx).loop_data = s.loop_data := rfl

@[simp] theorem set_indices_extra (s : JitState) (idx : List Nat) :
    (set_indices s idx).extra = s.extra := rfl

@[simp] theorem set_indices_side_effects_symbolic (s : JitState) (idx : List Nat) :
    (set_indices s idx).side_effects_symbolic = s.side_effects_symbolic := rfl

@[simp] theorem set_indices_optimize_loops (s : JitState) (idx : List Nat) :
    (set_indices s idx).optimize_loops = s.optimize_loops := rfl

@[simp] theorem new_var_state_loop_data (s : JitState) (v : Variable) :
    (new_var_state s v).loop_data = s.loop_data := rfl

@[simp] theorem new_var_state_indices (s : JitState) (v : Variable) :
    (new_var_state s v).indices = s.indices := rfl

@[simp] theorem new_var_state_extra (s : JitState) (v : Variable) :
    (new_var_state s v).extra = s.extra := rfl

@[simp] theorem new_var_state_side_effects_symbolic (s : JitState) (v : Variable) :
    (new_var_state s v).side_effects_symbolic = s.side_effects_symbolic := rfl

@[simp] theorem new_var_state_optimize_loops (s : JitState) (v : Variable) :
    (new_var_state s v).optimize_loops = s.optimize_loops := rfl

@[simp] theorem new_scope_state_vars (s : JitState)  :
    (new_scope_state s).vars = s.vars := rfl

@[simp] theorem new_scope_state_variable_index (s : JitState)  :
    (new_scope_state s).variable_index = s.variable_index := rfl

@[simp] theorem new_scope_state_loop_data (s : JitState)  :
    (new_scope_state s).loop_data = s.loop_data := rfl

@[simp] theorem new_scope_state_indices (s : JitState)  :
    (new_scope_state s).indices = s.indices := rfl

@[simp] theorem new_scope_state_extra (s : JitState)  :
    (new_scope_state s).extra = s.extra := rfl

@[simp] theorem new_scope_state_side_effects_symbolic (s : JitState)  :
    (new_scope_state s).side_effects_symbolic = s.side_effects_symbolic := rfl

@[simp] theorem new_scope_state_optimize_loops (s : JitState)  :
    (new_scope_state s).optimize_loops = s.optimize_loops := rfl

@[simp] theorem set_extra_vars (s : JitState) (i : Nat) (e : Extra) :
    (set_extra s i e).vars = s.vars := rfl

@[simp] theorem set_extra_variable_index (s : JitState) (i : Nat) (e : Extra) :
    (set_extra s i e).variable_index = s.variable_index := rfl

@[simp] theorem set_extra_loop_data (s : JitState) (i : Nat) (e : Extra) :
    (set_extra s i e).loop_data = s.loop_data := rfl

@[simp] theorem set_extra_indices (s : JitState) (i : Nat) (e : Extra) :
    (set_extra s i e).indices = s.indices := rfl

@[simp] theorem set_extra_side_effects_symbolic (s : JitState) (i : Nat) (e : Extra) :
    (set_extra s i e).side_effects_symbolic = s.side_effects_symbolic := rfl

@[simp] theorem set_extra_optimize_loops (s : JitState) (i : Nat) (e : Extra) :
    (set_extra s i e).optimize_loops = s.optimize_loops := rfl

@[simp] theorem set_var_variable_index (s : JitState) (i : Nat) (v : Option Variable) :
    (set_var s i v).variable_index = s.variable_index := rfl

@[simp] theorem set_var_loop_data (s : JitState) (i : Nat) (v : Option Variable) :
    (set_var s i v).loop_data = s.loop_data := rfl

@[simp] theorem set_var_indices (s : JitState) (i : Nat) (v : Option Variable) :
    (set_var s i v).indices = s.indices := rfl

@[simp] theorem set_var_extra (s : JitState) (i : Nat) (v : Option Variable) :
    (set_var s i v).extra = s.extra := rfl

@[simp] theorem set_var_side_effects_symbolic (s : JitState) (i : Nat) (v : Option Variable) :
    (set_var s i v).side_effects_symbolic = s.side_effects_symbolic := rfl

@[simp] theorem set_var_optimize_loops (s : JitState) (i : Nat) (v : Option Variable) :
    (set_var s i v).optimize_loops = s.optimize_loops := rfl

@[simp] theorem set_ld_loop_data (s : JitState) (p : Nat) (l : LoopData) (q : Nat) :
    (set_ld s p l).loop_data q = if q = p then some l else s.loop_data q := rfl

@[simp] theorem set_indices_indices (s : JitState) (idx : List Nat) :
    (set_indices s idx).indices = idx := rfl

@[simp] theorem new_var_state_vars (s : JitState) (v : Variable) (j : Nat) :
    (new_var_state s v).vars j
      = if j = s.variable_index then some { v with ref_count := 1 } else s.vars j := rfl

@[simp] theorem new_var_state_variable_index (s : JitState) (v : Variable) :
    (new_var_state s v).variable_index = s.variable_index + 1 := rfl

@[simp] theorem set_extra_extra (s : JitState) (i : Nat) (e : Extra) (j : Nat) :
    (set_extra s i e).extra j = if j = i then e else s.extra j := rfl

@[simp] theorem set_var_vars (s : JitState) (i : Nat) (v : Option Variable) (j : Nat) :
    (set_var s i v).vars j = if j = i then v else s.vars j := rfl

/-! ## Running the primitive routines -/

theorem jitc_var_run (s : JitState) (i : Nat) (v : Variable) (h : s.vars i = some v) :
    jitc_var i s = .ok v s := by
  simp only [jitc_var, h]

theorem jitc_var_new_run (s : JitState) (v : Variable) :
    jitc_var_new v s = .ok s.variable_index (new_var_state s v) := rfl

theorem jitc_new_scope_run (s : JitState) (b : JitBackend) :
    jitc_new_scope b s = .ok () (new_scope_state s) := rfl

theorem modify_ld_run (s : JitState) (p : Nat) (f : LoopData → LoopData) (ld : LoopData)
    (h : s.loop_data p = some ld) : modify_ld p f s = .ok () (set_ld s p (f ld)) := by
  simp only [modify_ld, h]
  rfl

theorem get_ld_run (s : JitState) (p : Nat) (ld : LoopData) (h : s.loop_data p = some ld) :
    get_ld p s = .ok ld s := by
  simp only [get_ld, h]

theorem get_index_run (s : JitState) (i x : Nat) (h : s.indices[i]? = some x) :
    get_index i s = .ok x s := by
  simp only [get_index, h]

theorem set_index_run (s : JitState) (i x : Nat) (h : i < s.indices.length) :
    set_index i x s = .ok () (set_indices s (s.indices.set i x)) := by
  simp only [set_index, h, if_true]
  rfl

theorem modify_extra_run (s : JitState) (i : Nat) (f : Extra → Extra) :
    modify_extra i f s = .ok () (set_extra s i (f (s.extra i))) := rfl

theorem vec_get_run (s : JitState) (xs : List Nat) (i x : Nat) (h : xs[i]? = some x) :
    vec_get xs i s = .ok x s := by
  simp only [vec_get, h]
  rfl


/-! ## The phi nodes of `jitc_var_loop_start` -/

theorem loop_start_phi_run (u : JitState) (p : Nat) (backend : JitBackend) (k : Nat)
    (ld : LoopData) (index : Nat) (v2 : Variable)
    (hld : u.loop_data p = some ld) (hidx : u.indices[k]? = some index)
    (hv2 : u.vars index = some v2) (hls : (u.vars ld.loop_start).isSome = true) :
    loop_start_phi p backend k () u
      = .ok () (loop_start_phi_state u p backend k ld index v2) := by
  have hk : k < u.indices.length := by
    by_contra hcon
    rw [List.getElem?_eq_none (by omega)] at hidx
    cases hidx
  have h1 : (u.vars index).isSome = true := by rw [hv2]; rfl
  unfold loop_start_phi
  simp only [bind]
  rw [bind_ok _ _ _ _ _ (get_index_run u k index hidx),
    bind_ok _ _ _ _ _ (jitc_var_run u index v2 hv2),
    bind_ok _ _ _ _ _ (jitc_var_inc_ref_run u index h1),
    bind_ok _ _ _ _ _ (jitc_var_inc_ref_run _ index (by simp [h1])),
    bind_ok _ _ _ _ _ (modify_ld_run _ p _ ld (by simp [hld])),
    bind_ok _ _ _ _ _ (get_ld_run _ p { ld with outer_inputs := ld.outer_inputs ++ [index] }
      (by simp)),
    bind_ok _ _ _ _ _ (jitc_var_inc_ref_run _ ld.loop_start (by simp [hls])),
    bind_ok _ _ _ _ _ (jitc_var_new_run _ _),
    bind_ok _ _ _ _ _ (modify_ld_run _ p _
      { ld with outer_inputs := ld.outer_inputs ++ [index] } (by simp)),
    bind_ok _ _ _ _ _ (jitc_var_inc_ref_run _ _ (by simp)),
    set_index_run _ _ _ (by simp [hk])]
  simp only [inc_ref_state_indices, set_ld_indices, new_var_state_indices,
    inc_ref_state_variable_index, set_ld_variable_index, loop_start_phi_state, phi_node]

theorem node_eq_fields (w v : Variable) (h : w.node = v.node) :
    w.kind = v.kind ∧ w.type = v.type ∧ w.size = v.size ∧ w.backend = v.backend ∧
    w.symbolic = v.symbolic ∧ w.dep0 = v.dep0 ∧ w.dep1 = v.dep1 ∧ w.dep2 = v.dep2 ∧
    w.dep3 = v.dep3 ∧ w.dirty = v.dirty ∧ w.is_literal = v.is_literal ∧
    w.literal = v.literal :=
  ⟨(congrArg Variable.kind h : w.node.kind = v.node.kind),
   (congrArg Variable.type h : w.node.type = v.node.type),
   (congrArg Variable.size h : w.node.size = v.node.size),
   (congrArg Variable.backend h : w.node.backend = v.node.backend),
   (congrArg Variable.symbolic h : w.node.symbolic = v.node.symbolic),
   (congrArg Variable.dep0 h : w.node.dep0 = v.node.dep0),
   (congrArg Variable.dep1 h : w.node.dep1 = v.node.dep1),
   (congrArg Variable.dep2 h : w.node.dep2 = v.node.dep2),
   (congrArg Variable.dep3 h : w.node.dep3 = v.node.dep3),
   (congrArg Variable.dirty h : w.node.dirty = v.node.dirty),
   (congrArg Variable.is_literal h : w.node.is_literal = v.node.is_literal),
   (congrArg Variable.literal h : w.node.literal = v.node.literal)⟩

@[simp] theorem node_set_ref_count (v : Variable) (n : Nat) :
    Variable.node { v with ref_count := n } = v.node := rfl

theorem loop_start_phi_fold (u0 : JitState) (p : Nat) (backend : JitBackend) (n : Nat)
    (ld0 : LoopData) (hld : u0.loop_data p = some ld0) (hn : n ≤ u0.indices.length)
    (hex : ∀ i, i < n → u0.indices.getD i 0 < u0.variable_index ∧
      (u0.vars (u0.indices.getD i 0)).isSome = true)
    (hls : ld0.loop_start < u0.variable_index ∧ (u0.vars ld0.loop_start).isSome = true) :
    ∀ k, k ≤ n → ∃ uk,
      for_fold (loop_start_phi p backend) (List.range k) () u0 = .ok () uk ∧
      uk.loop_data p = some { ld0 with
        outer_inputs := ld0.outer_inputs ++ u0.indices.take k
        inner_inputs := ld0.inner_inputs ++ List.range' u0.variable_index k } ∧
      uk.indices.length = u0.indices.length ∧
      (∀ i, uk.indices[i]? = if i < k then some (u0.variable_index + i) else u0.indices[i]?) ∧
      uk.variable_index = u0.variable_index + k ∧
      uk.extra = u0.extra ∧
      (∀ j, j < u0.variable_index →
        (uk.vars j).map Variable.node = (u0.vars j).map Variable.node) ∧
      (∀ i, i < k → ∃ v0, u0.vars (u0.indices.getD i 0) = some v0 ∧
        (uk.vars (u0.variable_index + i)).map Variable.node
          = some (phi_node backend ld0.loop_start i (u0.indices.getD i 0) v0).node) := by
  intro k
  induction k with
  | zero =>
    intro _
    refine ⟨u0, rfl, ?_, rfl, fun i => by simp, rfl, rfl, fun _ _ => rfl,
      fun i hi => by omega⟩
    simp [hld]
  | succ k ih =>
    intro hk
    obtain ⟨uk, hrun, hldk, hlen, hind, hvi, hextra, hnodes, hphis⟩ := ih (by omega)
    have hidx0 := getElem?_eq_some_getD u0.indices k (by omega)
    have hidx : uk.indices[k]? = some (u0.indices.getD k 0) := by
      rw [hind k, if_neg (by omega), hidx0]
    obtain ⟨hlt, hsome⟩ := hex k (by omega)
    obtain ⟨v0, hv0⟩ := Option.isSome_iff_exists.mp hsome
    obtain ⟨v2, hv2, hn2⟩ := node_of_lookup u0 uk _ v0 (hnodes _ hlt) hv0
    obtain ⟨vl, hvl⟩ := Option.isSome_iff_exists.mp hls.2
    obtain ⟨vl2, hvl2, _⟩ := node_of_lookup u0 uk _ vl (hnodes _ hls.1) hvl
    have hstep := loop_start_phi_run uk p backend k
      { ld0 with
        outer_inputs := ld0.outer_inputs ++ u0.indices.take k
        inner_inputs := ld0.inner_inputs ++ List.range' u0.variable_index k }
      (u0.indices.getD k 0) v2 hldk hidx hv2 (by simp [hvl2])
    refine ⟨loop_start_phi_state uk p backend k
      { ld0 with
        outer_inputs := ld0.outer_inputs ++ u0.indices.take k
        inner_inputs := ld0.inner_inputs ++ List.range' u0.variable_index k }
      (u0.indices.getD k 0) v2, ?_, ?_, ?_, ?_, ?_, ?_, ?_, ?_⟩
    all_goals unfold loop_start_phi_state
    · rw [for_fold_range_succ, bind_ok _ _ _ _ _ hrun]
      exact hstep
    · simp only [set_indices_loop_data, inc_ref_state_loop_data, set_ld_loop_data, if_true]
      rw [hvi, List.range'_concat, List.take_succ, hidx0]
      simp
    · simp [hlen]
    · intro i
      simp only [set_indices_indices, List.getElem?_set]
      by_cases hki : k = i
      · subst hki
        rw [if_pos rfl, if_pos (by omega), if_pos (by omega), hvi]
      · rw [if_neg hki, hind i]
        by_cases hik : i < k
        · rw [if_pos hik, if_pos (by omega)]
        · rw [if_neg hik, if_neg (by omega)]
    · simp [hvi]
      omega
    · simp [hextra]
    · intro j hj
      have hne : j ≠ uk.variable_index := by omega
      simp [hne, hnodes j hj]
    · intro i hi
      by_cases hik : i = k
      · subst hik
        refine ⟨v0, hv0, ?_⟩
        have e1 := (node_eq_fields v2 v0 hn2).2.1
        have e2 := (node_eq_fields v2 v0 hn2).2.2.1
        simp [hvi, phi_node, Variable.node, e1, e2]
      · obtain ⟨w0, hw0, hw⟩ := hphis i (by omega)
        refine ⟨w0, hw0, ?_⟩
        have hne : u0.variable_index + i ≠ uk.variable_index := by omega
        simp [hne, hw]


theorem with_unique_ptr_ok {α : Type} (p : Nat) (body : JitM α) (s s1 : JitState) (a : α)
    (h : body s = .ok a s1) : with_unique_ptr p body s = .ok a s1 := by
  simp only [with_unique_ptr, h]

theorem loop_start_create_spec (t : JitState) (backend : JitBackend) (symbolic : Bool)
    (name : Option String) (n : Nat) (hn : n ≤ t.indices.length)
    (hex : ∀ i, i < n → t.indices.getD i 0 < t.variable_index ∧
      (t.vars (t.indices.getD i 0)).isSome = true) :
    ∃ s1, loop_start_create backend symbolic name n t = .ok (t.variable_index + 1 + n) s1 ∧
      (s1.extra (t.variable_index + 1 + n)).callback_data = some t.variable_index ∧
      s1.loop_data t.variable_index = some
        { name := name.getD "unnamed", loop_start := t.variable_index, size := n,
          symbolic := symbolic, outer_inputs := t.indices.take n,
          inner_inputs := List.range' (t.variable_index + 1) n } ∧
      (∀ i, s1.indices[i]? = if i < n then some (t.variable_index + 1 + i) else t.indices[i]?) ∧
      (∀ j, j < t.variable_index →
        (s1.vars j).map Variable.node = (t.vars j).map Variable.node) ∧
      (∃ ls, s1.vars t.variable_index = some ls ∧ ls.kind = VarKind.LoopStart) ∧
      (∀ i, i < n → ∃ v0, t.vars (t.indices.getD i 0) = some v0 ∧
        (s1.vars (t.variable_index + 1 + i)).map Variable.node
          = some (phi_node backend t.variable_index i (t.indices.getD i 0) v0).node) := by
  obtain ⟨un, hrun, hldn, hlen, hind, hvi, hextra, hnodes, hphis⟩ :=
    loop_start_phi_fold
      (set_extra
        (set_ld
          (new_scope_state (new_var_state (new_scope_state t)
            { kind := .LoopStart, type := .Void, size := 1, backend := backend, symbolic := true,
              extra := true }))
          t.variable_index
          { name := name.getD "unnamed", loop_start := t.variable_index, size := n,
            symbolic := symbolic })
        t.variable_index
        { (t.extra t.variable_index) with callback_data := some t.variable_index })
      t.variable_index backend n
      { name := name.getD "unnamed", loop_start := t.variable_index, size := n,
        symbolic := symbolic }
      (by simp) (by simpa using hn)
      (fun i hi => by
        obtain ⟨h1, h2⟩ := hex i hi
        have hne : t.indices.getD i 0 ≠ t.variable_index := by omega
        simp only [set_extra_indices, set_ld_indices, new_scope_state_indices,
          new_var_state_indices, set_extra_variable_index, set_ld_variable_index,
          new_scope_state_variable_index, new_var_state_variable_index, set_extra_vars,
          set_ld_vars, new_scope_state_vars, new_var_state_vars, if_neg hne]
        exact ⟨by omega, h2⟩)
      (by simp) n (le_refl _)
  simp only [set_extra_indices, set_ld_indices, new_scope_state_indices,
    new_var_state_indices, set_extra_variable_index, set_ld_variable_index,
    new_scope_state_variable_index, new_var_state_variable_index, set_extra_vars,
    set_ld_vars, new_scope_state_vars, new_var_state_vars, List.nil_append] at hldn hlen hind hvi hnodes hphis
  refine ⟨set_extra (new_var_state (new_scope_state un)
      { kind := .Nop, type := .Void, size := 1, backend := backend, extra := true })
      (t.variable_index + 1 + n)
      { callback := true, callback_internal := true, callback_data := some t.variable_index },
    ?_, ?_, ?_, ?_, ?_, ?_, ?_⟩
  · unfold loop_start_create
    simp only [bind]
    rw [bind_ok _ _ _ _ _ (jitc_new_scope_run _ _),
      bind_ok _ _ _ _ _ (jitc_var_new_run _ _),
      bind_ok _ _ _ _ _ (jitc_new_scope_run _ _)]
    apply with_unique_ptr_ok
    unfold loop_start_body
    simp only [bind]
    rw [bind_ok _ _ _ _ _ (modify_extra_run _ _ _)]
    refine (bind_ok _ _ _ un () hrun).trans ?_
    rw [bind_ok _ _ _ _ _ (jitc_new_scope_run _ _),
      bind_ok _ _ _ _ _ (jitc_var_new_run _ _),
      bind_ok _ _ _ _ _ (modify_extra_run _ _ _)]
    simp only [new_scope_state_variable_index, hvi]
    rfl
  · simp
  · simp [hldn]
  · intro i
    simp [hind i]
  · intro j hj
    have hne : j ≠ un.variable_index := by omega
    have hne2 : j ≠ t.variable_index := by omega
    have := hnodes j (by omega)
    simp only [if_neg hne2] at this
    simp [hne, this]
  · have := hnodes t.variable_index (by omega)
    simp only [if_true, Option.map_some'] at this
    obtain ⟨ls, hls, hnode⟩ : ∃ ls, un.vars t.variable_index = some ls ∧ ls.node = _ := by
      cases h : un.vars t.variable_index with
      | none => rw [h] at this; cases this
      | some ls => rw [h] at this; exact ⟨ls, rfl, Option.some.inj this⟩
    have hne : t.variable_index ≠ un.variable_index := by omega
    refine ⟨ls, by simp [hne, hls], ?_⟩
    exact (node_eq_fields _ _ hnode).1
  · intro i hi
    obtain ⟨v0, hv0, hw⟩ := hphis i hi
    have hne0 : t.indices.getD i 0 ≠ t.variable_index := by
      have := (hex i hi).1
      omega
    simp only [if_neg hne0] at hv0
    refine ⟨v0, hv0, ?_⟩
    have hne : t.variable_index + 1 + i ≠ un.variable_index := by omega
    simp [hne, hw]


/-! ## `jitc_var_loop_start` raises exactly on an invalid or dirty loop state -/

theorem loop_state_invalid_iff (s : JitState) (n : Nat) (hn : 0 < n)
    (hex : ∀ i, i < n → s.indices.getD i 0 = 0 ∨
      (s.indices.getD i 0 < s.variable_index ∧ (s.vars (s.indices.getD i 0)).isSome = true)) :
    (List.range n).any (check_bad s) = loop_state_invalid s n := by
  rw [Bool.eq_iff_iff]
  simp only [loop_state_invalid, check_bad, List.any_eq_true, List.mem_range, Bool.or_eq_true,
    beq_iff_eq, bne_iff_ne, ne_eq, Option.isNone_iff_eq_none]
  constructor
  · rintro ⟨i, hi, (h | h) | h⟩
    · exact Or.inl (Or.inr ⟨i, hi, h⟩)
    · rcases hex i hi with h0 | ⟨_, h1⟩
      · exact Or.inl (Or.inr ⟨i, hi, h0⟩)
      · rw [h] at h1
        cases h1
    · exact Or.inr ⟨i, hi, 0, hn, h⟩
  · rintro ((h | ⟨i, hi, h⟩) | ⟨i, hi, j, hj, h⟩)
    · omega
    · exact ⟨i, hi, Or.inl (Or.inl h)⟩
    · by_cases hb : var_backend s (s.indices.getD i 0) = var_backend s (s.indices.getD 0 0)
      · refine ⟨j, hj, Or.inr ?_⟩
        intro hj0
        exact h (hb.trans hj0.symm)
      · exact ⟨i, hi, Or.inr hb⟩

theorem check_bad_false (s : JitState) (n : Nat)
    (h : (List.range n).any (check_bad s) = false) (i : Nat) (hi : i < n) :
    s.indices.getD i 0 ≠ 0 ∧ (s.vars (s.indices.getD i 0)).isSome = true := by
  have h1 : check_bad s i = false := by
    by_contra hcon
    have : (List.range n).any (check_bad s) = true := by
      rw [List.any_eq_true]
      exact ⟨i, List.mem_range.mpr hi, by simpa using hcon⟩
    rw [h] at this
    cases this
  simp only [check_bad, Bool.or_eq_false_iff, beq_eq_false_iff_ne, ne_eq] at h1
  refine ⟨h1.1.1, ?_⟩
  cases hv : s.vars (s.indices.getD i 0) with
  | none => rw [hv] at h1; simp at h1
  | some v => rfl

/-- Claim C12: given `n` state indices that are each 0 or an existing variable, and an
evaluation that returns and keeps the state variables, `jitc_var_loop_start` raises
exactly when the state is empty, or some state index is 0, or two state variables have
different backends, or some state variable is dirty and some is still dirty after the
evaluation; in the first three cases it raises in the state of the call (no node was
created and the array of the caller is unchanged), and otherwise it returns. -/
theorem jitc_var_loop_start_raises (jitc_eval : JitBackend → JitM Unit)
    (name : Option String) (n : Nat) (s s' : JitState)
    (hn : n ≤ s.indices.length)
    (hex : ∀ i, i < n → s.indices.getD i 0 = 0 ∨
      (s.indices.getD i 0 < s.variable_index ∧ (s.vars (s.indices.getD i 0)).isSome = true))
    (heval : jitc_eval (var_backend s (s.indices.getD 0 0)) s = .ok () s')
    (hind : s'.indices = s.indices)
    (hkeep : ∀ i, i < n → s.indices.getD i 0 ≠ 0 →
      s.indices.getD i 0 < s'.variable_index ∧ (s'.vars (s.indices.getD i 0)).isSome = true) :
    (loop_state_invalid s n = true → jitc_var_loop_start jitc_eval name n s = .raise s) ∧
    (loop_state_invalid s n = false → loop_state_dirty s n = true →
      loop_state_dirty s' n = true → jitc_var_loop_start jitc_eval name n s = .raise s') ∧
    (loop_state_invalid s n = false →
      (loop_state_dirty s n = false ∨ loop_state_dirty s' n = false) →
      ∃ h s1, jitc_var_loop_start jitc_eval name n s = .ok h s1) := by
  by_cases h0 : n = 0
  · subst h0
    refine ⟨fun _ => rfl, fun h => ?_, fun h => ?_⟩ <;> simp [loop_state_invalid] at h
  have hcheck := loop_start_check_fold s n hn n (le_refl _)
  rw [loop_state_invalid_iff s n (by omega) hex] at hcheck
  refine ⟨fun hinv => ?_, fun hinv hd hd' => ?_, fun hinv hd => ?_⟩
  · rw [if_pos hinv] at hcheck
    unfold jitc_var_loop_start
    rw [if_neg h0]
    exact bind_raise _ _ _ _ hcheck
  all_goals
    have hgood := check_bad_false s n
      (by rw [loop_state_invalid_iff s n (by omega) hex]; exact hinv)
    rw [if_neg (by rw [hinv]; exact Bool.false_ne_true)] at hcheck
    unfold jitc_var_loop_start
    rw [if_neg h0, bind_ok _ _ _ _ _ hcheck]
    have hb : (check_acc s n).1 = var_backend s (s.indices.getD 0 0) := by
      simp only [check_acc, h0, if_false]
    have hdirty : (check_acc s n).2.2 = loop_state_dirty s n := rfl
    have hfold' := loop_start_dirty_fold s' n (by rw [hind]; exact hn)
      (fun i hi => by rw [hind]; exact (hkeep i hi (hgood i hi).1).2) n (le_refl _)
  · -- still dirty after the evaluation
    have hd2 : loop_state_dirty s' n = (List.range n).any (slot_dirty s') := rfl
    rw [bind_ok _ _ s s' true (by
      rw [hdirty, hd, if_pos rfl, hb, bind_ok _ _ _ _ _ heval, hfold', ← hd2, hd'])]
    rfl
  · by_cases hds : loop_state_dirty s n = true
    · have hd' : loop_state_dirty s' n = false := by
        rcases hd with h | h
        · rw [hds] at h; cases h
        · exact h
      have hd2 : loop_state_dirty s' n = (List.range n).any (slot_dirty s') := rfl
      rw [bind_ok _ _ s s' false (by
        rw [hdirty, hds, if_pos rfl, hb, bind_ok _ _ _ _ _ heval, hfold', ← hd2, hd'])]
      simp only [Bool.false_eq_true, if_false]
      obtain ⟨s1, hrun, _⟩ := loop_start_create_spec s' (check_acc s n).1 (check_acc s n).2.1
        name n (by rw [hind]; exact hn)
        (fun i hi => by rw [hind]; exact hkeep i hi (hgood i hi).1)
      exact ⟨_, s1, hrun⟩
    · rw [bind_ok _ _ s s false (by
        rw [hdirty, if_neg hds]; rfl)]
      simp only [Bool.false_eq_true, if_false]
      obtain ⟨s1, hrun, _⟩ := loop_start_create_spec s (check_acc s n).1 (check_acc s n).2.1
        name n hn
        (fun i hi => by
          rcases hex i hi with h | h
          · exact absurd h (hgood i hi).1
          · exact h)
      exact ⟨_, s1, hrun⟩

/-- Witness for C12: the sample state is valid and clean, and the loop is started. -/
theorem jitc_var_loop_start_raises_witness :
    ∃ h s1, jitc_var_loop_start eval_nothing none 2 sample_jit = .ok h s1 :=
  (jitc_var_loop_start_raises eval_nothing none 2 sample_jit sample_jit (by decide)
    (by decide) rfl rfl (by decide)).2.2 (by decide) (Or.inl (by decide))


/-! ## The phi nodes after `jitc_var_loop_start` -/

theorem jitc_var_loop_start_eq (jitc_eval : JitBackend → JitM Unit)
    (name : Option String) (n : Nat) (s s' : JitState)
    (hn : n ≤ s.indices.length)
    (hex : ∀ i, i < n → s.indices.getD i 0 = 0 ∨
      (s.indices.getD i 0 < s.variable_index ∧ (s.vars (s.indices.getD i 0)).isSome = true))
    (heval : jitc_eval (var_backend s (s.indices.getD 0 0)) s = .ok () s')
    (hind : s'.indices = s.indices)
    (hkeep : ∀ i, i < n → s.indices.getD i 0 ≠ 0 →
      (s'.vars (s.indices.getD i 0)).isSome = true) :
    jitc_var_loop_start jitc_eval name n s
      = if loop_state_invalid s n = true then .raise s
        else if loop_state_dirty s n = true then
          if loop_state_dirty s' n = true then .raise s'
          else loop_start_create (check_acc s n).1 (check_acc s n).2.1 name n s'
        else loop_start_create (check_acc s n).1 (check_acc s n).2.1 name n s := by
  by_cases h0 : n = 0
  · subst h0
    rfl
  have hcheck := loop_start_check_fold s n hn n (le_refl _)
  rw [loop_state_invalid_iff s n (by omega) hex] at hcheck
  by_cases hinv : loop_state_invalid s n = true
  · rw [if_pos hinv] at hcheck ⊢
    unfold jitc_var_loop_start
    rw [if_neg h0]
    exact bind_raise _ _ _ _ hcheck
  · have hgood := check_bad_false s n
      (by rw [loop_state_invalid_iff s n (by omega) hex]; simpa using hinv)
    rw [if_neg hinv] at hcheck ⊢
    unfold jitc_var_loop_start
    rw [if_neg h0, bind_ok _ _ _ _ _ hcheck]
    have hb : (check_acc s n).1 = var_backend s (s.indices.getD 0 0) := by
      simp only [check_acc, h0, if_false]
    have hdirty : (check_acc s n).2.2 = loop_state_dirty s n := rfl
    have hfold' := loop_start_dirty_fold s' n (by rw [hind]; exact hn)
      (fun i hi => by rw [hind]; exact hkeep i hi (hgood i hi).1) n (le_refl _)
    have hd2 : loop_state_dirty s' n = (List.range n).any (slot_dirty s') := rfl
    by_cases hds : loop_state_dirty s n = true
    · rw [if_pos hds]
      rw [bind_ok _ _ s s' (loop_state_dirty s' n) (by
        rw [hdirty, hds, if_pos rfl, hb, bind_ok _ _ _ _ _ heval, hfold', ← hd2])]
      by_cases hd' : loop_state_dirty s' n = true
      · rw [if_pos hd', if_pos hd']
        rfl
      · rw [if_neg hd', if_neg hd']
    · rw [if_neg hds, bind_ok _ _ s s false (by rw [hdirty, if_neg hds]; rfl)]
      simp only [Bool.false_eq_true, if_false]

/-- Claim C13: after a successful `jitc_var_loop_start` with `n` state variables (given
an evaluation that keeps the array of the caller and the type and size of the state
variables), the handle returned leads to a `LoopData` with a `LoopStart` node, and for
every slot `i < n`: `outer_inputs[i]` is the index the caller passed in, the index of the
caller has been replaced by a newly created `LoopPhi` node that is also `inner_inputs[i]`,
that node has the type and size of the original variable, its `dep[0]` is the `LoopStart`
node and its extra dependency `dep[3]` is the original variable. -/
theorem jitc_var_loop_start_phis (jitc_eval : JitBackend → JitM Unit)
    (name : Option String) (n : Nat) (s s' s1 : JitState) (holder : Nat)
    (hn : n ≤ s.indices.length)
    (hex : ∀ i, i < n → s.indices.getD i 0 = 0 ∨
      (s.indices.getD i 0 < s.variable_index ∧ (s.vars (s.indices.getD i 0)).isSome = true))
    (heval : jitc_eval (var_backend s (s.indices.getD 0 0)) s = .ok () s')
    (hind : s'.indices = s.indices) (hvi : s.variable_index ≤ s'.variable_index)
    (hkeep : ∀ i, i < n → s.indices.getD i 0 ≠ 0 →
      (s'.vars (s.indices.getD i 0)).isSome = true ∧
      var_type s' (s.indices.getD i 0) = var_type s (s.indices.getD i 0) ∧
      var_size s' (s.indices.getD i 0) = var_size s (s.indices.getD i 0))
    (hok : jitc_var_loop_start jitc_eval name n s = .ok holder s1) :
    ∃ p ld, (s1.extra holder).callback_data = some p ∧ s1.loop_data p = some ld ∧
      ld.size = n ∧ (∃ ls, s1.vars ld.loop_start = some ls ∧ ls.kind = VarKind.LoopStart) ∧
      ∀ i, i < n → ∃ phi w,
        ld.outer_inputs[i]? = some (s.indices.getD i 0) ∧
        ld.inner_inputs[i]? = some phi ∧ s1.indices[i]? = some phi ∧
        s.variable_index ≤ phi ∧ s1.vars phi = some w ∧ w.kind = VarKind.LoopPhi ∧
        w.type = var_type s (s.indices.getD i 0) ∧
        w.size = var_size s (s.indices.getD i 0) ∧
        w.dep0 = ld.loop_start ∧ w.dep3 = s.indices.getD i 0 := by
  have key : ∀ t : JitState, t.indices = s.indices → s.variable_index ≤ t.variable_index →
      (∀ i, i < n → t.indices.getD i 0 < t.variable_index ∧
        (t.vars (t.indices.getD i 0)).isSome = true ∧
        var_type t (s.indices.getD i 0) = var_type s (s.indices.getD i 0) ∧
        var_size t (s.indices.getD i 0) = var_size s (s.indices.getD i 0)) →
      loop_start_create (check_acc s n).1 (check_acc s n).2.1 name n t = .ok holder s1 →
      ∃ p ld, (s1.extra holder).callback_data = some p ∧ s1.loop_data p = some ld ∧
        ld.size = n ∧ (∃ ls, s1.vars ld.loop_start = some ls ∧ ls.kind = VarKind.LoopStart) ∧
        ∀ i, i < n → ∃ phi w,
          ld.outer_inputs[i]? = some (s.indices.getD i 0) ∧
          ld.inner_inputs[i]? = some phi ∧ s1.indices[i]? = some phi ∧
          s.variable_index ≤ phi ∧ s1.vars phi = some w ∧ w.kind = VarKind.LoopPhi ∧
          w.type = var_type s (s.indices.getD i 0) ∧
          w.size = var_size s (s.indices.getD i 0) ∧
          w.dep0 = ld.loop_start ∧ w.dep3 = s.indices.getD i 0 := by
    intro t hti htv htex hrun
    obtain ⟨s2, hrun2, hcb, hld, hidx, _, hls, hphis⟩ :=
      loop_start_create_spec t (check_acc s n).1 (check_acc s n).2.1 name n
        (by rw [hti]; exact hn) (fun i hi => ⟨(htex i hi).1, (htex i hi).2.1⟩)
    rw [hrun] at hrun2
    injection hrun2 with hh hs
    subst hh hs
    refine ⟨t.variable_index, _, hcb, hld, rfl, hls, fun i hi => ?_⟩
    obtain ⟨v0, hv0, hw⟩ := hphis i hi
    obtain ⟨w, hw1, hwn⟩ : ∃ w, s1.vars (t.variable_index + 1 + i) = some w ∧
        w.node = (phi_node (check_acc s n).1 t.variable_index i (t.indices.getD i 0) v0).node := by
      cases h : s1.vars (t.variable_index + 1 + i) with
      | none => rw [h] at hw; cases hw
      | some w => rw [h] at hw; exact ⟨w, rfl, Option.some.inj hw⟩
    have hf := node_eq_fields _ _ hwn
    have hty : v0.type = var_type s (s.indices.getD i 0) := by
      rw [← (htex i hi).2.2.1, ← hti]
      simp only [var_type, hv0]
    have hsz : v0.size = var_size s (s.indices.getD i 0) := by
      rw [← (htex i hi).2.2.2, ← hti]
      simp only [var_size, hv0]
    refine ⟨t.variable_index + 1 + i, w, ?_, ?_, ?_, by omega, hw1, hf.1, ?_, ?_, hf.2.2.2.2.2.1,
      ?_⟩
    · simp only [List.getElem?_take, hi, if_true]
      rw [← hti]
      exact getElem?_eq_some_getD t.indices i
        (by rw [hti]; exact Nat.lt_of_lt_of_le hi hn)
    · rw [List.getElem?_range' _ _ (by omega : i < n)]
      simp
    · rw [hidx i, if_pos hi]
    · exact hf.2.1.trans hty
    · exact hf.2.2.1.trans hsz
    · rw [hf.2.2.2.2.2.2.2.2.1, ← hti]
      rfl
  have heq := jitc_var_loop_start_eq jitc_eval name n s s' hn hex heval hind
    (fun i hi h0 => (hkeep i hi h0).1)
  rw [heq] at hok
  by_cases h0 : n = 0
  · subst h0
    simp [loop_state_invalid] at hok
  by_cases hinv : loop_state_invalid s n = true
  · rw [if_pos hinv] at hok
    cases hok
  have hgood := check_bad_false s n
    (by rw [loop_state_invalid_iff s n (by omega) hex]; simpa using hinv)
  rw [if_neg hinv] at hok
  by_cases hds : loop_state_dirty s n = true
  · rw [if_pos hds] at hok
    by_cases hd' : loop_state_dirty s' n = true
    · rw [if_pos hd'] at hok
      cases hok
    · rw [if_neg hd'] at hok
      refine key s' hind hvi (fun i hi => ?_) hok
      rw [hind]
      have hk := hkeep i hi (hgood i hi).1
      refine ⟨?_, hk.1, hk.2.1, hk.2.2⟩
      rcases hex i hi with h | h
      · exact absurd h (hgood i hi).1
      · omega
  · rw [if_neg hds] at hok
    refine key s rfl (le_refl _) (fun i hi => ?_) hok
    rcases hex i hi with h | h
    · exact absurd h (hgood i hi).1
    · exact ⟨h.1, h.2, rfl, rfl⟩


theorem sample_loop_start_returns :
    ∃ h s1, jitc_var_loop_start eval_nothing none 2 sample_jit = .ok h s1 := by
  have heq := jitc_var_loop_start_eq eval_nothing none 2 sample_jit sample_jit (by decide)
    (by decide) rfl rfl (fun i hi _ => by interval_cases i <;> decide)
  rw [if_neg (by decide), if_neg (by decide)] at heq
  obtain ⟨s1, hrun, _⟩ := loop_start_create_spec sample_jit (check_acc sample_jit 2).1
    (check_acc sample_jit 2).2.1 none 2 (by decide) (by decide)
  exact ⟨_, s1, heq.trans hrun⟩

/-- Witness for C13: the sample loop. -/
theorem jitc_var_loop_start_phis_witness :
    ∃ holder s1, jitc_var_loop_start eval_nothing none 2 sample_jit = .ok holder s1 ∧
      ∃ p ld, (s1.extra holder).callback_data = some p ∧
        s1.loop_data p = some ld ∧
        ld.size = 2 ∧
        (∃ ls, s1.vars ld.loop_start = some ls ∧ ls.kind = VarKind.LoopStart) ∧
        ∀ i, i < 2 → ∃ phi w,
          ld.outer_inputs[i]? = some (sample_jit.indices.getD i 0) ∧
          ld.inner_inputs[i]? = some phi ∧ s1.indices[i]? = some phi ∧
          sample_jit.variable_index ≤ phi ∧ s1.vars phi = some w ∧
          w.kind = VarKind.LoopPhi ∧
          w.type = var_type sample_jit (sample_jit.indices.getD i 0) ∧
          w.size = var_size sample_jit (sample_jit.indices.getD i 0) ∧
          w.dep0 = ld.loop_start ∧ w.dep3 = sample_jit.indices.getD i 0 :=
  match sample_loop_start_returns with
  | ⟨holder, s1, hrun⟩ =>
    ⟨holder, s1, hrun,
      jitc_var_loop_start_phis eval_nothing none 2 sample_jit sample_jit s1 holder
        (by decide) (by decide) rfl rfl (le_refl _)
        (fun i hi _ => ⟨by interval_cases i <;> decide, rfl, rfl⟩) hrun⟩


/-! ## States that extend a state -/

theorem extends_refl (s : JitState) : Extends s s :=
  ⟨Nat.le_refl _, fun _ _ => rfl, fun _ _ => Nat.le_refl _⟩

theorem extends_trans (s s1 s2 : JitState) (h1 : Extends s s1) (h2 : Extends s1 s2) :
    Extends s s2 :=
  ⟨Nat.le_trans h1.1 h2.1,
   fun j hj => (h2.2.1 j (Nat.lt_of_lt_of_le hj h1.1)).trans (h1.2.1 j hj),
   fun j hj => Nat.le_trans (h1.2.2 j hj) (h2.2.2 j (Nat.lt_of_lt_of_le hj h1.1))⟩

theorem extends_inc_ref (s : JitState) (i : Nat) : Extends s (inc_ref_state s i) :=
  ⟨by simp, fun j _ => inc_ref_state_node s i j, fun j _ => inc_ref_state_ref_count s i j⟩

theorem extends_new_var (s : JitState) (v : Variable) : Extends s (new_var_state s v) := by
  refine ⟨by simp, fun j hj => ?_, fun j hj => ?_⟩
  · have : j ≠ s.variable_index := by omega
    simp [this]
  · have : j ≠ s.variable_index := by omega
    simp [var_ref_count, this]

theorem extends_of_vars_eq (s s1 : JitState) (h1 : s1.vars = s.vars)
    (h2 : s1.variable_index = s.variable_index) : Extends s s1 :=
  ⟨by rw [h2], fun j _ => by rw [h1], fun j _ => by simp [var_ref_count, h1]⟩

theorem extends_lookup (s s1 : JitState) (h : Extends s s1) (j : Nat) (v : Variable)
    (hj : j < s.variable_index) (hv : s.vars j = some v) :
    ∃ w, s1.vars j = some w ∧ w.node = v.node ∧ v.ref_count ≤ w.ref_count := by
  obtain ⟨w, hw, hn⟩ := node_of_lookup s s1 j v (h.2.1 j hj) hv
  refine ⟨w, hw, hn, ?_⟩
  have := h.2.2 j hj
  simpa [var_ref_count, hv, hw] using this

theorem extends_isSome (s s1 : JitState) (h : Extends s s1) (j : Nat)
    (hj : j < s.variable_index) (hv : (s.vars j).isSome = true) :
    (s1.vars j).isSome = true := by
  obtain ⟨v, hv⟩ := Option.isSome_iff_exists.mp hv
  obtain ⟨w, hw, _⟩ := extends_lookup s s1 h j v hj hv
  rw [hw]
  rfl

theorem extends_var_size (s s1 : JitState) (h : Extends s s1) (j : Nat)
    (hj : j < s.variable_index) : var_size s1 j = var_size s j := by
  have := h.2.1 j hj
  unfold var_size
  cases h1 : s1.vars j <;> cases h2 : s.vars j <;> rw [h1, h2] at this <;>
    simp at this ⊢
  exact (node_eq_fields _ _ this).2.2.1

theorem jitc_var_select_run (s : JitState) (m t f : Nat) (vm vt vf : Variable)
    (hm : s.vars m = some vm) (ht : s.vars t = some vt) (hf : s.vars f = some vf) :
    jitc_var_select m t f s = .ok s.variable_index
      (new_var_state (inc_ref_state (inc_ref_state (inc_ref_state s m) t) f)
        { kind := .Expression, type := vt.type, backend := vt.backend,
          size := max vm.size (max vt.size vf.size),
          symbolic := vm.symbolic || vt.symbolic || vf.symbolic,
          dep0 := m, dep1 := t, dep2 := f }) := by
  unfold jitc_var_select
  rw [bind_ok _ _ _ _ _ (jitc_var_run s m vm hm),
    bind_ok _ _ _ _ _ (jitc_var_run s t vt ht),
    bind_ok _ _ _ _ _ (jitc_var_run s f vf hf),
    bind_ok _ _ _ _ _ (jitc_var_inc_ref_run s m (by simp [hm])),
    bind_ok _ _ _ _ _ (jitc_var_inc_ref_run _ t (by simp [ht])),
    bind_ok _ _ _ _ _ (jitc_var_inc_ref_run _ f (by simp [hf])),
    jitc_var_new_run]
  simp


/-! ## Nodes that are kept -/

theorem is_select_of_node (s s1 : JitState) (o mask t f : Nat)
    (hn : (s1.vars o).map Variable.node = (s.vars o).map Variable.node)
    (h : is_select s o mask t f = true) : is_select s1 o mask t f = true := by
  unfold is_select at h ⊢
  cases hv : s.vars o with
  | none => rw [hv] at h; cases h
  | some w =>
    rw [hv] at h
    obtain ⟨w1, hw1, hn1⟩ := node_of_lookup s s1 o w hn hv
    have hf := node_eq_fields w1 w hn1
    rw [hw1]
    simp only [decide_eq_true_eq] at h ⊢
    rw [hf.1, hf.2.2.2.2.2.1, hf.2.2.2.2.2.2.1, hf.2.2.2.2.2.2.2.1]
    exact h

theorem is_select_extends (s s1 : JitState) (h : Extends s s1) (o mask t f : Nat)
    (ho : o < s.variable_index) (hs : is_select s o mask t f = true) :
    is_select s1 o mask t f = true :=
  is_select_of_node s s1 o mask t f (h.2.1 o ho) hs

/-! ## One round of the second pass of `jitc_var_loop_end` -/

theorem loop_end_output_raise (s : JitState) (p : Nat) (backend : JitBackend)
    (active i size : Nat) (ld : LoopData) (index inner outer : Nat) (v1 v2 : Variable)
    (hld : s.loop_data p = some ld) (hidx : s.indices[i]? = some index) (h0 : index ≠ 0)
    (hin : ld.inner_inputs[i]? = some inner) (hout : ld.outer_inputs[i]? = some outer)
    (hv1 : s.vars inner = some v1) (hv2 : s.vars index = some v2)
    (hsurv : inner ≠ outer) (hmis : v2.size ≠ size ∧ size ≠ 1 ∧ v2.size ≠ 1) :
    loop_end_output p backend active i size s = .raise s := by
  simp only [loop_end_output, bind, JitM.bind, get_index, hidx, h0, if_false, get_ld, hld,
    vec_get, hin, hout, pure, jitc_var, hv1, hv2, ne_eq, hsurv, not_false_eq_true, if_true]
  rw [if_pos hmis]
  rfl

theorem loop_end_output_step (s : JitState) (p : Nat) (backend : JitBackend)
    (active i size : Nat) (ld : LoopData) (index inner outer : Nat) (v1 v2 : Variable)
    (hld : s.loop_data p = some ld) (hidx : s.indices[i]? = some index) (h0 : index ≠ 0)
    (hin : ld.inner_inputs[i]? = some inner) (hout : ld.outer_inputs[i]? = some outer)
    (hv1 : s.vars inner = some v1) (hv2 : s.vars index = some v2)
    (hact : (s.vars active).isSome = true)
    (hmis : inner ≠ outer → ¬ (v2.size ≠ size ∧ size ≠ 1 ∧ v2.size ≠ 1))
    (hcons : inner = outer → v2.dirty = true ∨ index = inner ∨
      (v2.is_literal = true ∧ v1.is_literal = true ∧ v1.literal = v2.literal)) :
    ∃ s1 out, loop_end_output p backend active i size s
        = .ok (if inner ≠ outer then max v2.size size else size) s1 ∧
      s1.loop_data p = some { ld with inner_outputs := ld.inner_outputs ++ [out] } ∧
      s1.indices = s.indices ∧ s1.extra = s.extra ∧
      s1.side_effects_symbolic = s.side_effects_symbolic ∧ Extends s s1 ∧
      (inner = outer → out = if v2.dirty = true then index else inner) ∧
      (inner ≠ outer →
        (backend = JitBackend.LLVM → out = s.variable_index ∧ out < s1.variable_index ∧
          is_select s1 out active index inner = true) ∧
        (backend ≠ JitBackend.LLVM → out = index)) := by
  obtain ⟨va, hva⟩ := Option.isSome_iff_exists.mp hact
  by_cases hsurv : inner ≠ outer
  · have hm := hmis hsurv
    by_cases hb : backend = JitBackend.LLVM
    · refine ⟨set_ld (new_var_state
          (inc_ref_state (inc_ref_state (inc_ref_state s active) index) inner)
          { kind := .Expression, type := v2.type, backend := v2.backend,
            size := max va.size (max v2.size v1.size),
            symbolic := va.symbolic || v2.symbolic || v1.symbolic,
            dep0 := active, dep1 := index, dep2 := inner }) p
          { ld with inner_outputs := ld.inner_outputs ++ [s.variable_index] },
        s.variable_index, ?_, by simp, by simp, by simp, by simp, ?_,
        fun h => absurd h hsurv,
        fun _ => ⟨fun _ => ⟨rfl, by simp, by simp [is_select]⟩, fun h => absurd hb h⟩⟩
      · simp only [loop_end_output, bind, JitM.bind, get_index, hidx, h0, if_false, get_ld, hld,
          vec_get, hin, hout, pure, jitc_var, hv1, hv2, ne_eq, hsurv, not_false_eq_true,
          if_true]
        rw [if_neg hm]
        simp only [hb, if_true]
        rw [bind_ok _ _ _ _ _ (jitc_var_select_run s active index inner va v2 v1 hva hv2 hv1),
          bind_ok _ _ _ _ _ (modify_ld_run _ p _ ld (by simp [hld]))]
      · refine extends_trans _ _ _ (extends_inc_ref s active)
          (extends_trans _ _ _ (extends_inc_ref _ index)
            (extends_trans _ _ _ (extends_inc_ref _ inner)
              (extends_trans _ _ _ (extends_new_var _ _) (extends_of_vars_eq _ _ rfl rfl))))
    · refine ⟨set_ld (inc_ref_state s index) p
          { ld with inner_outputs := ld.inner_outputs ++ [index] },
        index, ?_, by simp, by simp, by simp, by simp, ?_, fun h => absurd h hsurv,
        fun _ => ⟨fun h => absurd h hb, fun _ => rfl⟩⟩
      · simp only [loop_end_output, bind, JitM.bind, get_index, hidx, h0, if_false, get_ld, hld,
          vec_get, hin, hout, pure, jitc_var, hv1, hv2, ne_eq, hsurv, not_false_eq_true,
          if_true]
        rw [if_neg hm]
        simp only [hb, if_false]
        rw [bind_ok _ _ _ _ _ (jitc_var_inc_ref_run s index (by simp [hv2]))]
        simp only [pure, JitM.bind]
        rw [modify_ld_run _ p _ ld (by simp [hld])]
      · exact extends_trans _ _ _ (extends_inc_ref s index) (extends_of_vars_eq _ _ rfl rfl)
  · have he : inner = outer := by
      by_contra hcon
      exact hsurv hcon
    have hcons1 := hcons he
    subst he
    by_cases hd : v2.dirty = true
    · refine ⟨set_ld (inc_ref_state s index) p
          { ld with inner_outputs := ld.inner_outputs ++ [index] },
        index, ?_, by simp, by simp, by simp, by simp, ?_, fun _ => by rw [if_pos hd],
        fun h => absurd rfl h⟩
      · simp only [loop_end_output, bind, JitM.bind, get_index, hidx, h0, if_false, get_ld, hld,
          vec_get, hin, hout, pure, jitc_var, hv1, hv2, ne_eq, not_true_eq_false, hd,
          if_true, jitc_var_inc_ref_run s index (by simp [hv2]),
          modify_ld_run _ p _ ld (by simp [hld] : (inc_ref_state s index).loop_data p = some ld)]
      · exact extends_trans _ _ _ (extends_inc_ref s index) (extends_of_vars_eq _ _ rfl rfl)
    · have hc : ¬ (¬ index = inner ∧
          ¬ (v2.is_literal = true ∧ v1.is_literal = true ∧ v1.literal = v2.literal)) := by
        rintro ⟨h1, h2⟩
        rcases hcons1 with h | h | h
        · exact hd h
        · exact h1 h
        · exact h2 h
      refine ⟨set_ld (inc_ref_state s inner) p
          { ld with inner_outputs := ld.inner_outputs ++ [inner] },
        inner, ?_, by simp, by simp, by simp, by simp, ?_, fun _ => by rw [if_neg hd],
        fun h => absurd rfl h⟩
      · simp only [loop_end_output, bind, JitM.bind, get_index, hidx, h0, if_false, get_ld, hld,
          vec_get, hin, hout, pure, jitc_var, hv1, hv2, ne_eq, not_true_eq_false, hd,
          Bool.false_eq_true, hc, jitc_var_inc_ref_run s inner (by simp [hv1]),
          modify_ld_run _ p _ ld (by simp [hld] : (inc_ref_state s inner).loop_data p = some ld)]
      · exact extends_trans _ _ _ (extends_inc_ref s inner) (extends_of_vars_eq _ _ rfl rfl)


/-! ## The second pass of `jitc_var_loop_end` -/

theorem running_size_succ (s : JitState) (ld : LoopData) (c k : Nat) :
    running_size s ld c (k + 1)
      = if slot_survives ld k = true
        then max (running_size s ld c k) (var_size s (s.indices.getD k 0))
        else running_size s ld c k := by
  unfold running_size
  rw [List.range_succ, List.filter_append, List.map_append, List.foldl_append]
  by_cases h : slot_survives ld k = true
  · simp [h]
  · simp [h]

theorem slot_consistent_cases (s : JitState) (ld : LoopData) (i index inner : Nat)
    (v1 v2 : Variable) (hidx : s.indices.getD i 0 = index)
    (hin : ld.inner_inputs.getD i 0 = inner)
    (hv1 : s.vars inner = some v1) (hv2 : s.vars index = some v2)
    (h : slot_consistent s ld i = true) :
    v2.dirty = true ∨ index = inner ∨
      (v2.is_literal = true ∧ v1.is_literal = true ∧ v1.literal = v2.literal) := by
  simp only [slot_consistent, slot_dirty, var_dirty, var_literal, hidx, hin, hv1, hv2,
    Bool.or_eq_true, beq_iff_eq, Bool.and_eq_true] at h
  rcases h with (h | h) | ⟨h1, h2⟩
  · exact Or.inl h
  · exact Or.inr (Or.inl h)
  · refine Or.inr (Or.inr ?_)
    by_cases hl2 : v2.is_literal = true
    · by_cases hl1 : v1.is_literal = true
      · simp [hl1, hl2] at h2
        exact ⟨hl2, hl1, h2⟩
      · simp [hl1, hl2] at h2
    · simp [hl2] at h1

theorem loop_end_output_fold (s : JitState) (p : Nat) (backend : JitBackend) (active : Nat)
    (ld : LoopData) (c : Nat) (hld : s.loop_data p = some ld)
    (hlen : ld.size ≤ s.indices.length ∧ ld.size ≤ ld.inner_inputs.length ∧
      ld.size ≤ ld.outer_inputs.length)
    (hslots : ∀ i, i < ld.size → s.indices.getD i 0 ≠ 0 ∧
      s.indices.getD i 0 < s.variable_index ∧ (s.vars (s.indices.getD i 0)).isSome = true ∧
      ld.inner_inputs.getD i 0 < s.variable_index ∧
      (s.vars (ld.inner_inputs.getD i 0)).isSome = true)
    (hact : active < s.variable_index ∧ (s.vars active).isSome = true)
    (hcons : ∀ i, i < ld.size → slot_survives ld i = false → slot_consistent s ld i = true) :
    ∀ k, k ≤ ld.size → (∀ i, i < k → size_mismatch s ld c i = false) →
      ∃ sk outs, for_fold (loop_end_output p backend active) (List.range k) c s
          = .ok (running_size s ld c k) sk ∧
        sk.loop_data p = some { ld with inner_outputs := ld.inner_outputs ++ outs } ∧
        outs.length = k ∧ sk.indices = s.indices ∧ sk.extra = s.extra ∧
        sk.side_effects_symbolic = s.side_effects_symbolic ∧ Extends s sk ∧
        (∀ i, i < k → slot_survives ld i = false →
          outs[i]? = some (if slot_dirty s i = true then s.indices.getD i 0
            else ld.inner_inputs.getD i 0)) ∧
        (∀ i, i < k → slot_survives ld i = true →
          ∃ o, outs[i]? = some o ∧
            (backend = JitBackend.LLVM → s.variable_index ≤ o ∧ o < sk.variable_index ∧
              is_select sk o active (s.indices.getD i 0) (ld.inner_inputs.getD i 0) = true) ∧
            (backend ≠ JitBackend.LLVM → o = s.indices.getD i 0)) := by
  intro k
  induction k with
  | zero =>
    intro _ _
    exact ⟨s, [], rfl, by simp [hld], rfl, rfl, rfl, rfl, extends_refl s, fun i hi => by omega,
      fun i hi => by omega⟩
  | succ k ih =>
    intro hk hmm
    obtain ⟨sk, outs, hrun, hldk, holen, hind, hextra, hse, hext, houts, hsel⟩ :=
      ih (by omega) (fun i hi => hmm i (by omega))
    obtain ⟨hi0, hilt, hisome, hinlt, hinsome⟩ := hslots k (by omega)
    have hidx := getElem?_eq_some_getD s.indices k (by omega)
    have hin := getElem?_eq_some_getD ld.inner_inputs k (by omega)
    have hout := getElem?_eq_some_getD ld.outer_inputs k (by omega)
    obtain ⟨v2, hv2⟩ := Option.isSome_iff_exists.mp hisome
    obtain ⟨v1, hv1⟩ := Option.isSome_iff_exists.mp hinsome
    obtain ⟨w2, hw2, hn2, _⟩ := extends_lookup s sk hext _ v2 hilt hv2
    obtain ⟨w1, hw1, hn1, _⟩ := extends_lookup s sk hext _ v1 hinlt hv1
    have f2 := node_eq_fields w2 v2 hn2
    have f1 := node_eq_fields w1 v1 hn1
    have hsz : var_size s (s.indices.getD k 0) = v2.size := by simp only [var_size, hv2]
    have hsurv_iff : slot_survives ld k = true ↔
        ld.inner_inputs.getD k 0 ≠ ld.outer_inputs.getD k 0 := by
      simp only [slot_survives, bne_iff_ne, ne_eq]
    have hmk := hmm k (by omega)
    obtain ⟨s1, out, hstep, hld1, hind1, hextra1, hse1, hext1, hout1, hsel1⟩ :=
      loop_end_output_step sk p backend active k (running_size s ld c k)
        { ld with inner_outputs := ld.inner_outputs ++ outs }
        (s.indices.getD k 0) (ld.inner_inputs.getD k 0) (ld.outer_inputs.getD k 0) w1 w2
        hldk (by rw [hind]; exact hidx) hi0 hin hout hw1 hw2
        (extends_isSome s sk hext active hact.1 hact.2)
        (fun hs => by
          have hs1 := hsurv_iff.mpr hs
          rw [f2.2.2.1, ← hsz]
          intro hcon
          simp only [size_mismatch, hs1, Bool.true_and, Bool.and_eq_false_iff,
            bne_eq_false_iff_eq] at hmk
          rcases hmk with (h | h) | h
          · exact hcon.1 h
          · exact hcon.2.1 h
          · exact hcon.2.2 h)
        (fun he => by
          have hs1 : slot_survives ld k = false := by
            simp only [slot_survives, he, bne_self_eq_false]
          have := slot_consistent_cases s ld k _ _ v1 v2 rfl rfl hv1 hv2
            (hcons k (by omega) hs1)
          rw [f2.2.2.2.2.2.2.2.2.2.1, f2.2.2.2.2.2.2.2.2.2.2.1, f2.2.2.2.2.2.2.2.2.2.2.2,
            f1.2.2.2.2.2.2.2.2.2.2.1, f1.2.2.2.2.2.2.2.2.2.2.2]
          exact this)
    refine ⟨s1, outs ++ [out], ?_, ?_, by simp [holen], by rw [hind1, hind],
      by rw [hextra1, hextra], by rw [hse1, hse], extends_trans _ _ _ hext hext1, ?_, ?_⟩
    · rw [for_fold_range_succ, bind_ok _ _ _ _ _ hrun, hstep, running_size_succ]
      congr 1
      by_cases hs : ld.inner_inputs.getD k 0 ≠ ld.outer_inputs.getD k 0
      · rw [if_pos hs, if_pos (hsurv_iff.mpr hs), f2.2.2.1, hsz, Nat.max_comm]
      · rw [if_neg hs, if_neg (fun h => hs (hsurv_iff.mp h))]
    · rw [hld1]
      simp
    · intro i hi hsi
      by_cases hik : i = k
      · subst hik
        have he : ld.inner_inputs.getD i 0 = ld.outer_inputs.getD i 0 := by
          by_contra hcon
          have := hsurv_iff.mpr hcon
          rw [hsi] at this
          cases this
        rw [List.getElem?_append_right (by omega), holen, Nat.sub_self]
        simp only [List.getElem?_cons_zero]
        rw [hout1 he, f2.2.2.2.2.2.2.2.2.2.1]
        simp only [slot_dirty, var_dirty, hv2]
      · rw [List.getElem?_append_left (by omega)]
        exact houts i (by omega) hsi
    · intro i hi hsi
      by_cases hik : i = k
      · subst hik
        have hne : ld.inner_inputs.getD i 0 ≠ ld.outer_inputs.getD i 0 := hsurv_iff.mp hsi
        obtain ⟨hl, hnl⟩ := hsel1 hne
        refine ⟨out, ?_, fun hb => ?_, fun hb => hnl hb⟩
        · rw [List.getElem?_append_right (by omega), holen, Nat.sub_self]
          simp only [List.getElem?_cons_zero]
        · obtain ⟨h1, h2, h3⟩ := hl hb
          refine ⟨?_, h2, h3⟩
          rw [h1]
          exact hext.1
      · obtain ⟨o, ho, hl, hnl⟩ := hsel i (by omega) hsi
        refine ⟨o, ?_, fun hb => ?_, hnl⟩
        · rw [List.getElem?_append_left (by omega)]
          exact ho
        · obtain ⟨h1, h2, h3⟩ := hl hb
          exact ⟨h1, Nat.lt_of_lt_of_le h2 hext1.1, is_select_extends sk s1 hext1 o _ _ _ h2 h3⟩


/-! ## The `LoopResult` nodes -/

theorem inc_ref_state_count_self (s : JitState) (i : Nat) (h0 : i ≠ 0)
    (h : (s.vars i).isSome = true) :
    var_ref_count (inc_ref_state s i) i = var_ref_count s i + 1 := by
  obtain ⟨v, hv⟩ := Option.isSome_iff_exists.mp h
  simp only [inc_ref_state, if_neg h0, hv, var_ref_count, set_var_vars, if_true]

theorem survivors_before_succ (ld : LoopData) (k : Nat) :
    survivors_before ld (k + 1)
      = survivors_before ld k + (if slot_survives ld k = true then 1 else 0) := by
  unfold survivors_before
  rw [List.range_succ, List.filter_append, List.length_append]
  by_cases h : slot_survives ld k = true
  · simp [h]
  · simp [h]

theorem loop_end_result_step (r : JitState) (p : Nat) (backend : JitBackend)
    (size loop_end i : Nat) (ld : LoopData) (index inner outer o : Nat)
    (hld : r.loop_data p = some ld) (hidx : r.indices[i]? = some index)
    (hin : ld.inner_inputs[i]? = some inner) (hout : ld.outer_inputs[i]? = some outer)
    (hsurv : inner ≠ outer → (r.vars index).isSome = true ∧
      (r.vars ld.loop_start).isSome = true ∧ (r.vars loop_end).isSome = true ∧
      loop_end ≠ 0 ∧ loop_end < r.variable_index)
    (helim : inner = outer → ld.inner_outputs[i]? = some o ∧ (r.vars o).isSome = true) :
    ∃ r1 new_index cnt, loop_end_result p backend size loop_end i () r = .ok () r1 ∧
      r1.loop_data p
        = some { ld with outer_outputs := ld.outer_outputs ++ [(new_index, cnt)] } ∧
      r1.indices = r.indices.set i new_index ∧ r1.extra = r.extra ∧
      r1.side_effects_symbolic = r.side_effects_symbolic ∧ Extends r r1 ∧
      (inner ≠ outer → new_index = r.variable_index ∧
        r1.variable_index = r.variable_index + 1 ∧
        (r1.vars new_index).map Variable.node
          = some (result_node backend ld size loop_end i (var_type r index)).node ∧
        var_ref_count r loop_end + 1 ≤ var_ref_count r1 loop_end) ∧
      (inner = outer → new_index = o ∧ r1.variable_index = r.variable_index) := by
  have hi : i < r.indices.length := by
    by_contra hcon
    rw [List.getElem?_eq_none (by omega)] at hidx
    cases hidx
  by_cases hs : inner ≠ outer
  · obtain ⟨hv2, hls, hle, hle0, hlt⟩ := hsurv hs
    obtain ⟨v2, hv2⟩ := Option.isSome_iff_exists.mp hv2
    refine ⟨set_ld (set_indices
        (new_var_state (inc_ref_state (inc_ref_state r ld.loop_start) loop_end)
          (result_node backend ld size loop_end i v2.type))
        (r.indices.set i r.variable_index)) p
        { ld with outer_outputs := ld.outer_outputs ++ [(r.variable_index, 0)] },
      r.variable_index, 0, ?_, by simp, by simp, by simp, by simp, ?_,
      fun _ => ⟨rfl, by simp, ?_, ?_⟩, fun h => absurd h hs⟩
    · unfold loop_end_result
      simp only [bind]
      rw [bind_ok _ _ _ _ _ (get_index_run r i index hidx),
        bind_ok _ _ _ _ _ (get_ld_run r p ld hld),
        bind_ok _ _ _ _ _ (vec_get_run r _ i inner hin),
        bind_ok _ _ _ _ _ (vec_get_run r _ i outer hout), if_pos hs,
        bind_ok _ _ _ _ _ (jitc_var_run r index v2 hv2),
        bind_ok _ _ _ _ _ (jitc_var_inc_ref_run r ld.loop_start hls),
        bind_ok _ _ _ _ _ (jitc_var_inc_ref_run _ loop_end (by simp [hle])),
        bind_ok _ _ _ _ _ (jitc_var_new_run _ _),
        bind_ok _ _ _ _ _ (jitc_var_run _ _
          { result_node backend ld size loop_end i v2.type with ref_count := 1 }
          (by simp [result_node])),
        bind_ok _ _ _ _ _ (set_index_run _ _ _ (by simpa using hi)),
        bind_ok _ _ _ _ _ (jitc_var_run _ _
          { result_node backend ld size loop_end i v2.type with ref_count := 1 }
          (by simp [result_node])),
        modify_ld_run _ p _ ld (by simp [hld])]
      simp [result_node]
    · exact extends_trans _ _ _ (extends_inc_ref r ld.loop_start)
        (extends_trans _ _ _ (extends_inc_ref _ loop_end)
          (extends_trans _ _ _ (extends_new_var _ _) (extends_of_vars_eq _ _ rfl rfl)))
    · simp [var_type, hv2, result_node, Variable.node]
    · have hne : loop_end ≠ r.variable_index := by omega
      have h1 := inc_ref_state_count_self (inc_ref_state r ld.loop_start) loop_end hle0
        (by simp [hle])
      have h2 := inc_ref_state_ref_count r ld.loop_start loop_end
      simp only [var_ref_count, set_ld_vars, set_indices_vars, new_var_state_vars,
        inc_ref_state_variable_index, if_neg hne] at h1 h2 ⊢
      omega
  · have he : inner = outer := by
      by_contra hcon
      exact hs hcon
    obtain ⟨hio, ho⟩ := helim he
    obtain ⟨vo, hvo⟩ := Option.isSome_iff_exists.mp ((inc_ref_state_isSome r o o).trans ho)
    refine ⟨set_ld (set_indices (inc_ref_state r o) (r.indices.set i o)) p
        { ld with outer_outputs := ld.outer_outputs ++ [(o, vo.counter)] },
      o, vo.counter, ?_, by simp, by simp, by simp, by simp, ?_,
      fun h => absurd he h, fun _ => ⟨rfl, by simp⟩⟩
    · unfold loop_end_result
      simp only [bind]
      rw [bind_ok _ _ _ _ _ (get_index_run r i index hidx),
        bind_ok _ _ _ _ _ (get_ld_run r p ld hld),
        bind_ok _ _ _ _ _ (vec_get_run r _ i inner hin),
        bind_ok _ _ _ _ _ (vec_get_run r _ i outer hout), if_neg hs,
        bind_ok _ _ _ _ _ (vec_get_run r _ i o hio),
        bind_ok _ _ _ _ _ (jitc_var_inc_ref_run r o ho),
        bind_ok _ _ _ _ _ (pure_eq o _),
        bind_ok _ _ _ _ _ (jitc_var_run _ o vo hvo),
        bind_ok _ _ _ _ _ (set_index_run _ _ _ (by simpa using hi)),
        bind_ok _ _ _ _ _ (jitc_var_run _ o vo (by simpa using hvo)),
        modify_ld_run _ p _ ld (by simp [hld])]
      simp
    · exact extends_trans _ _ _ (extends_inc_ref r o) (extends_of_vars_eq _ _ rfl rfl)


theorem survivors_before_mono (ld : LoopData) (i k : Nat) (h : i ≤ k) :
    survivors_before ld i ≤ survivors_before ld k := by
  induction k with
  | zero =>
    have : i = 0 := by omega
    rw [this]
  | succ k ih =>
    by_cases hik : i = k + 1
    · rw [hik]
    · have := ih (by omega)
      rw [survivors_before_succ]
      omega

theorem survivors_before_lt (ld : LoopData) (i k : Nat) (h : i < k)
    (hs : slot_survives ld i = true) : survivors_before ld i < survivors_before ld k := by
  have h1 := survivors_before_mono ld (i + 1) k (by omega)
  rw [survivors_before_succ, if_pos hs] at h1
  omega

theorem extends_var_type (s s1 : JitState) (h : Extends s s1) (j : Nat)
    (hj : j < s.variable_index) : var_type s1 j = var_type s j := by
  have := h.2.1 j hj
  unfold var_type
  cases h1 : s1.vars j <;> cases h2 : s.vars j <;> rw [h1, h2] at this <;>
    simp at this ⊢
  exact (node_eq_fields _ _ this).2.1

theorem loop_end_result_fold (r0 : JitState) (p : Nat) (backend : JitBackend)
    (size E : Nat) (ld : LoopData) (hld : r0.loop_data p = some ld)
    (hlen : ld.size ≤ r0.indices.length ∧ ld.size ≤ ld.inner_inputs.length ∧
      ld.size ≤ ld.outer_inputs.length)
    (hE : E ≠ 0 ∧ E < r0.variable_index ∧ (r0.vars E).isSome = true)
    (hls : ld.loop_start < r0.variable_index ∧ (r0.vars ld.loop_start).isSome = true)
    (hsurv : ∀ i, i < ld.size → slot_survives ld i = true →
      r0.indices.getD i 0 < r0.variable_index ∧
      (r0.vars (r0.indices.getD i 0)).isSome = true)
    (helim : ∀ i, i < ld.size → slot_survives ld i = false →
      i < ld.inner_outputs.length ∧ ld.inner_outputs.getD i 0 < r0.variable_index ∧
      (r0.vars (ld.inner_outputs.getD i 0)).isSome = true) :
    ∀ k, k ≤ ld.size → ∃ rk oo,
      for_fold (loop_end_result p backend size E) (List.range k) () r0 = .ok () rk ∧
      rk.loop_data p = some { ld with outer_outputs := ld.outer_outputs ++ oo } ∧
      rk.indices.length = r0.indices.length ∧
      (∀ i, rk.indices[i]? = if i < k then
          some (if slot_survives ld i = true then r0.variable_index + survivors_before ld i
            else ld.inner_outputs.getD i 0)
        else r0.indices[i]?) ∧
      rk.variable_index = r0.variable_index + survivors_before ld k ∧
      rk.extra = r0.extra ∧ rk.side_effects_symbolic = r0.side_effects_symbolic ∧
      Extends r0 rk ∧
      (∀ i, i < k → slot_survives ld i = true →
        (rk.vars (r0.variable_index + survivors_before ld i)).map Variable.node
          = some (result_node backend ld size E i (var_type r0 (r0.indices.getD i 0))).node) ∧
      var_ref_count r0 E + survivors_before ld k ≤ var_ref_count rk E := by
  intro k
  induction k with
  | zero =>
    intro _
    exact ⟨r0, [], rfl, by simp [hld], rfl, fun i => by simp, rfl, rfl, rfl, extends_refl r0,
      fun i hi => by omega, Nat.le_refl _⟩
  | succ k ih =>
    intro hk
    obtain ⟨rk, oo, hrun, hldk, hilen, hind, hvi, hextra, hse, hext, hnodes, hrc⟩ :=
      ih (by omega)
    have hidx0 := getElem?_eq_some_getD r0.indices k (by omega)
    have hidx : rk.indices[k]? = some (r0.indices.getD k 0) := by
      rw [hind k, if_neg (by omega), hidx0]
    have hin := getElem?_eq_some_getD ld.inner_inputs k (by omega)
    have hout := getElem?_eq_some_getD ld.outer_inputs k (by omega)
    have hsurv_iff : slot_survives ld k = true ↔
        ld.inner_inputs.getD k 0 ≠ ld.outer_inputs.getD k 0 := by
      simp only [slot_survives, bne_iff_ne, ne_eq]
    obtain ⟨r1, new_index, cnt, hstep, hld1, hind1, hextra1, hse1, hext1, hnew, hold⟩ :=
      loop_end_result_step rk p backend size E k
        { ld with outer_outputs := ld.outer_outputs ++ oo }
        (r0.indices.getD k 0) (ld.inner_inputs.getD k 0) (ld.outer_inputs.getD k 0)
        (ld.inner_outputs.getD k 0) hldk hidx hin hout
        (fun hs => by
          obtain ⟨h1, h2⟩ := hsurv k (by omega) (hsurv_iff.mpr hs)
          exact ⟨extends_isSome r0 rk hext _ h1 h2, extends_isSome r0 rk hext _ hls.1 hls.2,
            extends_isSome r0 rk hext _ hE.2.1 hE.2.2, hE.1,
            Nat.lt_of_lt_of_le hE.2.1 hext.1⟩)
        (fun he => by
          have hs1 : slot_survives ld k = false := by
            simp only [slot_survives, he, bne_self_eq_false]
          obtain ⟨h1, h2, h3⟩ := helim k (by omega) hs1
          exact ⟨getElem?_eq_some_getD ld.inner_outputs k h1,
            extends_isSome r0 rk hext _ h2 h3⟩)
    refine ⟨r1, oo ++ [(new_index, cnt)], ?_, ?_, ?_, ?_, ?_, by rw [hextra1, hextra],
      by rw [hse1, hse], extends_trans _ _ _ hext hext1, ?_, ?_⟩
    · rw [for_fold_range_succ, bind_ok _ _ _ _ _ hrun]
      exact hstep
    · rw [hld1]
      simp
    · rw [hind1, List.length_set, hilen]
    · intro i
      rw [hind1, List.getElem?_set]
      by_cases hki : k = i
      · subst hki
        rw [if_pos rfl, if_pos (by omega), if_pos (by omega)]
        by_cases hs : slot_survives ld k = true
        · rw [if_pos hs, (hnew (hsurv_iff.mp hs)).1, hvi]
        · rw [if_neg hs]
          have he : ld.inner_inputs.getD k 0 = ld.outer_inputs.getD k 0 := by
            by_contra hcon
            exact hs (hsurv_iff.mpr hcon)
          rw [(hold he).1]
      · rw [if_neg hki, hind i]
        by_cases hik : i < k
        · rw [if_pos hik, if_pos (show i < k + 1 by omega)]
        · rw [if_neg hik, if_neg (show ¬ i < k + 1 by omega)]
    · rw [survivors_before_succ]
      by_cases hs : slot_survives ld k = true
      · rw [if_pos hs, (hnew (hsurv_iff.mp hs)).2.1, hvi]
        omega
      · rw [if_neg hs]
        have he : ld.inner_inputs.getD k 0 = ld.outer_inputs.getD k 0 := by
          by_contra hcon
          exact hs (hsurv_iff.mpr hcon)
        rw [(hold he).2, hvi]
        rfl
    · intro i hi hsi
      by_cases hik : i = k
      · subst hik
        obtain ⟨h1, _, h3, _⟩ := hnew (hsurv_iff.mp hsi)
        rw [← hvi, ← h1, h3]
        have ht : var_type rk (r0.indices.getD i 0) = var_type r0 (r0.indices.getD i 0) :=
          extends_var_type r0 rk hext _ (hsurv i (by omega) hsi).1
        rw [ht]
        rfl
      · have hlt := survivors_before_lt ld i k (by omega) hsi
        rw [hext1.2.1 _ (by rw [hvi]; omega)]
        exact hnodes i (by omega) hsi
    · rw [survivors_before_succ]
      by_cases hs : slot_survives ld k = true
      · rw [if_pos hs]
        have := (hnew (hsurv_iff.mp hs)).2.2.2
        omega
      · rw [if_neg hs]
        have := hext1.2.2 E (Nat.lt_of_lt_of_le hE.2.1 hext.1)
        omega


/-! ## The side effects of the loop body -/

@[simp] theorem pop_side_effect_vars (s : JitState) (b : JitBackend) :
    (pop_side_effect s b).vars = s.vars := rfl

@[simp] theorem pop_side_effect_variable_index (s : JitState) (b : JitBackend) :
    (pop_side_effect s b).variable_index = s.variable_index := rfl

@[simp] theorem pop_side_effect_loop_data (s : JitState) (b : JitBackend) :
    (pop_side_effect s b).loop_data = s.loop_data := rfl

@[simp] theorem pop_side_effect_indices (s : JitState) (b : JitBackend) :
    (pop_side_effect s b).indices = s.indices := rfl

@[simp] theorem pop_side_effect_list (s : JitState) (b : JitBackend) :
    (pop_side_effect s b).side_effects_symbolic b = (s.side_effects_symbolic b).dropLast := by
  simp [pop_side_effect]

theorem loop_end_side_effects_spec (backend : JitBackend) (symbolic : Bool)
    (size loop_end checkpoint : Nat) :
    ∀ (fuel : Nat) (t : JitState) (acc : Nat × Nat),
      checkpoint ≤ (t.side_effects_symbolic backend).length →
      (t.side_effects_symbolic backend).length ≤ checkpoint + fuel →
      (∀ j, checkpoint ≤ j → j < (t.side_effects_symbolic backend).length →
        (t.side_effects_symbolic backend).getD j 0 < t.variable_index ∧
        (t.vars ((t.side_effects_symbolic backend).getD j 0)).isSome = true) →
      (loop_end < t.variable_index ∧ (t.vars loop_end).isSome = true) →
      (acc.1 = 0 ∨ (acc.1 < t.variable_index ∧ (t.vars acc.1).isSome = true)) →
      ∃ t1 acc1, loop_end_side_effects backend symbolic size loop_end checkpoint fuel acc t
          = .ok acc1 t1 ∧
        t1.indices = t.indices ∧ t1.loop_data = t.loop_data ∧ Extends t t1 ∧
        (acc1.1 = 0 ∨ (acc1.1 < t1.variable_index ∧ (t1.vars acc1.1).isSome = true)) := by
  intro fuel
  induction fuel with
  | zero =>
    intro t acc h1 h2 _ _ hacc
    have : (t.side_effects_symbolic backend).length = checkpoint := by omega
    refine ⟨t, acc, ?_, rfl, rfl, extends_refl t, hacc⟩
    simp only [loop_end_side_effects, this, ne_eq, not_true_eq_false, if_false]
  | succ fuel ih =>
    intro t acc h1 h2 hse hle hacc
    by_cases hL : (t.side_effects_symbolic backend).length = checkpoint
    · refine ⟨t, acc, ?_, rfl, rfl, extends_refl t, hacc⟩
      simp only [loop_end_side_effects, hL, ne_eq, not_true_eq_false, if_false]
    · have hpos : 0 < (t.side_effects_symbolic backend).length := by omega
      have hlast : (t.side_effects_symbolic backend).getLast?
          = some ((t.side_effects_symbolic backend).getD
              ((t.side_effects_symbolic backend).length - 1) 0) := by
        rw [List.getLast?_eq_getElem?]
        exact getElem?_eq_some_getD _ _ (by omega)
      obtain ⟨hselt, hsesome⟩ := hse ((t.side_effects_symbolic backend).length - 1)
        (by omega) (by omega)
      generalize hsev : (t.side_effects_symbolic backend).getD
        ((t.side_effects_symbolic backend).length - 1) 0 = se at hlast hselt hsesome
      have hprev : ((if acc.1 = 0 then loop_end else acc.1) < t.variable_index ∧
          (t.vars (if acc.1 = 0 then loop_end else acc.1)).isSome = true) := by
        by_cases h0 : acc.1 = 0
        · rw [if_pos h0]; exact hle
        · rw [if_neg h0]
          rcases hacc with h | h
          · exact absurd h h0
          · exact h
      generalize hpv : (if acc.1 = 0 then loop_end else acc.1) = se_prev at hprev
      obtain ⟨t1, acc1, hrun, hind, hldt, hext, hacc1⟩ :=
        ih (new_var_state
            (inc_ref_state (inc_ref_state (pop_side_effect t backend) se_prev) se)
            { kind := .Nop, type := .Void, backend := backend, symbolic := symbolic,
              size := size, dep0 := se, dep1 := se_prev })
          (t.variable_index, acc.2 + 1)
          (by simp; omega) (by simp; omega)
          (fun j hj1 hj2 => by
            simp only [new_var_state_side_effects_symbolic, inc_ref_state_side_effects,
              pop_side_effect_list, List.length_dropLast] at hj2 ⊢
            have hj3 : j < (t.side_effects_symbolic backend).length := by omega
            have hd : (t.side_effects_symbolic backend).dropLast.getD j 0
                = (t.side_effects_symbolic backend).getD j 0 := by
              rw [List.getD_eq_getElem?_getD, List.getD_eq_getElem?_getD,
                List.dropLast_eq_take, List.getElem?_take]
              rw [if_pos (by omega)]
            rw [hd]
            obtain ⟨h3, h4⟩ := hse j hj1 hj3
            have hne : (t.side_effects_symbolic backend).getD j 0 ≠ t.variable_index := by
              omega
            refine ⟨by
              simp only [new_var_state_variable_index, inc_ref_state_variable_index,
                pop_side_effect_variable_index]
              omega, ?_⟩
            simp only [new_var_state_vars, inc_ref_state_variable_index,
              pop_side_effect_variable_index, if_neg hne, inc_ref_state_isSome,
              pop_side_effect_vars]
            exact h4)
          (by
            have hne : loop_end ≠ t.variable_index := by omega
            refine ⟨by simp; omega, ?_⟩
            simp only [new_var_state_vars, inc_ref_state_variable_index,
              pop_side_effect_variable_index, if_neg hne, inc_ref_state_isSome,
              pop_side_effect_vars]
            exact hle.2)
          (Or.inr ⟨by simp, by simp⟩)
      refine ⟨t1, acc1, ?_, by rw [hind]; simp, by rw [hldt]; simp, ?_, hacc1⟩
      · rw [loop_end_side_effects]
        simp only [ne_eq, hL, not_false_eq_true, if_true, hlast, bind]
        rw [hpv]
        refine (bind_ok _ _ _ _ _ (jitc_var_inc_ref_run (pop_side_effect t backend) se_prev
          (by simpa using hprev.2))).trans ?_
        rw [bind_ok _ _ _ _ _ (jitc_var_inc_ref_run _ se (by simpa using hsesome)),
          bind_ok _ _ _ _ _ (jitc_var_new_run _ _)]
        simp only [inc_ref_state_variable_index, pop_side_effect_variable_index]
        exact hrun
      · refine extends_trans _ _ _ ?_ hext
        exact extends_trans _ _ _ (extends_of_vars_eq t (pop_side_effect t backend) rfl rfl)
          (extends_trans _ _ _ (extends_inc_ref _ se_prev)
            (extends_trans _ _ _ (extends_inc_ref _ se) (extends_new_var _ _)))


/-! ## The end of `jitc_var_loop_end` -/

theorem jitc_var_mark_side_effect_spec (s : JitState) (i : Nat)
    (h : i = 0 ∨ (s.vars i).isSome = true) :
    ∃ s1, jitc_var_mark_side_effect i s = .ok () s1 ∧ s1.indices = s.indices ∧
      s1.loop_data = s.loop_data ∧ Extends s s1 := by
  by_cases h0 : i = 0
  · refine ⟨s, ?_, rfl, rfl, extends_refl s⟩
    simp only [jitc_var_mark_side_effect, h0, if_true]
  · rcases h with h | h
    · exact absurd h h0
    · obtain ⟨v, hv⟩ := Option.isSome_iff_exists.mp h
      refine ⟨set_var s i (some { v with side_effect := true }), ?_, rfl, rfl,
        Nat.le_refl _, fun j _ => ?_, fun j _ => ?_⟩
      · simp only [jitc_var_mark_side_effect, h0, if_false, hv]
      · simp only [set_var_vars]
        split
        · next hj => rw [hj, hv]; rfl
        · rfl
      · simp only [var_ref_count, set_var_vars]
        by_cases hj : j = i
        · simp only [hj, if_true, hv]
          exact Nat.le_refl _
        · simp only [hj, if_false]
          exact Nat.le_refl _

theorem loop_end_transfer_spec (s : JitState) (a b : Nat) :
    ∃ s1, loop_end_transfer a b s = .ok () s1 ∧ s1.vars = s.vars ∧
      s1.variable_index = s.variable_index ∧ s1.indices = s.indices ∧
      s1.loop_data = s.loop_data :=
  ⟨_, rfl, rfl, rfl, rfl, rfl⟩

theorem with_ref_ok {α : Type} (index : Nat) (body : JitM α) (s s1 s2 : JitState) (a : α)
    (h1 : body s = .ok a s1) (h2 : jitc_var_dec_ref index s1 = .ok () s2) :
    with_ref index body s = .ok a s2 := by
  simp only [with_ref, h1, h2]

theorem jitc_var_dec_ref_ok (s : JitState) (i : Nat) (h : (s.vars i).isSome = true) :
    ∃ s1, jitc_var_dec_ref i s = .ok () s1 ∧ s1.indices = s.indices ∧
      s1.loop_data = s.loop_data ∧ (2 ≤ var_ref_count s i → i ≠ 0 → NodesEq s s1) := by
  obtain ⟨v, hv⟩ := Option.isSome_iff_exists.mp h
  by_cases h0 : i = 0
  · refine ⟨s, ?_, rfl, rfl, fun _ h => absurd h0 h⟩
    simp only [jitc_var_dec_ref, h0, if_true]
  · refine ⟨dec_ref_state (s.variable_index + 1) i s, ?_,
      (dec_ref_state_frame _ _ _).2.2.2.2.2.2, (dec_ref_state_frame _ _ _).2.2.2.2.2.1,
      fun hrc _ => ?_⟩
    · simp only [jitc_var_dec_ref, h0, if_false, hv]
    · have hrc' : 2 ≤ v.ref_count := by simpa [var_ref_count, hv] using hrc
      have := jitc_var_dec_ref_shared s i v hv hrc' h0
      have e : dec_ref_state (s.variable_index + 1) i s
          = set_var s i (some { v with ref_count := v.ref_count - 1 }) := by
        simp only [jitc_var_dec_ref, h0, if_false, hv] at this
        injection this
      rw [e]
      exact nodesEq_set_ref s i v _ hv


theorem survivors_before_pos (ld : LoopData) (i n : Nat) (hi : i < n)
    (hs : slot_survives ld i = true) : 1 ≤ survivors_before ld n := by
  have := survivors_before_lt ld i n hi hs
  omega

theorem loop_end_finish_spec (s : JitState) (loop cond checkpoint p : Nat) (ld : LoopData)
    (cv : Variable) (hld : s.loop_data p = some ld)
    (hc : cond < s.variable_index ∧ s.vars cond = some cv)
    (hlen : ld.size ≤ s.indices.length ∧ ld.size ≤ ld.inner_inputs.length ∧
      ld.size ≤ ld.outer_inputs.length)
    (hout0 : ld.inner_outputs = [])
    (hslots : ∀ i, i < ld.size → s.indices.getD i 0 ≠ 0 ∧
      s.indices.getD i 0 < s.variable_index ∧ (s.vars (s.indices.getD i 0)).isSome = true ∧
      ld.inner_inputs.getD i 0 < s.variable_index ∧
      (s.vars (ld.inner_inputs.getD i 0)).isSome = true)
    (hact : cv.dep1 < s.variable_index ∧ (s.vars cv.dep1).isSome = true)
    (hls : ld.loop_start < s.variable_index ∧ (s.vars ld.loop_start).isSome = true)
    (hcons : ∀ i, i < ld.size → slot_survives ld i = false → slot_consistent s ld i = true)
    (hmis : ∀ i, i < ld.size → size_mismatch s ld cv.size i = false)
    (hse : checkpoint ≤ (s.side_effects_symbolic cv.backend).length ∧
      ∀ j, checkpoint ≤ j → j < (s.side_effects_symbolic cv.backend).length →
        (s.side_effects_symbolic cv.backend).getD j 0 < s.variable_index ∧
        (s.vars ((s.side_effects_symbolic cv.backend).getD j 0)).isSome = true) :
    ∃ s_mid s1 outs oo E,
      loop_end_finish loop cond checkpoint p ld s = .ok true s1 ∧
      s.variable_index ≤ E ∧ E ≠ 0 ∧
      jitc_var_dec_ref E s_mid = .ok () s1 ∧
      (s_mid.vars E).map Variable.node
        = some (loop_end_node cv.backend ld (running_size s ld cv.size ld.size) cond).node ∧
      s1.indices = s_mid.indices ∧
      s1.loop_data p
        = some { ld with inner_outputs := outs, outer_outputs := ld.outer_outputs ++ oo } ∧
      (∀ i, i < ld.size → slot_survives ld i = true →
        s1.indices[i]? = some (E + 1 + survivors_before ld i) ∧
        (s_mid.vars (E + 1 + survivors_before ld i)).map Variable.node
          = some (result_node cv.backend ld (running_size s ld cv.size ld.size) E i
              (var_type s (s.indices.getD i 0))).node) ∧
      (∀ i, i < ld.size → slot_survives ld i = false →
        s1.indices[i]? = outs[i]? ∧
        outs[i]? = some (if slot_dirty s i = true then s.indices.getD i 0
          else ld.inner_inputs.getD i 0)) ∧
      ((∃ i, i < ld.size ∧ slot_survives ld i = true) → NodesEq s_mid s1) ∧
      (∀ i, i < ld.size → slot_survives ld i = true →
        ∃ o, outs[i]? = some o ∧
          (cv.backend = JitBackend.LLVM → s.variable_index ≤ o ∧
            is_select s_mid o cv.dep1 (s.indices.getD i 0) (ld.inner_inputs.getD i 0)
              = true) ∧
          (cv.backend ≠ JitBackend.LLVM → o = s.indices.getD i 0)) := by
  -- second pass
  obtain ⟨sk, outs, hfold, hldk, holen, hindk, _, hsek, hextk, houts, hsel⟩ :=
    loop_end_output_fold s p cv.backend cv.dep1 ld cv.size hld hlen hslots hact hcons
      ld.size (Nat.le_refl _) hmis
  rw [hout0, List.nil_append] at hldk
  -- the LoopEnd node
  have hE0 : sk.variable_index ≠ 0 := by
    have := hextk.1
    omega
  have hext1 : Extends sk (new_scope_state (new_var_state (new_scope_state
      (inc_ref_state (inc_ref_state sk ld.loop_start) cond))
      (loop_end_node cv.backend ld (running_size s ld cv.size ld.size) cond))) :=
    extends_trans _ _ _ (extends_inc_ref sk ld.loop_start)
      (extends_trans _ _ _ (extends_inc_ref _ cond)
        (extends_trans _ _ _ (extends_of_vars_eq _ (new_scope_state _) rfl rfl)
          (extends_trans _ _ _ (extends_new_var _ _)
            (extends_of_vars_eq _ (new_scope_state _) rfl rfl))))
  have hext0 := extends_trans _ _ _ hextk hext1
  -- the LoopResult nodes
  obtain ⟨rk, oo, hres, hldr, _, hindr, hvir, _, hser, hextr, hnodes, hrc⟩ :=
    loop_end_result_fold (new_scope_state (new_var_state (new_scope_state
        (inc_ref_state (inc_ref_state sk ld.loop_start) cond))
        (loop_end_node cv.backend ld (running_size s ld cv.size ld.size) cond)))
      p cv.backend (running_size s ld cv.size ld.size) sk.variable_index
      { ld with inner_outputs := outs }
      (by simp [hldk]) (by simpa [hindk] using hlen)
      ⟨hE0, by simp, by simp⟩
      ⟨Nat.lt_of_lt_of_le hls.1 hext0.1, extends_isSome _ _ hext0 _ hls.1 hls.2⟩
      (fun i hi _ => by
        obtain ⟨_, h2, h3, _, _⟩ := hslots i hi
        simp only [new_scope_state_indices, new_var_state_indices, inc_ref_state_indices, hindk]
        exact ⟨Nat.lt_of_lt_of_le h2 hext0.1, extends_isSome _ _ hext0 _ h2 h3⟩)
      (fun i hi hs => by
        obtain ⟨_, h2, h3, h4, h5⟩ := hslots i hi
        have ho := houts i hi hs
        have hgd : outs.getD i 0 = (if slot_dirty s i = true then s.indices.getD i 0
            else ld.inner_inputs.getD i 0) := by
          rw [List.getD_eq_getElem?_getD, ho]
          rfl
        refine ⟨by rw [holen]; exact hi, ?_⟩
        show outs.getD i 0 < _ ∧ _
        rw [hgd]
        by_cases hd : slot_dirty s i = true
        · rw [if_pos hd]
          exact ⟨Nat.lt_of_lt_of_le h2 hext0.1, extends_isSome _ _ hext0 _ h2 h3⟩
        · rw [if_neg hd]
          exact ⟨Nat.lt_of_lt_of_le h4 hext0.1, extends_isSome _ _ hext0 _ h4 h5⟩)
      ld.size (Nat.le_refl _)
  simp only [new_scope_state_indices, new_var_state_indices, inc_ref_state_indices,
    new_scope_state_variable_index, new_var_state_variable_index,
    inc_ref_state_variable_index, new_scope_state_side_effects_symbolic,
    new_var_state_side_effects_symbolic, inc_ref_state_side_effects] at hindr hvir hser hnodes
  have hindr' : ∀ i, rk.indices[i]? = if i < ld.size then
        some (if slot_survives ld i = true then sk.variable_index + 1 + survivors_before ld i
          else outs.getD i 0)
      else sk.indices[i]? := hindr
  have hvir' : rk.variable_index = sk.variable_index + 1 + survivors_before ld ld.size := hvir
  have hnodes' : ∀ i, i < ld.size → slot_survives ld i = true →
      (rk.vars (sk.variable_index + 1 + survivors_before ld i)).map Variable.node
        = some (result_node cv.backend ld (running_size s ld cv.size ld.size) sk.variable_index i
            (var_type (new_scope_state (new_var_state (new_scope_state
              (inc_ref_state (inc_ref_state sk ld.loop_start) cond))
              (loop_end_node cv.backend ld (running_size s ld cv.size ld.size) cond)))
              (sk.indices.getD i 0))).node := hnodes
  have hrc' : var_ref_count (new_scope_state (new_var_state (new_scope_state
        (inc_ref_state (inc_ref_state sk ld.loop_start) cond))
        (loop_end_node cv.backend ld (running_size s ld cv.size ld.size) cond)))
        sk.variable_index + survivors_before ld ld.size
      ≤ var_ref_count rk sk.variable_index := hrc
  have hextsr := extends_trans _ _ _ hext0 hextr
  -- side effects
  obtain ⟨t1, acc1, hside, hindt, hldt, hextt, hacc1⟩ :=
    loop_end_side_effects_spec cv.backend ld.symbolic (running_size s ld cv.size ld.size)
      sk.variable_index checkpoint ((rk.side_effects_symbolic cv.backend).length + 1) rk (0, 0)
      (by rw [hser, hsek]; exact hse.1) (by omega)
      (fun j hj1 hj2 => by
        rw [hser, hsek] at hj2 ⊢
        obtain ⟨h1, h2⟩ := hse.2 j hj1 hj2
        exact ⟨Nat.lt_of_lt_of_le h1 hextsr.1, extends_isSome _ _ hextsr _ h1 h2⟩)
      ⟨by rw [hvir']; omega, extends_isSome _ _ hextr _ (by simp) (by simp)⟩
      (Or.inl rfl)
  obtain ⟨t2, hmark, hind2, hld2, hext2⟩ := jitc_var_mark_side_effect_spec t1 acc1.1
    (by
      rcases hacc1 with h | h
      · exact Or.inl h
      · exact Or.inr h.2)
  obtain ⟨t3, htrans, hvars3, hvi3, hind3, hld3⟩ :=
    loop_end_transfer_spec t2 sk.variable_index loop
  have hext3 : Extends rk t3 :=
    extends_trans _ _ _ hextt (extends_trans _ _ _ hext2 (extends_of_vars_eq _ _ hvars3 hvi3))
  have hErk : sk.variable_index < rk.variable_index := by rw [hvir']; omega
  have hEsome : (t3.vars sk.variable_index).isSome = true :=
    extends_isSome _ _ hext3 _ hErk (extends_isSome _ _ hextr _ (by simp) (by simp))
  obtain ⟨s1, hdec, hind1, hld1, hshared⟩ := jitc_var_dec_ref_ok t3 sk.variable_index hEsome
  refine ⟨t3, s1, outs, oo, sk.variable_index, ?_, hextk.1, hE0, hdec, ?_, hind1, ?_, ?_, ?_, ?_,
    ?_⟩
  · unfold loop_end_finish
    simp only [bind]
    rw [bind_ok _ _ _ _ _ (jitc_var_run s cond cv hc.2)]
    refine (bind_ok _ _ _ _ _ hfold).trans ?_
    rw [bind_ok _ _ _ _ _ (jitc_var_inc_ref_run sk ld.loop_start
        (extends_isSome _ _ hextk _ hls.1 hls.2)),
      bind_ok _ _ _ _ _ (jitc_var_inc_ref_run _ cond
        (by simpa using extends_isSome _ _ hextk _ hc.1 (by rw [hc.2]; rfl))),
      bind_ok _ _ _ _ _ (jitc_new_scope_run _ _),
      bind_ok _ _ _ _ _ (jitc_var_new_run _ _)]
    simp only [new_scope_state_variable_index, inc_ref_state_variable_index]
    refine with_ref_ok _ _ _ t3 s1 true ?_ hdec
    rw [bind_ok _ _ _ _ _ (jitc_new_scope_run _ _)]
    refine (bind_ok _ _ _ _ _ hres).trans ?_
    refine (bind_ok (fun s => Res.ok ((s.side_effects_symbolic cv.backend).length + 1) s) _
      rk rk ((rk.side_effects_symbolic cv.backend).length + 1) rfl).trans ?_
    refine (bind_ok _ _ _ _ _ hside).trans ?_
    rw [bind_ok _ _ _ _ _ hmark, bind_ok _ _ _ _ _ htrans]
    rfl
  · rw [hext3.2.1 _ hErk, hextr.2.1 _ (by simp)]
    simp
  · rw [hld1, hld3, hld2, hldt, hldr]
  · intro i hi hs
    constructor
    · rw [hind1, hind3, hind2, hindt, hindr' i, if_pos hi, if_pos hs]
    · have hlt := survivors_before_lt ld i ld.size hi hs
      have hn := hnodes' i hi hs
      rw [hext3.2.1 _ (by rw [hvir']; omega), hn, hindk]
      have ht : var_type (new_scope_state (new_var_state (new_scope_state
          (inc_ref_state (inc_ref_state sk ld.loop_start) cond))
          (loop_end_node cv.backend ld (running_size s ld cv.size ld.size) cond)))
          (s.indices.getD i 0) = var_type s (s.indices.getD i 0) :=
        extends_var_type _ _ hext0 _ (hslots i hi).2.1
      rw [ht]
  · intro i hi hs
    have ho := houts i hi hs
    refine ⟨?_, ho⟩
    rw [hind1, hind3, hind2, hindt, hindr' i, if_pos hi,
      if_neg (by rw [hs]; exact Bool.false_ne_true), ho, List.getD_eq_getElem?_getD, ho]
    rfl
  · rintro ⟨i, hi, hs⟩
    apply hshared _ hE0
    have h1 := survivors_before_pos ld i ld.size hi hs
    have h2 := hext3.2.2 _ hErk
    have h4 := hrc'
    have h3 : var_ref_count (new_scope_state (new_var_state (new_scope_state
        (inc_ref_state (inc_ref_state sk ld.loop_start) cond))
        (loop_end_node cv.backend ld (running_size s ld cv.size ld.size) cond)))
        sk.variable_index = 1 := by
      simp [var_ref_count]
    omega
  · intro i hi hs
    obtain ⟨o, ho, hl, hnl⟩ := hsel i hi hs
    refine ⟨o, ho, fun hb => ?_, hnl⟩
    obtain ⟨h1, h2, h3⟩ := hl hb
    exact ⟨h1, is_select_extends sk t3
      (extends_trans _ _ _ hext1 (extends_trans _ _ _ hextr hext3)) o _ _ _ h2 h3⟩


/-! ## Sizes in the second pass -/

theorem loop_end_output_fold_raise (s : JitState) (p : Nat) (backend : JitBackend)
    (active : Nat) (ld : LoopData) (c : Nat) (hld : s.loop_data p = some ld)
    (hlen : ld.size ≤ s.indices.length ∧ ld.size ≤ ld.inner_inputs.length ∧
      ld.size ≤ ld.outer_inputs.length)
    (hslots : ∀ i, i < ld.size → s.indices.getD i 0 ≠ 0 ∧
      s.indices.getD i 0 < s.variable_index ∧ (s.vars (s.indices.getD i 0)).isSome = true ∧
      ld.inner_inputs.getD i 0 < s.variable_index ∧
      (s.vars (ld.inner_inputs.getD i 0)).isSome = true)
    (hact : active < s.variable_index ∧ (s.vars active).isSome = true)
    (hcons : ∀ i, i < ld.size → slot_survives ld i = false → slot_consistent s ld i = true)
    (i : Nat) (hi : i < ld.size) (hmi : size_mismatch s ld c i = true)
    (hbefore : ∀ j, j < i → size_mismatch s ld c j = false) :
    ∃ s', for_fold (loop_end_output p backend active) (List.range ld.size) c s = .raise s' := by
  obtain ⟨sk, outs, hrun, hldk, _, hind, _, _, hext, _⟩ :=
    loop_end_output_fold s p backend active ld c hld hlen hslots hact hcons i (by omega) hbefore
  obtain ⟨hi0, hilt, hisome, hinlt, hinsome⟩ := hslots i hi
  have hidx := getElem?_eq_some_getD s.indices i (by omega)
  have hin := getElem?_eq_some_getD ld.inner_inputs i (by omega)
  have hout := getElem?_eq_some_getD ld.outer_inputs i (by omega)
  obtain ⟨v2, hv2⟩ := Option.isSome_iff_exists.mp hisome
  obtain ⟨v1, hv1⟩ := Option.isSome_iff_exists.mp hinsome
  obtain ⟨w2, hw2, hn2, _⟩ := extends_lookup s sk hext _ v2 hilt hv2
  obtain ⟨w1, hw1, _, _⟩ := extends_lookup s sk hext _ v1 hinlt hv1
  have hsz : var_size s (s.indices.getD i 0) = w2.size := by
    rw [(node_eq_fields w2 v2 hn2).2.2.1]
    simp only [var_size, hv2]
  simp only [size_mismatch, Bool.and_eq_true, bne_iff_ne, ne_eq, slot_survives] at hmi
  obtain ⟨⟨⟨h1, h2⟩, h3⟩, h4⟩ := hmi
  rw [hsz] at h2 h4
  exact ⟨sk, for_fold_range_raise _ i _ _ s sk sk hrun
    (loop_end_output_raise sk p backend active i _
      { ld with inner_outputs := ld.inner_outputs ++ outs } _ _ _ w1 w2 hldk
      (by rw [hind]; exact hidx) hi0 hin hout hw1 hw2 h1 ⟨h2, h3, h4⟩) ld.size hi⟩

/-- Claim C20: in the part of `jitc_var_loop_end` that follows the optimization pass, for
a loop whose slots name existing non-zero variables and whose eliminated slots are
unchanged, the running size starts at the size of the cond node and is raised to the
final size of each surviving slot in slot order; the call raises exactly when some
surviving slot has a final size that differs from the running size while neither of the
two is 1, and otherwise it returns true and the `LoopEnd` node and every `LoopResult` node
have the size `running_size … ld.size`, the maximum of the cond size and the final sizes
of all surviving slots. -/
theorem loop_end_finish_sizes (s : JitState) (loop cond checkpoint p : Nat) (ld : LoopData)
    (cv : Variable) (hld : s.loop_data p = some ld)
    (hc : cond < s.variable_index ∧ s.vars cond = some cv)
    (hlen : ld.size ≤ s.indices.length ∧ ld.size ≤ ld.inner_inputs.length ∧
      ld.size ≤ ld.outer_inputs.length)
    (hout0 : ld.inner_outputs = [])
    (hslots : ∀ i, i < ld.size → s.indices.getD i 0 ≠ 0 ∧
      s.indices.getD i 0 < s.variable_index ∧ (s.vars (s.indices.getD i 0)).isSome = true ∧
      ld.inner_inputs.getD i 0 < s.variable_index ∧
      (s.vars (ld.inner_inputs.getD i 0)).isSome = true)
    (hact : cv.dep1 < s.variable_index ∧ (s.vars cv.dep1).isSome = true)
    (hls : ld.loop_start < s.variable_index ∧ (s.vars ld.loop_start).isSome = true)
    (hcons : ∀ i, i < ld.size → slot_survives ld i = false → slot_consistent s ld i = true)
    (hse : checkpoint ≤ (s.side_effects_symbolic cv.backend).length ∧
      ∀ j, j < (s.side_effects_symbolic cv.backend).length → checkpoint ≤ j →
        (s.side_effects_symbolic cv.backend).getD j 0 < s.variable_index ∧
        (s.vars ((s.side_effects_symbolic cv.backend).getD j 0)).isSome = true) :
    ((∃ i, i < ld.size ∧ size_mismatch s ld cv.size i = true) →
      ∃ s', loop_end_finish loop cond checkpoint p ld s = .raise s') ∧
    ((∀ i, i < ld.size → size_mismatch s ld cv.size i = false) →
      ∃ s_mid s1 E, loop_end_finish loop cond checkpoint p ld s = .ok true s1 ∧
        jitc_var_dec_ref E s_mid = .ok () s1 ∧
        (∃ w, s_mid.vars E = some w ∧ w.kind = VarKind.LoopEnd ∧
          w.size = running_size s ld cv.size ld.size) ∧
        ∀ i, i < ld.size → slot_survives ld i = true →
          ∃ r w, s1.indices[i]? = some r ∧ s_mid.vars r = some w ∧
            w.kind = VarKind.LoopResult ∧ w.size = running_size s ld cv.size ld.size) := by
  constructor
  · intro hex
    have hspec := Nat.find_spec hex
    obtain ⟨s', hr⟩ := loop_end_output_fold_raise s p cv.backend cv.dep1 ld cv.size hld hlen
      hslots hact hcons (Nat.find hex) hspec.1 hspec.2
      (fun j hj => by
        have := Nat.find_min hex hj
        have hjs : j < ld.size := Nat.lt_trans hj hspec.1
        cases hm : size_mismatch s ld cv.size j with
        | false => rfl
        | true => exact absurd ⟨hjs, hm⟩ this)
    refine ⟨s', ?_⟩
    unfold loop_end_finish
    simp only [bind]
    rw [bind_ok _ _ _ _ _ (jitc_var_run s cond cv hc.2)]
    exact bind_raise _ _ _ _ hr
  · intro hmis
    obtain ⟨s_mid, s1, outs, oo, E, hrun, _, _, hdec, hE, _, _, hsurv, _, _⟩ :=
      loop_end_finish_spec s loop cond checkpoint p ld cv hld hc hlen hout0 hslots hact hls
        hcons hmis ⟨hse.1, fun j h1 h2 => hse.2 j h2 h1⟩
    refine ⟨s_mid, s1, E, hrun, hdec, ?_, fun i hi hs => ?_⟩
    · cases hw : s_mid.vars E with
      | none => rw [hw] at hE; cases hE
      | some w =>
        rw [hw] at hE
        have hf := node_eq_fields _ _ (Option.some.inj hE)
        exact ⟨w, rfl, hf.1, hf.2.2.1⟩
    · obtain ⟨h1, h2⟩ := hsurv i hi hs
      cases hw : s_mid.vars (E + 1 + survivors_before ld i) with
      | none => rw [hw] at h2; cases h2
      | some w =>
        rw [hw] at h2
        have hf := node_eq_fields _ _ (Option.some.inj h2)
        exact ⟨_, w, h1, hw, hf.1, hf.2.2.1⟩

/-- Witness for C20: the sample loop with two surviving slots of size 4. -/
theorem loop_end_finish_sizes_witness :
    ∃ s_mid s1 E, loop_end_finish 6 8 0 3 sample_ld sample_changed = .ok true s1 ∧
      jitc_var_dec_ref E s_mid = .ok () s1 ∧
      (∃ w, s_mid.vars E = some w ∧ w.kind = VarKind.LoopEnd ∧
        w.size = running_size sample_changed sample_ld sample_cond.size sample_ld.size) ∧
      ∀ i, i < sample_ld.size → slot_survives sample_ld i = true →
        ∃ r w, s1.indices[i]? = some r ∧ s_mid.vars r = some w ∧
          w.kind = VarKind.LoopResult ∧
          w.size = running_size sample_changed sample_ld sample_cond.size sample_ld.size :=
  (loop_end_finish_sizes sample_changed 6 8 0 3 sample_ld sample_cond (by decide!)
    (by decide!) (by decide!) (by decide) (by decide!) (by decide!) (by decide!) (by decide!)
    (by decide!)).2 (by decide!)


/-! ## The nodes created when `jitc_var_loop_end` returns true -/

/-- Claim C15: when the part of `jitc_var_loop_end` that follows the optimization pass
returns true (for a loop whose slots name existing non-zero variables and whose eliminated
slots are unchanged), it has created one `LoopEnd` node `E` with `dep[0]` = loop start and
`dep[1]` = cond, and for the `k`-th surviving slot the `k`-th variable after `E`, a
`LoopResult` node with `dep[0]` = loop start, `dep[1]` = `E` and the type of the final
variable of the slot; the index of the caller is that node for every surviving slot and
the inner output of the slot for every eliminated slot.  The nodes are those of the state
`s_mid` in which the routine executes `return true`; the destructor of the reference to
`E` leads from there to the final state and keeps all nodes when a slot survives. -/
theorem loop_end_finish_nodes (s s1 : JitState) (loop cond checkpoint p : Nat)
    (ld : LoopData) (cv : Variable) (hld : s.loop_data p = some ld)
    (hc : cond < s.variable_index ∧ s.vars cond = some cv)
    (hlen : ld.size ≤ s.indices.length ∧ ld.size ≤ ld.inner_inputs.length ∧
      ld.size ≤ ld.outer_inputs.length)
    (hout0 : ld.inner_outputs = [])
    (hslots : ∀ i, i < ld.size → s.indices.getD i 0 ≠ 0 ∧
      s.indices.getD i 0 < s.variable_index ∧ (s.vars (s.indices.getD i 0)).isSome = true ∧
      ld.inner_inputs.getD i 0 < s.variable_index ∧
      (s.vars (ld.inner_inputs.getD i 0)).isSome = true)
    (hact : cv.dep1 < s.variable_index ∧ (s.vars cv.dep1).isSome = true)
    (hls : ld.loop_start < s.variable_index ∧ (s.vars ld.loop_start).isSome = true)
    (hcons : ∀ i, i < ld.size → slot_survives ld i = false → slot_consistent s ld i = true)
    (hse : checkpoint ≤ (s.side_effects_symbolic cv.backend).length ∧
      ∀ j, j < (s.side_effects_symbolic cv.backend).length → checkpoint ≤ j →
        (s.side_effects_symbolic cv.backend).getD j 0 < s.variable_index ∧
        (s.vars ((s.side_effects_symbolic cv.backend).getD j 0)).isSome = true)
    (hret : loop_end_finish loop cond checkpoint p ld s = .ok true s1) :
    ∃ s_mid E ld1,
      jitc_var_dec_ref E s_mid = .ok () s1 ∧ s.variable_index ≤ E ∧
      (∃ w, s_mid.vars E = some w ∧ w.kind = VarKind.LoopEnd ∧ w.dep0 = ld.loop_start ∧
        w.dep1 = cond) ∧
      s1.loop_data p = some ld1 ∧
      (∀ i, i < ld.size → slot_survives ld i = true →
        ∃ w, s1.indices[i]? = some (E + 1 + survivors_before ld i) ∧
          s_mid.vars (E + 1 + survivors_before ld i) = some w ∧
          w.kind = VarKind.LoopResult ∧ w.dep0 = ld.loop_start ∧ w.dep1 = E ∧
          w.type = var_type s (s.indices.getD i 0)) ∧
      (∀ i, i < ld.size → slot_survives ld i = false →
        s1.indices[i]? = ld1.inner_outputs[i]?) ∧
      ((∃ i, i < ld.size ∧ slot_survives ld i = true) → NodesEq s_mid s1) := by
  by_cases hex : ∃ i, i < ld.size ∧ size_mismatch s ld cv.size i = true
  · have hspec := Nat.find_spec hex
    obtain ⟨s', hr⟩ := loop_end_output_fold_raise s p cv.backend cv.dep1 ld cv.size hld hlen
      hslots hact hcons (Nat.find hex) hspec.1 hspec.2
      (fun j hj => by
        have := Nat.find_min hex hj
        have hjs : j < ld.size := Nat.lt_trans hj hspec.1
        cases hm : size_mismatch s ld cv.size j with
        | false => rfl
        | true => exact absurd ⟨hjs, hm⟩ this)
    have hraise : loop_end_finish loop cond checkpoint p ld s = .raise s' := by
      unfold loop_end_finish
      simp only [bind]
      rw [bind_ok _ _ _ _ _ (jitc_var_run s cond cv hc.2)]
      exact bind_raise _ _ _ _ hr
    rw [hraise] at hret
    cases hret
  · have hmis : ∀ i, i < ld.size → size_mismatch s ld cv.size i = false := by
      intro i hi
      cases hm : size_mismatch s ld cv.size i with
      | false => rfl
      | true => exact absurd ⟨i, hi, hm⟩ hex
    obtain ⟨s_mid, s2, outs, oo, E, hrun, hEge, _, hdec, hE, _, hld1, hsurv, helim, hnodes, _⟩ :=
      loop_end_finish_spec s loop cond checkpoint p ld cv hld hc hlen hout0 hslots hact hls
        hcons hmis ⟨hse.1, fun j h1 h2 => hse.2 j h2 h1⟩
    rw [hret] at hrun
    injection hrun with _ hs
    subst hs
    refine ⟨s_mid, E, _, hdec, hEge, ?_, hld1, fun i hi hs => ?_,
      fun i hi hs => (helim i hi hs).1, hnodes⟩
    · cases hw : s_mid.vars E with
      | none => rw [hw] at hE; cases hE
      | some w =>
        rw [hw] at hE
        have hf := node_eq_fields _ _ (Option.some.inj hE)
        exact ⟨w, rfl, hf.1, hf.2.2.2.2.2.1, hf.2.2.2.2.2.2.1⟩
    · obtain ⟨h1, h2⟩ := hsurv i hi hs
      cases hw : s_mid.vars (E + 1 + survivors_before ld i) with
      | none => rw [hw] at h2; cases h2
      | some w =>
        rw [hw] at h2
        have hf := node_eq_fields _ _ (Option.some.inj h2)
        exact ⟨w, h1, rfl, hf.1, hf.2.2.2.2.2.1, hf.2.2.2.2.2.2.1, hf.2.1⟩

theorem sample_finish_returns :
    ∃ s1, loop_end_finish 6 8 0 3 sample_ld sample_changed = .ok true s1 := by
  obtain ⟨_, s1, _, _, _, hrun, _⟩ :=
    loop_end_finish_spec sample_changed 6 8 0 3 sample_ld sample_cond (by decide!)
      (by decide!) (by decide!) (by decide) (by decide!) (by decide!) (by decide!)
      (by decide!) (by decide!) ⟨by decide!, fun j _ hj => by
        have : (sample_changed.side_effects_symbolic sample_cond.backend).length = 0 := by
          decide!
        omega⟩
  exact ⟨s1, hrun⟩

/-- Witness for C15: the sample loop with two surviving slots. -/
theorem loop_end_finish_nodes_witness :
    ∃ s1, loop_end_finish 6 8 0 3 sample_ld sample_changed = .ok true s1 ∧
      ∃ s_mid E ld1,
        jitc_var_dec_ref E s_mid = .ok () s1 ∧ sample_changed.variable_index ≤ E ∧
        (∃ w, s_mid.vars E = some w ∧ w.kind = VarKind.LoopEnd ∧
          w.dep0 = sample_ld.loop_start ∧ w.dep1 = 8) ∧
        s1.loop_data 3 = some ld1 ∧
        (∀ i, i < sample_ld.size → slot_survives sample_ld i = true →
          ∃ w, s1.indices[i]? = some (E + 1 + survivors_before sample_ld i) ∧
            s_mid.vars (E + 1 + survivors_before sample_ld i) = some w ∧
            w.kind = VarKind.LoopResult ∧ w.dep0 = sample_ld.loop_start ∧ w.dep1 = E ∧
            w.type = var_type sample_changed (sample_changed.indices.getD i 0)) ∧
        (∀ i, i < sample_ld.size → slot_survives sample_ld i = false →
          s1.indices[i]? = ld1.inner_outputs[i]?) ∧
        ((∃ i, i < sample_ld.size ∧ slot_survives sample_ld i = true) → NodesEq s_mid s1) :=
  match sample_finish_returns with
  | ⟨s1, hrun⟩ =>
    ⟨s1, hrun,
      loop_end_finish_nodes sample_changed s1 6 8 0 3 sample_ld sample_cond (by decide!)
        (by decide!) (by decide!) (by decide) (by decide!) (by decide!) (by decide!)
        (by decide!) (by decide!) hrun⟩


/-! ## A loop whose state is invariant -/

theorem getD_of_getElem?_eq (l1 l2 : List Nat) (i : Nat) (h : l1[i]? = l2[i]?) :
    l1.getD i 0 = l2.getD i 0 := by
  rw [List.getD_eq_getElem?_getD, List.getD_eq_getElem?_getD, h]

theorem length_of_getElem?_some (l : List Nat) (i x : Nat) (h : l[i]? = some x) :
    i < l.length := by
  by_contra hcon
  rw [List.getElem?_eq_none (by omega)] at h
  cases h

theorem loop_end_first_call_invariant (s : JitState) (loop cond checkpoint p : Nat)
    (ld : LoopData) (cv : Variable)
    (hp : (s.extra loop).callback_data = some p) (hld : s.loop_data p = some ld)
    (hretry : ld.retry = false) (hopt : s.optimize_loops = true) (hpos : 0 < ld.size)
    (hc : s.vars cond = some cv)
    (hlen : ld.size ≤ s.indices.length ∧ ld.size ≤ ld.inner_inputs.length ∧
      ld.size ≤ ld.outer_inputs.length)
    (hinv : ∀ i, i < ld.size → slot_invariant s ld i = true)
    (hex : ∀ i, i < ld.size → (s.vars (ld.outer_inputs.getD i 0)).isSome = true)
    (hphi : ∀ i, i < ld.size → ld.inner_inputs.getD i 0 ≠ 0 ∧
      2 ≤ var_ref_count s (ld.inner_inputs.getD i 0))
    (hinj : ∀ i j, i < ld.size → j < ld.size →
      ld.inner_inputs.getD i 0 = ld.inner_inputs.getD j 0 → i = j) :
    ∃ s1 inner1, jitc_var_loop_end loop cond checkpoint s = .ok false s1 ∧
      s1.loop_data p = some { ld with inner_inputs := inner1, retry := true } ∧
      (∀ i, i < ld.size → inner1[i]? = ld.outer_inputs[i]?) ∧
      (∀ i, i < ld.size → s1.indices[i]? = ld.outer_inputs[i]?) := by
  have hphi1 : ∀ i, i < ld.size → ld.inner_inputs.getD i 0 ≠ 0 ∧
      ∃ v, s.vars (ld.inner_inputs.getD i 0) = some v ∧ 2 ≤ v.ref_count := by
    intro i hi
    refine ⟨(hphi i hi).1, ?_⟩
    have h2 := (hphi i hi).2
    unfold var_ref_count at h2
    cases hv : s.vars (ld.inner_inputs.getD i 0) with
    | none => rw [hv] at h2; simp at h2
    | some v => rw [hv] at h2; exact ⟨v, rfl, h2⟩
  have hidx : ∀ i, i < ld.size → s.indices.getD i 0 = ld.inner_inputs.getD i 0 := by
    intro i hi
    have := hinv i hi
    simp only [slot_invariant, beq_iff_eq] at this
    exact getD_of_getElem?_eq _ _ i this
  obtain ⟨sz, hsize⟩ : ∃ sz, for_fold (loop_end_size p) (List.range ld.size) cv.size s
      = .ok sz s :=
    ⟨_, loop_end_size_fold s p ld hld
      (fun i hi => ⟨by omega, by omega, by omega, fun h => by
        rw [hinv i hi] at h
        cases h⟩)
      (List.range ld.size) (fun i hi => List.mem_range.mp hi) cv.size⟩
  have hcrit : ∀ sz i, i < ld.size → elimination_criterion s ld true sz i = true := by
    intro sz i hi
    simp only [elimination_criterion, hinv i hi, Bool.true_or, Bool.and_true, Bool.or_true]
  obtain ⟨sk, inner_k, hrun, hldk, _, hinner, hind, _, _⟩ :=
    loop_end_eliminate_fold s p ld true sz hld hlen
      (fun i hi => ⟨hex i hi, by
        rw [hidx i hi]
        obtain ⟨v, hv, _⟩ := (hphi1 i hi).2
        rw [hv]
        rfl⟩)
      hphi1 hinj ld.size (Nat.le_refl _)
  have hin1 : ∀ i, i < ld.size → inner_k[i]? = ld.outer_inputs[i]? := by
    intro i hi
    rw [hinner i, if_pos ⟨hi, hcrit _ i hi⟩]
  have hlenk : ld.size ≤ inner_k.length := by
    by_contra hcon
    have h1 := hin1 (ld.size - 1) (by omega)
    rw [List.getElem?_eq_getElem (by omega : ld.size - 1 < ld.outer_inputs.length),
      List.getElem?_eq_none (by omega)] at h1
    cases h1
  have hcount : 0 < ((List.range ld.size).filter
      (elimination_criterion s ld true sz)).length := by
    rw [List.length_pos_iff_exists_mem]
    exact ⟨0, by rw [List.mem_filter, List.mem_range]; exact ⟨hpos, hcrit _ 0 hpos⟩⟩
  obtain ⟨idx, hreset, _, hidxs⟩ := loop_end_reset_fold sk p { ld with inner_inputs := inner_k }
    hldk ld.size (by rw [hind]; exact hlen.1) hlenk
  refine ⟨{ sk with
      indices := idx
      loop_data := fun q => if q = p then
        some { ld with inner_inputs := inner_k, retry := true } else sk.loop_data q },
    inner_k, ?_, by simp, hin1, ?_⟩
  · unfold jitc_var_loop_end
    rw [bind_ok _ _ s s p (by simp [get_callback_data, hp]),
      bind_ok _ _ s s ld (by simp [get_ld, hld]),
      bind_ok get_optimize _ s s true (by simp [get_optimize, hopt]),
      bind_ok _ _ s s cv (by simp [jitc_var, hc]),
      bind_ok _ _ _ _ _ hsize]
    have hoptrun : loop_end_optimize p ld true sz s = .ok true
        { sk with
          indices := idx
          loop_data := fun q => if q = p then
            some { ld with inner_inputs := inner_k, retry := true } else sk.loop_data q } := by
      simp only [loop_end_optimize, hretry, Bool.not_false, if_true]
      rw [bind_ok _ _ _ _ _ hrun]
      simp only [gt_iff_lt, hcount, decide_True, if_true]
      rw [bind_ok _ _ _ _ _ hreset]
      simp only [JitM.bind, modify_ld, hldk, pure]
    rw [bind_ok _ _ _ _ _ hoptrun]
    rfl
  · intro i hi
    show idx[i]? = _
    rw [hidxs i, if_pos hi]
    exact hin1 i hi

theorem loop_end_retry_call_invariant (s2 : JitState) (loop cond checkpoint p : Nat)
    (ld2 : LoopData) (cv : Variable)
    (hp : (s2.extra loop).callback_data = some p) (hld : s2.loop_data p = some ld2)
    (hretry : ld2.retry = true)
    (hc : cond < s2.variable_index ∧ s2.vars cond = some cv)
    (hlen : ld2.size ≤ s2.indices.length ∧ ld2.size ≤ ld2.inner_inputs.length ∧
      ld2.size ≤ ld2.outer_inputs.length)
    (hout0 : ld2.inner_outputs = [])
    (helim : ∀ i, i < ld2.size → ld2.inner_inputs[i]? = ld2.outer_inputs[i]?)
    (hinv : ∀ i, i < ld2.size → s2.indices[i]? = ld2.inner_inputs[i]?)
    (hslots : ∀ i, i < ld2.size → ld2.outer_inputs.getD i 0 ≠ 0 ∧
      ld2.outer_inputs.getD i 0 < s2.variable_index ∧
      (s2.vars (ld2.outer_inputs.getD i 0)).isSome = true)
    (hact : cv.dep1 < s2.variable_index ∧ (s2.vars cv.dep1).isSome = true)
    (hls : ld2.loop_start < s2.variable_index ∧ (s2.vars ld2.loop_start).isSome = true)
    (hse : checkpoint ≤ (s2.side_effects_symbolic cv.backend).length ∧
      ∀ j, j < (s2.side_effects_symbolic cv.backend).length → checkpoint ≤ j →
        (s2.side_effects_symbolic cv.backend).getD j 0 < s2.variable_index ∧
        (s2.vars ((s2.side_effects_symbolic cv.backend).getD j 0)).isSome = true) :
    ∃ s3, jitc_var_loop_end loop cond checkpoint s2 = .ok true s3 ∧
      ∀ i, i < ld2.size → s3.indices[i]? = ld2.outer_inputs[i]? := by
  have hin : ∀ i, i < ld2.size → ld2.inner_inputs.getD i 0 = ld2.outer_inputs.getD i 0 :=
    fun i hi => getD_of_getElem?_eq _ _ i (helim i hi)
  have hidx : ∀ i, i < ld2.size → s2.indices.getD i 0 = ld2.outer_inputs.getD i 0 :=
    fun i hi => (getD_of_getElem?_eq _ _ i (hinv i hi)).trans (hin i hi)
  have hnosurv : ∀ i, i < ld2.size → slot_survives ld2 i = false := by
    intro i hi
    simp only [slot_survives, hin i hi, bne_self_eq_false]
  obtain ⟨sz, hsize⟩ : ∃ sz, for_fold (loop_end_size p) (List.range ld2.size) cv.size s2
      = .ok sz s2 :=
    ⟨_, loop_end_size_fold s2 p ld2 hld
      (fun i hi => ⟨by omega, by omega, by omega, fun h => by
        have : slot_invariant s2 ld2 i = true := by
          simp only [slot_invariant, hinv i hi, beq_self_eq_true]
        rw [this] at h
        cases h⟩)
      (List.range ld2.size) (fun i hi => List.mem_range.mp hi) cv.size⟩
  obtain ⟨_, s3, outs, _, _, hrun, _, _, _, _, _, _, _, hel, _⟩ :=
    loop_end_finish_spec s2 loop cond checkpoint p ld2 cv hld hc hlen hout0
      (fun i hi => by
        obtain ⟨h1, h2, h3⟩ := hslots i hi
        rw [hidx i hi, hin i hi]
        exact ⟨h1, h2, h3, h2, h3⟩)
      hact hls
      (fun i hi _ => by
        simp only [slot_consistent, hidx i hi, hin i hi, beq_self_eq_true, Bool.or_true,
          Bool.true_or])
      (fun i hi => by
        simp only [size_mismatch, hnosurv i hi, Bool.false_and])
      ⟨hse.1, fun j h1 h2 => hse.2 j h2 h1⟩
  refine ⟨s3, ?_, fun i hi => ?_⟩
  · unfold jitc_var_loop_end
    rw [bind_ok _ _ s2 s2 p (by simp [get_callback_data, hp]),
      bind_ok _ _ s2 s2 ld2 (by simp [get_ld, hld]),
      bind_ok get_optimize _ s2 s2 s2.optimize_loops rfl,
      bind_ok _ _ s2 s2 cv (by simp [jitc_var, hc.2]),
      bind_ok _ _ _ _ _ hsize,
      bind_ok _ _ s2 s2 false (by simp [loop_end_optimize, hretry, pure])]
    simp only [Bool.false_eq_true, if_false]
    exact hrun
  · obtain ⟨h1, h2⟩ := hel i hi (hnosurv i hi)
    rw [h1, h2, hidx i hi, hin i hi, ite_self]
    exact (getElem?_eq_some_getD ld2.outer_inputs i (by omega)).symm

/-- Counterexample to C10 as stated: with loop optimizations switched off, every slot of
the sample loop is loop-invariant, yet the first call of `jitc_var_loop_end` returns
true. -/
theorem jitc_var_loop_end_invariant_unoptimized :
    (∀ i, i < sample_ld.size → slot_invariant sample_unoptimized sample_ld i = true) ∧
    sample_unoptimized.loop_data 3 = some sample_ld ∧
    (jitc_var_loop_end 6 8 0 sample_unoptimized).value? = some true := by
  decide!

/-- Claim C10, amended: for a recorded loop that has not been retried, with loop
optimizations switched on, in which every state slot is loop-invariant (each final index
equals the phi of the slot, and the phis are distinct and still referenced), the first
call of `jitc_var_loop_end` returns false and resets the indices of the caller to the
outer inputs, which are the indices originally passed to `jitc_var_loop_start`; when the
replay leaves the `LoopData` and these indices alone, the next call returns true and the
indices of the caller are still the outer inputs. -/
theorem jitc_var_loop_end_invariant_loop (s : JitState) (loop cond checkpoint p : Nat)
    (ld : LoopData) (cv : Variable)
    (hp : (s.extra loop).callback_data = some p) (hld : s.loop_data p = some ld)
    (hretry : ld.retry = false) (hopt : s.optimize_loops = true) (hpos : 0 < ld.size)
    (hc : s.vars cond = some cv)
    (hlen : ld.size ≤ s.indices.length ∧ ld.size ≤ ld.inner_inputs.length ∧
      ld.size ≤ ld.outer_inputs.length)
    (hout0 : ld.inner_outputs = [])
    (hinv : ∀ i, i < ld.size → slot_invariant s ld i = true)
    (hex : ∀ i, i < ld.size → (s.vars (ld.outer_inputs.getD i 0)).isSome = true)
    (hphi : ∀ i, i < ld.size → ld.inner_inputs.getD i 0 ≠ 0 ∧
      2 ≤ var_ref_count s (ld.inner_inputs.getD i 0))
    (hinj : ∀ i j, i < ld.size → j < ld.size →
      ld.inner_inputs.getD i 0 = ld.inner_inputs.getD j 0 → i = j) :
    ∃ s1, jitc_var_loop_end loop cond checkpoint s = .ok false s1 ∧
      (∀ i, i < ld.size → s1.indices[i]? = ld.outer_inputs[i]?) ∧
      ∀ (s2 : JitState) (cond2 checkpoint2 : Nat) (cv2 : Variable),
        (s2.extra loop).callback_data = some p → s2.loop_data p = s1.loop_data p →
        ld.size ≤ s2.indices.length →
        (∀ i, i < ld.size → s2.indices[i]? = s1.indices[i]?) →
        (cond2 < s2.variable_index ∧ s2.vars cond2 = some cv2) →
        (∀ i, i < ld.size → ld.outer_inputs.getD i 0 ≠ 0 ∧
          ld.outer_inputs.getD i 0 < s2.variable_index ∧
          (s2.vars (ld.outer_inputs.getD i 0)).isSome = true) →
        (cv2.dep1 < s2.variable_index ∧ (s2.vars cv2.dep1).isSome = true) →
        (ld.loop_start < s2.variable_index ∧ (s2.vars ld.loop_start).isSome = true) →
        (checkpoint2 ≤ (s2.side_effects_symbolic cv2.backend).length ∧
          ∀ j, j < (s2.side_effects_symbolic cv2.backend).length → checkpoint2 ≤ j →
            (s2.side_effects_symbolic cv2.backend).getD j 0 < s2.variable_index ∧
            (s2.vars ((s2.side_effects_symbolic cv2.backend).getD j 0)).isSome = true) →
        ∃ s3, jitc_var_loop_end loop cond2 checkpoint2 s2 = .ok true s3 ∧
          ∀ i, i < ld.size → s3.indices[i]? = ld.outer_inputs[i]? := by
  obtain ⟨s1, inner1, hrun, hld1, hin1, hidx1⟩ :=
    loop_end_first_call_invariant s loop cond checkpoint p ld cv hp hld hretry hopt hpos hc
      hlen hinv hex hphi hinj
  refine ⟨s1, hrun, hidx1, ?_⟩
  intro s2 cond2 checkpoint2 cv2 hp2 hld2 hlen2 hidx2 hc2 hslots2 hact2 hls2 hse2
  have hlen1 : ld.size ≤ inner1.length := by
    by_contra hcon
    have h1 := hin1 (ld.size - 1) (by omega)
    rw [List.getElem?_eq_getElem (by omega : ld.size - 1 < ld.outer_inputs.length),
      List.getElem?_eq_none (by omega)] at h1
    cases h1
  exact loop_end_retry_call_invariant s2 loop cond2 checkpoint2 p
    { ld with inner_inputs := inner1, retry := true } cv2 hp2 (hld2.trans hld1) rfl hc2
    ⟨hlen2, hlen1, hlen.2.2⟩ hout0 hin1
    (fun i hi => (hidx2 i hi).trans ((hidx1 i hi).trans (hin1 i hi).symm))
    hslots2 hact2 hls2 hse2

/-- Witness for C10 (amended): the sample loop, with the second call directly after the
first one. -/
theorem jitc_var_loop_end_invariant_loop_witness :
    ∃ s1, jitc_var_loop_end 6 8 0 sample_recorded = .ok false s1 ∧
      (∀ i, i < sample_ld.size → s1.indices[i]? = sample_ld.outer_inputs[i]?) ∧
      ∃ s3, jitc_var_loop_end 6 8 0 s1 = .ok true s3 ∧
        ∀ i, i < sample_ld.size → s3.indices[i]? = sample_ld.outer_inputs[i]? := by
  obtain ⟨s1, h1, h2, h3⟩ := jitc_var_loop_end_invariant_loop sample_recorded 6 8 0 3
    sample_ld sample_cond (by decide!) (by decide!) (by decide) (by decide!) (by decide)
    (by decide!) (by decide!) (by decide) (by decide!) (by decide!) (by decide!)
    (fun i j hi hj => by
      have hi2 : i < 2 := hi
      have hj2 : j < 2 := hj
      interval_cases i <;> interval_cases j <;> decide)
  have e : sample_retry = s1 := by
    unfold sample_retry
    rw [h1]
    rfl
  refine ⟨s1, h1, h2, ?_⟩
  refine h3 s1 8 0 sample_cond ?_ rfl ?_ (fun _ _ => rfl) ?_ ?_ ?_ ?_ ?_
  all_goals rw [← e]
  all_goals decide!

/-! ## `VariableKeyHasher` agrees with `operator==` -/

/-- Claim C25: two keys that compare equal under `VariableKey::operator==` have the same
value under `VariableKeyHasher`, whatever `crc32`, `hash_combine` and the memory are. -/
theorem VariableKeyHasher_consistent (crc32 : List Nat → Nat)
    (hash_combine : Nat → Nat → Nat) (strings : Nat → List Nat) (a b : List Nat)
    (h : Enoki.VariableKey_eq a b = true) :
    VariableKeyHasher crc32 hash_combine strings a =
      VariableKeyHasher crc32 hash_combine strings b := by
  unfold Enoki.VariableKey_eq Enoki.sizeof_VariableKey at h
  rw [beq_iff_eq] at h
  have h8 : a.take 8 = b.take 8 := by
    have := congrArg (List.take 8) h
    simpa [List.take_take] using this
  have h24 : (a.drop 8).take (4 * 6) = (b.drop 8).take (4 * 6) := by
    have := congrArg (List.drop 8) h
    simpa [List.drop_take] using this
  unfold VariableKeyHasher
  simp only [h8, h24]

/-- The keys of two variables that differ in their label only compare equal and have
the same hash value. -/
theorem VariableKeyHasher_consistent_witness :
    Enoki.VariableKey_eq (Enoki.VariableKey (Enoki.sample_variable 4096))
      (Enoki.VariableKey { Enoki.sample_variable 4096 with label := 7 }) = true ∧
    VariableKeyHasher List.sum (fun x y => x + 31 * y) Enoki.sample_strings
        (Enoki.VariableKey (Enoki.sample_variable 4096)) =
      VariableKeyHasher List.sum (fun x y => x + 31 * y) Enoki.sample_strings
        (Enoki.VariableKey { Enoki.sample_variable 4096 with label := 7 }) :=
  ⟨by decide, VariableKeyHasher_consistent _ _ _ _ _ (by decide)⟩

/-! ## The padding of `jit_llvm_mem_allocate` and the bounds of the buffer -/

/-- The padding of an allocation that succeeds lies inside the buffer. -/
theorem padding_bytes_of_success (st : LlvmState) (size align p : Nat)
    (hoff : st.jit_llvm_mem_offset ≤ st.jit_llvm_mem_size)
    (hsize : st.jit_llvm_mem_size < 2 ^ 62) (halign : align < 2 ^ 62)
    (hsz : size < 2 ^ 62)
    (h : (jit_llvm_mem_allocate st size align).1 = some p) :
    ∀ b ∈ padding_bytes st align, b < st.jit_llvm_mem_size := by
  have ha : 0 < effective_align align ∧ effective_align align < 2 ^ 62 := by
    unfold effective_align; split <;> omega
  have hle : st.jit_llvm_mem_offset ≤ offset_align st.jit_llvm_mem_offset align ∧
      offset_align st.jit_llvm_mem_offset align < 2 ^ 63 := by
    unfold offset_align
    have h1 : (st.jit_llvm_mem_offset + (effective_align align - 1)) % 2 ^ 64 =
        st.jit_llvm_mem_offset + (effective_align align - 1) := Nat.mod_eq_of_lt (by omega)
    rw [h1]
    have h2 := Nat.div_add_mod (st.jit_llvm_mem_offset + (effective_align align - 1))
      (effective_align align)
    have h3 := Nat.mod_lt (st.jit_llvm_mem_offset + (effective_align align - 1)) ha.1
    rw [Nat.mul_comm] at h2
    constructor <;> omega
  unfold jit_llvm_mem_allocate at h
  simp only at h
  split at h
  · exact absurd h (by simp)
  · rename_i hgt
    have hmod : (offset_align st.jit_llvm_mem_offset align + size) % 2 ^ 64 =
        offset_align st.jit_llvm_mem_offset align + size := Nat.mod_eq_of_lt (by omega)
    rw [hmod] at hgt
    intro b hb
    unfold padding_bytes at hb
    rw [List.mem_range'_1] at hb
    have hpad : (offset_align st.jit_llvm_mem_offset align + 2 ^ 64 - st.jit_llvm_mem_offset)
        % 2 ^ 64 = offset_align st.jit_llvm_mem_offset align - st.jit_llvm_mem_offset := by
      have : offset_align st.jit_llvm_mem_offset align + 2 ^ 64 - st.jit_llvm_mem_offset =
          (offset_align st.jit_llvm_mem_offset align - st.jit_llvm_mem_offset) + 2 ^ 64 := by
        omega
      rw [this, Nat.add_mod_right]
      exact Nat.mod_eq_of_lt (by omega)
    rw [hpad] at hb
    omega

/-- Claim C26: after the sizing and the reset of `jit_llvm_compile` for a buffer of 100
bytes, the requests `(90, 16)` and `(50, 64)` make `jit_llvm_mem_allocate` zero-fill the
offsets 100 to 127, which lie outside the buffer, in the call that fails; and the
request `(1, 256)` after the failed request `(200, 16)` zero-fills the offsets 200 to
255. -/
theorem jit_llvm_mem_allocate_pads_outside :
    (jit_llvm_compile_reset ⟨[], 0, 0, 0⟩ 100).jit_llvm_mem_size = 100 ∧
    (allocate_all (jit_llvm_compile_reset ⟨[], 0, 0, 0⟩ 100) [(90, 16), (50, 64)]).map
      Allocation.result = [some 0, none] ∧
    padding_all (jit_llvm_compile_reset ⟨[], 0, 0, 0⟩ 100) [(90, 16), (50, 64)] =
      [[], List.range' 90 38] ∧
    (allocate_all (jit_llvm_compile_reset ⟨[], 0, 0, 0⟩ 100) [(200, 16), (1, 256)]).map
      Allocation.result = [none, none] ∧
    padding_all (jit_llvm_compile_reset ⟨[], 0, 0, 0⟩ 100) [(200, 16), (1, 256)] =
      [[], List.range' 200 56] ∧
    ¬ ∀ l ∈ padding_all (jit_llvm_compile_reset ⟨[], 0, 0, 0⟩ 100) [(90, 16), (50, 64)],
      ∀ b ∈ l, b < (jit_llvm_compile_reset ⟨[], 0, 0, 0⟩ 100).jit_llvm_mem_size := by
  decide

/-! ## The value that `jit_llvm_init` returns -/

/-- On every path but the failure to create the MCJIT engine, `jit_llvm_init` returns
the value of `jit_llvm_init_success`. -/
theorem jit_llvm_init_returns_success (env : InitEnv) (st : InitState) (r : Bool)
    (st1 : InitState) (hm : env.mcjit_ok = true ∨ st.jit_llvm_init_attempted = true)
    (hinv : st.jit_llvm_init_attempted = false → st.jit_llvm_init_success = false)
    (h : jit_llvm_init env st = .ok (r, st1)) : r = st1.jit_llvm_init_success := by
  unfold jit_llvm_init at h
  split at h
  · cases h; rfl
  · rename_i hatt
    have hmc : env.mcjit_ok = true := by
      rcases hm with hm | hm
      · exact hm
      · exact absurd hm hatt
    have hs : st.jit_llvm_init_success = false := hinv (by simpa using hatt)
    simp only [hmc, Bool.not_true, Bool.false_eq_true, if_false] at h
    split_ifs at h <;> first | (cases h; done) | (cases h; simp [hs])

/-- Claim C27: when everything succeeds up to the creation of the MCJIT engine and that
fails, the first call of `jit_llvm_init` returns true although `jit_llvm_init_success`
is false, and a second call returns false. -/
theorem jit_llvm_init_mcjit_failure :
    jit_llvm_init ⟨true, true, true, true, true, true, true, false, true, true, false⟩
        ⟨false, false, 0⟩ = .ok (true, ⟨true, false, 0⟩) ∧
    jit_llvm_init_twice
        ⟨true, true, true, true, true, true, true, false, true, true, false⟩
        ⟨true, true, true, true, true, true, true, false, true, true, false⟩
        ⟨false, false, 0⟩ = some (true, false) := by
  decide

/-! ## `Buffer` -/

theorem memcpy_at_length (buf : List Nat) (off : Nat) (data : List Nat)
    (h : off + data.length ≤ buf.length) : (memcpy_at buf off data).length = buf.length := by
  unfold memcpy_at
  simp only [List.length_append, List.length_take, List.length_drop]
  omega

theorem memcpy_at_take (buf : List Nat) (off : Nat) (data : List Nat)
    (h : off ≤ buf.length) : (memcpy_at buf off data).take off = buf.take off := by
  unfold memcpy_at
  rw [List.append_assoc, List.take_append_of_le_length (by simp [h])]
  rw [List.take_take, Nat.min_self]

theorem memcpy_at_take_add (buf : List Nat) (off : Nat) (data : List Nat)
    (h : off ≤ buf.length) :
    (memcpy_at buf off data).take (off + data.length) = buf.take off ++ data := by
  unfold memcpy_at
  have hl : (List.take off buf ++ data).length = off + data.length := by
    simp [List.length_take, h]
  rw [← hl, List.take_left]

theorem memcpy_at_getElem (buf : List Nat) (off : Nat) (data : List Nat) (i : Nat)
    (h : off ≤ buf.length) (hi : i < data.length) :
    (memcpy_at buf off data)[off + i]? = data[i]? := by
  unfold memcpy_at
  have hl : (List.take off buf).length = off := by simp [List.length_take, h]
  rw [List.append_assoc, List.getElem?_append_right (by omega), hl, Nat.add_sub_cancel_left,
    List.getElem?_append_left hi]

/-- The call `memccpy` of `Buffer::put` on a C string `s` finds the NUL exactly when
the string and its NUL fit into `n` bytes. -/
theorem memccpy_string (dest : List Nat) (off : Nat) (s rest : List Nat) (n : Nat)
    (hs : 0 ∉ s) :
    memccpy dest off (s ++ 0 :: rest) 0 n =
      if s.length < n then (memcpy_at dest off (s ++ [0]), some (off + s.length + 1))
      else (memcpy_at dest off (s.take n), none) := by
  unfold memccpy
  by_cases hn : s.length < n
  · have htake : (s ++ 0 :: rest).take n = s ++ (0 :: rest).take (n - s.length) := by
      rw [List.take_append_eq_append_take, List.take_of_length_le (by omega)]
    have hidx : ((s ++ 0 :: rest).take n).indexOf 0 = s.length := by
      rw [htake]
      obtain ⟨m, hm⟩ : ∃ m, n - s.length = m + 1 := ⟨n - s.length - 1, by omega⟩
      rw [hm, List.take_succ_cons, List.indexOf_append_of_not_mem hs, List.indexOf_cons_self,
        Nat.add_zero]
    have hlen : s.length < ((s ++ 0 :: rest).take n).length := by
      simp only [List.length_take, List.length_append, List.length_cons]
      omega
    simp only [hidx, hlen, hn, if_true]
    have : (s ++ 0 :: rest).take (s.length + 1) = s ++ [0] := by
      rw [List.take_append_eq_append_take, List.take_of_length_le (by omega)]
      simp
    rw [this]
  · have htake : (s ++ 0 :: rest).take n = s.take n := by
      rw [List.take_append_of_le_length (by omega)]
    have hnot : 0 ∉ s.take n := fun h => hs (List.mem_of_mem_take h)
    have hidx : (s.take n).indexOf 0 = (s.take n).length :=
      List.indexOf_eq_length.mpr hnot
    simp only [htake, hidx, Nat.lt_irrefl, if_false, hn]

/-- The loop of `Buffer::put` ends once the allocation is large enough, and the buffer
then holds what it held before, the string and a NUL. -/
theorem Buffer.put_spec (expand : Buffer → Buffer) (hexp : expand_spec expand)
    (s rest : List Nat) (hs : 0 ∉ s) :
    ∀ (d fuel : Nat) (b : Buffer), b.cur ≤ b.mem.length →
      s.length + 1 ≤ (b.mem.length - b.cur) + d → d < fuel →
      ∃ b1, Buffer.put expand (s ++ 0 :: rest) fuel b = some b1 ∧
        b1.cur = b.cur + s.length ∧ b1.cur < b1.mem.length ∧
        b1.mem.take b1.cur = b.mem.take b.cur ++ s ∧ b1.mem[b1.cur]? = some 0 := by
  intro d
  induction d with
  | zero =>
    intro fuel b hcur hfit hfuel
    obtain ⟨f, rfl⟩ : ∃ f, fuel = f + 1 := ⟨fuel - 1, by omega⟩
    unfold Buffer.put
    simp only [memccpy_string _ _ _ _ _ hs]
    rw [if_pos (by omega)]
    have hlen : (memcpy_at b.mem b.cur (s ++ [0])).length = b.mem.length :=
      memcpy_at_length _ _ _ (by simp; omega)
    refine ⟨_, rfl, by simp, ?_, ?_, ?_⟩
    · simp only [Nat.add_sub_cancel, hlen]; omega
    · simp only [Nat.add_sub_cancel]
      have h1 := memcpy_at_take_add b.mem b.cur (s ++ [0]) hcur
      have h2 := congrArg (List.take (b.cur + s.length)) h1
      rw [List.take_take, Nat.min_eq_left (by simp)] at h2
      rw [h2, ← List.append_assoc, List.take_left']
      simp [List.length_take, hcur]
    · simp only [Nat.add_sub_cancel]
      rw [memcpy_at_getElem _ _ _ _ hcur (by simp)]
      simp
  | succ d ih =>
    intro fuel b hcur hfit hfuel
    obtain ⟨f, rfl⟩ : ∃ f, fuel = f + 1 := ⟨fuel - 1, by omega⟩
    by_cases hn : s.length < b.mem.length - b.cur
    · unfold Buffer.put
      simp only [memccpy_string _ _ _ _ _ hs]
      rw [if_pos hn]
      have hlen : (memcpy_at b.mem b.cur (s ++ [0])).length = b.mem.length :=
        memcpy_at_length _ _ _ (by simp; omega)
      refine ⟨_, rfl, by simp, ?_, ?_, ?_⟩
      · simp only [Nat.add_sub_cancel, hlen]; omega
      · simp only [Nat.add_sub_cancel]
        have h1 := memcpy_at_take_add b.mem b.cur (s ++ [0]) hcur
        have h2 := congrArg (List.take (b.cur + s.length)) h1
        rw [List.take_take, Nat.min_eq_left (by simp)] at h2
        rw [h2, ← List.append_assoc, List.take_left']
        simp [List.length_take, hcur]
      · simp only [Nat.add_sub_cancel]
        rw [memcpy_at_getElem _ _ _ _ hcur (by simp)]
        simp
    · unfold Buffer.put
      simp only [memccpy_string _ _ _ _ _ hs]
      rw [if_neg hn]
      simp only
      have hlen : (memcpy_at b.mem b.cur (s.take (b.mem.length - b.cur))).length =
          b.mem.length :=
        memcpy_at_length _ _ _ (by simp only [List.length_take]; omega)
      obtain ⟨he1, he2, he3⟩ := hexp
        { b with mem := memcpy_at b.mem b.cur (s.take (b.mem.length - b.cur)) }
        (by simp only [hlen]; exact hcur)
      simp only at he1 he2 he3
      rw [hlen] at he3
      rw [memcpy_at_take _ _ _ hcur] at he2
      obtain ⟨b1, hput, h1, h2, h3, h4⟩ := ih f
        (expand { b with mem := memcpy_at b.mem b.cur (s.take (b.mem.length - b.cur)) })
        (by rw [he1]; omega) (by rw [he1]; omega) (by omega)
      refine ⟨b1, hput, ?_, h2, ?_, h4⟩
      · rw [h1, he1]
      · rw [h3, he1, he2]

/-- The loop of `Buffer::fmt` ends once the allocation is large enough, and the buffer
then holds what it held before, the text and a NUL. -/
theorem Buffer.fmt_spec (expand : Buffer → Buffer) (hexp : expand_spec expand)
    (out : List Nat) :
    ∀ (d fuel : Nat) (b : Buffer), b.cur ≤ b.mem.length →
      out.length + 1 ≤ (b.mem.length - b.cur) + d → d < fuel →
      ∃ b1, Buffer.fmt expand out fuel b = some (out.length, b1) ∧
        b1.cur = b.cur + out.length ∧ b1.cur < b1.mem.length ∧
        b1.mem.take b1.cur = b.mem.take b.cur ++ out ∧ b1.mem[b1.cur]? = some 0 := by
  intro d
  have hfit_case : ∀ (f : Nat) (b : Buffer), b.cur ≤ b.mem.length →
      out.length < b.mem.length - b.cur →
      ∃ b1, Buffer.fmt expand out (f + 1) b = some (out.length, b1) ∧
        b1.cur = b.cur + out.length ∧ b1.cur < b1.mem.length ∧
        b1.mem.take b1.cur = b.mem.take b.cur ++ out ∧ b1.mem[b1.cur]? = some 0 := by
    intro f b hcur hn
    unfold Buffer.fmt vsnprintf
    simp only
    rw [if_pos hn, if_neg (by omega)]
    have htk : out.take (b.mem.length - b.cur - 1) = out :=
      List.take_of_length_le (by omega)
    rw [htk]
    have hlen : (memcpy_at b.mem b.cur (out ++ [0])).length = b.mem.length :=
      memcpy_at_length _ _ _ (by simp; omega)
    refine ⟨_, rfl, rfl, ?_, ?_, ?_⟩
    · simp only [hlen]; omega
    · simp only
      have h1 := memcpy_at_take_add b.mem b.cur (out ++ [0]) hcur
      have h2 := congrArg (List.take (b.cur + out.length)) h1
      rw [List.take_take, Nat.min_eq_left (by simp)] at h2
      rw [h2, ← List.append_assoc, List.take_left']
      simp [List.length_take, hcur]
    · simp only
      rw [memcpy_at_getElem _ _ _ _ hcur (by simp)]
      simp
  induction d with
  | zero =>
    intro fuel b hcur hfit hfuel
    obtain ⟨f, rfl⟩ : ∃ f, fuel = f + 1 := ⟨fuel - 1, by omega⟩
    exact hfit_case f b hcur (by omega)
  | succ d ih =>
    intro fuel b hcur hfit hfuel
    obtain ⟨f, rfl⟩ : ∃ f, fuel = f + 1 := ⟨fuel - 1, by omega⟩
    by_cases hn : out.length < b.mem.length - b.cur
    · exact hfit_case f b hcur hn
    · unfold Buffer.fmt
      simp only
      rw [if_neg (by unfold vsnprintf; simpa using hn)]
      have hmem : ∃ m, (vsnprintf b.mem b.cur (b.mem.length - b.cur) out).1 = m ∧
          m.length = b.mem.length ∧ m.take b.cur = b.mem.take b.cur := by
        unfold vsnprintf
        simp only
        split
        · exact ⟨_, rfl, rfl, rfl⟩
        · refine ⟨_, rfl, memcpy_at_length _ _ _ ?_, memcpy_at_take _ _ _ hcur⟩
          simp only [List.length_append, List.length_take, List.length_singleton]
          omega
      obtain ⟨m, hm, hmlen, hmtake⟩ := hmem
      rw [hm]
      obtain ⟨he1, he2, he3⟩ := hexp { b with mem := m } (by simp only [hmlen]; exact hcur)
      simp only at he1 he2 he3
      rw [hmlen] at he3
      rw [hmtake] at he2
      obtain ⟨b1, hput, h1, h2, h3, h4⟩ := ih f (expand { b with mem := m })
        (by rw [he1]; omega) (by rw [he1]; omega) (by omega)
      refine ⟨b1, hput, ?_, h2, ?_, h4⟩
      · rw [h1, he1]
      · rw [h3, he1, he2]

/-- The string that `get` returns when a NUL follows bytes that are not NUL. -/
theorem Buffer.get_of_contents (b : Buffer) (h0 : b.mem[b.cur]? = some 0)
    (hn : 0 ∉ b.mem.take b.cur) : b.get = some (b.mem.take b.cur) := by
  have hlt : b.cur < b.mem.length := by
    rcases Nat.lt_or_ge b.cur b.mem.length with h | h
    · exact h
    · rw [List.getElem?_eq_none h] at h0
      exact absurd h0 (by simp)
  have hsplit : b.mem = b.mem.take b.cur ++ 0 :: b.mem.drop (b.cur + 1) := by
    have h1 : b.mem.drop b.cur = 0 :: b.mem.drop (b.cur + 1) := by
      rw [List.drop_eq_getElem_cons hlt]
      congr 1
      rw [List.getElem?_eq_getElem hlt] at h0
      exact Option.some.inj h0
    calc b.mem = b.mem.take b.cur ++ b.mem.drop b.cur := (List.take_append_drop _ _).symm
      _ = _ := by rw [h1]
  unfold Buffer.get
  have hmem : 0 ∈ b.mem := by
    rw [hsplit]
    simp
  rw [if_pos hmem]
  congr 1
  conv_lhs => rw [hsplit]
  rw [List.takeWhile_append_of_pos]
  · simp
  · intro x hx
    have : x ≠ 0 := fun h => hn (h ▸ hx)
    simpa using this

theorem expand_double_spec : expand_spec expand_double := by
  intro b h
  refine ⟨rfl, ?_, ?_⟩
  · unfold expand_double
    simp only
    rw [List.take_append_of_le_length h]
  · unfold expand_double
    simp only [List.length_append, List.length_replicate]
    omega

/-- The C string at the start of a list that holds a NUL at position `c` ends at or
before `c`. -/
theorem takeWhile_nul (l : List Nat) :
    ∀ c, l[c]? = some 0 →
      (l.takeWhile fun x => x != 0).length ≤ c ∧
      l[(l.takeWhile fun x => x != 0).length]? = some 0 := by
  induction l with
  | nil => intro c h; simp at h
  | cons a l ih =>
    intro c h
    by_cases ha : a = 0
    · subst ha
      simp
    · rw [List.takeWhile_cons_of_pos (by simpa using ha)]
      cases c with
      | zero =>
        simp at h
        exact absurd h ha
      | succ c =>
        rw [List.getElem?_cons_succ] at h
        obtain ⟨h1, h2⟩ := ih c h
        simp only [List.length_cons, List.getElem?_cons_succ]
        exact ⟨by omega, h2⟩

/-- Claim C24: for every buffer with `m_cur` inside the allocation and every
NUL-terminated string `s`, `Buffer::put` returns once the allocation has been expanded
often enough, whether or not `s` fits at first, and leaves the buffer holding its
previous contents followed by `s` and a NUL, given that `expand` keeps the contents and
strictly enlarges the allocation; `Buffer::clear` leaves the empty string. -/
theorem Buffer_put_appends (expand : Buffer → Buffer) (hexp : expand_spec expand)
    (b : Buffer) (s rest : List Nat) (fuel : Nat) (hcur : b.cur ≤ b.mem.length)
    (hs : 0 ∉ s) (hfuel : s.length + 1 < fuel) :
    (∃ b1, Buffer.put expand (s ++ 0 :: rest) fuel b = some b1 ∧
      b1.cur = b.cur + s.length ∧
      b1.mem.take b1.cur = b.mem.take b.cur ++ s ∧ b1.mem[b1.cur]? = some 0 ∧
      (0 ∉ b.mem.take b.cur → b1.get = some (b.mem.take b.cur ++ s))) ∧
    (b.mem ≠ [] → b.clear.cur = 0 ∧ b.clear.mem[0]? = some 0 ∧ b.clear.get = some []) := by
  constructor
  · obtain ⟨b1, hput, h1, _, h3, h4⟩ :=
      Buffer.put_spec expand hexp s rest hs (s.length + 1) fuel b hcur (by omega) hfuel
    refine ⟨b1, hput, h1, h3, h4, fun h0 => ?_⟩
    have := Buffer.get_of_contents b1 h4 (by
      rw [h3]
      intro hmem
      rcases List.mem_append.mp hmem with h | h
      · exact h0 h
      · exact hs h)
    rw [this, h3]
  · intro hne
    have h0 : b.clear.mem[b.clear.cur]? = some 0 := by
      unfold Buffer.clear
      cases hm : b.mem with
      | nil => exact absurd hm hne
      | cons a l => simp
    refine ⟨rfl, h0, ?_⟩
    have := Buffer.get_of_contents b.clear h0 (by simp [Buffer.clear])
    rw [this]
    simp [Buffer.clear]

/-- The text `cdefgh` does not fit into the six bytes that are left in the sample
buffer; after one expansion the buffer holds `abcdefgh`. -/
theorem Buffer_put_appends_witness :
    expand_spec expand_double ∧ sample_buffer.cur ≤ sample_buffer.mem.length ∧
    0 ∉ [99, 100, 101, 102, 103, 104] ∧
    ¬ [99, 100, 101, 102, 103, 104].length < sample_buffer.mem.length - sample_buffer.cur ∧
    ((∃ b1, Buffer.put expand_double ([99, 100, 101, 102, 103, 104] ++ 0 :: []) 8
        sample_buffer = some b1 ∧
      b1.cur = sample_buffer.cur + [99, 100, 101, 102, 103, 104].length ∧
      b1.mem.take b1.cur =
        sample_buffer.mem.take sample_buffer.cur ++ [99, 100, 101, 102, 103, 104] ∧
      b1.mem[b1.cur]? = some 0 ∧
      (0 ∉ sample_buffer.mem.take sample_buffer.cur →
        b1.get = some (sample_buffer.mem.take sample_buffer.cur ++
          [99, 100, 101, 102, 103, 104]))) ∧
    (sample_buffer.mem ≠ [] → sample_buffer.clear.cur = 0 ∧
      sample_buffer.clear.mem[0]? = some 0 ∧ sample_buffer.clear.get = some [])) :=
  ⟨expand_double_spec, by decide, by decide, by decide,
    Buffer_put_appends expand_double expand_double_spec sample_buffer
      [99, 100, 101, 102, 103, 104] [] 8 (by decide) (by decide) (by decide)⟩

/-- Claim C28: `Buffer::clear`, `Buffer::put` and `Buffer::fmt` keep the invariant
`m_start <= m_cur < m_end` with a NUL stored at `m_cur`, given that `expand` keeps the
contents and strictly enlarges the allocation; and under the invariant `get` returns a
string whose NUL lies inside the allocation, at or before `m_cur`. -/
theorem Buffer_valid_preserved (expand : Buffer → Buffer) (hexp : expand_spec expand)
    (b : Buffer) (hv : b.valid) :
    b.clear.valid ∧
    (∀ s rest fuel, 0 ∉ s → s.length + 1 < fuel →
      ∃ b1, Buffer.put expand (s ++ 0 :: rest) fuel b = some b1 ∧ b1.valid) ∧
    (∀ out fuel, out.length + 1 < fuel →
      ∃ b1, Buffer.fmt expand out fuel b = some (out.length, b1) ∧ b1.valid) ∧
    (∃ str, b.get = some str ∧ str.length ≤ b.cur ∧ str.length < b.mem.length ∧
      b.mem[str.length]? = some 0) := by
  obtain ⟨hlt, h0⟩ := hv
  refine ⟨?_, ?_, ?_, ?_⟩
  · unfold Buffer.valid Buffer.clear
    cases hm : b.mem with
    | nil => rw [hm] at hlt; simp at hlt
    | cons a l => simp
  · intro s rest fuel hs hfuel
    obtain ⟨b1, hput, _, h2, _, h4⟩ :=
      Buffer.put_spec expand hexp s rest hs (s.length + 1) fuel b (by omega) (by omega) hfuel
    exact ⟨b1, hput, h2, h4⟩
  · intro out fuel hfuel
    obtain ⟨b1, hput, _, h2, _, h4⟩ :=
      Buffer.fmt_spec expand hexp out (out.length + 1) fuel b (by omega) (by omega) hfuel
    exact ⟨b1, hput, h2, h4⟩
  · obtain ⟨h1, h2⟩ := takeWhile_nul b.mem b.cur h0
    have hmem : 0 ∈ b.mem := by
      rw [List.getElem?_eq_getElem hlt] at h0
      have := List.getElem_mem hlt
      rw [Option.some.inj h0] at this
      exact this
    refine ⟨_, ?_, h1, by omega, h2⟩
    unfold Buffer.get
    rw [if_pos hmem]

/-- The sample buffer satisfies the invariant, and so do the buffers that follow it. -/
theorem Buffer_valid_preserved_witness :
    sample_buffer.valid ∧ sample_buffer.clear.valid ∧
    (∀ s rest fuel, 0 ∉ s → s.length + 1 < fuel →
      ∃ b1, Buffer.put expand_double (s ++ 0 :: rest) fuel sample_buffer = some b1 ∧
        b1.valid) ∧
    (∀ out fuel, out.length + 1 < fuel →
      ∃ b1, Buffer.fmt expand_double out fuel sample_buffer = some (out.length, b1) ∧
        b1.valid) ∧
    (∃ str, sample_buffer.get = some str ∧ str.length ≤ sample_buffer.cur ∧
      str.length < sample_buffer.mem.length ∧ sample_buffer.mem[str.length]? = some 0) :=
  ⟨by decide, Buffer_valid_preserved expand_double expand_double_spec sample_buffer
    (by decide)⟩

/-! ## The chain of `Nop` nodes that re-parents the side effects -/

theorem inc_ref_state_side_effect (s : JitState) (i j : Nat) :
    var_side_effect (inc_ref_state s i) j = var_side_effect s j := by
  unfold inc_ref_state
  split
  · rfl
  · split
    · next v hv =>
      simp only [var_side_effect, set_var_vars]
      by_cases hj : j = i
      · simp only [hj, if_true, hv]
      · simp only [hj, if_false]
    · rfl

theorem new_var_state_side_effect (s : JitState) (v : Variable) (j : Nat)
    (hj : j ≠ s.variable_index) :
    var_side_effect (new_var_state s v) j = var_side_effect s j := by
  simp only [var_side_effect, new_var_state_vars, if_neg hj]

theorem dropLast_getD (l : List Nat) (j : Nat) (hj : j + 1 < l.length) :
    l.dropLast.getD j 0 = l.getD j 0 := by
  rw [List.getD_eq_getElem?_getD, List.getD_eq_getElem?_getD, List.dropLast_eq_take,
    List.getElem?_take]
  rw [if_pos (by omega)]

theorem loop_end_side_effects_chain (backend : JitBackend) (symbolic : Bool)
    (size loop_end checkpoint : Nat) :
    ∀ (fuel : Nat) (t : JitState) (acc : Nat × Nat),
      checkpoint ≤ (t.side_effects_symbolic backend).length →
      (t.side_effects_symbolic backend).length ≤ checkpoint + fuel →
      (∀ j, checkpoint ≤ j → j < (t.side_effects_symbolic backend).length →
        (t.side_effects_symbolic backend).getD j 0 < t.variable_index ∧
        (t.vars ((t.side_effects_symbolic backend).getD j 0)).isSome = true) →
      (loop_end < t.variable_index ∧ (t.vars loop_end).isSome = true) →
      (acc.1 = 0 ∨ (acc.1 < t.variable_index ∧ (t.vars acc.1).isSome = true)) →
      ∃ t1, loop_end_side_effects backend symbolic size loop_end checkpoint fuel acc t
          = .ok (if (t.side_effects_symbolic backend).length = checkpoint then acc.1
              else t.variable_index + ((t.side_effects_symbolic backend).length - checkpoint)
                - 1,
              acc.2 + ((t.side_effects_symbolic backend).length - checkpoint)) t1 ∧
        t1.variable_index =
          t.variable_index + ((t.side_effects_symbolic backend).length - checkpoint) ∧
        t1.side_effects_symbolic backend = (t.side_effects_symbolic backend).take checkpoint ∧
        (∀ b, b ≠ backend → t1.side_effects_symbolic b = t.side_effects_symbolic b) ∧
        Extends t t1 ∧
        (∀ i, i < t.variable_index → var_side_effect t1 i = var_side_effect t i) ∧
        (∀ j, j < (t.side_effects_symbolic backend).length - checkpoint →
          ∃ w, t1.vars (t.variable_index + j) = some w ∧
            w.node = (side_effect_node backend symbolic size
              ((t.side_effects_symbolic backend).getD
                ((t.side_effects_symbolic backend).length - 1 - j) 0)
              (if j = 0 then (if acc.1 = 0 then loop_end else acc.1)
               else t.variable_index + j - 1)).node ∧
            w.side_effect = false) := by
  intro fuel
  induction fuel with
  | zero =>
    intro t acc h1 h2 _ _ _
    have hL : (t.side_effects_symbolic backend).length = checkpoint := by omega
    refine ⟨t, ?_, by rw [hL]; simp, ?_, fun _ _ => rfl, extends_refl t, fun _ _ => rfl,
      fun j hj => by omega⟩
    · simp only [loop_end_side_effects, hL, ne_eq, not_true_eq_false, if_false, if_true,
        Nat.sub_self, Nat.add_zero]
    · rw [← hL, List.take_length]
  | succ fuel ih =>
    intro t acc h1 h2 hse hle hacc
    by_cases hL : (t.side_effects_symbolic backend).length = checkpoint
    · refine ⟨t, ?_, by rw [hL]; simp, ?_, fun _ _ => rfl, extends_refl t, fun _ _ => rfl,
        fun j hj => by omega⟩
      · simp only [loop_end_side_effects, hL, ne_eq, not_true_eq_false, if_false, if_true,
          Nat.sub_self, Nat.add_zero]
      · rw [← hL, List.take_length]
    · have hpos : 0 < (t.side_effects_symbolic backend).length := by omega
      have hlast : (t.side_effects_symbolic backend).getLast?
          = some ((t.side_effects_symbolic backend).getD
              ((t.side_effects_symbolic backend).length - 1) 0) := by
        rw [List.getLast?_eq_getElem?]
        exact getElem?_eq_some_getD _ _ (by omega)
      obtain ⟨hselt, hsesome⟩ := hse ((t.side_effects_symbolic backend).length - 1)
        (by omega) (by omega)
      have hprev : ((if acc.1 = 0 then loop_end else acc.1) < t.variable_index ∧
          (t.vars (if acc.1 = 0 then loop_end else acc.1)).isSome = true) := by
        by_cases h0 : acc.1 = 0
        · rw [if_pos h0]; exact hle
        · rw [if_neg h0]
          rcases hacc with h | h
          · exact absurd h h0
          · exact h
      generalize hL0 : t.side_effects_symbolic backend = L at *
      generalize hsev : L.getD (L.length - 1) 0 = se at hlast hselt hsesome
      generalize hpv : (if acc.1 = 0 then loop_end else acc.1) = se_prev at hprev
      have hlist : (new_var_state
            (inc_ref_state (inc_ref_state (pop_side_effect t backend) se_prev) se)
            (side_effect_node backend symbolic size se se_prev)).side_effects_symbolic backend
          = L.dropLast := by
        simp only [new_var_state_side_effects_symbolic, inc_ref_state_side_effects,
          pop_side_effect_list, hL0]
      obtain ⟨t1, hrun, hvi, hfin, hother, hext, hmark, hnodes⟩ :=
        ih (new_var_state
            (inc_ref_state (inc_ref_state (pop_side_effect t backend) se_prev) se)
            (side_effect_node backend symbolic size se se_prev))
          (t.variable_index, acc.2 + 1)
          (by rw [hlist, List.length_dropLast]; omega)
          (by rw [hlist, List.length_dropLast]; omega)
          (fun j hj1 hj2 => by
            rw [hlist] at hj2 ⊢
            rw [List.length_dropLast] at hj2
            rw [dropLast_getD L j (by omega)]
            obtain ⟨h3, h4⟩ := hse j hj1 (by omega)
            have hne : L.getD j 0 ≠ t.variable_index := by omega
            refine ⟨by
              simp only [new_var_state_variable_index, inc_ref_state_variable_index,
                pop_side_effect_variable_index]
              omega, ?_⟩
            simp only [new_var_state_vars, inc_ref_state_variable_index,
              pop_side_effect_variable_index, if_neg hne, inc_ref_state_isSome,
              pop_side_effect_vars]
            exact h4)
          (by
            have hne : loop_end ≠ t.variable_index := by omega
            refine ⟨by simp; omega, ?_⟩
            simp only [new_var_state_vars, inc_ref_state_variable_index,
              pop_side_effect_variable_index, if_neg hne, inc_ref_state_isSome,
              pop_side_effect_vars]
            exact hle.2)
          (Or.inr ⟨by simp, by simp⟩)
      rw [hlist, List.length_dropLast] at hrun hvi hnodes
      rw [hlist] at hfin
      simp only [new_var_state_variable_index, inc_ref_state_variable_index,
        pop_side_effect_variable_index] at hrun hvi hmark hnodes
      have hextstep : Extends t (new_var_state
            (inc_ref_state (inc_ref_state (pop_side_effect t backend) se_prev) se)
            (side_effect_node backend symbolic size se se_prev)) :=
        extends_trans _ _ _ (extends_of_vars_eq t (pop_side_effect t backend) rfl rfl)
          (extends_trans _ _ _ (extends_inc_ref _ se_prev)
            (extends_trans _ _ _ (extends_inc_ref _ se) (extends_new_var _ _)))
      refine ⟨t1, ?_, by rw [hvi]; omega, ?_, ?_, extends_trans _ _ _ hextstep hext, ?_, ?_⟩
      · subst hL0
        rw [loop_end_side_effects]
        simp only [ne_eq, hL, not_false_eq_true, if_true, if_false, hlast, bind]
        rw [hpv]
        refine (bind_ok _ _ _ _ _ (jitc_var_inc_ref_run (pop_side_effect t backend) se_prev
          (by simpa using hprev.2))).trans ?_
        rw [bind_ok _ _ _ _ _ (jitc_var_inc_ref_run _ se (by simpa using hsesome)),
          bind_ok _ _ _ _ _ (jitc_var_new_run _ _)]
        simp only [inc_ref_state_variable_index, pop_side_effect_variable_index]
        refine hrun.trans ?_
        congr 1
        refine Prod.ext ?_ ?_
        · simp only
          split <;> omega
        · simp only; omega
      · rw [hfin, List.dropLast_eq_take, List.take_take]
        congr 1
        omega
      · intro b hb
        rw [hother b hb]
        simp only [new_var_state_side_effects_symbolic, inc_ref_state_side_effects,
          pop_side_effect, if_neg hb]
      · intro i hi
        rw [hmark i (by omega), new_var_state_side_effect _ _ _ (by simp; omega),
          inc_ref_state_side_effect, inc_ref_state_side_effect]
        rfl
      · intro j hj
        cases j with
        | zero =>
          have hnew : (new_var_state
              (inc_ref_state (inc_ref_state (pop_side_effect t backend) se_prev) se)
              (side_effect_node backend symbolic size se se_prev)).vars t.variable_index
              = some { side_effect_node backend symbolic size se se_prev with
                  ref_count := 1 } := by
            simp
          obtain ⟨w, hw, hwn, _⟩ := extends_lookup _ _ hext t.variable_index _ (by simp) hnew
          refine ⟨w, hw, ?_, ?_⟩
          · rw [hwn]
            simp only [if_true, Nat.sub_zero, hsev]
            rfl
          · have h1 := hmark t.variable_index (by omega)
            rw [show var_side_effect (new_var_state
              (inc_ref_state (inc_ref_state (pop_side_effect t backend) se_prev) se)
              (side_effect_node backend symbolic size se se_prev)) t.variable_index = false
              from by simp only [var_side_effect, hnew]; rfl] at h1
            simpa only [var_side_effect, hw] using h1
        | succ j =>
          obtain ⟨w, hw, hwn, hws⟩ := hnodes j (by omega)
          refine ⟨w, by rw [← hw]; congr 1; omega, ?_, hws⟩
          rw [hwn, dropLast_getD L _ (by omega)]
          have hvi0 : t.variable_index ≠ 0 := by omega
          have e1 : L.length - 1 - 1 - j = L.length - 1 - (j + 1) := by omega
          rw [e1]
          congr 2
          by_cases hj0 : j = 0
          · subst hj0
            simp [hvi0]
          · rw [if_neg hj0, if_neg (by omega)]
            omega

theorem loop_end_side_effects_short (backend : JitBackend) (symbolic : Bool)
    (size loop_end checkpoint : Nat) :
    ∀ (fuel : Nat) (t : JitState) (acc : Nat × Nat),
      checkpoint + fuel < (t.side_effects_symbolic backend).length →
      (∀ j, checkpoint ≤ j → j < (t.side_effects_symbolic backend).length →
        (t.side_effects_symbolic backend).getD j 0 < t.variable_index ∧
        (t.vars ((t.side_effects_symbolic backend).getD j 0)).isSome = true) →
      (loop_end < t.variable_index ∧ (t.vars loop_end).isSome = true) →
      (acc.1 = 0 ∨ (acc.1 < t.variable_index ∧ (t.vars acc.1).isSome = true)) →
      loop_end_side_effects backend symbolic size loop_end checkpoint fuel acc t
        = .diverge := by
  intro fuel
  induction fuel with
  | zero =>
    intro t acc h1 _ _ _
    have hL : (t.side_effects_symbolic backend).length ≠ checkpoint := by omega
    simp only [loop_end_side_effects, hL, ne_eq, not_false_eq_true, if_true]
  | succ fuel ih =>
    intro t acc h1 hse hle hacc
    have hL : (t.side_effects_symbolic backend).length ≠ checkpoint := by omega
    have hlast : (t.side_effects_symbolic backend).getLast?
        = some ((t.side_effects_symbolic backend).getD
            ((t.side_effects_symbolic backend).length - 1) 0) := by
      rw [List.getLast?_eq_getElem?]
      exact getElem?_eq_some_getD _ _ (by omega)
    obtain ⟨hselt, hsesome⟩ := hse ((t.side_effects_symbolic backend).length - 1)
      (by omega) (by omega)
    have hprev : ((if acc.1 = 0 then loop_end else acc.1) < t.variable_index ∧
        (t.vars (if acc.1 = 0 then loop_end else acc.1)).isSome = true) := by
      by_cases h0 : acc.1 = 0
      · rw [if_pos h0]; exact hle
      · rw [if_neg h0]
        rcases hacc with h | h
        · exact absurd h h0
        · exact h
    generalize hsev : (t.side_effects_symbolic backend).getD
      ((t.side_effects_symbolic backend).length - 1) 0 = se at hlast hselt hsesome
    generalize hpv : (if acc.1 = 0 then loop_end else acc.1) = se_prev at hprev
    have hlist : (new_var_state
          (inc_ref_state (inc_ref_state (pop_side_effect t backend) se_prev) se)
          (side_effect_node backend symbolic size se se_prev)).side_effects_symbolic backend
        = (t.side_effects_symbolic backend).dropLast := by
      simp only [new_var_state_side_effects_symbolic, inc_ref_state_side_effects,
        pop_side_effect_list]
    have hrun := ih (new_var_state
          (inc_ref_state (inc_ref_state (pop_side_effect t backend) se_prev) se)
          (side_effect_node backend symbolic size se se_prev))
        (t.variable_index, acc.2 + 1)
        (by rw [hlist, List.length_dropLast]; omega)
        (fun j hj1 hj2 => by
          rw [hlist] at hj2 ⊢
          rw [List.length_dropLast] at hj2
          rw [dropLast_getD _ j (by omega)]
          obtain ⟨h3, h4⟩ := hse j hj1 (by omega)
          have hne : (t.side_effects_symbolic backend).getD j 0 ≠ t.variable_index := by
            omega
          refine ⟨by
            simp only [new_var_state_variable_index, inc_ref_state_variable_index,
              pop_side_effect_variable_index]
            omega, ?_⟩
          simp only [new_var_state_vars, inc_ref_state_variable_index,
            pop_side_effect_variable_index, if_neg hne, inc_ref_state_isSome,
            pop_side_effect_vars]
          exact h4)
        (by
          have hne : loop_end ≠ t.variable_index := by omega
          refine ⟨by simp; omega, ?_⟩
          simp only [new_var_state_vars, inc_ref_state_variable_index,
            pop_side_effect_variable_index, if_neg hne, inc_ref_state_isSome,
            pop_side_effect_vars]
          exact hle.2)
        (Or.inr ⟨by simp, by simp⟩)
    rw [loop_end_side_effects]
    simp only [ne_eq, hL, not_false_eq_true, if_true, if_false, hlast, bind]
    rw [hpv]
    refine (bind_ok _ _ _ _ _ (jitc_var_inc_ref_run (pop_side_effect t backend) se_prev
      (by simpa using hprev.2))).trans ?_
    rw [bind_ok _ _ _ _ _ (jitc_var_inc_ref_run _ se (by simpa using hsesome)),
      bind_ok _ _ _ _ _ (jitc_var_new_run _ _)]
    simp only [inc_ref_state_variable_index, pop_side_effect_variable_index]
    exact hrun

/-- Claim C22: when the list of symbolic side effects holds `k` entries beyond the
checkpoint, the re-parenting loop of `jitc_var_loop_end` creates exactly `k` nodes, all
of kind `Nop`; the `j`-th of them has the `j`-th entry from the end of the list as
`dep[0]` and, as `dep[1]`, the `LoopEnd` node when it is the first and the `Nop` created
before it otherwise; `jitc_var_mark_side_effect` then marks the last of them and no
other, and the list is left with its first `checkpoint` entries. -/
theorem loop_end_side_effects_nops (backend : JitBackend) (symbolic : Bool)
    (size loop_end checkpoint fuel : Nat) (t : JitState)
    (hcp : checkpoint ≤ (t.side_effects_symbolic backend).length)
    (hfuel : (t.side_effects_symbolic backend).length ≤ checkpoint + fuel)
    (hse : ∀ j, j < (t.side_effects_symbolic backend).length → checkpoint ≤ j →
      (t.side_effects_symbolic backend).getD j 0 < t.variable_index ∧
      (t.vars ((t.side_effects_symbolic backend).getD j 0)).isSome = true)
    (hle : loop_end < t.variable_index ∧ (t.vars loop_end).isSome = true) :
    ∃ t1 t2 se_prev,
      loop_end_side_effects backend symbolic size loop_end checkpoint fuel (0, 0) t =
        .ok (se_prev, (t.side_effects_symbolic backend).length - checkpoint) t1 ∧
      jitc_var_mark_side_effect se_prev t1 = .ok () t2 ∧
      t2.variable_index =
        t.variable_index + ((t.side_effects_symbolic backend).length - checkpoint) ∧
      (∀ i, i < t.variable_index →
        (t2.vars i).map Variable.node = (t.vars i).map Variable.node) ∧
      (∀ j, j < (t.side_effects_symbolic backend).length - checkpoint →
        ∃ w, t2.vars (t.variable_index + j) = some w ∧
          w.node = (side_effect_node backend symbolic size
            ((t.side_effects_symbolic backend).getD
              ((t.side_effects_symbolic backend).length - 1 - j) 0)
            (if j = 0 then loop_end else t.variable_index + j - 1)).node ∧
          w.side_effect =
            decide (j + 1 = (t.side_effects_symbolic backend).length - checkpoint)) ∧
      t2.side_effects_symbolic backend =
        (t.side_effects_symbolic backend).take checkpoint := by
  obtain ⟨t1, hrun, hvi, hfin, _, hext, _, hnodes⟩ :=
    loop_end_side_effects_chain backend symbolic size loop_end checkpoint fuel t (0, 0)
      hcp hfuel (fun j h1 h2 => hse j h2 h1) hle (Or.inl rfl)
  simp only [if_true, Nat.zero_add] at hnodes hrun
  by_cases hk : (t.side_effects_symbolic backend).length = checkpoint
  · rw [if_pos hk] at hrun
    refine ⟨t1, t1, 0, hrun, rfl, hvi, hext.2.1, fun j hj => by omega, hfin⟩
  · rw [if_neg hk] at hrun
    obtain ⟨k, hkk⟩ : ∃ k, (t.side_effects_symbolic backend).length - checkpoint = k + 1 :=
      ⟨(t.side_effects_symbolic backend).length - checkpoint - 1, by omega⟩
    rw [hkk] at hrun hvi hnodes ⊢
    obtain ⟨wl, hwl, hwln, _⟩ := hnodes k (by omega)
    have hne : t.variable_index + (k + 1) - 1 ≠ 0 := by omega
    have hidx : t.variable_index + (k + 1) - 1 = t.variable_index + k := by omega
    refine ⟨t1, set_var t1 (t.variable_index + k) (some { wl with side_effect := true }),
      _, hrun, ?_, hvi, ?_, ?_, hfin⟩
    · rw [hidx] at hne
      simp only [jitc_var_mark_side_effect, hidx, if_neg hne, hwl]
    · intro i hi
      have hne2 : i ≠ t.variable_index + k := by omega
      simp only [set_var_vars, if_neg hne2]
      exact hext.2.1 i hi
    · intro j hj
      by_cases hjk : j = k
      · subst hjk
        refine ⟨{ wl with side_effect := true }, by simp, ?_, by simp⟩
        rw [← hwln]
        rfl
      · obtain ⟨w, hw, hwn, hws⟩ := hnodes j hj
        have hne2 : t.variable_index + j ≠ t.variable_index + k := by omega
        refine ⟨w, by simp only [set_var_vars, if_neg hne2]; exact hw, hwn, ?_⟩
        rw [hws]
        simp only [Nat.add_right_cancel_iff, hjk, decide_False]

/-- In the sample state two side effects lie beyond the checkpoint 1: two `Nop` nodes,
the variables 5 and 6, are created. -/
theorem loop_end_side_effects_nops_witness :
    ∃ t1 t2 se_prev,
      loop_end_side_effects .LLVM false 4 4 1 3 (0, 0) sample_effects =
        .ok (se_prev, (sample_effects.side_effects_symbolic .LLVM).length - 1) t1 ∧
      jitc_var_mark_side_effect se_prev t1 = .ok () t2 ∧
      t2.variable_index =
        sample_effects.variable_index +
          ((sample_effects.side_effects_symbolic .LLVM).length - 1) ∧
      (∀ i, i < sample_effects.variable_index →
        (t2.vars i).map Variable.node = (sample_effects.vars i).map Variable.node) ∧
      (∀ j, j < (sample_effects.side_effects_symbolic .LLVM).length - 1 →
        ∃ w, t2.vars (sample_effects.variable_index + j) = some w ∧
          w.node = (side_effect_node .LLVM false 4
            ((sample_effects.side_effects_symbolic .LLVM).getD
              ((sample_effects.side_effects_symbolic .LLVM).length - 1 - j) 0)
            (if j = 0 then 4 else sample_effects.variable_index + j - 1)).node ∧
          w.side_effect =
            decide (j + 1 = (sample_effects.side_effects_symbolic .LLVM).length - 1)) ∧
      t2.side_effects_symbolic .LLVM =
        (sample_effects.side_effects_symbolic .LLVM).take 1 :=
  loop_end_side_effects_nops .LLVM false 4 4 1 3 sample_effects (by decide) (by decide)
    (by decide) (by decide)

/-- Claim C29: provided the checkpoint does not exceed the length of the list of
symbolic side effects, the re-parenting loop of `jitc_var_loop_end` ends after exactly
`length - checkpoint` iterations: it has not ended after fewer, it returns once that
many are allowed, `se_count` then has that value, and the list is left with its first
`checkpoint` entries, so that no entry below the checkpoint is popped. -/
theorem loop_end_side_effects_terminates (backend : JitBackend) (symbolic : Bool)
    (size loop_end checkpoint : Nat) (t : JitState)
    (hcp : checkpoint ≤ (t.side_effects_symbolic backend).length)
    (hse : ∀ j, j < (t.side_effects_symbolic backend).length → checkpoint ≤ j →
      (t.side_effects_symbolic backend).getD j 0 < t.variable_index ∧
      (t.vars ((t.side_effects_symbolic backend).getD j 0)).isSome = true)
    (hle : loop_end < t.variable_index ∧ (t.vars loop_end).isSome = true) :
    (∀ fuel, fuel < (t.side_effects_symbolic backend).length - checkpoint →
      loop_end_side_effects backend symbolic size loop_end checkpoint fuel (0, 0) t =
        .diverge) ∧
    (∀ fuel, (t.side_effects_symbolic backend).length - checkpoint ≤ fuel →
      ∃ t1 se_prev,
        loop_end_side_effects backend symbolic size loop_end checkpoint fuel (0, 0) t =
          .ok (se_prev, (t.side_effects_symbolic backend).length - checkpoint) t1 ∧
        t1.side_effects_symbolic backend =
          (t.side_effects_symbolic backend).take checkpoint ∧
        ∀ j, j < checkpoint →
          (t1.side_effects_symbolic backend)[j]? = (t.side_effects_symbolic backend)[j]?) := by
  constructor
  · intro fuel hfuel
    exact loop_end_side_effects_short backend symbolic size loop_end checkpoint fuel t (0, 0)
      (by omega) (fun j h1 h2 => hse j h2 h1) hle (Or.inl rfl)
  · intro fuel hfuel
    obtain ⟨t1, hrun, _, hfin, _⟩ :=
      loop_end_side_effects_chain backend symbolic size loop_end checkpoint fuel t (0, 0)
        hcp (by omega) (fun j h1 h2 => hse j h2 h1) hle (Or.inl rfl)
    simp only [Nat.zero_add] at hrun
    refine ⟨t1, _, hrun, hfin, fun j hj => ?_⟩
    rw [hfin, List.getElem?_take]
    rw [if_pos hj]

/-- In the sample state the loop needs two iterations for the checkpoint 1. -/
theorem loop_end_side_effects_terminates_witness :
    (∀ fuel, fuel < (sample_effects.side_effects_symbolic .LLVM).length - 1 →
      loop_end_side_effects .LLVM false 4 4 1 fuel (0, 0) sample_effects = .diverge) ∧
    (∀ fuel, (sample_effects.side_effects_symbolic .LLVM).length - 1 ≤ fuel →
      ∃ t1 se_prev,
        loop_end_side_effects .LLVM false 4 4 1 fuel (0, 0) sample_effects =
          .ok (se_prev, (sample_effects.side_effects_symbolic .LLVM).length - 1) t1 ∧
        t1.side_effects_symbolic .LLVM =
          (sample_effects.side_effects_symbolic .LLVM).take 1 ∧
        ∀ j, j < 1 →
          (t1.side_effects_symbolic .LLVM)[j]? =
            (sample_effects.side_effects_symbolic .LLVM)[j]?) :=
  loop_end_side_effects_terminates .LLVM false 4 4 1 sample_effects (by decide) (by decide)
    (by decide)

/-! ## The inner outputs of the surviving slots -/

theorem is_select_nodesEq (s s1 : JitState) (h : NodesEq s s1) (o mask t f : Nat)
    (hs : is_select s o mask t f = true) : is_select s1 o mask t f = true :=
  is_select_of_node s s1 o mask t f (h o) hs

/-- Claim C21: when the part of `jitc_var_loop_end` that follows the optimization pass
returns, the inner output of every surviving slot (inner input different from outer
input) is, on the LLVM backend, a node created by the call that is
`select(active, final value, phi)`, where `active` is `dep[1]` of the cond node, the
final value is the entry of the slot in `indices` and the phi is its inner input; on
every other backend it is the final value itself. -/
theorem loop_end_finish_inner_outputs (s : JitState) (loop cond checkpoint p : Nat)
    (ld : LoopData) (cv : Variable) (hld : s.loop_data p = some ld)
    (hc : cond < s.variable_index ∧ s.vars cond = some cv)
    (hlen : ld.size ≤ s.indices.length ∧ ld.size ≤ ld.inner_inputs.length ∧
      ld.size ≤ ld.outer_inputs.length)
    (hout0 : ld.inner_outputs = [])
    (hslots : ∀ i, i < ld.size → s.indices.getD i 0 ≠ 0 ∧
      s.indices.getD i 0 < s.variable_index ∧ (s.vars (s.indices.getD i 0)).isSome = true ∧
      ld.inner_inputs.getD i 0 < s.variable_index ∧
      (s.vars (ld.inner_inputs.getD i 0)).isSome = true)
    (hact : cv.dep1 < s.variable_index ∧ (s.vars cv.dep1).isSome = true)
    (hls : ld.loop_start < s.variable_index ∧ (s.vars ld.loop_start).isSome = true)
    (hcons : ∀ i, i < ld.size → slot_survives ld i = false → slot_consistent s ld i = true)
    (hmis : ∀ i, i < ld.size → size_mismatch s ld cv.size i = false)
    (hse : checkpoint ≤ (s.side_effects_symbolic cv.backend).length ∧
      ∀ j, j < (s.side_effects_symbolic cv.backend).length → checkpoint ≤ j →
        (s.side_effects_symbolic cv.backend).getD j 0 < s.variable_index ∧
        (s.vars ((s.side_effects_symbolic cv.backend).getD j 0)).isSome = true) :
    ∃ s1 ld1, loop_end_finish loop cond checkpoint p ld s = .ok true s1 ∧
      s1.loop_data p = some ld1 ∧
      ∀ i, i < ld.size → slot_survives ld i = true →
        ∃ o, ld1.inner_outputs[i]? = some o ∧
          (cv.backend = JitBackend.LLVM → s.variable_index ≤ o ∧
            is_select s1 o cv.dep1 (s.indices.getD i 0) (ld.inner_inputs.getD i 0) = true) ∧
          (cv.backend ≠ JitBackend.LLVM → o = s.indices.getD i 0) := by
  obtain ⟨s_mid, s1, outs, oo, E, hrun, _, _, _, _, _, hld1, hsurv, helim, hnodes, hsel⟩ :=
    loop_end_finish_spec s loop cond checkpoint p ld cv hld hc hlen hout0 hslots hact hls
      hcons hmis ⟨hse.1, fun j h1 h2 => hse.2 j h2 h1⟩
  refine ⟨s1, _, hrun, hld1, fun i hi hs => ?_⟩
  obtain ⟨o, ho, hl, hnl⟩ := hsel i hi hs
  refine ⟨o, ho, fun hb => ?_, hnl⟩
  obtain ⟨h1, h2⟩ := hl hb
  exact ⟨h1, is_select_nodesEq s_mid s1 (hnodes ⟨i, hi, hs⟩) o _ _ _ h2⟩


/-- On the sample loop, whose two slots survive on the LLVM backend, the inner outputs
are two new `select` nodes with the mask 7. -/
theorem loop_end_finish_inner_outputs_witness :
    ∃ s1 ld1, loop_end_finish 6 8 0 3 sample_ld sample_changed = .ok true s1 ∧
      s1.loop_data 3 = some ld1 ∧
      ∀ i, i < sample_ld.size → slot_survives sample_ld i = true →
        ∃ o, ld1.inner_outputs[i]? = some o ∧
          (sample_cond.backend = JitBackend.LLVM → sample_changed.variable_index ≤ o ∧
            is_select s1 o sample_cond.dep1 (sample_changed.indices.getD i 0)
              (sample_ld.inner_inputs.getD i 0) = true) ∧
          (sample_cond.backend ≠ JitBackend.LLVM → o = sample_changed.indices.getD i 0) :=
  loop_end_finish_inner_outputs sample_changed 6 8 0 3 sample_ld sample_cond (by decide!)
    (by decide!) (by decide!) (by decide) (by decide!) (by decide!) (by decide!)
    (by decide!) (by decide!) (by decide!)

/-! ## Reference counts account for the dependency edges -/

theorem sum_map_range_congr (n : Nat) (f g : Nat → Nat) (h : ∀ k, k < n → f k = g k) :
    ((List.range n).map f).sum = ((List.range n).map g).sum := by
  congr 1
  apply List.map_congr_left
  intro k hk
  exact h k (List.mem_range.mp hk)

theorem sum_map_range_update (n i : Nat) (f g : Nat → Nat) (hi : i < n)
    (h : ∀ k, k ≠ i → f k = g k) :
    ((List.range n).map f).sum + g i = ((List.range n).map g).sum + f i := by
  induction n with
  | zero => omega
  | succ n ih =>
    rw [List.range_succ, List.map_append, List.map_append, List.sum_append, List.sum_append]
    simp only [List.map_cons, List.map_nil, List.sum_cons, List.sum_nil, Nat.add_zero]
    by_cases hin : i = n
    · subst hin
      have := sum_map_range_congr i f g (fun k hk => h k (by omega))
      omega
    · have := ih (by omega)
      have := h n (fun hc => hin hc.symm)
      omega

theorem dep_count_node (v : Variable) (j : Nat) : dep_count v.node j = dep_count v j := rfl

theorem edges_of_node (s s1 : JitState) (j i : Nat)
    (h : (s1.vars i).map Variable.node = (s.vars i).map Variable.node) :
    edges s1 j i = edges s j i := by
  unfold edges
  cases h1 : s1.vars i with
  | none =>
    cases h2 : s.vars i with
    | none => rfl
    | some v => rw [h1, h2] at h; cases h
  | some w =>
    cases h2 : s.vars i with
    | none => rw [h1, h2] at h; cases h
    | some v =>
      rw [h1, h2] at h
      have hn : w.node = v.node := Option.some.inj h
      simp only
      rw [← dep_count_node w, ← dep_count_node v, hn]

theorem in_degree_of_nodesEq (s s1 : JitState) (h : NodesEq s s1)
    (hvi : s1.variable_index = s.variable_index) (j : Nat) :
    in_degree s1 j = in_degree s j := by
  unfold in_degree
  rw [hvi]
  exact sum_map_range_congr _ _ _ (fun k _ => edges_of_node s s1 j k (h k))

theorem in_degree_new_var (s : JitState) (v : Variable) (j : Nat) :
    in_degree (new_var_state s v) j = in_degree s j + dep_count v j := by
  unfold in_degree
  rw [new_var_state_variable_index, List.range_succ, List.map_append, List.sum_append]
  congr 1
  · apply sum_map_range_congr
    intro k hk
    have : k ≠ s.variable_index := by omega
    simp only [edges, new_var_state_vars, if_neg this]
  · simp [edges, dep_count]

theorem in_degree_erase (s : JitState) (i : Nat) (v : Variable) (j : Nat)
    (hv : s.vars i = some v) (hi : i < s.variable_index) :
    in_degree (set_var s i none) j + dep_count v j = in_degree s j := by
  unfold in_degree
  rw [set_var_variable_index]
  have := sum_map_range_update s.variable_index i (edges (set_var s i none) j) (edges s j) hi
    (fun k hk => by simp only [edges, set_var_vars, if_neg hk])
  have h1 : edges s j i = dep_count v j := by simp only [edges, hv]
  have h2 : edges (set_var s i none) j i = 0 := by simp [edges]
  omega

theorem in_degree_ge_edges (s : JitState) (j i : Nat) (hi : i < s.variable_index) :
    edges s j i ≤ in_degree s j := by
  unfold in_degree
  exact List.single_le_sum (fun _ _ => Nat.zero_le _) _
    (List.mem_map.mpr ⟨i, List.mem_range.mpr hi, rfl⟩)

theorem accounted_weaken (l l1 : List Nat) (s : JitState) (h : accounted l s)
    (hl : ∀ j, j ≠ 0 → l1.count j ≤ l.count j) : accounted l1 s :=
  ⟨h.1, fun j hj => Nat.le_trans (Nat.add_le_add_left (hl j hj) _) (h.2 j hj)⟩

theorem accounted_nil (l : List Nat) (s : JitState) (h : accounted l s) : accounted [] s :=
  accounted_weaken l [] s h (fun _ _ => by simp)

theorem accounted_of_vars_eq (l : List Nat) (s s1 : JitState) (h : accounted l s)
    (hv : s1.vars = s.vars) (hvi : s1.variable_index = s.variable_index) :
    accounted l s1 := by
  refine ⟨fun i hi => by rw [hv]; exact h.1 i (by omega), fun j hj => ?_⟩
  have h1 : in_degree s1 j = in_degree s j := by
    unfold in_degree edges
    rw [hv, hvi]
  have h2 : var_ref_count s1 j = var_ref_count s j := by
    unfold var_ref_count
    rw [hv]
  rw [h1, h2]
  exact h.2 j hj

theorem accounted_inc_ref (l : List Nat) (s : JitState) (i : Nat) (h : accounted l s)
    (hi : i = 0 ∨ (s.vars i).isSome = true) : accounted (i :: l) (inc_ref_state s i) := by
  refine ⟨fun k hk => ?_, fun j hj => ?_⟩
  · have hn := inc_ref_state_isSome s i k
    have := h.1 k (by simpa using hk)
    rw [this] at hn
    cases hx : (inc_ref_state s i).vars k with
    | none => rfl
    | some x => rw [hx] at hn; cases hn
  · rw [in_degree_of_nodesEq s _ (inc_ref_state_nodesEq s i) (by simp)]
    have h1 := h.2 j hj
    rw [List.count_cons]
    by_cases hij : i = j
    · subst hij
      rcases hi with h0 | hs
      · exact absurd h0 hj
      · rw [inc_ref_state_count_self s i hj hs]
        simp
        omega
    · have h2 := inc_ref_state_ref_count s i j
      simp [hij]
      omega

theorem accounted_new_var (l l1 : List Nat) (s : JitState) (v : Variable)
    (h : accounted l s) (hl : ∀ j, j ≠ 0 → dep_count v j + l1.count j ≤ l.count j) :
    accounted (s.variable_index :: l1) (new_var_state s v) := by
  refine ⟨fun k hk => ?_, fun j hj => ?_⟩
  · rw [new_var_state_variable_index] at hk
    have : k ≠ s.variable_index := by omega
    simp only [new_var_state_vars, if_neg this]
    exact h.1 k (by omega)
  · rw [in_degree_new_var, List.count_cons]
    have h1 := h.2 j hj
    have h2 := hl j hj
    by_cases hjv : j = s.variable_index
    · subst hjv
      have h3 : var_ref_count s s.variable_index = 0 := by
        simp only [var_ref_count, h.1 _ (Nat.le_refl _)]
      simp [var_ref_count]
      omega
    · have h3 : var_ref_count (new_var_state s v) j = var_ref_count s j := by
        simp only [var_ref_count, new_var_state_vars, if_neg hjv]
      rw [h3]
      have : (s.variable_index == j) = false := by
        simp only [beq_eq_false_iff_ne, ne_eq]
        exact fun hc => hjv hc.symm
      simp [this]
      omega

theorem accounted_set_mark (l : List Nat) (s : JitState) (i : Nat) (v : Variable)
    (h : accounted l s) (hv : s.vars i = some v) :
    accounted l (set_var s i (some { v with side_effect := true })) := by
  have hn : NodesEq s (set_var s i (some { v with side_effect := true })) := by
    intro j
    simp only [set_var_vars]
    split
    · next hj => rw [hj, hv]; rfl
    · rfl
  refine ⟨fun k hk => ?_, fun j hj => ?_⟩
  · simp only [set_var_vars]
    split
    · next hki =>
      have := h.1 k (by simpa using hk)
      rw [hki, hv] at this
      cases this
    · exact h.1 k (by simpa using hk)
  · rw [in_degree_of_nodesEq s _ hn rfl]
    have h3 : var_ref_count (set_var s i (some { v with side_effect := true })) j
        = var_ref_count s j := by
      simp only [var_ref_count, set_var_vars]
      by_cases hji : j = i
      · simp only [hji, if_true, hv]
      · simp only [hji, if_false]
    rw [h3]
    exact h.2 j hj

theorem count_erase_le (l : List Nat) (i j : Nat) : (l.erase i).count j ≤ l.count j :=
  List.Sublist.count_le (List.erase_sublist i l) j

theorem accounted_dec_ref : ∀ (fuel i : Nat) (s : JitState) (l : List Nat),
    accounted l s → (i ≠ 0 → i ∈ l) → accounted (l.erase i) (dec_ref_state fuel i s) := by
  intro fuel
  induction fuel with
  | zero =>
    intro i s l h _
    exact accounted_weaken l _ s h (fun j _ => count_erase_le l i j)
  | succ fuel ih =>
    intro i s l h hmem
    unfold dec_ref_state
    split
    · exact accounted_weaken l _ s h (fun j _ => count_erase_le l i j)
    · next h0 =>
      have hin := hmem h0
      split
      · exact accounted_weaken l _ s h (fun j _ => count_erase_le l i j)
      · next v hv =>
        have hilt : i < s.variable_index := by
          by_contra hcon
          have := h.1 i (by omega)
          rw [hv] at this
          cases this
        have hrc : var_ref_count s i = v.ref_count := by simp only [var_ref_count, hv]
        have hcount : 1 ≤ l.count i := List.count_pos_iff.mpr hin
        have hi := h.2 i h0
        split
        · next hle =>
          -- the variable is erased and its operands are released
          have hdeg : in_degree s i = 0 := by omega
          have hself : dep_count v i = 0 := by
            have := in_degree_ge_edges s i i hilt
            simp only [edges, hv] at this
            omega
          have hstart : accounted (v.dep0 :: v.dep1 :: v.dep2 :: v.dep3 :: l.erase i)
              (set_var s i none) := by
            refine ⟨fun k hk => ?_, fun j hj => ?_⟩
            · simp only [set_var_vars]
              split
              · rfl
              · exact h.1 k (by simpa using hk)
            · have he := in_degree_erase s i v j hv hilt
              have hc : (v.dep0 :: v.dep1 :: v.dep2 :: v.dep3 :: l.erase i).count j
                  = dep_count v j + (l.erase i).count j := by
                simp only [dep_count, List.count_cons, List.count_nil]
                omega
              rw [hc]
              by_cases hji : j = i
              · subst hji
                have h5 : (l.erase j).count j = l.count j - 1 := by
                  rw [List.count_erase_self]
                have h6 : var_ref_count (set_var s j none) j = 0 := by
                  simp [var_ref_count]
                omega
              · have h5 : (l.erase i).count j = l.count j := by
                  rw [List.count_erase_of_ne hji]
                have h6 : var_ref_count (set_var s i none) j = var_ref_count s j := by
                  simp only [var_ref_count, set_var_vars, if_neg hji]
                have h7 := h.2 j hj
                omega
          have h1 := ih v.dep0 _ _ hstart (fun _ => List.mem_cons_self _ _)
          rw [List.erase_cons_head] at h1
          have h2 := ih v.dep1 _ _ h1 (fun _ => List.mem_cons_self _ _)
          rw [List.erase_cons_head] at h2
          have h3 := ih v.dep2 _ _ h2 (fun _ => List.mem_cons_self _ _)
          rw [List.erase_cons_head] at h3
          have h4 := ih v.dep3 _ _ h3 (fun _ => List.mem_cons_self _ _)
          rw [List.erase_cons_head] at h4
          exact h4
        · next hgt =>
          have hn := nodesEq_set_ref s i v (v.ref_count - 1) hv
          refine ⟨fun k hk => ?_, fun j hj => ?_⟩
          · simp only [set_var_vars]
            split
            · next hki =>
              have := h.1 k (by simpa using hk)
              rw [hki, hv] at this
              cases this
            · exact h.1 k (by simpa using hk)
          · rw [in_degree_of_nodesEq s _ hn rfl]
            by_cases hji : j = i
            · subst hji
              have h5 : (l.erase j).count j = l.count j - 1 := by
                rw [List.count_erase_self]
              have h6 : var_ref_count (set_var s j (some { v with
                  ref_count := v.ref_count - 1 })) j = v.ref_count - 1 := by
                simp [var_ref_count]
              omega
            · have h5 : (l.erase i).count j = l.count j := by
                rw [List.count_erase_of_ne hji]
              have h6 : var_ref_count (set_var s i (some { v with
                  ref_count := v.ref_count - 1 })) j = var_ref_count s j := by
                simp only [var_ref_count, set_var_vars, if_neg hji]
              have h7 := h.2 j hj
              omega

/-! ### Results of the primitive routines -/

theorem post_bind' {α β : Type} (m : JitM α) (f : α → JitM β) (R : β → JitState → Prop)
    (s : JitState) (h : (m s).Post fun a s1 => (f a s1).Post R) : (m.bind f s).Post R := by
  unfold JitM.bind
  cases hr : m s with
  | ok a s1 => rw [hr] at h; exact h
  | raise s1 => trivial
  | undefined => trivial
  | diverge => trivial

theorem post_bind {α β : Type} (m : JitM α) (f : α → JitM β) (R : β → JitState → Prop)
    (s : JitState) (h : (m s).Post fun a s1 => (f a s1).Post R) : ((m >>= f) s).Post R :=
  post_bind' m f R s h

theorem post_mono {α : Type} (r : Res α) (R R1 : α → JitState → Prop)
    (h : r.Post R) (hR : ∀ a s, R a s → R1 a s) : r.Post R1 := by
  cases r with
  | ok a s => exact hR a s h
  | raise s => trivial
  | undefined => trivial
  | diverge => trivial

theorem post_pure {α : Type} (a : α) (R : α → JitState → Prop) (s : JitState) (h : R a s) :
    ((pure a : JitM α) s).Post R := h

theorem post_raise {α : Type} (R : α → JitState → Prop) (s : JitState) :
    ((jitc_raise : JitM α) s).Post R := trivial

theorem post_get_index (i : Nat) (R : Nat → JitState → Prop) (s : JitState)
    (h : ∀ x, s.indices[i]? = some x → R x s) : (get_index i s).Post R := by
  unfold get_index
  cases hx : s.indices[i]? with
  | none => trivial
  | some x => exact h x hx

theorem post_vec_get (xs : List Nat) (i : Nat) (R : Nat → JitState → Prop) (s : JitState)
    (h : ∀ x, xs[i]? = some x → R x s) : (vec_get xs i s).Post R := by
  unfold vec_get
  cases hx : xs[i]? with
  | none => trivial
  | some x => exact h x hx

theorem post_get_ld (p : Nat) (R : LoopData → JitState → Prop) (s : JitState)
    (h : ∀ ld, s.loop_data p = some ld → R ld s) : (get_ld p s).Post R := by
  unfold get_ld
  cases hx : s.loop_data p with
  | none => trivial
  | some x => exact h x hx

theorem post_modify_ld (p : Nat) (f : LoopData → LoopData) (R : Unit → JitState → Prop)
    (s : JitState) (h : ∀ ld, s.loop_data p = some ld → R () (set_ld s p (f ld))) :
    (modify_ld p f s).Post R := by
  unfold modify_ld
  cases hx : s.loop_data p with
  | none => trivial
  | some x => exact h x hx

theorem post_get_callback_data (i : Nat) (R : Nat → JitState → Prop) (s : JitState)
    (h : ∀ p, (s.extra i).callback_data = some p → R p s) :
    (get_callback_data i s).Post R := by
  unfold get_callback_data
  cases hx : (s.extra i).callback_data with
  | none => trivial
  | some x => exact h x hx

theorem post_jitc_var (i : Nat) (R : Variable → JitState → Prop) (s : JitState)
    (h : ∀ v, s.vars i = some v → R v s) : (jitc_var i s).Post R := by
  unfold jitc_var
  cases hx : s.vars i with
  | none => trivial
  | some x => exact h x hx

theorem post_inc_ref (i : Nat) (R : Unit → JitState → Prop) (s : JitState)
    (h : (i = 0 ∨ (s.vars i).isSome = true) → R () (inc_ref_state s i)) :
    (jitc_var_inc_ref i s).Post R := by
  unfold jitc_var_inc_ref
  by_cases h0 : i = 0
  · rw [if_pos h0]
    have := h (Or.inl h0)
    simp only [inc_ref_state, h0, if_true] at this
    exact this
  · rw [if_neg h0]
    cases hx : s.vars i with
    | none => trivial
    | some x =>
      have := h (Or.inr (by rw [hx]; rfl))
      simp only [inc_ref_state, h0, if_false, hx] at this
      exact this

theorem post_dec_ref (i : Nat) (R : Unit → JitState → Prop) (s : JitState)
    (h : R () (dec_ref_state (s.variable_index + 1) i s)) :
    (jitc_var_dec_ref i s).Post R := by
  unfold jitc_var_dec_ref
  by_cases h0 : i = 0
  · rw [if_pos h0]
    simp only [dec_ref_state, h0, if_true] at h
    exact h
  · rw [if_neg h0]
    cases hx : s.vars i with
    | none => trivial
    | some x => exact h

theorem post_new (v : Variable) (R : Nat → JitState → Prop) (s : JitState)
    (h : R s.variable_index (new_var_state s v)) : (jitc_var_new v s).Post R := h

theorem post_new_scope (b : JitBackend) (R : Unit → JitState → Prop) (s : JitState)
    (h : R () (new_scope_state s)) : (jitc_new_scope b s).Post R := h

theorem post_set_index (i x : Nat) (R : Unit → JitState → Prop) (s : JitState)
    (h : R () (set_indices s (s.indices.set i x))) : (set_index i x s).Post R := by
  unfold set_index
  split
  · exact h
  · trivial

theorem post_modify_extra (i : Nat) (f : Extra → Extra) (R : Unit → JitState → Prop)
    (s : JitState) (h : R () (set_extra s i (f (s.extra i)))) :
    (modify_extra i f s).Post R := h

theorem post_mark (i : Nat) (l : List Nat) (s : JitState) (h : accounted l s) :
    (jitc_var_mark_side_effect i s).Post fun _ s1 => accounted l s1 := by
  unfold jitc_var_mark_side_effect
  split
  · exact h
  · cases hx : s.vars i with
    | none => trivial
    | some x => exact accounted_set_mark l s i x h hx

theorem post_with_ref {α : Type} (index : Nat) (body : JitM α) (R : α → JitState → Prop)
    (s : JitState)
    (h : (body s).Post fun a s1 => R a (dec_ref_state (s1.variable_index + 1) index s1)) :
    (with_ref index body s).Post R := by
  unfold with_ref
  cases hr : body s with
  | ok a s1 =>
    rw [hr] at h
    simp only
    have := post_dec_ref index (fun _ s2 => R a s2) s1 h
    cases hd : jitc_var_dec_ref index s1 with
    | ok u s2 => rw [hd] at this; exact this
    | raise s2 => trivial
    | undefined => trivial
    | diverge => trivial
  | raise s1 =>
    simp only
    cases jitc_var_dec_ref index s1 <;> trivial
  | undefined => trivial
  | diverge => trivial

theorem post_with_unique_ptr {α : Type} (p : Nat) (body : JitM α)
    (R : α → JitState → Prop) (s : JitState) (h : (body s).Post R) :
    (with_unique_ptr p body s).Post R := by
  unfold with_unique_ptr
  cases hr : body s with
  | ok a s1 => rw [hr] at h; exact h
  | raise s1 => trivial
  | undefined => trivial
  | diverge => trivial

theorem post_for_fold_range' {β : Type} (body : Nat → β → JitM β)
    (I : Nat → β → JitState → Prop) :
    ∀ (n a : Nat) (acc : β) (s : JitState),
      (∀ i acc s, a ≤ i → i < a + n → I i acc s → (body i acc s).Post (I (i + 1))) →
      I a acc s → (for_fold body (List.range' a n) acc s).Post (I (a + n)) := by
  intro n
  induction n with
  | zero =>
    intro a acc s _ h
    exact h
  | succ n ih =>
    intro a acc s hb h
    rw [List.range'_succ]
    unfold for_fold
    apply post_bind'
    refine post_mono _ _ _ (hb a acc s (Nat.le_refl _) (by omega) h) ?_
    intro acc1 s1 h1
    have := ih (a + 1) acc1 s1 (fun i acc s hi1 hi2 => hb i acc s (by omega) (by omega)) h1
    rw [show a + 1 + n = a + (n + 1) by omega] at this
    exact this

theorem post_for_fold_range {β : Type} (body : Nat → β → JitM β)
    (I : Nat → β → JitState → Prop) (n : Nat) (acc : β) (s : JitState)
    (hb : ∀ i acc s, i < n → I i acc s → (body i acc s).Post (I (i + 1)))
    (h : I 0 acc s) : (for_fold body (List.range n) acc s).Post (I n) := by
  rw [List.range_eq_range']
  have := post_for_fold_range' body I n 0 acc s
    (fun i acc s _ hi => hb i acc s (by omega)) h
  rw [Nat.zero_add] at this
  exact this

@[simp] theorem accounted_set_ld (l : List Nat) (s : JitState) (p : Nat) (x : LoopData) :
    accounted l (set_ld s p x) = accounted l s := rfl

@[simp] theorem accounted_set_indices (l : List Nat) (s : JitState) (x : List Nat) :
    accounted l (set_indices s x) = accounted l s := rfl

@[simp] theorem accounted_set_extra (l : List Nat) (s : JitState) (i : Nat) (e : Extra) :
    accounted l (set_extra s i e) = accounted l s := rfl

@[simp] theorem accounted_new_scope (l : List Nat) (s : JitState) :
    accounted l (new_scope_state s) = accounted l s := rfl

/-! ### The primitive routines and the accounts -/

theorem acc_step {α β : Type} (m : JitM α) (f : α → JitM β) (R : β → JitState → Prop)
    (Q : α → JitState → Prop) (s : JitState) (hm : (m s).Post Q)
    (hf : ∀ a s1, Q a s1 → (f a s1).Post R) : ((m >>= f) s).Post R :=
  post_bind _ _ _ _ (post_mono _ _ _ hm hf)

theorem acc_step' {α β : Type} (m : JitM α) (f : α → JitM β) (R : β → JitState → Prop)
    (Q : α → JitState → Prop) (s : JitState) (hm : (m s).Post Q)
    (hf : ∀ a s1, Q a s1 → (f a s1).Post R) : (m.bind f s).Post R :=
  post_bind' _ _ _ _ (post_mono _ _ _ hm hf)

theorem dec_ref_state_loop_data (fuel i : Nat) (s : JitState) :
    (dec_ref_state fuel i s).loop_data = s.loop_data :=
  (dec_ref_state_frame fuel i s).2.2.2.2.2.1

theorem dec_ref_state_variable_index (fuel i : Nat) (s : JitState) :
    (dec_ref_state fuel i s).variable_index = s.variable_index :=
  (dec_ref_state_frame fuel i s).1

theorem acc_inc_ref (i : Nat) (l : List Nat) (s : JitState) (h : accounted l s) :
    (jitc_var_inc_ref i s).Post fun _ s1 =>
      accounted (i :: l) s1 ∧ s1.loop_data = s.loop_data :=
  post_inc_ref _ _ _ fun hi => ⟨accounted_inc_ref l s i h hi, by simp⟩

theorem acc_dec_ref (i : Nat) (l : List Nat) (s : JitState) (h : accounted l s)
    (hmem : i ≠ 0 → i ∈ l) :
    (jitc_var_dec_ref i s).Post fun _ s1 =>
      accounted (l.erase i) s1 ∧ s1.loop_data = s.loop_data :=
  post_dec_ref _ _ _ ⟨accounted_dec_ref _ i s l h hmem, dec_ref_state_loop_data _ _ _⟩

theorem acc_new (v : Variable) (l l1 : List Nat) (s : JitState) (h : accounted l s)
    (hl : ∀ j, j ≠ 0 → dep_count v j + l1.count j ≤ l.count j) :
    (jitc_var_new v s).Post fun n s1 =>
      accounted (n :: l1) s1 ∧ s1.loop_data = s.loop_data :=
  post_new _ _ _ ⟨accounted_new_var l l1 s v h hl, rfl⟩

theorem acc_new_scope (b : JitBackend) (l : List Nat) (s : JitState) (h : accounted l s) :
    (jitc_new_scope b s).Post fun _ s1 => accounted l s1 ∧ s1.loop_data = s.loop_data :=
  post_new_scope _ _ _ ⟨h, rfl⟩

theorem acc_set_index (i x : Nat) (l : List Nat) (s : JitState) (h : accounted l s) :
    (set_index i x s).Post fun _ s1 => accounted l s1 ∧ s1.loop_data = s.loop_data :=
  post_set_index _ _ _ _ ⟨h, rfl⟩

theorem acc_modify_extra (i : Nat) (f : Extra → Extra) (l : List Nat) (s : JitState)
    (h : accounted l s) :
    (modify_extra i f s).Post fun _ s1 => accounted l s1 ∧ s1.loop_data = s.loop_data :=
  post_modify_extra _ _ _ _ ⟨h, rfl⟩

theorem acc_modify_ld (p : Nat) (f : LoopData → LoopData) (l : List Nat) (s : JitState)
    (h : accounted l s) :
    (modify_ld p f s).Post fun _ s1 =>
      accounted l s1 ∧ ∀ ld, s.loop_data p = some ld → s1.loop_data p = some (f ld) :=
  post_modify_ld _ _ _ _ fun ld hld => ⟨h, fun ld1 h1 => by
    rw [hld] at h1
    cases h1
    simp⟩

theorem acc_mark (i : Nat) (l : List Nat) (s : JitState) (h : accounted l s) :
    (jitc_var_mark_side_effect i s).Post fun _ s1 => accounted l s1 :=
  post_mark i l s h

theorem acc_transfer (a b : Nat) (l : List Nat) (s : JitState) (h : accounted l s) :
    (loop_end_transfer a b s).Post fun _ s1 => accounted l s1 :=
  accounted_of_vars_eq l s _ h rfl rfl

/-! ### The three operations keep the accounts -/

theorem jitc_var_loop_cond_accounted (loop active : Nat) (l : List Nat) (s : JitState)
    (h : accounted l s) :
    (jitc_var_loop_cond loop active s).Post fun _ s1 => accounted l s1 := by
  unfold jitc_var_loop_cond
  refine post_bind _ _ _ _ (post_get_callback_data _ _ _ fun p _ => ?_)
  refine post_bind _ _ _ _ (post_get_ld _ _ _ fun ld _ => ?_)
  refine post_bind _ _ _ _ (post_jitc_var _ _ _ fun lv _ => ?_)
  refine post_bind _ _ _ _ (post_jitc_var _ _ _ fun av _ => ?_)
  beta_reduce
  split
  · exact post_raise _ _
  · split
    · exact post_raise _ _
    · refine acc_step _ _ _ _ _ (acc_inc_ref _ _ _ h) fun _ s1 a1 => ?_
      refine acc_step _ _ _ _ _ (acc_inc_ref _ _ _ a1.1) fun _ s2 a2 => ?_
      refine acc_step _ _ _ _ _ (acc_new_scope _ _ _ a2.1) fun _ s3 a3 => ?_
      refine acc_step _ _ _ _ _ (acc_new _ _ l _ a3.1 (by
          intro j hj
          have : (0 : Nat) ≠ j := fun hc => hj hc.symm
          simp only [dep_count, List.count_cons, List.count_nil, beq_iff_eq, this, if_false]
          omega)) fun n s4 a4 => ?_
      refine acc_step _ _ _ _ _ (acc_new_scope _ _ _ a4.1) fun _ s5 a5 => ?_
      apply post_pure
      exact accounted_weaken _ _ _ a5.1 (fun j _ => by rw [List.count_cons]; omega)

theorem loop_start_check_accounted (i : Nat) (acc : JitBackend × Bool × Bool)
    (l : List Nat) (s : JitState) (h : accounted l s) :
    (loop_start_check i acc s).Post fun _ s1 => accounted l s1 := by
  unfold loop_start_check
  refine post_bind _ _ _ _ (post_get_index _ _ _ fun index _ => ?_)
  beta_reduce
  split
  · exact post_raise _ _
  · refine post_bind _ _ _ _ (post_jitc_var _ _ _ fun v2 _ => ?_)
    beta_reduce
    split
    · exact post_pure _ _ _ h
    · split
      · exact post_raise _ _
      · exact post_pure _ _ _ h

theorem loop_start_dirty_accounted (i : Nat) (dirty : Bool) (l : List Nat) (s : JitState)
    (h : accounted l s) :
    (loop_start_dirty i dirty s).Post fun _ s1 => accounted l s1 := by
  unfold loop_start_dirty
  refine post_bind _ _ _ _ (post_get_index _ _ _ fun index _ => ?_)
  refine post_bind _ _ _ _ (post_jitc_var _ _ _ fun v2 _ => ?_)
  exact post_pure _ _ _ h

theorem loop_start_phi_accounted (p : Nat) (backend : JitBackend) (i : Nat) (u : Unit)
    (l : List Nat) (s : JitState) (h : accounted l s) :
    (loop_start_phi p backend i u s).Post fun _ s1 => accounted l s1 := by
  unfold loop_start_phi
  refine post_bind _ _ _ _ (post_get_index _ _ _ fun index _ => ?_)
  refine post_bind _ _ _ _ (post_jitc_var _ _ _ fun v2 _ => ?_)
  refine acc_step _ _ _ _ _ (acc_inc_ref _ _ _ h) fun _ s1 a1 => ?_
  refine acc_step _ _ _ _ _ (acc_inc_ref _ _ _ a1.1) fun _ s2 a2 => ?_
  refine acc_step _ _ _ _ _ (acc_modify_ld _ _ _ _ a2.1) fun _ s3 a3 => ?_
  refine post_bind _ _ _ _ (post_get_ld _ _ _ fun ld _ => ?_)
  refine acc_step _ _ _ _ _ (acc_inc_ref _ _ _ a3.1) fun _ s4 a4 => ?_
  refine acc_step _ _ _ _ _ (acc_new _ _ (index :: l) _ a4.1 (by
      intro j hj
      have : (0 : Nat) ≠ j := fun hc => hj hc.symm
      simp only [dep_count, List.count_cons, List.count_nil, beq_iff_eq, this, if_false]
      omega)) fun n s5 a5 => ?_
  refine acc_step _ _ _ _ _ (acc_modify_ld _ _ _ _ a5.1) fun _ s6 a6 => ?_
  refine acc_step _ _ _ _ _ (acc_inc_ref _ _ _ a6.1) fun _ s7 a7 => ?_
  refine post_mono _ _ _ (acc_set_index _ _ _ _ a7.1) fun _ s8 a8 => ?_
  exact accounted_weaken _ _ _ a8.1 (fun j _ => by simp only [List.count_cons]; omega)

theorem for_fold_accounted {β : Type} (body : Nat → β → JitM β) (l : List Nat)
    (hb : ∀ i acc s, accounted l s → (body i acc s).Post fun _ s1 => accounted l s1)
    (n : Nat) (acc : β) (s : JitState) (h : accounted l s) :
    (for_fold body (List.range n) acc s).Post fun _ s1 => accounted l s1 :=
  post_for_fold_range body (fun _ _ s => accounted l s) n acc s
    (fun i acc s _ hi => hb i acc s hi) h

theorem loop_start_body_accounted (loop_start : Nat) (backend : JitBackend) (n : Nat)
    (l : List Nat) (s : JitState) (h : accounted l s) :
    (loop_start_body loop_start backend n s).Post fun _ s1 => accounted l s1 := by
  unfold loop_start_body
  refine acc_step _ _ _ _ _ (acc_modify_extra _ _ _ _ h) fun _ s1 a1 => ?_
  refine acc_step _ _ _ _ _
    (for_fold_accounted _ l (fun i acc s hs => loop_start_phi_accounted _ _ i acc l s hs)
      n () s1 a1.1) fun _ s2 a2 => ?_
  refine acc_step _ _ _ _ _ (acc_new_scope _ _ _ a2) fun _ s3 a3 => ?_
  refine acc_step _ _ _ _ _ (acc_new _ _ l _ a3.1 (by
      intro j hj
      have : (0 : Nat) ≠ j := fun hc => hj hc.symm
      simp only [dep_count, List.count_cons, List.count_nil, beq_iff_eq, this, if_false]
      omega)) fun m s4 a4 => ?_
  refine acc_step _ _ _ _ _ (acc_modify_extra _ _ _ _ a4.1) fun _ s5 a5 => ?_
  apply post_pure
  exact accounted_weaken _ _ _ a5.1 (fun j _ => by simp only [List.count_cons]; omega)

theorem loop_start_create_accounted (backend : JitBackend) (symbolic : Bool)
    (name : Option String) (n : Nat) (l : List Nat) (s : JitState) (h : accounted l s) :
    (loop_start_create backend symbolic name n s).Post fun _ s1 => accounted l s1 := by
  unfold loop_start_create
  refine acc_step _ _ _ _ _ (acc_new_scope _ _ _ h) fun _ s1 a1 => ?_
  refine acc_step _ _ _ _ _ (acc_new _ _ l _ a1.1 (by
      intro j hj
      have : (0 : Nat) ≠ j := fun hc => hj hc.symm
      simp only [dep_count, List.count_cons, List.count_nil, beq_iff_eq, this, if_false]
      omega)) fun m s2 a2 => ?_
  refine acc_step _ _ _ _ _ (acc_new_scope _ _ _ a2.1) fun _ s3 a3 => ?_
  apply post_with_unique_ptr
  apply loop_start_body_accounted
  exact accounted_weaken _ _ _
    (accounted_of_vars_eq _ s3 _ a3.1 rfl rfl)
    (fun j _ => by simp only [List.count_cons]; omega)

theorem jitc_var_loop_start_accounted (jitc_eval : JitBackend → JitM Unit)
    (name : Option String) (n : Nat) (l : List Nat)
    (heval : ∀ b s, accounted l s → (jitc_eval b s).Post fun _ s1 => accounted l s1)
    (s : JitState) (h : accounted l s) :
    (jitc_var_loop_start jitc_eval name n s).Post fun _ s1 => accounted l s1 := by
  unfold jitc_var_loop_start
  split
  · exact post_raise _ _
  · refine acc_step' _ _ _ _ _
      (for_fold_accounted _ l (fun i acc s hs => loop_start_check_accounted i acc l s hs)
        n _ s h) fun r s1 a1 => ?_
    refine acc_step' _ _ _ (fun _ s2 => accounted l s2) _ ?_ fun dirty s2 a2 => ?_
    · split
      · refine acc_step' _ _ _ _ _ (heval _ _ a1) fun _ s2 a2 => ?_
        exact for_fold_accounted _ l
          (fun i acc s hs => loop_start_dirty_accounted i acc l s hs) n _ s2 a2
      · exact post_pure _ _ _ a1
    · beta_reduce
      split
      · exact post_raise _ _
      · exact loop_start_create_accounted _ _ _ _ l s2 a2

theorem post_get_optimize (R : Bool → JitState → Prop) (s : JitState)
    (h : R s.optimize_loops s) : (get_optimize s).Post R := h

theorem loop_end_size_unchanged (p i size : Nat) (s : JitState) :
    (loop_end_size p i size s).Post fun _ s1 => s1 = s := by
  unfold loop_end_size
  refine post_bind _ _ _ _ (post_get_ld _ _ _ fun ld _ => ?_)
  refine post_bind _ _ _ _ (post_get_index _ _ _ fun index _ => ?_)
  refine post_bind _ _ _ _ (post_vec_get _ _ _ _ fun inner _ => ?_)
  beta_reduce
  split
  · exact post_pure _ _ _ rfl
  · refine post_bind _ _ _ _ (post_vec_get _ _ _ _ fun outer _ => ?_)
    refine post_bind _ _ _ _ (post_jitc_var _ _ _ fun v1 _ => ?_)
    refine post_bind _ _ _ _ (post_jitc_var _ _ _ fun v2 _ => ?_)
    beta_reduce
    split
    · exact post_pure _ _ _ rfl
    · exact post_pure _ _ _ rfl

theorem loop_end_size_fold_unchanged (p n size : Nat) (s : JitState) :
    (for_fold (loop_end_size p) (List.range n) size s).Post fun _ s1 => s1 = s :=
  post_for_fold_range _ (fun _ _ s1 => s1 = s) n size s
    (fun i acc s1 _ hi => by
      subst hi
      exact loop_end_size_unchanged p i acc s1) rfl

theorem count_drop_succ_le (xs : List Nat) (i j : Nat) :
    (xs.drop (i + 1)).count j ≤ (xs.drop i).count j := by
  rw [← List.drop_drop 1 i xs]
  exact List.Sublist.count_le (List.drop_sublist 1 _) j

theorem loop_end_eliminate_accounted (p : Nat) (optimize : Bool) (size i n : Nat)
    (l : List Nat) (s : JitState)
    (h : ∃ ld, s.loop_data p = some ld ∧ accounted (ld.inner_inputs.drop i ++ l) s) :
    (loop_end_eliminate p optimize size i n s).Post fun _ s1 =>
      ∃ ld, s1.loop_data p = some ld ∧ accounted (ld.inner_inputs.drop (i + 1) ++ l) s1 := by
  obtain ⟨ld0, hld0, hacc⟩ := h
  have hkeep : accounted (ld0.inner_inputs.drop (i + 1) ++ l) s :=
    accounted_weaken _ _ _ hacc (fun j _ => by
      rw [List.count_append, List.count_append]
      exact Nat.add_le_add_right (count_drop_succ_le _ i j) _)
  unfold loop_end_eliminate
  refine post_bind _ _ _ _ (post_get_ld _ _ _ fun ld hld => ?_)
  have hldeq : ld = ld0 := by
    rw [hld0] at hld
    exact (Option.some.inj hld).symm
  subst hldeq
  refine post_bind _ _ _ _ (post_vec_get _ _ _ _ fun outer _ => ?_)
  refine post_bind _ _ _ _ (post_jitc_var _ _ _ fun v1 _ => ?_)
  refine post_bind _ _ _ _ (post_get_index _ _ _ fun index _ => ?_)
  refine post_bind _ _ _ _ (post_jitc_var _ _ _ fun v2 _ => ?_)
  refine post_bind _ _ _ _ (post_vec_get _ _ _ _ fun inner hinner => ?_)
  beta_reduce
  split
  · have hilt : i < ld.inner_inputs.length := by
      by_contra hcon
      rw [List.getElem?_eq_none (by omega)] at hinner
      cases hinner
    have hdrop : ld.inner_inputs.drop i = inner :: ld.inner_inputs.drop (i + 1) := by
      rw [List.drop_eq_getElem_cons hilt]
      congr 1
      rw [List.getElem?_eq_getElem hilt] at hinner
      exact Option.some.inj hinner
    rw [hdrop] at hacc
    refine acc_step _ _ _ _ _ (acc_inc_ref outer _ _ hacc) fun _ s1 a1 => ?_
    refine acc_step _ _ _ _ _ (acc_dec_ref inner _ _ a1.1
      (fun _ => by simp)) fun _ s2 a2 => ?_
    refine acc_step _ _ _ _ _ (acc_modify_ld _ _ _ _ a2.1) fun _ s3 a3 => ?_
    apply post_pure
    refine ⟨_, a3.2 ld (by rw [a2.2, a1.2]; exact hld), ?_⟩
    refine accounted_weaken _ _ _ a3.1 (fun j _ => ?_)
    simp only
    rw [List.drop_set_of_lt _ _ (by omega)]
    by_cases hji : j = inner
    · subst hji
      rw [List.count_erase_self]
      simp only [List.count_cons, List.cons_append, beq_self_eq_true, if_true]
      omega
    · rw [List.count_erase_of_ne hji]
      simp only [List.count_cons, List.cons_append]
      omega
  · exact post_pure _ _ _ ⟨ld, hld, hkeep⟩

theorem loop_end_reset_accounted (p i : Nat) (u : Unit) (l : List Nat) (s : JitState)
    (h : accounted l s) :
    (loop_end_reset p i u s).Post fun _ s1 => accounted l s1 ∧ s1.loop_data = s.loop_data := by
  unfold loop_end_reset
  refine post_bind _ _ _ _ (post_get_ld _ _ _ fun ld _ => ?_)
  refine post_bind _ _ _ _ (post_vec_get _ _ _ _ fun inner _ => ?_)
  exact acc_set_index _ _ _ _ h

theorem loop_end_optimize_accounted (p : Nat) (ld : LoopData) (optimize : Bool) (size : Nat)
    (l : List Nat) (s : JitState) (hld : s.loop_data p = some ld)
    (h : accounted ((if ld.retry then [] else ld.inner_inputs) ++ l) s) :
    (loop_end_optimize p ld optimize size s).Post fun _ s1 => accounted l s1 := by
  have hl : accounted l s :=
    accounted_weaken _ _ _ h (fun j _ => by rw [List.count_append]; omega)
  unfold loop_end_optimize
  split
  · next hretry =>
    have hr : ld.retry = false := by simpa using hretry
    rw [hr] at h
    simp only [Bool.false_eq_true, if_false] at h
    refine acc_step' _ _ _ _ _
      (post_for_fold_range (loop_end_eliminate p optimize size)
        (fun i _ s1 => ∃ ld1, s1.loop_data p = some ld1 ∧
          accounted (ld1.inner_inputs.drop i ++ l) s1) ld.size 0 s
        (fun i acc s1 _ hi => loop_end_eliminate_accounted p optimize size i acc l s1 hi)
        ⟨ld, hld, by rw [List.drop_zero]; exact h⟩) fun n s1 a1 => ?_
    obtain ⟨ld1, _, hacc1⟩ := a1
    have hl1 : accounted l s1 :=
      accounted_weaken _ _ _ hacc1 (fun j _ => by rw [List.count_append]; omega)
    split
    · refine acc_step' _ _ _ _ _
        (for_fold_accounted _ l
          (fun i acc s hs => post_mono _ _ _ (loop_end_reset_accounted p i acc l s hs)
            fun _ _ hh => hh.1) ld.size () s1 hl1) fun _ s2 a2 => ?_
      refine acc_step' _ _ _ _ _ (acc_modify_ld _ _ _ _ a2) fun _ s3 a3 => ?_
      exact post_pure _ _ _ a3.1
    · exact post_pure _ _ _ hl1
  · exact post_pure _ _ _ hl

theorem jitc_var_select_accounted (mask t f : Nat) (l : List Nat) (s : JitState)
    (h : accounted l s) :
    (jitc_var_select mask t f s).Post fun _ s1 =>
      accounted l s1 ∧ s1.loop_data = s.loop_data := by
  unfold jitc_var_select
  refine post_bind' _ _ _ _ (post_jitc_var _ _ _ fun vm _ => ?_)
  refine post_bind' _ _ _ _ (post_jitc_var _ _ _ fun vt _ => ?_)
  refine post_bind' _ _ _ _ (post_jitc_var _ _ _ fun vf _ => ?_)
  refine acc_step' _ _ _ _ _ (acc_inc_ref _ _ _ h) fun _ s1 a1 => ?_
  refine acc_step' _ _ _ _ _ (acc_inc_ref _ _ _ a1.1) fun _ s2 a2 => ?_
  refine acc_step' _ _ _ _ _ (acc_inc_ref _ _ _ a2.1) fun _ s3 a3 => ?_
  refine post_mono _ _ _ (acc_new _ _ l _ a3.1 (by
      intro j hj
      have : (0 : Nat) ≠ j := fun hc => hj hc.symm
      simp only [dep_count, List.count_cons, List.count_nil, beq_iff_eq, this, if_false]
      omega)) fun n s4 a4 => ?_
  exact ⟨accounted_weaken _ _ _ a4.1 (fun j _ => by simp only [List.count_cons]; omega),
    by rw [a4.2, a3.2, a2.2, a1.2]⟩

theorem loop_end_output_accounted (p : Nat) (backend : JitBackend) (active i size : Nat)
    (l : List Nat) (s : JitState) (h : accounted l s) :
    (loop_end_output p backend active i size s).Post fun _ s1 => accounted l s1 := by
  have hdrop : ∀ (x : Nat) (s1 : JitState), accounted (x :: l) s1 → accounted l s1 :=
    fun x s1 hx => accounted_weaken _ _ _ hx (fun j _ => by simp only [List.count_cons]; omega)
  unfold loop_end_output
  refine post_bind _ _ _ _ (post_get_index _ _ _ fun index _ => ?_)
  beta_reduce
  split
  · exact post_raise _ _
  · refine post_bind _ _ _ _ (post_get_ld _ _ _ fun ld _ => ?_)
    refine post_bind _ _ _ _ (post_vec_get _ _ _ _ fun inner _ => ?_)
    refine post_bind _ _ _ _ (post_jitc_var _ _ _ fun v1 _ => ?_)
    refine post_bind _ _ _ _ (post_jitc_var _ _ _ fun v2 _ => ?_)
    refine post_bind _ _ _ _ (post_vec_get _ _ _ _ fun outer _ => ?_)
    beta_reduce
    split
    · split
      · exact post_raise _ _
      · simp only []
        split
        · refine acc_step _ _ _ _ _ (jitc_var_select_accounted _ _ _ l s h) fun o s1 a1 => ?_
          refine acc_step _ _ _ _ _ (acc_modify_ld _ _ _ _ a1.1) fun _ s2 a2 => ?_
          exact post_pure _ _ _ a2.1
        · refine acc_step _ _ _ _ _ (acc_inc_ref _ _ _ h) fun _ s1 a1 => ?_
          refine post_bind _ _ _ _ (post_pure _ _ _ ?_)
          refine acc_step _ _ _ _ _ (acc_modify_ld _ _ _ _ a1.1) fun _ s2 a2 => ?_
          exact post_pure _ _ _ (hdrop _ _ a2.1)
    · split
      · refine acc_step _ _ _ _ _ (acc_inc_ref _ _ _ h) fun _ s1 a1 => ?_
        refine acc_step _ _ _ _ _ (acc_modify_ld _ _ _ _ a1.1) fun _ s2 a2 => ?_
        exact post_pure _ _ _ (hdrop _ _ a2.1)
      · split
        · exact post_raise _ _
        · refine acc_step _ _ _ _ _ (acc_inc_ref _ _ _ h) fun _ s1 a1 => ?_
          refine acc_step _ _ _ _ _ (acc_modify_ld _ _ _ _ a1.1) fun _ s2 a2 => ?_
          exact post_pure _ _ _ (hdrop _ _ a2.1)

theorem loop_end_result_accounted (p : Nat) (backend : JitBackend) (size loop_end i : Nat)
    (u : Unit) (l : List Nat) (s : JitState) (h : accounted l s) :
    (loop_end_result p backend size loop_end i u s).Post fun _ s1 => accounted l s1 := by
  have hdrop : ∀ (x : Nat) (s1 : JitState), accounted (x :: l) s1 → accounted l s1 :=
    fun x s1 hx => accounted_weaken _ _ _ hx (fun j _ => by simp only [List.count_cons]; omega)
  unfold loop_end_result
  refine post_bind _ _ _ _ (post_get_index _ _ _ fun index _ => ?_)
  refine post_bind _ _ _ _ (post_get_ld _ _ _ fun ld _ => ?_)
  refine post_bind _ _ _ _ (post_vec_get _ _ _ _ fun inner _ => ?_)
  refine post_bind _ _ _ _ (post_vec_get _ _ _ _ fun outer _ => ?_)
  have htail : ∀ (index_new : Nat) (s1 : JitState), accounted l s1 →
      ((do
        let _ ← jitc_var index_new
        set_index i index_new
        let v ← jitc_var index_new
        modify_ld p fun ld =>
          { ld with outer_outputs := ld.outer_outputs ++ [(index_new, v.counter)] }) s1).Post
        fun _ s2 => accounted l s2 := by
    intro index_new s1 a1
    refine post_bind _ _ _ _ (post_jitc_var _ _ _ fun _ _ => ?_)
    refine acc_step _ _ _ _ _ (acc_set_index _ _ _ _ a1) fun _ s2 a2 => ?_
    refine post_bind _ _ _ _ (post_jitc_var _ _ _ fun v _ => ?_)
    exact post_mono _ _ _ (acc_modify_ld _ _ _ _ a2.1) fun _ _ hh => hh.1
  beta_reduce
  split
  · refine post_bind _ _ _ _ (post_jitc_var _ _ _ fun v2 _ => ?_)
    refine acc_step _ _ _ _ _ (acc_inc_ref _ _ _ h) fun _ s1 a1 => ?_
    refine acc_step _ _ _ _ _ (acc_inc_ref _ _ _ a1.1) fun _ s2 a2 => ?_
    refine acc_step _ _ _ _ _ (acc_new _ _ l _ a2.1 (by
        intro j hj
        have : (0 : Nat) ≠ j := fun hc => hj hc.symm
        simp only [dep_count, List.count_cons, List.count_nil, beq_iff_eq, this, if_false]
        omega)) fun n s3 a3 => ?_
    exact htail _ _ (hdrop _ _ a3.1)
  · refine post_bind _ _ _ _ (post_vec_get _ _ _ _ fun o _ => ?_)
    refine acc_step _ _ _ _ _ (acc_inc_ref _ _ _ h) fun _ s1 a1 => ?_
    refine post_bind _ _ _ _ (post_pure _ _ _ ?_)
    exact htail _ _ (hdrop _ _ a1.1)

theorem loop_end_side_effects_accounted (backend : JitBackend) (symbolic : Bool)
    (size loop_end checkpoint : Nat) (l : List Nat) :
    ∀ (fuel : Nat) (acc : Nat × Nat) (s : JitState), accounted l s →
      (loop_end_side_effects backend symbolic size loop_end checkpoint fuel acc s).Post
        fun _ s1 => accounted l s1 := by
  intro fuel
  induction fuel with
  | zero =>
    intro acc s h
    unfold loop_end_side_effects
    split
    · trivial
    · exact h
  | succ fuel ih =>
    intro acc s h
    unfold loop_end_side_effects
    split
    · cases hlast : (s.side_effects_symbolic backend).getLast? with
      | none => trivial
      | some se =>
        simp only
        have hpop : accounted l (pop_side_effect s backend) :=
          accounted_of_vars_eq l s _ h rfl rfl
        refine acc_step _ _ _ _ _ (acc_inc_ref _ _ _ hpop) fun _ s1 a1 => ?_
        refine acc_step _ _ _ _ _ (acc_inc_ref _ _ _ a1.1) fun _ s2 a2 => ?_
        refine acc_step _ _ _ _ _ (acc_new _ _ l _ a2.1 (by
            intro j hj
            have : (0 : Nat) ≠ j := fun hc => hj hc.symm
            simp only [dep_count, List.count_cons, List.count_nil, beq_iff_eq, this,
              if_false]
            omega)) fun n s3 a3 => ?_
        exact ih _ _ (accounted_weaken _ _ _ a3.1
          (fun j _ => by simp only [List.count_cons]; omega))
    · exact h

theorem loop_end_finish_accounted (loop cond checkpoint p : Nat) (ld : LoopData)
    (l : List Nat) (s : JitState) (h : accounted l s) :
    (loop_end_finish loop cond checkpoint p ld s).Post fun _ s1 => accounted l s1 := by
  unfold loop_end_finish
  simp only [bind]
  refine post_bind' _ _ _ _ (post_jitc_var _ _ _ fun cv _ => ?_)
  refine acc_step' _ _ _ _ _
    (for_fold_accounted _ l
      (fun i acc s hs => loop_end_output_accounted p cv.backend cv.dep1 i acc l s hs)
      ld.size _ s h) fun size s1 a1 => ?_
  refine acc_step' _ _ _ _ _ (acc_inc_ref _ _ _ a1) fun _ s2 a2 => ?_
  refine acc_step' _ _ _ _ _ (acc_inc_ref _ _ _ a2.1) fun _ s3 a3 => ?_
  refine acc_step' _ _ _ _ _ (acc_new_scope _ _ _ a3.1) fun _ s4 a4 => ?_
  refine acc_step' _ _ _ _ _ (acc_new _ _ l _ a4.1 (by
      intro j hj
      have : (0 : Nat) ≠ j := fun hc => hj hc.symm
      simp only [dep_count, List.count_cons, List.count_nil, beq_iff_eq, this, if_false]
      omega)) fun E s5 a5 => ?_
  apply post_with_ref
  refine acc_step' _ _ _ _ _ (acc_new_scope _ _ _ a5.1) fun _ s6 a6 => ?_
  refine acc_step' _ _ _ _ _
    (for_fold_accounted _ (E :: l)
      (fun i acc s hs => loop_end_result_accounted p cv.backend size E i acc (E :: l) s hs)
      ld.size () s6 a6.1) fun _ s7 a7 => ?_
  refine post_bind' _ _ _ _ ?_
  show (loop_end_side_effects cv.backend ld.symbolic size E checkpoint
    ((s7.side_effects_symbolic cv.backend).length + 1) (0, 0) >>= _) s7 |>.Post _
  refine acc_step _ _ _ _ _
    (loop_end_side_effects_accounted _ _ _ _ _ (E :: l) _ _ s7 a7) fun se s8 a8 => ?_
  refine acc_step' _ _ _ _ _ (acc_mark _ _ _ a8) fun _ s9 a9 => ?_
  refine acc_step' _ _ _ _ _ (acc_transfer _ _ _ _ a9) fun _ s10 a10 => ?_
  apply post_pure
  have := accounted_dec_ref (s10.variable_index + 1) E s10 (E :: l) a10
    (fun _ => List.mem_cons_self _ _)
  rw [List.erase_cons_head] at this
  exact this

theorem jitc_var_loop_end_accounted (loop cond checkpoint : Nat) (l : List Nat)
    (s : JitState)
    (h : ∀ p ld, (s.extra loop).callback_data = some p → s.loop_data p = some ld →
      accounted ((if ld.retry then [] else ld.inner_inputs) ++ l) s) :
    (jitc_var_loop_end loop cond checkpoint s).Post fun _ s1 => accounted l s1 := by
  unfold jitc_var_loop_end
  refine post_bind' _ _ _ _ (post_get_callback_data _ _ _ fun p hp => ?_)
  refine post_bind' _ _ _ _ (post_get_ld _ _ _ fun ld hld => ?_)
  refine post_bind' _ _ _ _ (post_get_optimize _ _ ?_)
  refine post_bind' _ _ _ _ (post_jitc_var _ _ _ fun cv _ => ?_)
  refine acc_step' _ _ _ _ _ (loop_end_size_fold_unchanged p ld.size cv.size s)
    fun size s1 hs1 => ?_
  subst hs1
  refine acc_step' _ _ _ _ _
    (loop_end_optimize_accounted p ld s1.optimize_loops size l s1 hld (h p ld hp hld))
    fun rerecord s2 a2 => ?_
  beta_reduce
  split
  · exact post_pure _ _ _ a2
  · exact loop_end_finish_accounted _ _ _ _ _ l s2 a2

/-! ### Exact accounts of the operations that release no reference -/

theorem balanced_accounted (l : List Nat) (base : Nat → Nat) (s : JitState)
    (h : balanced l base s) : accounted l s :=
  ⟨h.1, fun j hj => by have := h.2 j hj; omega⟩

theorem balanced_congr (l l1 : List Nat) (base : Nat → Nat) (s : JitState)
    (h : balanced l base s) (hl : ∀ j, j ≠ 0 → l1.count j = l.count j) :
    balanced l1 base s :=
  ⟨h.1, fun j hj => by rw [hl j hj]; exact h.2 j hj⟩

theorem balanced_of_vars_eq (l : List Nat) (base : Nat → Nat) (s s1 : JitState)
    (h : balanced l base s) (hv : s1.vars = s.vars)
    (hvi : s1.variable_index = s.variable_index) : balanced l base s1 := by
  refine ⟨fun i hi => by rw [hv]; exact h.1 i (by omega), fun j hj => ?_⟩
  have h1 : in_degree s1 j = in_degree s j := by
    unfold in_degree edges
    rw [hv, hvi]
  have h2 : var_ref_count s1 j = var_ref_count s j := by
    unfold var_ref_count
    rw [hv]
  rw [h1, h2]
  exact h.2 j hj

theorem inc_ref_state_count_other (s : JitState) (i j : Nat) (h : j ≠ i) :
    var_ref_count (inc_ref_state s i) j = var_ref_count s j := by
  unfold inc_ref_state
  split
  · rfl
  · split
    · simp only [var_ref_count, set_var_vars, if_neg h]
    · rfl

theorem balanced_inc_ref (l : List Nat) (base : Nat → Nat) (s : JitState) (i : Nat)
    (h : balanced l base s) (hi : i = 0 ∨ (s.vars i).isSome = true) :
    balanced (i :: l) base (inc_ref_state s i) := by
  refine ⟨(accounted_inc_ref l s i (balanced_accounted l base s h) hi).1, fun j hj => ?_⟩
  rw [in_degree_of_nodesEq s _ (inc_ref_state_nodesEq s i) (by simp)]
  have h1 := h.2 j hj
  rw [List.count_cons]
  by_cases hij : i = j
  · subst hij
    rcases hi with h0 | hs
    · exact absurd h0 hj
    · rw [inc_ref_state_count_self s i hj hs]
      simp
      omega
  · rw [inc_ref_state_count_other s i j (fun hc => hij hc.symm)]
    simp [hij]
    omega

theorem balanced_new_var (l l1 : List Nat) (base : Nat → Nat) (s : JitState) (v : Variable)
    (h : balanced l base s) (hl : ∀ j, j ≠ 0 → dep_count v j + l1.count j = l.count j) :
    balanced (s.variable_index :: l1) base (new_var_state s v) := by
  refine ⟨(accounted_new_var l l1 s v (balanced_accounted l base s h)
    (fun j hj => by rw [hl j hj])).1, fun j hj => ?_⟩
  rw [in_degree_new_var, List.count_cons]
  have h1 := h.2 j hj
  have h2 := hl j hj
  by_cases hjv : j = s.variable_index
  · subst hjv
    have h3 : var_ref_count s s.variable_index = 0 := by
      simp only [var_ref_count, h.1 _ (Nat.le_refl _)]
    simp [var_ref_count]
    omega
  · have h3 : var_ref_count (new_var_state s v) j = var_ref_count s j := by
      simp only [var_ref_count, new_var_state_vars, if_neg hjv]
    rw [h3]
    have : (s.variable_index == j) = false := by
      simp only [beq_eq_false_iff_ne, ne_eq]
      exact fun hc => hjv hc.symm
    simp [this]
    omega

theorem bal_inc_ref (i : Nat) (l : List Nat) (base : Nat → Nat) (s : JitState)
    (h : balanced l base s) :
    (jitc_var_inc_ref i s).Post fun _ s1 =>
      balanced (i :: l) base s1 ∧ s1.loop_data = s.loop_data ∧ s1.extra = s.extra :=
  post_inc_ref _ _ _ fun hi => ⟨balanced_inc_ref l base s i h hi, by simp, by simp⟩

theorem bal_new (v : Variable) (l l1 : List Nat) (base : Nat → Nat) (s : JitState)
    (h : balanced l base s) (hl : ∀ j, j ≠ 0 → dep_count v j + l1.count j = l.count j) :
    (jitc_var_new v s).Post fun n s1 =>
      balanced (n :: l1) base s1 ∧ s1.loop_data = s.loop_data ∧ s1.extra = s.extra :=
  post_new _ _ _ ⟨balanced_new_var l l1 base s v h hl, rfl, rfl⟩

theorem bal_new_scope (b : JitBackend) (l : List Nat) (base : Nat → Nat) (s : JitState)
    (h : balanced l base s) :
    (jitc_new_scope b s).Post fun _ s1 =>
      balanced l base s1 ∧ s1.loop_data = s.loop_data ∧ s1.extra = s.extra :=
  post_new_scope _ _ _ ⟨h, rfl, rfl⟩

theorem bal_set_index (i x : Nat) (l : List Nat) (base : Nat → Nat) (s : JitState)
    (h : balanced l base s) :
    (set_index i x s).Post fun _ s1 =>
      balanced l base s1 ∧ s1.loop_data = s.loop_data ∧ s1.extra = s.extra :=
  post_set_index _ _ _ _ ⟨h, rfl, rfl⟩

theorem bal_modify_ld (p : Nat) (f : LoopData → LoopData) (l : List Nat) (base : Nat → Nat)
    (s : JitState) (h : balanced l base s) :
    (modify_ld p f s).Post fun _ s1 =>
      balanced l base s1 ∧ s1.extra = s.extra ∧
      ∀ ld, s.loop_data p = some ld → s1.loop_data p = some (f ld) :=
  post_modify_ld _ _ _ _ fun ld hld => ⟨h, rfl, fun ld1 h1 => by
    rw [hld] at h1
    cases h1
    simp⟩

/-- The exact accounts of `jitc_var_loop_cond`: the node returned holds one reference, and
nothing else changes. -/
theorem jitc_var_loop_cond_balanced (loop active : Nat) (l : List Nat) (base : Nat → Nat)
    (s : JitState) (h : balanced l base s) :
    (jitc_var_loop_cond loop active s).Post fun r s1 => balanced (r :: l) base s1 := by
  unfold jitc_var_loop_cond
  refine post_bind _ _ _ _ (post_get_callback_data _ _ _ fun p _ => ?_)
  refine post_bind _ _ _ _ (post_get_ld _ _ _ fun ld _ => ?_)
  refine post_bind _ _ _ _ (post_jitc_var _ _ _ fun lv _ => ?_)
  refine post_bind _ _ _ _ (post_jitc_var _ _ _ fun av _ => ?_)
  beta_reduce
  split
  · exact post_raise _ _
  · split
    · exact post_raise _ _
    · refine acc_step _ _ _ _ _ (bal_inc_ref _ _ _ _ h) fun _ s1 a1 => ?_
      refine acc_step _ _ _ _ _ (bal_inc_ref _ _ _ _ a1.1) fun _ s2 a2 => ?_
      refine acc_step _ _ _ _ _ (bal_new_scope _ _ _ _ a2.1) fun _ s3 a3 => ?_
      refine acc_step _ _ _ _ _ (bal_new _ _ l _ _ a3.1 (by
          intro j hj
          have : (0 : Nat) ≠ j := fun hc => hj hc.symm
          simp only [dep_count, List.count_cons, List.count_nil, beq_iff_eq, this, if_false]
          omega)) fun n s4 a4 => ?_
      refine acc_step _ _ _ _ _ (bal_new_scope _ _ _ _ a4.1) fun _ s5 a5 => ?_
      exact post_pure _ _ _ a5.1

theorem loop_start_phi_balanced (p : Nat) (backend : JitBackend) (i : Nat) (u : Unit)
    (l : List Nat) (base : Nat → Nat) (e : Nat → Extra) (s : JitState)
    (h : s.extra = e ∧ ∃ ld, s.loop_data p = some ld ∧
      balanced (ld.outer_inputs ++ ld.inner_inputs ++ ld.inner_inputs ++ l) base s) :
    (loop_start_phi p backend i u s).Post fun _ s1 =>
      s1.extra = e ∧ ∃ ld, s1.loop_data p = some ld ∧
        balanced (ld.outer_inputs ++ ld.inner_inputs ++ ld.inner_inputs ++ l) base s1 := by
  obtain ⟨he, ld0, hld0, hb⟩ := h
  unfold loop_start_phi
  refine post_bind _ _ _ _ (post_get_index _ _ _ fun index _ => ?_)
  refine post_bind _ _ _ _ (post_jitc_var _ _ _ fun v2 _ => ?_)
  refine acc_step _ _ _ _ _ (bal_inc_ref _ _ _ _ hb) fun _ s1 a1 => ?_
  refine acc_step _ _ _ _ _ (bal_inc_ref _ _ _ _ a1.1) fun _ s2 a2 => ?_
  refine acc_step _ _ _ _ _ (bal_modify_ld _ _ _ _ _ a2.1) fun _ s3 a3 => ?_
  have hld3 := a3.2.2 ld0 (by rw [a2.2.1, a1.2.1]; exact hld0)
  refine post_bind _ _ _ _ (post_get_ld _ _ _ fun ld hld => ?_)
  rw [hld3] at hld
  have hldeq := (Option.some.inj hld).symm
  subst hldeq
  refine acc_step _ _ _ _ _ (bal_inc_ref _ _ _ _ a3.1) fun _ s4 a4 => ?_
  refine acc_step _ _ _ _ _ (bal_new _ _
      (index :: (ld0.outer_inputs ++ ld0.inner_inputs ++ ld0.inner_inputs ++ l)) _ _ a4.1 (by
      intro j hj
      have : (0 : Nat) ≠ j := fun hc => hj hc.symm
      simp only [dep_count, List.count_cons, List.count_nil, beq_iff_eq, this, if_false]
      omega)) fun n s5 a5 => ?_
  refine acc_step _ _ _ _ _ (bal_modify_ld _ _ _ _ _ a5.1) fun _ s6 a6 => ?_
  have hld6 := a6.2.2 _ (by rw [a5.2.1, a4.2.1]; exact hld3)
  refine acc_step _ _ _ _ _ (bal_inc_ref _ _ _ _ a6.1) fun _ s7 a7 => ?_
  refine post_mono _ _ _ (bal_set_index _ _ _ _ _ a7.1) fun _ s8 a8 => ?_
  refine ⟨by rw [a8.2.2, a7.2.2, a6.2.1, a5.2.2, a4.2.2, a3.2.1, a2.2.2, a1.2.2, he],
    _, by rw [a8.2.1, a7.2.1]; exact hld6, ?_⟩
  refine balanced_congr _ _ _ _ a8.1 (fun j _ => ?_)
  simp only [List.count_cons, List.count_append, List.count_nil]
  omega

theorem post_ok {α : Type} (r : Res α) (R : α → JitState → Prop) (a : α) (s : JitState)
    (h : r.Post R) (hr : r = .ok a s) : R a s := by
  rw [hr] at h
  exact h

theorem bal_modify_extra (i : Nat) (f : Extra → Extra) (l : List Nat) (base : Nat → Nat)
    (s : JitState) (h : balanced l base s) :
    (modify_extra i f s).Post fun _ s1 =>
      balanced l base s1 ∧ s1.loop_data = s.loop_data ∧ s1.extra i = f (s.extra i) :=
  post_modify_extra _ _ _ _ ⟨h, rfl, by simp⟩

theorem loop_start_check_unchanged (i : Nat) (acc : JitBackend × Bool × Bool)
    (s : JitState) : (loop_start_check i acc s).Post fun _ s1 => s1 = s := by
  unfold loop_start_check
  refine post_bind _ _ _ _ (post_get_index _ _ _ fun index _ => ?_)
  beta_reduce
  split
  · exact post_raise _ _
  · refine post_bind _ _ _ _ (post_jitc_var _ _ _ fun v2 _ => ?_)
    beta_reduce
    split
    · exact post_pure _ _ _ rfl
    · split
      · exact post_raise _ _
      · exact post_pure _ _ _ rfl

theorem loop_start_dirty_unchanged (i : Nat) (dirty : Bool) (s : JitState) :
    (loop_start_dirty i dirty s).Post fun _ s1 => s1 = s := by
  unfold loop_start_dirty
  refine post_bind _ _ _ _ (post_get_index _ _ _ fun index _ => ?_)
  refine post_bind _ _ _ _ (post_jitc_var _ _ _ fun v2 _ => ?_)
  exact post_pure _ _ _ rfl

theorem for_fold_unchanged {β : Type} (body : Nat → β → JitM β)
    (hb : ∀ i acc s, (body i acc s).Post fun _ s1 => s1 = s) (n : Nat) (acc : β)
    (s : JitState) : (for_fold body (List.range n) acc s).Post fun _ s1 => s1 = s :=
  post_for_fold_range _ (fun _ _ s1 => s1 = s) n acc s
    (fun i acc s1 _ hi => by
      subst hi
      exact hb i acc s1) rfl

theorem loop_start_body_balanced (p : Nat) (backend : JitBackend) (n : Nat) (l : List Nat)
    (base : Nat → Nat) (s : JitState)
    (h : ∃ ld, s.loop_data p = some ld ∧
      balanced (ld.outer_inputs ++ ld.inner_inputs ++ ld.inner_inputs ++ l) base s) :
    (loop_start_body p backend n s).Post fun r s1 =>
      (s1.extra r).callback_data = some p ∧ ∃ ld, s1.loop_data p = some ld ∧
        balanced (r :: (ld.outer_inputs ++ ld.inner_inputs ++ ld.inner_inputs ++ l))
          base s1 := by
  obtain ⟨ld0, hld0, hb⟩ := h
  unfold loop_start_body
  refine acc_step _ _ _ _ _ (bal_modify_extra _ _ _ _ _ hb) fun _ s1 a1 => ?_
  refine acc_step _ _ _ _ _
    (post_for_fold_range (loop_start_phi p backend)
      (fun _ _ t => t.extra = s1.extra ∧ ∃ ld, t.loop_data p = some ld ∧
        balanced (ld.outer_inputs ++ ld.inner_inputs ++ ld.inner_inputs ++ l) base t)
      n () s1
      (fun i acc t _ ht => loop_start_phi_balanced p backend i acc l base s1.extra t ht)
      ⟨rfl, ld0, by rw [a1.2.1]; exact hld0, a1.1⟩) fun _ s2 a2 => ?_
  obtain ⟨_, ld2, hld2, hb2⟩ := a2
  refine acc_step _ _ _ _ _ (bal_new_scope _ _ _ _ hb2) fun _ s3 a3 => ?_
  refine acc_step _ _ _ _ _ (bal_new _ _
      (ld2.outer_inputs ++ ld2.inner_inputs ++ ld2.inner_inputs ++ l) _ _ a3.1 (by
      intro j hj
      have : (0 : Nat) ≠ j := fun hc => hj hc.symm
      simp only [dep_count, List.count_cons, List.count_nil, beq_iff_eq, this, if_false]
      omega)) fun m s4 a4 => ?_
  refine acc_step _ _ _ _ _ (bal_modify_extra _ _ _ _ _ a4.1) fun _ s5 a5 => ?_
  apply post_pure
  exact ⟨by rw [a5.2.2], ld2, by rw [a5.2.1, a4.2.1, a3.2.1]; exact hld2, a5.1⟩

theorem loop_start_create_balanced (backend : JitBackend) (symbolic : Bool)
    (name : Option String) (n : Nat) (l : List Nat) (base : Nat → Nat) (s : JitState)
    (h : balanced l base s) :
    (loop_start_create backend symbolic name n s).Post fun r s1 =>
      ∃ p ld, (s1.extra r).callback_data = some p ∧ s1.loop_data p = some ld ∧
        balanced (r :: p :: (ld.outer_inputs ++ ld.inner_inputs ++ ld.inner_inputs ++ l))
          base s1 := by
  unfold loop_start_create
  refine acc_step _ _ _ _ _ (bal_new_scope _ _ _ _ h) fun _ s1 a1 => ?_
  refine acc_step _ _ _ _ _ (bal_new _ _ l _ _ a1.1 (by
      intro j hj
      have : (0 : Nat) ≠ j := fun hc => hj hc.symm
      simp only [dep_count, List.count_cons, List.count_nil, beq_iff_eq, this, if_false]
      omega)) fun m s2 a2 => ?_
  refine acc_step _ _ _ _ _ (bal_new_scope _ _ _ _ a2.1) fun _ s3 a3 => ?_
  apply post_with_unique_ptr
  refine post_mono _ _ _ (loop_start_body_balanced m backend n (m :: l) base _
    ⟨{ name := name.getD "unnamed", loop_start := m, size := n, symbolic := symbolic },
      by simp, balanced_of_vars_eq (m :: l) base s3 _ a3.1 rfl rfl⟩) fun r s4 a4 => ?_
  obtain ⟨h1, ld, h2, h3⟩ := a4
  refine ⟨m, ld, h1, h2, balanced_congr _ _ _ _ h3 (fun j _ => ?_)⟩
  simp only [List.count_cons, List.count_append]
  omega

theorem jitc_var_loop_start_balanced (jitc_eval : JitBackend → JitM Unit)
    (name : Option String) (n : Nat) (l : List Nat) (base : Nat → Nat)
    (heval : ∀ b s, balanced l base s → (jitc_eval b s).Post fun _ s1 => balanced l base s1)
    (s : JitState) (h : balanced l base s) :
    (jitc_var_loop_start jitc_eval name n s).Post fun r s1 =>
      ∃ p ld, (s1.extra r).callback_data = some p ∧ s1.loop_data p = some ld ∧
        balanced (r :: p :: (ld.outer_inputs ++ ld.inner_inputs ++ ld.inner_inputs ++ l))
          base s1 := by
  unfold jitc_var_loop_start
  split
  · exact post_raise _ _
  · refine acc_step' _ _ _ _ _
      (for_fold_unchanged _ loop_start_check_unchanged n _ s) fun r s1 a1 => ?_
    subst a1
    refine acc_step' _ _ _ (fun _ s2 => balanced l base s2) _ ?_ fun dirty s2 a2 => ?_
    · split
      · refine acc_step' _ _ _ _ _ (heval _ _ h) fun _ s2 a2 => ?_
        refine post_mono _ _ _ (for_fold_unchanged _ loop_start_dirty_unchanged n _ s2)
          fun _ s3 a3 => ?_
        rw [a3]
        exact a2
      · exact post_pure _ _ _ h
    · beta_reduce
      split
      · exact post_raise _ _
      · exact loop_start_create_balanced _ _ _ _ l base s2 a2

/-- Claim C23: `jitc_var_loop_start`, `jitc_var_loop_cond` and `jitc_var_loop_end` keep
the reference counts in step with the dependency edges.  After `jitc_var_loop_start` and
`jitc_var_loop_cond` every reference count is made up exactly of what it was made up of
before (`base` and the references `l`), of the edges, and of one reference per owner that
the operation creates: the node returned, the `LoopStart` node, each outer input and each
phi twice (`inner_inputs` and the array of the caller); so each `dep[]` entry of a node
they create is matched by exactly one increment.  When the `LoopData` of a loop that has
not been retried owns a reference to each of its inner inputs, every reference count
still covers the edges that point at the variable after `jitc_var_loop_end`, whichever
value it returns. -/
theorem loop_operations_keep_accounts :
    (∀ (jitc_eval : JitBackend → JitM Unit) (name : Option String) (n : Nat) (l : List Nat)
        (base : Nat → Nat) (s : JitState) (r : Nat) (s1 : JitState),
      (∀ b t, balanced l base t → (jitc_eval b t).Post fun _ t1 => balanced l base t1) →
      balanced l base s → jitc_var_loop_start jitc_eval name n s = .ok r s1 →
      (∃ p ld, (s1.extra r).callback_data = some p ∧ s1.loop_data p = some ld ∧
        balanced (r :: p :: (ld.outer_inputs ++ ld.inner_inputs ++ ld.inner_inputs ++ l))
          base s1) ∧
      accounted l s1) ∧
    (∀ (loop active : Nat) (l : List Nat) (base : Nat → Nat) (s : JitState) (r : Nat)
        (s1 : JitState),
      balanced l base s → jitc_var_loop_cond loop active s = .ok r s1 →
      balanced (r :: l) base s1 ∧ accounted l s1) ∧
    (∀ (loop cond checkpoint : Nat) (l : List Nat) (s : JitState) (p : Nat) (ld : LoopData)
        (r : Bool) (s1 : JitState),
      (s.extra loop).callback_data = some p → s.loop_data p = some ld →
      accounted ((if ld.retry then [] else ld.inner_inputs) ++ l) s →
      jitc_var_loop_end loop cond checkpoint s = .ok r s1 → accounted l s1) := by
  refine ⟨?_, ?_, ?_⟩
  · intro jitc_eval name n l base s r s1 heval h hrun
    have h1 := post_ok _ _ r s1 (jitc_var_loop_start_balanced jitc_eval name n l base heval s h)
      hrun
    refine ⟨h1, ?_⟩
    obtain ⟨p, ld, _, _, hb⟩ := h1
    exact accounted_weaken _ _ _ (balanced_accounted _ _ _ hb) (fun j _ => by
      simp only [List.count_cons, List.count_append]
      omega)
  · intro loop active l base s r s1 h hrun
    have h1 := post_ok _ _ r s1 (jitc_var_loop_cond_balanced loop active l base s h) hrun
    exact ⟨h1, accounted_weaken _ _ _ (balanced_accounted _ _ _ h1) (fun j _ => by
      simp only [List.count_cons]
      omega)⟩
  · intro loop cond checkpoint l s p ld r s1 hp hld h hrun
    refine post_ok _ _ r s1 (jitc_var_loop_end_accounted loop cond checkpoint l s ?_) hrun
    intro p1 ld1 hp1 hld1
    rw [hp] at hp1
    cases hp1
    rw [hld] at hld1
    cases hld1
    exact h

theorem sample_jit_balanced : balanced [] (var_ref_count sample_jit) sample_jit := by
  refine ⟨fun i hi => ?_, fun j hj => ?_⟩
  · have h3 : 3 ≤ i := hi
    show (if i = 1 then _ else if i = 2 then _ else none) = none
    rw [if_neg (by omega), if_neg (by omega)]
  · have h0 : in_degree sample_jit j = 0 := by
      have : (0 : Nat) ≠ j := fun hc => hj hc.symm
      show ((List.range 3).map (edges sample_jit j)).sum = 0
      simp [List.range_succ, edges, sample_jit, dep_count, List.count_cons, this]
    rw [h0]
    simp

/-- On the sample loop the three operations return one after the other, and the
reference counts cover the dependency edges after each of them. -/
theorem loop_operations_keep_accounts_witness :
    ∃ r1 s1 r2 s2 r3 s3,
      jitc_var_loop_start eval_nothing none 2 sample_jit = .ok r1 s1 ∧
      jitc_var_loop_cond 6 7 sample_masked = .ok r2 s2 ∧
      jitc_var_loop_end 6 8 0 sample_recorded = .ok r3 s3 ∧
      accounted [] s1 ∧ accounted [] s2 ∧ accounted [] s3 := by
  obtain ⟨r1, s1, hrun1⟩ := sample_loop_start_returns
  obtain ⟨⟨p, ld, hp, hld, hb1⟩, ha1⟩ :=
    loop_operations_keep_accounts.1 eval_nothing none 2 [] (var_ref_count sample_jit)
      sample_jit r1 s1 (fun _ _ ht => ht) sample_jit_balanced hrun1
  -- the state reached is the sample state after `jitc_var_loop_start`
  have hs1 : sample_started = s1 := by
    unfold sample_started
    rw [hrun1]
    rfl
  have hr1 : r1 = 6 := by
    have h : (jitc_var_loop_start eval_nothing none 2 sample_jit).value? = some 6 := by
      decide!
    rw [hrun1] at h
    exact Option.some.inj h
  subst hr1
  subst hs1
  have hp3 : p = 3 := by
    have h : (sample_started.extra 6).callback_data = some 3 := by decide!
    rw [hp] at h
    exact Option.some.inj h
  subst hp3
  have hld3 : ld = sample_ld := by
    have h : sample_started.loop_data 3 = some sample_ld := by decide!
    rw [hld] at h
    exact Option.some.inj h
  subst hld3
  -- the caller records the mask, variable 7, which depends on the phi 4
  have hvi : sample_started.variable_index = 7 := by decide!
  have hmask : sample_masked = new_var_state sample_started
      { type := .Bool, size := 4, backend := .LLVM, symbolic := true, dep0 := 4,
        ref_count := 1 } := by
    unfold sample_masked new_var_state
    rw [hvi]
  have hb2 : balanced [7, 6, 3, 1, 2, 5, 4, 5] (var_ref_count sample_jit) sample_masked := by
    rw [hmask]
    have := balanced_new_var _ [6, 3, 1, 2, 5, 4, 5] _ _
      { type := .Bool, size := 4, backend := .LLVM, symbolic := true, dep0 := 4,
        ref_count := 1 } hb1 (by
        intro j hj
        have : (0 : Nat) ≠ j := fun hc => hj hc.symm
        simp only [dep_count, sample_ld, List.count_cons, List.count_nil, List.count_append,
          List.cons_append, List.nil_append, beq_iff_eq, this, if_false]
        omega)
    rw [hvi] at this
    exact this
  -- `jitc_var_loop_cond`
  have hv2 : (jitc_var_loop_cond 6 7 sample_masked).value? = some 8 := by decide!
  cases hrun2 : jitc_var_loop_cond 6 7 sample_masked with
  | raise t => rw [hrun2] at hv2; cases hv2
  | undefined => rw [hrun2] at hv2; cases hv2
  | diverge => rw [hrun2] at hv2; cases hv2
  | ok r2 s2 =>
    obtain ⟨hb3, ha2⟩ := loop_operations_keep_accounts.2.1 6 7 _ _ sample_masked r2 s2 hb2 hrun2
    have hs2 : sample_recorded = s2 := by
      have : sample_recorded = (jitc_var_loop_cond 6 7 sample_masked).state sample_started :=
        rfl
      rw [this, hrun2]
      rfl
    subst hs2
    -- `jitc_var_loop_end`
    have hv3 : (jitc_var_loop_end 6 8 0 sample_recorded).value? = some false := by decide!
    cases hrun3 : jitc_var_loop_end 6 8 0 sample_recorded with
    | raise t => rw [hrun3] at hv3; cases hv3
    | undefined => rw [hrun3] at hv3; cases hv3
    | diverge => rw [hrun3] at hv3; cases hv3
    | ok r3 s3 =>
      have ha3 := loop_operations_keep_accounts.2.2 6 8 0 [] sample_recorded 3 sample_ld r3 s3
        (by decide!) (by decide!)
        (accounted_weaken _ _ _ (balanced_accounted _ _ _ hb3) (fun j _ => by
          simp only [sample_ld, Bool.false_eq_true, if_false, List.count_cons,
            List.count_nil, List.count_append, List.cons_append, List.nil_append,
            List.append_nil]
          omega))
        hrun3
      exact ⟨6, sample_started, r2, sample_recorded, r3, s3, hrun1, rfl, rfl,
        accounted_nil _ _ ha1, accounted_nil _ _ ha2, ha3⟩

end DrJit
